import Mathlib

/-!
# ZXN-Sheet: the recalculation core of `main.c`

A shallow embedding of the lexer, the recursive-descent evaluator, the cell
store, the dependency graph and the recompute engine of `src/main.c`.

Conventions of the embedding

* A C string is the list of its characters before the terminating NUL; the
  current character `ch` is `NUL` exactly at the end of the text.
* `float` is idealised by exact rationals: rounding, infinities and NaN are
  outside the embedding.
* `int` has 16 bits (`INT_BITS`), as on the Z80 target, where the input can
  make a computation leave that range: the table index of `find_cell` and
  `add_cell` (`bucket_int`), the casts `(int)x` of a `float` (`int_of_float`)
  and of the `long` that `strtol` returns. A signed overflow, which C leaves
  undefined, keeps the value of arithmetic modulo `2 ^ 16`. The row number of
  `is_cellref`, which a long identifier makes large, is a mathematical integer
  in `get_token` and is computed a second time with an `int` of `w` bits
  (`cellref_num_int`).
* `malloc`, `calloc` and `strdup` always succeed.
* A `Cell*` is the address (column, row) of the cell it points to: the store
  never holds two cells with one address and never frees a cell.
* Recursion that C runs on the call stack takes a budget `fuel`; running out
  of it is the separate outcome `Outcome.outOfFuel`, never a value.
* Behaviour that C leaves undefined (an out-of-bounds table index, a call
  through a null function pointer, a buffer overrun) is the outcome
  `Outcome.undefined`.
* The heap is not part of the state. A String value is either the owner of
  its text or shares it with the cell it was read from (`Value.shared`); when
  `free_val` frees a text that a cell still points to, the run ends as
  `Outcome.undefined`: the cell holds a dangling pointer from there on.
-/

namespace ZXNSheet

/-! ## Outcomes -/

/-- Result of running a piece of the program. -/
inductive Outcome (α : Type) where
  | ok (a : α)
  | outOfFuel
  | undefined
  deriving DecidableEq, Repr

namespace Outcome

/-- Sequencing: the first outcome that is not `ok` ends the run. -/
def bind {α β : Type} (x : Outcome α) (f : α → Outcome β) : Outcome β :=
  match x with
  | ok a => f a
  | outOfFuel => outOfFuel
  | undefined => undefined

instance : Monad Outcome where
  pure := Outcome.ok
  bind := Outcome.bind

/-- A `for` loop over a list, threading the state. -/
def foldl {σ α : Type} (f : σ → α → Outcome σ) : σ → List α → Outcome σ
  | s, [] => ok s
  | s, a :: as =>
    match f s a with
    | ok s1 => foldl f s1 as
    | outOfFuel => outOfFuel
    | undefined => undefined

end Outcome

/-! ## Characters (`<ctype.h>`, C locale) -/

/-- The terminating NUL of a C string. -/
def NUL : Char := Char.ofNat 0

/-- The single quote character. -/
def SQUOTE : Char := Char.ofNat 39

/-- The double quote character. -/
def DQUOTE : Char := Char.ofNat 34

def isalpha (c : Char) : Bool :=
  (decide (65 ≤ c.toNat) && decide (c.toNat ≤ 90)) || (decide (97 ≤ c.toNat) && decide (c.toNat ≤ 122))

def isdigit (c : Char) : Bool :=
  decide (48 ≤ c.toNat) && decide (c.toNat ≤ 57)

def isspace (c : Char) : Bool :=
  decide (c.toNat = 32) || (decide (9 ≤ c.toNat) && decide (c.toNat ≤ 13))

def toupper (c : Char) : Char :=
  if decide (97 ≤ c.toNat) && decide (c.toNat ≤ 122) then Char.ofNat (c.toNat - 32) else c

/-! ## Constants -/

def MAX_COLS : Nat := 26
def MAX_ROWS : Nat := 256
def CELL_W : Nat := 11
def CELL_TBL_SIZE : Int := 31
def MAX_FUNC_ARGS : Nat := 5

/-- Capacity of `char token[32]` without its terminator: `sizeof(token) - 1`. -/
def TOKEN_MAX : Nat := 31

/-! ## Values -/

/-- The eight error values of `main.c`; in C they differ by their message. -/
inductive ErrKind where
  | InvalidArg
  | ExprInvalid
  | ExprDivZero
  | ExprCyclicRef
  | ExprExpectLParen
  | ExprExpectRParen
  | ExprExpectNumeric
  | OutOfMemory
  deriving DecidableEq, Repr

/-- The message `main` stores in the `str` field of each error value. -/
def ErrKind.msg : ErrKind → List Char
  | .InvalidArg => "Invalid argument".toList
  | .ExprInvalid => "Invalid expression".toList
  | .ExprDivZero => "Division by zero".toList
  | .ExprCyclicRef => "Cyclic reference".toList
  | .ExprExpectLParen => "Expected '('".toList
  | .ExprExpectRParen => "Expected ')'".toList
  | .ExprExpectNumeric => "Expected numeric value".toList
  | .OutOfMemory => "Out of memory".toList

/-- `struct Value`: the tag `ValType` with its payload. A value of type
`TYPE_STR` is `str` when its text is its own (`make_str` copies it with
`strdup`), and `shared` when it is the copy `v = c->cached` that `eval_factor`
takes of the cached String of a cell: its `str` is then the pointer that the
cell holds. A cell caches `str` values only. -/
inductive Value where
  | null
  | num (n : ℚ)
  | str (s : List Char)
  | shared (s : List Char)
  | text (s : List Char)
  | error (e : ErrKind)
  deriving DecidableEq

def errInvalidArg : Value := .error .InvalidArg
def errExprInvalid : Value := .error .ExprInvalid
def errExprDivZero : Value := .error .ExprDivZero
def errExprCyclicRef : Value := .error .ExprCyclicRef
def errExprExpectLParen : Value := .error .ExprExpectLParen
def errExprExpectRParen : Value := .error .ExprExpectRParen
def errExprExpectNumeric : Value := .error .ExprExpectNumeric
def errOutOfMemory : Value := .error .OutOfMemory

def Value.isError : Value → Bool
  | .error _ => true
  | _ => false

def Value.isNum : Value → Bool
  | .num _ => true
  | _ => false

def Value.isNull : Value → Bool
  | .null => true
  | _ => false

def is_str_value : Value → Bool
  | .str _ => true
  | .shared _ => true
  | .text _ => true
  | _ => false

/-- Whether the value shares its text with a cell. -/
def Value.isShared : Value → Bool
  | .shared _ => true
  | _ => false

/-- The copy `v = c->cached` of a cached value: a String shares its text with
the cell. -/
def Value.share : Value → Value
  | .str s => .shared s
  | v => v

/-- The value `eval_cell` puts into `c->cached` for the result `v` of the
formula: the text of a String is copied (`strdup`), so the cell has its own. -/
def Value.stored : Value → Value
  | .shared s => .str s
  | v => v

/-- The calls `free_val(&v); free_val(&v2);` that end the body of an operator
loop: whether one of them frees the text of a cell. The cell then holds a
dangling pointer, and two values shared with one cell free its text twice. -/
def frees_cached (v v2 : Value) : Bool := v.isShared || v2.isShared

def make_num (v : ℚ) : Value := .num v

def make_str (s : List Char) : Value := .str s

/-! ## Tokens and the function table -/

inductive TokenType where
  | tokNone
  | tokCellRef | tokRange | tokNumber | tokString
  | tokEq | tokNe | tokLt | tokLe | tokGt | tokGe
  | tokPlus | tokMinus | tokMul | tokDiv | tokMod | tokLParen | tokRParen | tokComma | tokEnd
  | tokScalarFunc
  | tokRangeFunc
  | tokError
  deriving DecidableEq, Repr

open TokenType

/-- The accumulators a `PFN_ACCUM` pointer can hold. -/
inductive Accum where
  | sum_range | count_range | max_range | min_range
  deriving DecidableEq, Repr

/-- The evaluators a `PFN_EVAL` pointer can hold. -/
inductive EvalFn where
  | sum_eval | avg_eval | count_eval | best_eval
  | sin_eval | cos_eval | tan_eval | asin_eval | acos_eval | atan_eval
  | abs_eval | ceil_eval | floor_eval | round_eval | trunc_eval
  | sqrt_eval | exp_eval | log_eval | log10_eval | log2_eval
  | dec2bin_eval | bin2dec_eval | dec2hex_eval | hex2dec_eval
  | if_eval
  deriving DecidableEq, Repr

/-- `struct Function`. -/
structure Function where
  name : List Char
  pfn_accum : Option Accum
  pfn_eval : EvalFn
  tok_type : TokenType
  min_args : Nat
  max_args : Nat
  deriving DecidableEq

/-- The table `functions[]`, without its sentinel. -/
def functions : List Function :=
  [ ⟨"SUM".toList, some .sum_range, .sum_eval, tokRangeFunc, 1, 1⟩,
    ⟨"AVG".toList, some .sum_range, .avg_eval, tokRangeFunc, 1, 1⟩,
    ⟨"COUNT".toList, some .count_range, .count_eval, tokRangeFunc, 1, 1⟩,
    ⟨"MAX".toList, some .max_range, .best_eval, tokRangeFunc, 1, 1⟩,
    ⟨"MIN".toList, some .min_range, .best_eval, tokRangeFunc, 1, 1⟩,
    ⟨"SIN".toList, none, .sin_eval, tokScalarFunc, 1, 1⟩,
    ⟨"COS".toList, none, .cos_eval, tokScalarFunc, 1, 1⟩,
    ⟨"TAN".toList, none, .tan_eval, tokScalarFunc, 1, 1⟩,
    ⟨"ASIN".toList, none, .asin_eval, tokScalarFunc, 1, 1⟩,
    ⟨"ACOS".toList, none, .acos_eval, tokScalarFunc, 1, 1⟩,
    ⟨"ATAN".toList, none, .atan_eval, tokScalarFunc, 1, 1⟩,
    ⟨"ABS".toList, none, .abs_eval, tokScalarFunc, 1, 1⟩,
    ⟨"CEIL".toList, none, .ceil_eval, tokScalarFunc, 1, 1⟩,
    ⟨"FLOOR".toList, none, .floor_eval, tokScalarFunc, 1, 1⟩,
    ⟨"ROUND".toList, none, .round_eval, tokScalarFunc, 1, 1⟩,
    ⟨"TRUNC".toList, none, .trunc_eval, tokScalarFunc, 1, 1⟩,
    ⟨"SQRT".toList, none, .sqrt_eval, tokScalarFunc, 1, 1⟩,
    ⟨"EXP".toList, none, .exp_eval, tokScalarFunc, 1, 1⟩,
    ⟨"LOG".toList, none, .log_eval, tokScalarFunc, 1, 1⟩,
    ⟨"LOG10".toList, none, .log10_eval, tokScalarFunc, 1, 1⟩,
    ⟨"LOG2".toList, none, .log2_eval, tokScalarFunc, 1, 1⟩,
    ⟨"DEC2BIN".toList, none, .dec2bin_eval, tokScalarFunc, 1, 1⟩,
    ⟨"BIN2DEC".toList, none, .bin2dec_eval, tokScalarFunc, 1, 1⟩,
    ⟨"DEC2HEX".toList, none, .dec2hex_eval, tokScalarFunc, 1, 1⟩,
    ⟨"HEX2DEC".toList, none, .hex2dec_eval, tokScalarFunc, 1, 1⟩,
    ⟨"IF".toList, none, .if_eval, tokScalarFunc, 3, 3⟩ ]

/-! ## Lexer -/

/-- The lexer's globals `tok_type`, `token`, `expr`, `ch`, `current_function`. -/
structure Lexer where
  tok_type : TokenType
  token : List Char
  expr : List Char
  ch : Char
  current_function : Option Function
  deriving DecidableEq

/-- The zero-initialised globals at program start. -/
def Lexer.init : Lexer := ⟨tokNone, [], [], NUL, none⟩

def next_char (lx : Lexer) : Lexer :=
  match lx.expr with
  | [] => { lx with ch := NUL }
  | c :: rest => { lx with ch := c, expr := rest }

/-- The guarded store `if (i < sizeof(token) - 1) token[i++] = c;`. -/
def put (token : List Char) (c : Char) : List Char :=
  if token.length < TOKEN_MAX then token ++ [c] else token

/-- The loop `while (isdigit(*s)) { n = n * 10 + (*s - '0'); ++s; }` of
`is_cellref`: the number read and the text left. -/
def cellref_num : Nat → List Char → Nat × List Char
  | n, [] => (n, [])
  | n, c :: rest => if isdigit c then cellref_num (n * 10 + (c.toNat - 48)) rest else (n, c :: rest)

def is_cellref (s : List Char) : Bool :=
  match s with
  | [] => false
  | c :: s1 =>
    if !isalpha c then false
    else
      match s1 with
      | [] => false
      | d :: _ =>
        if !isdigit d then false
        else
          let r := cellref_num 0 s1
          if r.1 < 1 || r.1 > MAX_ROWS then false
          else r.2.isEmpty

/-- The loop `while (isspace(ch)) next_char();`. -/
def skip_space (ch : Char) (expr : List Char) : Char × List Char :=
  if isspace ch then
    match expr with
    | [] => (NUL, [])
    | c :: rest => skip_space c rest
  else (ch, expr)

/-- The loop `while (isalpha(ch) || isdigit(ch)) { put(toupper(ch)); next_char(); }`. -/
def scan_alnum (token : List Char) (ch : Char) (expr : List Char) : List Char × Char × List Char :=
  if isalpha ch || isdigit ch then
    match expr with
    | [] => (put token (toupper ch), NUL, [])
    | c :: rest => scan_alnum (put token (toupper ch)) c rest
  else (token, ch, expr)

/-- The loop `while (isdigit(ch)) { put(ch); next_char(); }`. -/
def scan_digits (token : List Char) (ch : Char) (expr : List Char) : List Char × Char × List Char :=
  if isdigit ch then
    match expr with
    | [] => (put token ch, NUL, [])
    | c :: rest => scan_digits (put token ch) c rest
  else (token, ch, expr)

/-- The loop `while (ch && ch != quote) { put(ch); next_char(); }`. -/
def scan_string (quote : Char) (token : List Char) (ch : Char) (expr : List Char) :
    List Char × Char × List Char :=
  if ch ≠ NUL ∧ ch ≠ quote then
    match expr with
    | [] => (put token ch, NUL, [])
    | c :: rest => scan_string quote (put token ch) c rest
  else (token, ch, expr)

/-- The search `for (f = functions; f->name; f++) if (strcmp(f->name, token) == 0)`. -/
def find_function (token : List Char) : Option Function :=
  functions.find? (fun f => decide (f.name = token))

/-- The identifier branch of `get_token`, entered with `isalpha(ch)`. -/
def get_token_ident (lx : Lexer) : Lexer :=
  let r := scan_alnum [] lx.ch lx.expr
  let lx1 : Lexer := { lx with tok_type := tokNone, token := r.1, ch := r.2.1, expr := r.2.2 }
  if is_cellref r.1 then
    if lx1.ch = ':' then
      -- `token[i++] = ch` is not guarded by the buffer size
      let r2 := scan_alnum (r.1 ++ [':']) (next_char lx1).ch (next_char lx1).expr
      let lx2 : Lexer := { lx1 with token := r2.1, ch := r2.2.1, expr := r2.2.2 }
      if !is_cellref (r2.1.drop (r.1.length + 1)) then { lx2 with tok_type := tokError }
      else { lx2 with tok_type := tokRange }
    else { lx1 with tok_type := tokCellRef }
  else
    match find_function r.1 with
    | some f => { lx1 with tok_type := f.tok_type, current_function := some f }
    | none => { lx1 with tok_type := tokError }

/-- The number branch of `get_token`, entered with `isdigit(ch)`. -/
def get_token_number (lx : Lexer) : Lexer :=
  let r := scan_digits [] lx.ch lx.expr
  if r.2.1 = '.' then
    let lx1 := next_char { lx with ch := r.2.1, expr := r.2.2 }
    let r2 := scan_digits (put r.1 '.') lx1.ch lx1.expr
    { lx with tok_type := tokNumber, token := r2.1, ch := r2.2.1, expr := r2.2.2 }
  else
    { lx with tok_type := tokNumber, token := r.1, ch := r.2.1, expr := r.2.2 }

/-- The string-literal case of `get_token`. On an unterminated literal C leaves
`token` without its terminator; the embedding keeps the characters written. -/
def get_token_string (lx : Lexer) : Lexer :=
  let quote := lx.ch
  let lx1 := next_char lx
  let r := scan_string quote [] lx1.ch lx1.expr
  let lx2 : Lexer := { lx with token := r.1, ch := r.2.1, expr := r.2.2 }
  if lx2.ch = quote then { next_char lx2 with tok_type := tokString }
  else { lx2 with tok_type := tokError }

def get_token (lx0 : Lexer) : Lexer :=
  let sp := skip_space lx0.ch lx0.expr
  let lx : Lexer := { lx0 with tok_type := tokNone, ch := sp.1, expr := sp.2 }
  if lx.ch = NUL then { lx with tok_type := tokEnd }
  else if isalpha lx.ch then get_token_ident lx
  else if isdigit lx.ch then get_token_number lx
  else if lx.ch = '=' then { next_char lx with tok_type := tokEq }
  else if lx.ch = '<' then
    let lx1 := next_char lx
    if lx1.ch = '=' then { next_char lx1 with tok_type := tokLe }
    else if lx1.ch = '>' then { next_char lx1 with tok_type := tokNe }
    else { lx1 with tok_type := tokLt }
  else if lx.ch = '>' then
    let lx1 := next_char lx
    if lx1.ch = '=' then { next_char lx1 with tok_type := tokGe }
    else { lx1 with tok_type := tokGt }
  else if lx.ch = '+' then { next_char lx with tok_type := tokPlus }
  else if lx.ch = '-' then { next_char lx with tok_type := tokMinus }
  else if lx.ch = '*' then { next_char lx with tok_type := tokMul }
  else if lx.ch = '/' then { next_char lx with tok_type := tokDiv }
  else if lx.ch = '%' then { next_char lx with tok_type := tokMod }
  else if lx.ch = '(' then { next_char lx with tok_type := tokLParen }
  else if lx.ch = ')' then { next_char lx with tok_type := tokRParen }
  else if lx.ch = ',' then { next_char lx with tok_type := tokComma }
  else if lx.ch = SQUOTE ∨ lx.ch = DQUOTE then get_token_string lx
  else { lx with tok_type := tokError }

/-- Returns whether the current token was the expected one, and the lexer. -/
def expect_token (lx : Lexer) (expected : TokenType) : Bool × Lexer :=
  if lx.tok_type ≠ expected then (false, lx) else (true, get_token lx)

/-! ## Numbers and text (`strtof`, `atoi`, `printf("%g")`) -/

/-- Value of a run of decimal digits, most significant first, added to `n`. -/
def digits_val : Nat → List Char → Nat
  | n, [] => n
  | n, c :: rest => digits_val (n * 10 + (c.toNat - 48)) rest

/-- The power of ten `10 ^ e` for an integer exponent. -/
def pow10 (e : Int) : ℚ :=
  if 0 ≤ e then mkRat (10 ^ e.toNat) 1 else mkRat 1 (10 ^ (-e).toNat)

/-- The exponent part of a decimal floating constant: `e` or `E`, an optional
sign and at least one digit. Returns the exponent and the text left, or
nothing when the text does not start with an exponent part. -/
def strtof_exp (s : List Char) : Option (Int × List Char) :=
  match s with
  | [] => none
  | c :: t =>
    if c = 'e' ∨ c = 'E' then
      let neg := decide (t.head? = some '-')
      let t1 := if t.head? = some '-' ∨ t.head? = some '+' then t.tail else t
      let ds := t1.span isdigit
      if ds.1.isEmpty then none
      else some ((if neg then -(digits_val 0 ds.1 : Int) else (digits_val 0 ds.1 : Int)), ds.2)
    else none

/-- The value of a hexadecimal digit, if the character is one. -/
def hex_digit (c : Char) : Option Nat :=
  if isdigit c then some (c.toNat - 48)
  else if 97 ≤ c.toNat ∧ c.toNat ≤ 102 then some (c.toNat - 97 + 10)
  else if 65 ≤ c.toNat ∧ c.toNat ≤ 70 then some (c.toNat - 65 + 10)
  else none

/-- Value of a run of hexadecimal digits, most significant first, added to `n`. -/
def hex_val : Nat → List Char → Nat
  | n, [] => n
  | n, c :: rest => hex_val (n * 16 + (hex_digit c).getD 0) rest

/-- The power of two `2 ^ e` for an integer exponent. -/
def pow2 (e : Int) : ℚ :=
  if 0 ≤ e then mkRat (2 ^ e.toNat) 1 else mkRat 1 (2 ^ (-e).toNat)

/-- The exponent part of a hexadecimal floating constant: `p` or `P`, an
optional sign and at least one decimal digit. -/
def strtof_bexp (s : List Char) : Option (Int × List Char) :=
  match s with
  | [] => none
  | c :: t =>
    if c = 'p' ∨ c = 'P' then
      let neg := decide (t.head? = some '-')
      let t1 := if t.head? = some '-' ∨ t.head? = some '+' then t.tail else t
      let ds := t1.span isdigit
      if ds.1.isEmpty then none
      else some ((if neg then -(digits_val 0 ds.1 : Int) else (digits_val 0 ds.1 : Int)), ds.2)
    else none

/-- The hexadecimal form of `strtof`, after the sign: `0x` or `0X`, hexadecimal
digits with an optional point, at least one digit, an optional binary
exponent. Returns the value and the text left, or nothing when the text has
not this form. -/
def strtof_hex (s2 : List Char) : Option (ℚ × List Char) :=
  if s2.head? = some '0' ∧ (s2.tail.head? = some 'x' ∨ s2.tail.head? = some 'X') then
    let ip := (s2.drop 2).span (fun c => (hex_digit c).isSome)
    let fp :=
      if ip.2.head? = some '.' then ip.2.tail.span (fun c => (hex_digit c).isSome)
      else ([], ip.2)
    if ip.1.isEmpty && fp.1.isEmpty then none
    else
      let mant : ℚ := mkRat (hex_val 0 (ip.1 ++ fp.1)) (16 ^ fp.1.length)
      let ex := match strtof_bexp fp.2 with
        | some r => r
        | none => (0, fp.2)
      some (mant * pow2 ex.1, ex.2)
  else none

/-- The forms of `strtof` that denote no number, after the sign: `inf`,
`infinity`, `nan` and `nan(...)` with letters, digits and underscores between
the parentheses, letters of either case. Returns the text left, or nothing
when the text has none of these forms. -/
def strtof_nonfinite (s2 : List Char) : Option (List Char) :=
  if (s2.take 8).map toupper = "INFINITY".toList then some (s2.drop 8)
  else if (s2.take 3).map toupper = "INF".toList then some (s2.drop 3)
  else if (s2.take 3).map toupper = "NAN".toList then
    let t := s2.drop 3
    let r := t.tail.span (fun c => isalpha c || isdigit c || decide (c = '_'))
    if t.head? = some '(' ∧ r.2.head? = some ')' then some r.2.tail else some t
  else none

/-- `strtof(s, &end)`: leading white space, an optional sign, then an infinity
or a NaN, or a hexadecimal constant, or decimal digits with an optional point
and an optional exponent. Returns the value and the text at `end`; when no
conversion is made the value is 0 and `end` is `s`. An infinity and a NaN
are no numbers of the embedding: for them only `end` is meant, the value given
is 0, and `strtof_finite` is false. -/
def strtof (s : List Char) : ℚ × List Char :=
  let s1 := s.dropWhile isspace
  let neg := decide (s1.head? = some '-')
  let s2 := if s1.head? = some '-' ∨ s1.head? = some '+' then s1.tail else s1
  match strtof_nonfinite s2 with
  | some rest => (0, rest)
  | none =>
    match strtof_hex s2 with
    | some r => (if neg then -r.1 else r.1, r.2)
    | none =>
      let ip := s2.span isdigit
      let fp := if ip.2.head? = some '.' then ip.2.tail.span isdigit else ([], ip.2)
      if ip.1.isEmpty && fp.1.isEmpty then (0, s)
      else
        let mant : ℚ := mkRat (digits_val 0 (ip.1 ++ fp.1)) (10 ^ fp.1.length)
        let ex := match strtof_exp fp.2 with
          | some r => r
          | none => (0, fp.2)
        let v := mant * pow10 ex.1
        (if neg then -v else v, ex.2)

/-- Whether `strtof` reads in the text a number or nothing, not an infinity or
a NaN. -/
def strtof_finite (s : List Char) : Bool :=
  let s1 := s.dropWhile isspace
  let s2 := if s1.head? = some '-' ∨ s1.head? = some '+' then s1.tail else s1
  (strtof_nonfinite s2).isNone

/-- `atoi` on text: leading white space, an optional sign, digits. -/
def atoi (s : List Char) : Int :=
  let s1 := s.dropWhile isspace
  let neg := decide (s1.head? = some '-')
  let s2 := if s1.head? = some '-' ∨ s1.head? = some '+' then s1.tail else s1
  let v : Int := digits_val 0 (s2.takeWhile isdigit)
  if neg then -v else v

/-- The decimal digits of a natural number (`printf("%d")`, `"%u"`). -/
def nat_text (n : Nat) : List Char := Nat.toDigits 10 n

/-- The integer part of a rational, rounded toward zero: the cast `(int)x`. -/
def trunc_int (x : ℚ) : Int := Int.tdiv x.num x.den

/-- Rounds a non-negative rational to the nearest natural number, ties to even. -/
def round_half_even (x : ℚ) : Nat :=
  let fl := x.num.toNat / x.den
  let twice_rem := 2 * (x.num.toNat % x.den)
  if twice_rem < x.den then fl
  else if x.den < twice_rem then fl + 1
  else if fl % 2 = 0 then fl else fl + 1

/-- The decimal exponent of a positive rational `a`: the `e` with
`10 ^ e ≤ a < 10 ^ (e + 1)`. -/
def dec_exponent (a : ℚ) : Int :=
  if 1 ≤ a then ((nat_text (a.num.toNat / a.den)).length : Int) - 1
  else
    -- the least `k` with `1 / a ≤ 10 ^ k`
    let q := (a.den + a.num.toNat - 1) / a.num.toNat
    (0 : Int) - ((nat_text (q - 1)).length : Int)

/-- Removes trailing `0` characters. -/
def strip_zeros (ds : List Char) : List Char :=
  (ds.reverse.dropWhile (fun c => c = '0')).reverse

/-- `printf("%g", x)`: six significant digits, trailing zeros removed, the
exponent form when the decimal exponent is below -4 or at least 6. -/
def fmt_g (x : ℚ) : List Char :=
  if x = 0 then ['0']
  else
    let a := |x|
    let e0 := dec_exponent a
    let m0 := round_half_even (a * pow10 (5 - e0))
    let m := if m0 = 1000000 then 100000 else m0
    let e := if m0 = 1000000 then e0 + 1 else e0
    let ds := nat_text m
    let sign : List Char := if x < 0 then ['-'] else []
    if e < -4 ∨ 6 ≤ e then
      let frac := strip_zeros (ds.drop 1)
      let ex := nat_text e.natAbs
      sign ++ ds.take 1 ++ (if frac.isEmpty then [] else '.' :: frac) ++ ['e']
        ++ [if e < 0 then '-' else '+'] ++ (if ex.length < 2 then '0' :: ex else ex)
    else if 0 ≤ e then
      let frac := strip_zeros (ds.drop (e.toNat + 1))
      sign ++ ds.take (e.toNat + 1) ++ (if frac.isEmpty then [] else '.' :: frac)
    else
      sign ++ ['0', '.'] ++ List.replicate ((-e).toNat - 1) '0' ++ strip_zeros ds

/-- `fmodf(x, y)` for `y ≠ 0`: the remainder with the sign of `x`. -/
def fmodf (x y : ℚ) : ℚ := x - (trunc_int (x / y) : ℚ) * y

/-- The coercion `(v.type == TYPE_NUM ? v.num : v.str ? strtof(v.str, NULL) : 0)`.
A Null value has a null `str`; an Error value has its message as `str`. -/
def to_num : Value → ℚ
  | .num n => n
  | .null => 0
  | .str s => (strtof s).1
  | .shared s => (strtof s).1
  | .text s => (strtof s).1
  | .error e => (strtof e.msg).1

/-- Whether the coercion of `v` is a number of the embedding: not so for a
string-like value in which `strtof` reads an infinity or a NaN. -/
def Value.finite : Value → Bool
  | .str s => strtof_finite s
  | .shared s => strtof_finite s
  | .text s => strtof_finite s
  | _ => true

/-! ## Cell references -/

/-- `parse_cellref(&sp, &col, &row)`: the column, the row and the advanced `sp`.
The buffer `ref[8]` takes the letter and at most six digits. -/
def parse_cellref (sp : List Char) : (Int × Int) × List Char :=
  match sp with
  | [] => ((0 - 65, atoi [] - 1), [])
  | c :: rest =>
    if isalpha c then
      let ds := (rest.takeWhile isdigit).take 6
      ((((toupper c).toNat : Int) - 65, atoi ds - 1), rest.drop ds.length)
    else ((0 - 65, atoi [] - 1), sp)

/-- `parse_range(&sp, ...)`: `(from_col, from_row, to_col, to_row)`. -/
def parse_range (sp : List Char) : Int × Int × Int × Int :=
  let a := parse_cellref sp
  let sp1 := if a.2.head? = some ':' then a.2.tail else a.2
  let b := parse_cellref sp1
  let c1 := a.1.1
  let r1 := a.1.2
  let c2 := b.1.1
  let r2 := b.1.2
  (if c2 < c1 then c2 else c1, if r2 < r1 then r2 else r1,
   if c2 < c1 then c1 else c2, if r2 < r1 then r1 else r2)

/-- The text `"%c%d"` of `'A' + col` and `row + 1` that `main` and `do_save`
print for a cell. -/
def cell_name (col row : Nat) : List Char :=
  Char.ofNat (65 + col) :: nat_text (row + 1)

/-! ## External library -/

/-- The library functions whose results the sources do not determine: the
single-precision functions of `<math.h>` and the non-standard `itoa`
(`itoa n radix` is the text written for `n`). -/
structure Libc where
  sinf : ℚ → ℚ
  cosf : ℚ → ℚ
  tanf : ℚ → ℚ
  asinf : ℚ → ℚ
  acosf : ℚ → ℚ
  atanf : ℚ → ℚ
  sqrtf : ℚ → ℚ
  expf : ℚ → ℚ
  logf : ℚ → ℚ
  log10f : ℚ → ℚ
  log2f : ℚ → ℚ
  itoa : Int → Nat → List Char

/-! ## Cells and the cell store -/

/-- The bits `FLG_DIRTY`, `FLG_FORMULA`, `FLG_EMPTY`, `FLG_VISITING` of `flags`. -/
structure Flags where
  dirty : Bool
  formula : Bool
  empty : Bool
  visiting : Bool
  deriving DecidableEq

/-- The flag byte 0. -/
def Flags.zero : Flags := ⟨false, false, false, false⟩

/-- A cell address (column, row): what a `Cell*` stands for. -/
abbrev Addr := Int × Int

/-- `struct Cell`; the lists `deps` and `revdeps` hold the cells pointed to,
head of the linked list first. -/
structure Cell where
  deps : List Addr
  revdeps : List Addr
  col : Int
  row : Int
  content : Option (List Char)
  cached : Value
  flags : Flags
  deriving DecidableEq

/-- A cell as `calloc` returns it, with its coordinates set. -/
def Cell.blank (c r : Int) : Cell := ⟨[], [], c, r, none, .null, Flags.zero⟩

/-- Whether the cell has the given coordinates. -/
def Cell.isAt (x : Cell) (a : Addr) : Bool := decide (x.col = a.1) && decide (x.row = a.2)

/-- The program state: the cells of `hash_table`, newest first, and the
lexer's globals. Bucket `h` of the table is the sublist of the cells whose
coordinates hash to `h`. -/
structure Sheet where
  cells : List Cell
  lex : Lexer
  deriving DecidableEq

/-- The state at program start. -/
def Sheet.empty : Sheet := ⟨[], Lexer.init⟩

/-- The number of bits of an `int` on the target (Z80, SDCC and z88dk). -/
def INT_BITS : Nat := 16

/-- The value of an `int` of `w` bits that holds the number `n` cut to `w` bits
in two's complement. -/
@[irreducible]
def wrap_int (w : Nat) (n : Int) : Int := (n + 2 ^ (w - 1)) % 2 ^ w - 2 ^ (w - 1)

/-- The index `(col + (row * 257)) % CELL_TBL_SIZE` of `find_cell` and `add_cell`
computed with an `int` of `w` bits, in arithmetic modulo `2 ^ w`; the C
remainder truncates, so the index is negative for a negative sum. -/
def bucket_int (w : Nat) (col row : Int) : Int :=
  Int.tmod (wrap_int w (col + wrap_int w (row * 257))) CELL_TBL_SIZE

/-- The same index computed without overflow, with `int` a mathematical
integer: what `bucket_int` is compared with. The program computes
`bucket_int INT_BITS`. -/
def bucket (col row : Int) : Int := Int.tmod (col + row * 257) CELL_TBL_SIZE

/-- The cell with the given coordinates, if the store has one. -/
def lookup (cells : List Cell) (a : Addr) : Option Cell :=
  cells.find? (fun x => x.isAt a)

/-- Applies `f` to the cell at address `a`: a write through a `Cell*`. -/
def modify (cells : List Cell) (a : Addr) (f : Cell → Cell) : List Cell :=
  cells.map (fun x => if x.isAt a then f x else x)

/-- `find_cell(col, row)`: the index `h` is computed in `int`; a negative `h`
makes `hash_table[h]` a read outside the table. -/
def find_cell (cells : List Cell) (col row : Int) : Outcome (Option Cell) :=
  if bucket_int INT_BITS col row < 0 then .undefined else .ok (lookup cells (col, row))

/-- `new_cell(c, r)` with `add_cell`: the new cell heads its bucket; a negative
index makes `hash_table[h] = node` a write outside the table. -/
def new_cell (cells : List Cell) (c r : Int) : Outcome (List Cell) :=
  if bucket_int INT_BITS c r < 0 then .undefined else .ok (Cell.blank c r :: cells)

def remove_revdep (cells : List Cell) (c dep : Addr) : List Cell :=
  modify cells c (fun x => { x with revdeps := x.revdeps.erase dep })

def remove_deps (cells : List Cell) (c : Addr) : List Cell :=
  match lookup cells c with
  | none => cells
  | some x =>
    modify (x.deps.foldl (fun cs d => remove_revdep cs d c) cells) c
      (fun y => { y with deps := [] })

def add_dep (cells : List Cell) (owner dep : Addr) : List Cell :=
  modify (modify cells owner (fun x => { x with deps := dep :: x.deps })) dep
    (fun x => { x with revdeps := owner :: x.revdeps })

/-- `c->flags |= FLG_DIRTY`. -/
def mark_dirty (cells : List Cell) (c : Addr) : List Cell :=
  modify cells c (fun y => { y with flags := { y.flags with dirty := true } })

def propagate_dirty : Nat → List Cell → Addr → Outcome (List Cell)
  | 0, _, _ => .outOfFuel
  | fuel + 1, cells, c =>
    match lookup cells c with
    | none => .undefined
    | some x =>
      if !x.flags.dirty then
        Outcome.foldl (fun cs d => propagate_dirty fuel cs d) (mark_dirty cells c) x.revdeps
      else .ok cells

/-! ## Range functions -/

structure AccumState where
  total : ℚ
  best : ℚ
  count : Int
  deriving DecidableEq

def sum_range (acc : AccumState) (cell : Cell) : AccumState :=
  match cell.cached with
  | .num n => { acc with total := acc.total + n, count := acc.count + 1 }
  | _ => acc

def sum_eval (acc : AccumState) : Value := make_num acc.total

def avg_eval (acc : AccumState) : Value :=
  make_num (if acc.count ≠ 0 then acc.total / (acc.count : ℚ) else 0)

def count_range (acc : AccumState) (cell : Cell) : AccumState :=
  match cell.cached with
  | .null => acc
  | .error _ => acc
  | .num _ => { acc with count := acc.count + 1 }
  | .str s => if s ≠ [] then { acc with count := acc.count + 1 } else acc
  | .shared s => if s ≠ [] then { acc with count := acc.count + 1 } else acc
  | .text s => if s ≠ [] then { acc with count := acc.count + 1 } else acc

def count_eval (acc : AccumState) : Value := make_num (acc.count : ℚ)

def max_range (acc : AccumState) (cell : Cell) : AccumState :=
  match cell.cached with
  | .num n =>
    { (if acc.count = 0 ∨ n > acc.best then { acc with best := n } else acc) with
      count := acc.count + 1 }
  | _ => acc

def min_range (acc : AccumState) (cell : Cell) : AccumState :=
  match cell.cached with
  | .num n =>
    { (if acc.count = 0 ∨ n < acc.best then { acc with best := n } else acc) with
      count := acc.count + 1 }
  | _ => acc

def best_eval (acc : AccumState) : Value := make_num acc.best

/-- The integers `lo, lo + 1, ..., hi` that `for (i = lo; i <= hi; i++)` visits. -/
def int_range (lo hi : Int) : List Int :=
  (List.range (hi + 1 - lo).toNat).map (fun i => lo + (i : Int))

/-- The cell `process_range` hands to the accumulator for the address `a`: the
stored cell, or the local `empty` with `FLG_EMPTY` and the coordinates of `a`. -/
def range_cell (found : Option Cell) (a : Addr) : Cell :=
  match found with
  | some x => x
  | none => { Cell.blank a.1 a.2 with flags := { Flags.zero with empty := true } }

/-- `process_range`: visits the block column by column, handing each cell
(or the placeholder `empty` with `FLG_EMPTY` for an address without a cell)
to the accumulator, then runs the finaliser. The accumulator may change the
store; a null `pfnAccum` is called when the block is not empty. -/
def process_range {σ : Type} (cells : List Cell) (c1 r1 c2 r2 : Int) (state : σ)
    (pfnAccum : Option (List Cell → σ → Cell → Outcome (List Cell × σ)))
    (pfnEval : Option (σ → Outcome Value)) : Outcome (List Cell × σ × Value) :=
  match
    Outcome.foldl
      (fun (st : List Cell × σ) (a : Addr) =>
        match find_cell st.1 a.1 a.2 with
        | .ok found =>
          match pfnAccum with
          | some f => f st.1 st.2 (range_cell found a)
          | none => .undefined
        | .outOfFuel => .outOfFuel
        | .undefined => .undefined)
      (cells, state)
      ((int_range c1 c2).flatMap (fun cc => (int_range r1 r2).map (fun rr => (cc, rr))))
  with
  | .ok st =>
    match pfnEval with
    | some ev =>
      match ev st.2 with
      | .ok x => .ok (st.1, st.2, x)
      | .outOfFuel => .outOfFuel
      | .undefined => .undefined
    | none => .ok (st.1, st.2, make_num 0)
  | .outOfFuel => .outOfFuel
  | .undefined => .undefined

/-- The accumulator a table entry points to, as `process_range` calls it. -/
def call_accum (f : Accum) (cells : List Cell) (acc : AccumState) (cell : Cell) :
    Outcome (List Cell × AccumState) :=
  match f with
  | .sum_range => .ok (cells, sum_range acc cell)
  | .count_range => .ok (cells, count_range acc cell)
  | .max_range => .ok (cells, max_range acc cell)
  | .min_range => .ok (cells, min_range acc cell)

/-- `set_range_dep(root, cell)`: materialises a placeholder and adds the edge. -/
def set_range_dep (cells : List Cell) (root : Addr) (cell : Cell) :
    Outcome (List Cell × Addr) :=
  if cell.flags.empty then
    match new_cell cells cell.col cell.row with
    | .ok cs => .ok (add_dep cs root (cell.col, cell.row), root)
    | .outOfFuel => .outOfFuel
    | .undefined => .undefined
  else .ok (add_dep cells root (cell.col, cell.row), root)

/-! ## Scalar functions -/

/-- Value of a digit character in the given base, if it is one. -/
def digit_of (base : Nat) (c : Char) : Option Nat :=
  let d : Nat :=
    if isdigit c then c.toNat - 48
    else if decide (97 ≤ c.toNat) && decide (c.toNat ≤ 122) then c.toNat - 97 + 10
    else if decide (65 ≤ c.toNat) && decide (c.toNat ≤ 90) then c.toNat - 65 + 10
    else base
  if d < base then some d else none

/-- The number of bits of a `long` on the target. -/
def LONG_BITS : Nat := 32

/-- The number `n` brought into the range of `long`: what `strtol` returns for a
text that denotes `n`. -/
def clamp_long (n : Int) : Int :=
  max (-(2 ^ (LONG_BITS - 1))) (min n (2 ^ (LONG_BITS - 1) - 1))

/-- The cast `(int)x` of a `float`: the integer part of `x`, rounded toward
zero, when an `int` holds it; C leaves the conversion undefined otherwise. -/
def int_of_float (x : ℚ) : Outcome Int :=
  if -(2 ^ (INT_BITS - 1)) ≤ trunc_int x ∧ trunc_int x < 2 ^ (INT_BITS - 1) then
    .ok (trunc_int x)
  else .undefined

/-- The digit loop of `strtol`: the number read so far, whether a digit was
seen, and the text left. -/
def strtol_digits (base : Nat) : Nat → Bool → List Char → Nat × Bool × List Char
  | n, seen, [] => (n, seen, [])
  | n, seen, c :: rest =>
    match digit_of base c with
    | some d => strtol_digits base (n * base + d) true rest
    | none => (n, seen, c :: rest)

/-- `strtol(s, &end, base)` for base 2 or 16: white space, an optional sign,
for base 16 an optional `0x` that digits follow, then digits. Returns the
value and the text at `end`; without a digit the value is 0 and `end` is `s`.
A number outside the range of `long` is replaced by the nearest bound. -/
def strtol (s : List Char) (base : Nat) : Int × List Char :=
  let s1 := s.dropWhile isspace
  let neg := decide (s1.head? = some '-')
  let s2 := if s1.head? = some '-' ∨ s1.head? = some '+' then s1.tail else s1
  let s3 :=
    if base = 16 ∧ s2.head? = some '0' ∧ (s2.tail.head? = some 'x' ∨ s2.tail.head? = some 'X')
        ∧ ((s2.drop 2).head?.bind (digit_of 16)).isSome then s2.drop 2
    else s2
  let r := strtol_digits base 0 false s3
  if r.2.1 then (clamp_long (if neg then -(r.1 : Int) else (r.1 : Int)), r.2.2) else (0, s)

/-- The largest integer not above `x`. -/
def floor_int (x : ℚ) : Int := x.num / (x.den : Int)

/-- The body shared by the one-argument numeric functions: a Number argument
is mapped by `g`, any other argument is the Expected-numeric-value error. -/
def numeric_eval (g : ℚ → ℚ) (arg : Value) : Value :=
  match arg with
  | .num x => make_num (g x)
  | _ => errExprExpectNumeric

def sin_eval (L : Libc) (arg : Value) : Value := numeric_eval L.sinf arg
def cos_eval (L : Libc) (arg : Value) : Value := numeric_eval L.cosf arg
def tan_eval (L : Libc) (arg : Value) : Value := numeric_eval L.tanf arg
def asin_eval (L : Libc) (arg : Value) : Value := numeric_eval L.asinf arg
def acos_eval (L : Libc) (arg : Value) : Value := numeric_eval L.acosf arg
def atan_eval (L : Libc) (arg : Value) : Value := numeric_eval L.atanf arg
def abs_eval (arg : Value) : Value := numeric_eval (fun x => |x|) arg
def ceil_eval (arg : Value) : Value := numeric_eval (fun x => ((-(floor_int (-x)) : Int) : ℚ)) arg
def floor_eval (arg : Value) : Value := numeric_eval (fun x => (floor_int x : ℚ)) arg
/-- `round_eval`: `(float)(int)(arg.num + 0.5)`. -/
def round_eval (arg : Value) : Outcome Value :=
  match arg with
  | .num x =>
    match int_of_float (x + 1 / 2) with
    | .ok n => .ok (make_num (n : ℚ))
    | .outOfFuel => .outOfFuel
    | .undefined => .undefined
  | _ => .ok errExprExpectNumeric
def trunc_eval (arg : Value) : Value := numeric_eval (fun x => (trunc_int x : ℚ)) arg
def sqrt_eval (L : Libc) (arg : Value) : Value := numeric_eval L.sqrtf arg
def exp_eval (L : Libc) (arg : Value) : Value := numeric_eval L.expf arg
def log_eval (L : Libc) (arg : Value) : Value := numeric_eval L.logf arg
def log10_eval (L : Libc) (arg : Value) : Value := numeric_eval L.log10f arg
def log2_eval (L : Libc) (arg : Value) : Value := numeric_eval L.log2f arg

/-- `dec2bin_eval`: `int n = (int)arg.num; itoa(n, b, 2);`. -/
def dec2bin_eval (L : Libc) (arg : Value) : Outcome Value :=
  match arg with
  | .num x =>
    match int_of_float x with
    | .ok n => .ok (make_str (L.itoa n 2))
    | .outOfFuel => .outOfFuel
    | .undefined => .undefined
  | _ => .ok errExprExpectNumeric

/-- The body of `bin2dec_eval` on the text of a string-like argument:
`int n = (int)strtol(arg.str, &endptr, 2);` cuts the `long` to an `int`. -/
def bin2dec_text (t : List Char) : Value :=
  if (strtol t 2).2 ≠ [] then errExprInvalid
  else make_num ((wrap_int INT_BITS (strtol t 2).1 : Int) : ℚ)

def bin2dec_eval (arg : Value) : Value :=
  match arg with
  | .str t => bin2dec_text t
  | .shared t => bin2dec_text t
  | .text t => bin2dec_text t
  | _ => errInvalidArg

/-- `dec2hex_eval`: `int n = (int)arg.num; itoa(n, b, 16);`. -/
def dec2hex_eval (L : Libc) (arg : Value) : Outcome Value :=
  match arg with
  | .num x =>
    match int_of_float x with
    | .ok n => .ok (make_str (L.itoa n 16))
    | .outOfFuel => .outOfFuel
    | .undefined => .undefined
  | _ => .ok errExprExpectNumeric

/-- `hex2dec_eval`: a string-like argument is rejected; for any other argument
`strtol` is handed the `str` view of a payload that holds no text. -/
def hex2dec_eval (arg : Value) : Outcome Value :=
  if is_str_value arg then .ok errInvalidArg else .undefined

def if_eval (args : List Value) : Value :=
  match args.getD 0 .null with
  | .num c => if c ≠ 0 then args.getD 1 .null else args.getD 2 .null
  | _ => errExprExpectNumeric

/-- The call `pfn_eval(args)` of a scalar function on the zero-filled array
`args[MAX_FUNC_ARGS]`. The finalisers of the range functions are never
reached here: their entries do not have the scalar token kind. -/
def call_scalar (L : Libc) (f : EvalFn) (args : List Value) : Outcome Value :=
  let arg := args.getD 0 .null
  match f with
  | .sin_eval => .ok (sin_eval L arg)
  | .cos_eval => .ok (cos_eval L arg)
  | .tan_eval => .ok (tan_eval L arg)
  | .asin_eval => .ok (asin_eval L arg)
  | .acos_eval => .ok (acos_eval L arg)
  | .atan_eval => .ok (atan_eval L arg)
  | .abs_eval => .ok (abs_eval arg)
  | .ceil_eval => .ok (ceil_eval arg)
  | .floor_eval => .ok (floor_eval arg)
  | .round_eval => round_eval arg
  | .trunc_eval => .ok (trunc_eval arg)
  | .sqrt_eval => .ok (sqrt_eval L arg)
  | .exp_eval => .ok (exp_eval L arg)
  | .log_eval => .ok (log_eval L arg)
  | .log10_eval => .ok (log10_eval L arg)
  | .log2_eval => .ok (log2_eval L arg)
  | .dec2bin_eval => dec2bin_eval L arg
  | .bin2dec_eval => .ok (bin2dec_eval arg)
  | .dec2hex_eval => dec2hex_eval L arg
  | .hex2dec_eval => hex2dec_eval arg
  | .if_eval => .ok (if_eval args)
  | _ => .undefined

/-- The call `pfnEval(state)` of a range function on its accumulator. The
scalar evaluators are reached here only after a null `pfnAccum` was called. -/
def call_range_eval (f : EvalFn) (acc : AccumState) : Outcome Value :=
  match f with
  | .sum_eval => .ok (sum_eval acc)
  | .avg_eval => .ok (avg_eval acc)
  | .count_eval => .ok (count_eval acc)
  | .best_eval => .ok (best_eval acc)
  | _ => .undefined

/-! ## Operators -/

/-- `strcmp`: the sign of the first difference, characters compared by code. -/
def strcmp : List Char → List Char → Int
  | [], [] => 0
  | [], _ :: _ => -1
  | _ :: _, [] => 1
  | a :: as, b :: bs => if a.toNat < b.toNat then -1 else if b.toNat < a.toNat then 1 else strcmp as bs

/-- The C truth value as a float: `(float)(cond)`. -/
def bool_num (b : Bool) : Value := make_num (if b then 1 else 0)

/-- The body of the loop of `eval_expr` for a relational operator `op` on the
non-error operands `v` and `v2`. -/
def rel_apply (op : TokenType) (v v2 : Value) : Value :=
  if v.isNull && v2.isNull then make_num 1
  else
    let cmp : Int :=
      match v, v2 with
      | .str a, .str b => strcmp a b
      | .str a, .text b => strcmp a b
      | .text a, .str b => strcmp a b
      | .text a, .text b => strcmp a b
      | .shared a, .str b => strcmp a b
      | .shared a, .text b => strcmp a b
      | .shared a, .shared b => strcmp a b
      | .str a, .shared b => strcmp a b
      | .text a, .shared b => strcmp a b
      | _, _ => if to_num v < to_num v2 then -1 else if to_num v > to_num v2 then 1 else 0
    match op with
    | tokEq => bool_num (decide (cmp = 0))
    | tokNe => bool_num (decide (cmp ≠ 0))
    | tokLt => bool_num (decide (cmp < 0))
    | tokLe => bool_num (decide (cmp ≤ 0))
    | tokGt => bool_num (decide (cmp > 0))
    | tokGe => bool_num (decide (cmp ≥ 0))
    | _ => v

/-- The text an operand of a concatenating `+` leaves in its buffer
`tmp[CELL_W]`: `strncpy` of a string-like operand, `sprintf("%g")` of a
number (a Null operand has an all-zero payload, the number 0). A text of
`CELL_W` or more characters leaves the buffer unterminated or overruns it. -/
def plus_text (v : Value) : Outcome (List Char) :=
  match v with
  | .str t => if t.length < CELL_W then .ok t else .undefined
  | .shared t => if t.length < CELL_W then .ok t else .undefined
  | .text t => if t.length < CELL_W then .ok t else .undefined
  | .num n => if (fmt_g n).length < CELL_W then .ok (fmt_g n) else .undefined
  | .null => .ok (fmt_g 0)
  | .error _ => .undefined

/-- The body of the loop of `eval_expr1` for `op` (`+` or `-`) on the
non-error operands `v` and `v2`; `snprintf` cuts the concatenation to
`sizeof(buf) - 1` characters. -/
def add_apply (op : TokenType) (v v2 : Value) : Outcome Value :=
  if op = tokPlus ∧ (is_str_value v ∨ is_str_value v2) then
    match plus_text v with
    | .ok t1 =>
      match plus_text v2 with
      | .ok t2 => .ok (make_str ((t1 ++ t2).take (CELL_W - 1)))
      | .outOfFuel => .outOfFuel
      | .undefined => .undefined
    | .outOfFuel => .outOfFuel
    | .undefined => .undefined
  else
    match op with
    | tokPlus => .ok (make_num (to_num v + to_num v2))
    | tokMinus => .ok (make_num (to_num v - to_num v2))
    | _ => .ok v

/-- The body of the loop of `eval_term` for `op` (`*`, `/` or `%`) on `v`
and the non-error operand `v2`. -/
def mul_apply (op : TokenType) (v v2 : Value) : Value :=
  match op with
  | tokMul => make_num (to_num v * to_num v2)
  | tokDiv => if to_num v2 = 0 then errExprDivZero else make_num (to_num v / to_num v2)
  | tokMod => if to_num v2 = 0 then errExprDivZero else make_num (fmodf (to_num v) (to_num v2))
  | _ => v

def is_relop (t : TokenType) : Bool :=
  t = tokEq || t = tokNe || t = tokLt || t = tokLe || t = tokGt || t = tokGe

/-! ## Expression evaluator

Each function takes the lexer's globals and returns them with its value. The
store is only read. -/

/-- The sign loop of `eval_factor`:
`while (tok_type == tokMinus || tok_type == tokPlus) { ...; get_token(); }`. -/
def eval_signs : Nat → Bool → Lexer → Outcome (Bool × Lexer)
  | 0, _, _ => .outOfFuel
  | fuel + 1, negative, lx =>
    if lx.tok_type = tokMinus then eval_signs fuel (!negative) (get_token lx)
    else if lx.tok_type = tokPlus then eval_signs fuel negative (get_token lx)
    else .ok (negative, lx)

/-- The end of `eval_factor`: `if (negative) { if (v.type == TYPE_NUM) v.num = -v.num; }`. -/
def apply_sign (negative : Bool) (v : Value) : Value :=
  match v with
  | .num n => if negative then .num (-n) else v
  | _ => v

/-- The range-function case of `eval_factor`, entered with the function name
as current token. -/
def eval_range_call (cells : List Cell) (lx0 : Lexer) : Outcome (Value × Lexer) :=
  let lx1 := get_token lx0
  let e1 := expect_token lx1 tokLParen
  if !e1.1 then .ok (errExprExpectLParen, e1.2)
  else
    let rg := parse_range e1.2.token
    let lx2 := get_token e1.2
    let e2 := expect_token lx2 tokRParen
    if !e2.1 then .ok (errExprExpectRParen, e2.2)
    else
      match e2.2.current_function with
      | none => .undefined
      | some f =>
        match
          process_range cells rg.1 rg.2.1 rg.2.2.1 rg.2.2.2 (AccumState.mk 0 0 0)
            (f.pfn_accum.map (fun g => call_accum g)) (some (call_range_eval f.pfn_eval))
        with
        | .ok r => .ok (r.2.2, e2.2)
        | .outOfFuel => .outOfFuel
        | .undefined => .undefined

mutual

/-- `eval_expr`: `expr1 { relop expr1 }`. -/
def eval_expr (L : Libc) (cells : List Cell) : Nat → Lexer → Outcome (Value × Lexer)
  | 0, _ => .outOfFuel
  | fuel + 1, lx =>
    match eval_expr1 L cells fuel lx with
    | .ok (v, lx1) => if v.isError then .ok (v, lx1) else eval_expr_loop L cells fuel v lx1
    | .outOfFuel => .outOfFuel
    | .undefined => .undefined

/-- The `while` loop of `eval_expr`, with `v` (and `res`) so far. -/
def eval_expr_loop (L : Libc) (cells : List Cell) : Nat → Value → Lexer → Outcome (Value × Lexer)
  | 0, _, _ => .outOfFuel
  | fuel + 1, v, lx =>
    if is_relop lx.tok_type then
      match eval_expr1 L cells fuel (get_token lx) with
      | .ok (v2, lx2) =>
        if v2.isError then .ok (v2, lx2)
        else if frees_cached v v2 then .undefined
        else eval_expr_loop L cells fuel (rel_apply lx.tok_type v v2) lx2
      | .outOfFuel => .outOfFuel
      | .undefined => .undefined
    else .ok (v, lx)

/-- `eval_expr1`: `term { (+|-) term }`. -/
def eval_expr1 (L : Libc) (cells : List Cell) : Nat → Lexer → Outcome (Value × Lexer)
  | 0, _ => .outOfFuel
  | fuel + 1, lx =>
    match eval_term L cells fuel lx with
    | .ok (v, lx1) => if v.isError then .ok (v, lx1) else eval_expr1_loop L cells fuel v lx1
    | .outOfFuel => .outOfFuel
    | .undefined => .undefined

/-- The `while` loop of `eval_expr1`, with `v` (and `res`) so far. -/
def eval_expr1_loop (L : Libc) (cells : List Cell) : Nat → Value → Lexer → Outcome (Value × Lexer)
  | 0, _, _ => .outOfFuel
  | fuel + 1, v, lx =>
    if lx.tok_type = tokPlus ∨ lx.tok_type = tokMinus then
      match eval_term L cells fuel (get_token lx) with
      | .ok (v2, lx2) =>
        if v2.isError then .ok (v2, lx2)
        else if frees_cached v v2 then .undefined
        else
          match add_apply lx.tok_type v v2 with
          | .ok res => eval_expr1_loop L cells fuel res lx2
          | .outOfFuel => .outOfFuel
          | .undefined => .undefined
      | .outOfFuel => .outOfFuel
      | .undefined => .undefined
    else .ok (v, lx)

/-- `eval_term`: `factor { (*|/|%) factor }`. -/
def eval_term (L : Libc) (cells : List Cell) : Nat → Lexer → Outcome (Value × Lexer)
  | 0, _ => .outOfFuel
  | fuel + 1, lx =>
    match eval_factor L cells fuel lx with
    | .ok (v, lx1) => if v.isError then .ok (v, lx1) else eval_term_loop L cells fuel v lx1
    | .outOfFuel => .outOfFuel
    | .undefined => .undefined

/-- The `while` loop of `eval_term`, with `v` (and `res`) so far. -/
def eval_term_loop (L : Libc) (cells : List Cell) : Nat → Value → Lexer → Outcome (Value × Lexer)
  | 0, _, _ => .outOfFuel
  | fuel + 1, v, lx =>
    if lx.tok_type = tokMul ∨ lx.tok_type = tokDiv ∨ lx.tok_type = tokMod then
      match eval_factor L cells fuel (get_token lx) with
      | .ok (v2, lx2) =>
        if v2.isError then .ok (v2, lx2)
        else if frees_cached v v2 then .undefined
        else eval_term_loop L cells fuel (mul_apply lx.tok_type v v2) lx2
      | .outOfFuel => .outOfFuel
      | .undefined => .undefined
    else .ok (v, lx)

/-- The argument loop of a scalar call, `while (arg_count < MAX_FUNC_ARGS)`:
returns the error to propagate (if an argument gave one), the arguments
stored, and the lexer. -/
def eval_args (L : Libc) (cells : List Cell) :
    Nat → List Value → Lexer → Outcome (Option Value × List Value × Lexer)
  | 0, _, _ => .outOfFuel
  | fuel + 1, args, lx =>
    if args.length < MAX_FUNC_ARGS then
      match eval_expr L cells fuel lx with
      | .ok (arg, lx1) =>
        if arg.isError then .ok (some arg, args, lx1)
        else if lx1.tok_type ≠ tokComma then .ok (none, args ++ [arg], lx1)
        else eval_args L cells fuel (args ++ [arg]) (get_token lx1)
      | .outOfFuel => .outOfFuel
      | .undefined => .undefined
    else .ok (none, args, lx)

/-- `eval_factor`: signs, then the `switch` on the token kind. -/
def eval_factor (L : Libc) (cells : List Cell) : Nat → Lexer → Outcome (Value × Lexer)
  | 0, _ => .outOfFuel
  | fuel + 1, lx0 =>
    match eval_signs (fuel + 1) false lx0 with
    | .outOfFuel => .outOfFuel
    | .undefined => .undefined
    | .ok (negative, lx) =>
      match lx.tok_type with
      | tokError => .ok (apply_sign negative errExprInvalid, lx)
      | tokLParen =>
        match eval_expr L cells fuel (get_token lx) with
        | .ok (v, lx1) =>
          if v.isError then .ok (apply_sign negative v, lx1)
          else
            let e := expect_token lx1 tokRParen
            if !e.1 then .ok (apply_sign negative errExprExpectRParen, e.2)
            else .ok (apply_sign negative v, e.2)
        | .outOfFuel => .outOfFuel
        | .undefined => .undefined
      | tokNumber => .ok (apply_sign negative (make_num (strtof lx.token).1), get_token lx)
      | tokCellRef =>
        let a := (parse_cellref lx.token).1
        match find_cell cells a.1 a.2 with
        | .ok (some c) => .ok (apply_sign negative c.cached.share, get_token lx)
        | .ok none => .ok (apply_sign negative .null, get_token lx)
        | .outOfFuel => .outOfFuel
        | .undefined => .undefined
      | tokRangeFunc =>
        match eval_range_call cells lx with
        | .ok (v, lx1) => .ok (apply_sign negative v, lx1)
        | .outOfFuel => .outOfFuel
        | .undefined => .undefined
      | tokScalarFunc =>
        let lx1 := get_token lx
        let local_function := lx1.current_function
        let e := expect_token lx1 tokLParen
        if !e.1 then .ok (apply_sign negative errExprExpectLParen, e.2)
        else
          match eval_args L cells fuel [] e.2 with
          | .ok (err, args, lx2) =>
            match local_function with
            | none => .undefined
            | some f =>
              if args.length < f.min_args ∨ args.length > f.max_args then
                .ok (apply_sign negative errInvalidArg, lx2)
              else
                match err with
                | some v => .ok (apply_sign negative v, lx2)
                | none =>
                  match call_scalar L f.pfn_eval args with
                  | .ok v =>
                    let e2 := expect_token lx2 tokRParen
                    if !e2.1 then .ok (apply_sign negative errExprExpectRParen, e2.2)
                    else .ok (apply_sign negative v, e2.2)
                  | .outOfFuel => .outOfFuel
                  | .undefined => .undefined
          | .outOfFuel => .outOfFuel
          | .undefined => .undefined
      | tokString => .ok (apply_sign negative (make_str lx.token), get_token lx)
      | _ => .ok (apply_sign negative errExprInvalid, lx)

end

/-- `parse_expr(e)`: points the lexer at `e`, reads the first token and
evaluates an expression. Text after the expression is not looked at. -/
def parse_expr (L : Libc) (cells : List Cell) (fuel : Nat) (lx : Lexer) (e : List Char) :
    Outcome (Value × Lexer) :=
  eval_expr L cells fuel (get_token (next_char { lx with expr := e }))

/-! ## Recompute engine -/

/-- Sets the cached value of the cell at `a`. -/
def set_cached (cells : List Cell) (a : Addr) (v : Value) : List Cell :=
  modify cells a (fun x => { x with cached := v })

/-- `c->flags |= FLG_VISITING` (for `true`) and `c->flags &= MSK_VISITING`. -/
def mark_visiting (cells : List Cell) (a : Addr) (b : Bool) : List Cell :=
  modify cells a (fun x => { x with flags := { x.flags with visiting := b } })

/-- `c->flags &= (MSK_DIRTY & MSK_VISITING)`. -/
def settle (cells : List Cell) (a : Addr) : List Cell :=
  modify cells a (fun x => { x with flags := { x.flags with dirty := false, visiting := false } })

/-- `eval_cell(c)`. -/
def eval_cell (L : Libc) : Nat → Sheet → Addr → Outcome Sheet
  | 0, _, _ => .outOfFuel
  | fuel + 1, s, a =>
    match lookup s.cells a with
    | none => .ok s
    | some c =>
      if !c.flags.dirty then .ok s
      else
        -- `free_val(&c->cached)`, then the three cases
        let own : Outcome Sheet :=
          if !c.flags.formula then
            match c.content with
            | some t =>
              let shown := if t.head? = some SQUOTE then t.tail else t
              .ok { s with cells := set_cached s.cells a (.text shown) }
            | none => .ok { s with cells := set_cached s.cells a .null }
          else if c.flags.visiting then
            .ok { s with cells := set_cached s.cells a errExprCyclicRef }
          else
            let s1 : Sheet := { s with cells := mark_visiting (set_cached s.cells a .null) a true }
            match Outcome.foldl (fun st d => eval_cell L fuel st d) s1 c.deps with
            | .ok s2 =>
              let s4 : Outcome Sheet :=
                match lookup s2.cells a with
                | none => .undefined
                | some c2 =>
                  if c2.flags.dirty then
                    match c2.content with
                    | none => .undefined
                    | some t =>
                      match parse_expr L s2.cells fuel s2.lex (t.drop 1) with
                      | .ok (v, lx) => .ok { cells := set_cached s2.cells a v.stored, lex := lx }
                      | .outOfFuel => .outOfFuel
                      | .undefined => .undefined
                  else .ok s2
              match s4 with
              | .ok s5 => .ok { s5 with cells := mark_visiting s5.cells a false }
              | .outOfFuel => .outOfFuel
              | .undefined => .undefined
            | .outOfFuel => .outOfFuel
            | .undefined => .undefined
        match own with
        | .ok s6 =>
          let s7 : Sheet := { s6 with cells := settle s6.cells a }
          match lookup s7.cells a with
          | none => .undefined
          | some c7 => Outcome.foldl (fun st d => eval_cell L fuel st d) s7 c7.revdeps
        | .outOfFuel => .outOfFuel
        | .undefined => .undefined

/-! ## Assignment -/

/-- `trim`: cuts trailing white space, then skips leading white space. -/
def trim (s : List Char) : List Char :=
  (s.reverse.dropWhile isspace).reverse.dropWhile isspace

/-- The loop of `set_cell` that rebuilds the dependencies of `p`:
`while (tok_type != tokEnd && tok_type != tokError) { ...; get_token(); }`. -/
def set_cell_deps : Nat → List Cell → Lexer → Addr → Outcome (List Cell × Lexer)
  | 0, _, _, _ => .outOfFuel
  | fuel + 1, cells, lx, p =>
    if lx.tok_type = tokEnd ∨ lx.tok_type = tokError then .ok (cells, lx)
    else if lx.tok_type = tokCellRef then
      let a := (parse_cellref lx.token).1
      match find_cell cells a.1 a.2 with
      | .ok (some _) => set_cell_deps fuel (add_dep cells p a) (get_token lx) p
      | .ok none =>
        match new_cell cells a.1 a.2 with
        | .ok cs => set_cell_deps fuel (add_dep cs p a) (get_token lx) p
        | .outOfFuel => .outOfFuel
        | .undefined => .undefined
      | .outOfFuel => .outOfFuel
      | .undefined => .undefined
    else if lx.tok_type = tokRange then
      let rg := parse_range lx.token
      match process_range cells rg.1 rg.2.1 rg.2.2.1 rg.2.2.2 p (some set_range_dep) none with
      | .ok r => set_cell_deps fuel r.1 (get_token lx) p
      | .outOfFuel => .outOfFuel
      | .undefined => .undefined
    else set_cell_deps fuel cells (get_token lx) p

/-- The label `reevaluate:` of `set_cell`: `propagate_dirty(p); eval_cell(p);`. -/
def reevaluate (L : Libc) (fuel : Nat) (s : Sheet) (p : Addr) : Outcome Sheet :=
  match propagate_dirty fuel s.cells p with
  | .ok cs => eval_cell L fuel { s with cells := cs } p
  | .outOfFuel => .outOfFuel
  | .undefined => .undefined

/-- The branch `if (!txt || !*txt)` of `set_cell`: the cached value is freed,
the content and the flags are cleared, the dependencies removed. -/
def clear_cell (cells : List Cell) (p : Addr) : List Cell :=
  remove_deps (modify cells p
    (fun x => { x with cached := .null, content := none, flags := Flags.zero })) p

/-- The block "detect formula vs numeric vs string" of `set_cell` on the trimmed,
non-empty text: whether `FLG_FORMULA` is set (a leading `=`, or a text that
`strtof` reads to its end) or cleared. -/
def is_formula_text (txt : List Char) : Bool :=
  if txt.head? = some '=' then true
  else if txt.head? = some SQUOTE then false
  else decide ((strtof txt).2 = [])

/-- The content that block stores: the text, with `=` put before a pure number. -/
def stored_content (txt : List Char) : List Char :=
  if txt.head? = some '=' then txt
  else if txt.head? = some SQUOTE then txt
  else if (strtof txt).2 = [] then '=' :: txt
  else txt

/-- The writes of that block to the cell `p`. -/
def store_text (cells : List Cell) (p : Addr) (txt : List Char) : List Cell :=
  modify cells p (fun x =>
    { x with content := some (stored_content txt),
             flags := { x.flags with formula := is_formula_text txt } })

/-- The part of `set_cell` after the cell `p` is in the store and the change
test has passed: classification of the text, the dependencies, recomputation. -/
def set_cell_body (L : Libc) (fuel : Nat) (s : Sheet) (p : Addr) (text : Option (List Char)) :
    Outcome Sheet :=
  let txt := text.map trim
  match txt with
  | none => reevaluate L fuel { s with cells := clear_cell s.cells p } p
  | some [] => reevaluate L fuel { s with cells := clear_cell s.cells p } p
  | some (c :: t) =>
    let cells1 := remove_deps (store_text s.cells p (c :: t)) p
    if is_formula_text (c :: t) then
      match set_cell_deps fuel cells1
          (get_token (next_char { s.lex with expr := (stored_content (c :: t)).drop 1 })) p with
      | .ok (cells2, lx) => reevaluate L fuel { cells := cells2, lex := lx } p
      | .outOfFuel => .outOfFuel
      | .undefined => .undefined
    else reevaluate L fuel { s with cells := cells1 } p

/-- `set_cell(c, r, s)`; a null `s` is `none`. -/
def set_cell (L : Libc) (fuel : Nat) (s : Sheet) (c r : Int) (text : Option (List Char)) :
    Outcome Sheet :=
  match find_cell s.cells c r with
  | .outOfFuel => .outOfFuel
  | .undefined => .undefined
  | .ok none =>
    if text = none ∨ text = some [] then .ok s
    else
      match new_cell s.cells c r with
      | .ok cs => set_cell_body L fuel { s with cells := cs } (c, r) text
      | .outOfFuel => .outOfFuel
      | .undefined => .undefined
  | .ok (some x) =>
    if x.content.isSome ∧ x.content = text then .ok s
    else set_cell_body L fuel s (c, r) text

/-! ## Notions used by the statements -/

/-- The pair `ch`, `expr` of a lexer that stands at the start of the text `l`. -/
def feed (l : List Char) : Char × List Char :=
  match l with
  | [] => (NUL, [])
  | c :: r => (c, r)

/-- The store with a blank cell added at `a` when it has none there: what
`find_cell` followed by `new_cell` on a miss leaves. -/
def ensure (cells : List Cell) (a : Addr) : List Cell :=
  match lookup cells a with
  | some _ => cells
  | none => Cell.blank a.1 a.2 :: cells

/-- The cached value of the cell at `a`, Null when the store has no cell there:
what a reference to `a` reads. -/
def cached_at (cells : List Cell) (a : Addr) : Value :=
  match lookup cells a with
  | some x => x.cached
  | none => .null

/-- The value a run of the evaluator returns, without the lexer. -/
def result_value (o : Outcome (Value × Lexer)) : Outcome Value :=
  match o with
  | .ok r => .ok r.1
  | .outOfFuel => .outOfFuel
  | .undefined => .undefined

/-- A library to run the embedding on concrete inputs: `itoa` writes the digits
of a non-negative number, the functions of `<math.h>` are stand-ins. -/
def Libc.sample : Libc :=
  ⟨id, id, id, id, id, id, id, id, id, id, id, fun n radix => Nat.toDigits radix n.toNat⟩

/-- A string literal of the formula language: the text between double quotes. -/
def quoted (t : List Char) : List Char := DQUOTE :: t ++ [DQUOTE]

/-- Runs `set_cell` on each (column, row, text) in turn. -/
def set_cells (L : Libc) (fuel : Nat) (s : Sheet) (ops : List (Int × Int × List Char)) :
    Outcome Sheet :=
  Outcome.foldl (fun st op => set_cell L fuel st op.1 op.2.1 (some op.2.2)) s ops

/-- The outgoing edges of the cell at `a` (none when the store has no cell there). -/
def deps_of (cells : List Cell) (a : Addr) : List Addr :=
  match lookup cells a with
  | some x => x.deps
  | none => []

/-- The incoming edges of the cell at `a` (none when the store has no cell there). -/
def revdeps_of (cells : List Cell) (a : Addr) : List Addr :=
  match lookup cells a with
  | some x => x.revdeps
  | none => []

/-- Edge mirroring: `y` occurs in the outgoing list of `x` as often as `x`
occurs in the incoming list of `y`. -/
def Mirrored (cells : List Cell) : Prop :=
  ∀ x y : Addr, (deps_of cells x).count y = (revdeps_of cells y).count x

/-- The states the program can be in: the empty sheet, and every state a
returning `set_cell` call leaves from such a state. -/
inductive Reachable (L : Libc) : Sheet → Prop where
  | empty : Reachable L Sheet.empty
  | step (s s1 : Sheet) (fuel : Nat) (c r : Int) (text : Option (List Char)) :
      Reachable L s → set_cell L fuel s c r text = .ok s1 → Reachable L s1

/-- What the graph operations look at in a cell: its address, its two edge
lists and the placeholder flag. -/
def Cell.frame (x : Cell) : Int × Int × List Addr × List Addr × Bool :=
  (x.col, x.row, x.deps, x.revdeps, x.flags.empty)

/-- The store reduced to the frames of its cells. -/
def skeleton (cells : List Cell) : List (Int × Int × List Addr × List Addr × Bool) :=
  cells.map Cell.frame

/-- No cell of the store carries the placeholder flag `FLG_EMPTY`. -/
def NoEmpty (cells : List Cell) : Prop :=
  ∀ a x, lookup cells a = some x → x.flags.empty = false

/-- What the graph operations of `set_cell` keep: the edges are mirrored, no
cell carries the placeholder flag, and the edited cell is in the store. -/
def GraphInv (cells : List Cell) (p : Addr) : Prop :=
  Mirrored cells ∧ NoEmpty cells ∧ (lookup cells p).isSome = true

/-- The result of a run that returned, `d` otherwise. -/
def Outcome.get_or {α : Type} (o : Outcome α) (d : α) : α :=
  match o with
  | .ok a => a
  | _ => d

/-- The cached value of the cell at `a` after a run that returned. -/
def cached_after (o : Outcome Sheet) (a : Addr) : Outcome Value :=
  match o with
  | .ok s => .ok (cached_at s.cells a)
  | .outOfFuel => .outOfFuel
  | .undefined => .undefined

/-- The value of the formula text `e` against the sheet a run left. -/
def formula_after (L : Libc) (fuel : Nat) (o : Outcome Sheet) (e : List Char) : Outcome Value :=
  match o with
  | .ok s => result_value (parse_expr L s.cells fuel s.lex e)
  | .outOfFuel => .outOfFuel
  | .undefined => .undefined

/-- The four edits `A1 := 1`, `B1 := "=A1"`, `C1 := "=A1+B1"`, `A1 := 2`. -/
def diamond_edits : List (Int × Int × List Char) :=
  [(0, 0, "1".toList), (1, 0, "=A1".toList), (2, 0, "=A1+B1".toList), (0, 0, "2".toList)]

/-- The text `B+C` for two cell names. -/
def sum_text (cb rb cc rc : Nat) : List Char := cell_name cb rb ++ '+' :: cell_name cc rc

/-- The cell at `a` holds the cached value `v` and is not dirty; an address
without a cell counts as holding Null. -/
def clean_value (cells : List Cell) (a : Addr) (v : Value) : Prop :=
  match lookup cells a with
  | some x => x.cached = v ∧ x.flags.dirty = false
  | none => v = .null

/-- Every incoming edge of `p` comes from `p` itself: no other cell reads `p`. -/
def OnlySelf (cells : List Cell) (p : Addr) : Prop :=
  ∀ z ∈ revdeps_of cells p, z = p

/-- What `set_cell` on `p` keeps when no other cell reads `p`, for a cell `A`
other than `p`. -/
def Unread (cells : List Cell) (p A : Addr) (v : Value) : Prop :=
  GraphInv cells p ∧ clean_value cells A v ∧ OnlySelf cells p

/-- The cell `y` is the cell `x` with, at most, the dirty flag set in addition. -/
def Cell.dirtied (x y : Cell) : Prop :=
  y = { x with flags := { x.flags with dirty := y.flags.dirty } } ∧
  (x.flags.dirty = true → y.flags.dirty = true)

/-- The lexer at the first token of the text `e`, as `parse_expr` sets it up
from the globals at program start. -/
def lexer_at (e : List Char) : Lexer := get_token (next_char { Lexer.init with expr := e })

/-- The value of the formula text `e` against the store `cells`. -/
def value_of (L : Libc) (cells : List Cell) (fuel : Nat) (e : List Char) : Outcome Value :=
  result_value (parse_expr L cells fuel Lexer.init e)

/-- The text of a string-like value (empty for the other values). -/
def text_of : Value → List Char
  | .str t => t
  | .shared t => t
  | .text t => t
  | _ => []

/-- Lexicographic order of two texts by character code: the first text is a
proper prefix of the second, or they differ first at a place where the first
has the smaller code. -/
def lex_lt (a b : List Char) : Bool :=
  decide (List.Lex (fun x y : Nat => x < y) (a.map Char.toNat) (b.map Char.toNat))

/-- What the spec says a relational operator decides: two string-like operands
are compared as texts in lexicographic order, any other pair as numbers after
coercion. -/
def rel_holds (op : TokenType) (v v2 : Value) : Bool :=
  if is_str_value v && is_str_value v2 then
    match op with
    | tokEq => decide (text_of v = text_of v2)
    | tokNe => decide (text_of v ≠ text_of v2)
    | tokLt => lex_lt (text_of v) (text_of v2)
    | tokLe => !lex_lt (text_of v2) (text_of v)
    | tokGt => lex_lt (text_of v2) (text_of v)
    | tokGe => !lex_lt (text_of v) (text_of v2)
    | _ => false
  else
    match op with
    | tokEq => decide (to_num v = to_num v2)
    | tokNe => decide (to_num v ≠ to_num v2)
    | tokLt => decide (to_num v < to_num v2)
    | tokLe => decide (to_num v ≤ to_num v2)
    | tokGt => decide (to_num v > to_num v2)
    | tokGe => decide (to_num v ≥ to_num v2)
    | _ => false

/-- The lexer after the sign tokens `signs` (`true` for `-`, `false` for `+`),
when the tokens at `lx` are these signs followed by a token that is no sign. -/
def after_signs : List Bool → Lexer → Option Lexer
  | [], lx => if lx.tok_type = tokMinus ∨ lx.tok_type = tokPlus then none else some lx
  | b :: bs, lx =>
    if lx.tok_type = (if b then tokMinus else tokPlus) then after_signs bs (get_token lx)
    else none

/-- What the spec says `m` minus signs make of a value: a Number is negated
when `m` is odd, any other value is left as it is. -/
def signed (m : Nat) (v : Value) : Value :=
  match v with
  | .num x => if m % 2 = 0 then .num x else .num (-x)
  | _ => v

/-- The text `X:Y` of a range with the corner cells `X` and `Y`. -/
def range_text (c1 r1 c2 r2 : Nat) : List Char := cell_name c1 r1 ++ ':' :: cell_name c2 r2

/-- The text `NAME(X:Y)` of a call of a range function. -/
def call_text (name : List Char) (c1 r1 c2 r2 : Nat) : List Char :=
  name ++ ('(' :: (range_text c1 r1 c2 r2 ++ [')']))

/-- The addresses of the rectangular block whose corners are the cells
`(c1, r1)` and `(c2, r2)`, given in any order: column by column, each column
from the top row down. -/
def block (c1 r1 c2 r2 : Nat) : List Addr :=
  (int_range ((min c1 c2 : Nat) : Int) ((max c1 c2 : Nat) : Int)).flatMap
    (fun cc => (int_range ((min r1 r2 : Nat) : Int) ((max r1 r2 : Nat) : Int)).map
      (fun rr => (cc, rr)))

/-- The cached values that are Numbers, over a list of addresses. -/
def numbers_in (cells : List Cell) (blk : List Addr) : List ℚ :=
  blk.filterMap (fun a => match cached_at cells a with | .num n => some n | _ => none)

/-- A cached value that `COUNT` counts: a Number, or a String or Text that is
not empty. -/
def counted : Value → Bool
  | .num _ => true
  | .str s => decide (s ≠ [])
  | .shared s => decide (s ≠ [])
  | .text s => decide (s ≠ [])
  | _ => false

/-- The state of the accumulator after `process_range` went over a list of
addresses of the store. -/
def accumulated (step : AccumState → Cell → AccumState) (cells : List Cell) (blk : List Addr) :
    AccumState :=
  blk.foldl (fun acc a => step acc (range_cell (lookup cells a) a)) ⟨0, 0, 0⟩

/-- The edits `A1 := 4`, `A2 := 6`: two numbers above the empty cell A3. -/
def two_numbers : List (Int × Int × List Char) :=
  [(0, 0, "4".toList), (0, 1, "6".toList)]

/-- The edits `A1 := 4`, `A2 := x`, `A3 := "=1/0"`, `A4 := "="""`, `B1 := "=0-3"`,
`B2 := "=0-1"`: column A holds a Number, a Text, an Error and an empty String
above the empty cell A5, column B two negative Numbers. -/
def mixed_cells : List (Int × Int × List Char) :=
  [(0, 0, "4".toList), (0, 1, "x".toList), (0, 2, "=1/0".toList), (0, 3, '=' :: quoted []),
    (1, 0, "=0-3".toList), (1, 1, "=0-1".toList)]

/-- The carriage return `\r`. -/
def CR : Char := Char.ofNat 13

/-- The line feed `\n`. -/
def LF : Char := Char.ofNat 10

/-- The text `printf("%d")` writes for an integer. -/
def int_text (n : Int) : List Char :=
  if n < 0 then '-' :: nat_text n.natAbs else nat_text n.natAbs

/-- Capacity of `char ln[80]` without its terminator: `sizeof(ln) - 1`. -/
def LN_MAX : Nat := 79

/-- The text `sprintf(ln, "%c%d:%s\r\n", 'A' + c->col, c->row + 1, c->content)`
puts into `ln`; a text that does not fit into `ln` with its terminator
overruns the buffer. -/
def save_line (c : Cell) (content : List Char) : Outcome (List Char) :=
  let line := Char.ofNat ((65 + c.col) % 256).toNat :: int_text (c.row + 1) ++ ':' :: content
    ++ [CR, LF]
  if line.length ≤ LN_MAX then .ok line else .undefined

/-- The bytes `do_save` writes: bucket after bucket of `hash_table`, each chain
from its head (the newest cell), one line per cell with non-empty content.
File errors are outside the embedding. -/
def do_save (cells : List Cell) : Outcome (List Char) :=
  Outcome.foldl
    (fun (out : List Char) (c : Cell) =>
      match c.content with
      | some (ch :: t) =>
        match save_line c (ch :: t) with
        | .ok line => .ok (out ++ line)
        | .outOfFuel => .outOfFuel
        | .undefined => .undefined
      | _ => .ok out)
    []
    ((List.range CELL_TBL_SIZE.toNat).flatMap
      (fun i => cells.filter (fun c => decide (bucket_int INT_BITS c.col c.row = (i : Int)))))

/-- `sscanf(p, "%c%d:%s", &col_ref, &row, ln)` when it converts all three
items: any first character, then (after white space) a decimal integer with an
optional sign, then a colon, then (after white space) the characters up to
the next white space, at least one. The call writes the third item into the
buffer it reads from; the embedding takes the result of a scan that reads
each character before it is overwritten. -/
def scan_line (p : List Char) : Option (Char × Int × List Char) :=
  match p with
  | [] => none
  | c :: rest =>
    let s1 := rest.dropWhile isspace
    let neg := decide (s1.head? = some '-')
    let s2 := if s1.head? = some '-' ∨ s1.head? = some '+' then s1.tail else s1
    let ds := s2.span isdigit
    if ds.1.isEmpty then none
    else
      match ds.2 with
      | d :: r3 =>
        if d = ':' then
          let w := (r3.dropWhile isspace).takeWhile (fun x => !isspace x)
          if w.isEmpty then none
          else some (c, (if neg then -(digits_val 0 ds.1 : Int) else (digits_val 0 ds.1 : Int)), w)
        else none
      | [] => none

/-- What `do_load` does with a complete line: `set_cell` for a line of the
form of `do_save` that names a cell of the grid. -/
def load_line (L : Libc) (fuel : Nat) (s : Sheet) (line : List Char) : Outcome Sheet :=
  match scan_line line with
  | some (col_ref, row1, content) =>
    let col : Int := (col_ref.toNat : Int) - 65
    let row : Int := row1 - 1
    if 0 ≤ col ∧ col < (MAX_COLS : Int) ∧ 0 ≤ row ∧ row < (MAX_ROWS : Int) then
      set_cell L fuel s col row (some content)
    else .ok s
  | none => .ok s

/-- The loop of `do_load` over the bytes read: `\n` is skipped, `\r` ends a
line (an empty one is ignored), any other byte is stored while `ln` has room.
The state is the sheet and the line collected so far. -/
def do_load_bytes (L : Libc) (fuel : Nat) (s : Sheet) (bytes : List Char) :
    Outcome (Sheet × List Char) :=
  Outcome.foldl
    (fun (st : Sheet × List Char) (b : Char) =>
      if b = LF then .ok st
      else if b = CR then
        if st.2.length > 0 then
          match load_line L fuel st.1 st.2 with
          | .ok s1 => .ok (s1, [])
          | .outOfFuel => .outOfFuel
          | .undefined => .undefined
        else .ok st
      else if st.2.length < LN_MAX then .ok (st.1, st.2 ++ [b])
      else .ok st)
    (s, []) bytes

/-- `do_load` on a file with the given bytes: the sheet it leaves. -/
def do_load (L : Libc) (fuel : Nat) (s : Sheet) (bytes : List Char) : Outcome Sheet :=
  match do_load_bytes L fuel s bytes with
  | .ok st => .ok st.1
  | .outOfFuel => .outOfFuel
  | .undefined => .undefined

/-- Saves the sheet a run left and loads the bytes into the empty sheet. -/
def round_trip (L : Libc) (fuel : Nat) (o : Outcome Sheet) : Outcome Sheet :=
  match o with
  | .ok s =>
    match do_save s.cells with
    | .ok bytes => do_load L fuel Sheet.empty bytes
    | .outOfFuel => .outOfFuel
    | .undefined => .undefined
  | .outOfFuel => .outOfFuel
  | .undefined => .undefined

/-- The raw content of the cell at `a` after a run that returned. -/
def content_after (o : Outcome Sheet) (a : Addr) : Outcome (Option (List Char)) :=
  match o with
  | .ok s => .ok ((lookup s.cells a).bind (fun x => x.content))
  | .outOfFuel => .outOfFuel
  | .undefined => .undefined

/-- The edits `A1 := "a b"`, `B2 := "=1 + 2"`: a text and a formula with spaces. -/
def spaced_edits : List (Int × Int × List Char) :=
  [(0, 0, "a b".toList), (1, 1, "=1 + 2".toList)]

/-- The edits `D1 := 1`, `B1 := "=D1"`, `C1 := "=D1+B1"`: no text with a space. -/
def forward_edits : List (Int × Int × List Char) :=
  [(3, 0, "1".toList), (1, 0, "=D1".toList), (2, 0, "=D1+B1".toList)]

/-- The bytes `do_save` writes for the sheet a run left. -/
def saved_after (o : Outcome Sheet) : Outcome (List Char) :=
  match o with
  | .ok s => do_save s.cells
  | .outOfFuel => .outOfFuel
  | .undefined => .undefined

/-- What recomputation never writes in a cell: its address and its raw content. -/
def Cell.still (x : Cell) : Int × Int × Option (List Char) := (x.col, x.row, x.content)

/-- The store reduced to the addresses and raw contents of its cells. -/
def stills (cells : List Cell) : List (Int × Int × Option (List Char)) :=
  cells.map Cell.still

/-- The raw content of the cell at `a`; none when the store has no cell there
or the cell has no content. -/
def content_at (cells : List Cell) (a : Addr) : Option (List Char) :=
  (lookup cells a).bind (fun x => x.content)

/-- The store after `set_cell` has linked the edited cell `p` to the address
`a`: the cell at `a` is created when it is missing, then `add_dep(p, a)`. -/
def link (cells : List Cell) (p a : Addr) : List Cell := add_dep (ensure cells a) p a

/-- The addresses one token of a formula makes the edited cell depend on: the
cell of a cell-reference token, every address of the block of a range token
(column by column, as `process_range` visits it), none for any other token. -/
def token_refs (lx : Lexer) : List Addr :=
  if lx.tok_type = tokCellRef then [(parse_cellref lx.token).1]
  else if lx.tok_type = tokRange then
    (int_range (parse_range lx.token).1 (parse_range lx.token).2.2.1).flatMap
      (fun cc => (int_range (parse_range lx.token).2.1 (parse_range lx.token).2.2.2).map
        (fun rr => (cc, rr)))
  else []

/-- The addresses the tokens of a formula name, token after token from the
lexer `lx` up to the end of the text or the first lexical error; `n` bounds
the number of tokens read. -/
def formula_refs : Nat → Lexer → List Addr
  | 0, _ => []
  | n + 1, lx =>
    if lx.tok_type = tokEnd ∨ lx.tok_type = tokError then []
    else token_refs lx ++ formula_refs n (get_token lx)

/-- Two lexers that stand at the same place of the same text. -/
def same_input (lx lx1 : Lexer) : Prop := lx.ch = lx1.ch ∧ lx.expr = lx1.expr

/-- Two lexers with the same kind of current token at the same place, and the
same token text when the token is a cell reference or a range. -/
def same_token (lx lx1 : Lexer) : Prop :=
  same_input lx lx1 ∧ lx.tok_type = lx1.tok_type ∧
  (lx.tok_type = tokCellRef ∨ lx.tok_type = tokRange → lx.token = lx1.token)

/-- The addresses the tokens of the formula text `body` name, in the order of
the tokens, up to the end of the text or the first lexical error: the cell of
each cell-reference token and every address of the block of each range token;
`n` bounds the number of tokens read. -/
def refs_of (n : Nat) (body : List Char) : List Addr := formula_refs n (lexer_at body)

/-- The outgoing edges of the cell at `a` after a run that returned. -/
def deps_after (o : Outcome Sheet) (a : Addr) : Outcome (List Addr) :=
  match o with
  | .ok s => .ok (deps_of s.cells a)
  | .outOfFuel => .outOfFuel
  | .undefined => .undefined

/-- The edits `A1 := "=SUM(B1:B3)"`, `B2 := 5`: a number into an empty cell of
the range. -/
def range_edits : List (Int × Int × List Char) :=
  [(0, 0, "=SUM(B1:B3)".toList), (1, 1, "5".toList)]

/-- The edits `B1 := "=B2"`, `A1 := "=SUM(B1:B2)"`, `B2 := 5`: a number into an
empty cell of the range that another cell of the range reads. -/
def range_diamond_edits : List (Int × Int × List Char) :=
  [(1, 0, "=B2".toList), (0, 0, "=SUM(B1:B2)".toList), (1, 1, "5".toList)]

/-- The content, the cached value, the outgoing edges and the formula flag of
the cell A1 after `set_cell(A1, text)` on the empty sheet. -/
def after_text (fuel : Nat) (text : List Char) :
    Outcome (Option (List Char) × Value × List Addr × Bool) :=
  match set_cell Libc.sample fuel Sheet.empty 0 0 (some text) with
  | .ok s =>
    .ok (content_at s.cells (0, 0), cached_at s.cells (0, 0), deps_of s.cells (0, 0),
      match lookup s.cells (0, 0) with
      | some x => x.flags.formula
      | none => false)
  | .outOfFuel => .outOfFuel
  | .undefined => .undefined

/-- The arguments of a call as the lexer meets them: from `lx`, each
expression of the list evaluates (with fuel `f`) to its value, which is not an
error, and leaves its lexer; a comma follows every argument but the last. -/
def args_read (L : Libc) (cells : List Cell) (f : Nat) : Lexer → List (Value × Lexer) → Bool
  | _, [] => false
  | lx, [a] =>
    decide (eval_expr L cells f lx = .ok a) && !a.1.isError && decide (a.2.tok_type ≠ tokComma)
  | lx, a :: b :: r =>
    decide (eval_expr L cells f lx = .ok a) && !a.1.isError && decide (a.2.tok_type = tokComma)
      && args_read L cells f (get_token a.2) (b :: r)

/-- The lexer stands at the name of the scalar function `f`, and `(` follows. -/
def at_call (lx : Lexer) (f : Function) : Bool :=
  decide (lx.tok_type = tokScalarFunc) && decide ((get_token lx).tok_type = tokLParen)
    && decide ((get_token lx).current_function = some f)

/-- The lexer after the last argument of a list. -/
def last_lexer (lx : Lexer) (l : List (Value × Lexer)) : Lexer :=
  match l.getLast? with
  | some a => a.2
  | none => lx

/-- The entry of `SIN` in the function table. -/
def fn_SIN : Function := ⟨"SIN".toList, none, .sin_eval, tokScalarFunc, 1, 1⟩

/-- The entry of `IF` in the function table. -/
def fn_IF : Function := ⟨"IF".toList, none, .if_eval, tokScalarFunc, 3, 3⟩

/-- The text of a list of binary digits, most significant first. -/
def bits_text (bs : List Bool) : List Char := bs.map (fun b => if b then '1' else '0')

/-- The number a list of binary digits denotes, added to `n` shifted. -/
def bits_val (n : Nat) (bs : List Bool) : Nat :=
  bs.foldl (fun m b => m * 2 + (if b then 1 else 0)) n

/-- The cell `y` is the cell `x` with, at most, other incoming edges. -/
def Cell.rewired (x y : Cell) : Prop := y = { x with revdeps := y.revdeps }

/-- The loop `while (isdigit(*s)) { n = n * 10 + (*s - '0'); ++s; }` of
`is_cellref` with `n` an `int` of `w` bits. C leaves signed overflow undefined;
the value kept here is the one of arithmetic modulo `2 ^ w`. -/
def cellref_num_int (w : Nat) : Int → List Char → Int × List Char
  | n, [] => (n, [])
  | n, c :: rest =>
    if isdigit c then cellref_num_int w (wrap_int w (n * 10 + ((c.toNat - 48 : Nat) : Int))) rest
    else (n, c :: rest)

/-- `is_cellref` with `int n` of `w` bits. -/
def is_cellref_int (w : Nat) (s : List Char) : Bool :=
  match s with
  | [] => false
  | c :: s1 =>
    if !isalpha c then false
    else
      match s1 with
      | [] => false
      | d :: _ =>
        if !isdigit d then false
        else
          let r := cellref_num_int w 0 s1
          if r.1 < 1 || r.1 > (MAX_ROWS : Int) then false
          else r.2.isEmpty

/-- The identifier branch of `get_token` with `is_cellref_int w` for `is_cellref`. -/
def get_token_ident_int (w : Nat) (lx : Lexer) : Lexer :=
  let r := scan_alnum [] lx.ch lx.expr
  let lx1 : Lexer := { lx with tok_type := tokNone, token := r.1, ch := r.2.1, expr := r.2.2 }
  if is_cellref_int w r.1 then
    if lx1.ch = ':' then
      let r2 := scan_alnum (r.1 ++ [':']) (next_char lx1).ch (next_char lx1).expr
      let lx2 : Lexer := { lx1 with token := r2.1, ch := r2.2.1, expr := r2.2.2 }
      if !is_cellref_int w (r2.1.drop (r.1.length + 1)) then { lx2 with tok_type := tokError }
      else { lx2 with tok_type := tokRange }
    else { lx1 with tok_type := tokCellRef }
  else
    match find_function r.1 with
    | some f => { lx1 with tok_type := f.tok_type, current_function := some f }
    | none => { lx1 with tok_type := tokError }

/-- The function `get_token` with `int` of `w` bits: the identifier branch is the
only one that computes with an `int` that the input can make large. -/
def get_token_int (w : Nat) (lx0 : Lexer) : Lexer :=
  let sp := skip_space lx0.ch lx0.expr
  let lx : Lexer := { lx0 with tok_type := tokNone, ch := sp.1, expr := sp.2 }
  if lx.ch = NUL then get_token lx0
  else if isalpha lx.ch then get_token_ident_int w lx
  else get_token lx0

/-- The names of the range functions. -/
def range_names : List (List Char) :=
  ["SUM".toList, "AVG".toList, "COUNT".toList, "MAX".toList, "MIN".toList]

/-- Whether the cell at `a` carries `FLG_DIRTY`; false without a cell. -/
def dirty_at (cells : List Cell) (a : Addr) : Bool :=
  match lookup cells a with
  | some x => x.flags.dirty
  | none => false

/-- The address `b` is reached from `a` by following incoming edges ("read
by") zero or more times. -/
def ReadBy (cells : List Cell) (a b : Addr) : Prop :=
  Relation.ReflTransGen (fun x y => y ∈ revdeps_of cells x) a b

/-- The number of cells of the store that are not dirty. -/
def clean_count (cells : List Cell) : Nat :=
  (cells.filter (fun x => !x.flags.dirty)).length

/-- Every incoming edge of the store comes from a cell of the store. -/
def RevClosed (cells : List Cell) : Prop :=
  ∀ a, ∀ d ∈ revdeps_of cells a, (lookup cells d).isSome = true

/-- The number of characters of the text that the lexer has not passed: the
current character, unless it is the terminator, and those after it. -/
def rem2 (ch : Char) (expr : List Char) : Nat := if ch = NUL then 0 else expr.length + 1

/-- The measure of the evaluator: the characters not passed, and one for a
current token other than the end and the error token. -/
def lex_left (lx : Lexer) : Nat :=
  rem2 lx.ch lx.expr + (if lx.tok_type = tokEnd ∨ lx.tok_type = tokError then 0 else 1)

/-- The run did not stop for lack of fuel, and a result it returned has the
property `P`. -/
def Outcome.ends {α : Type} (o : Outcome α) (P : α → Prop) : Prop :=
  match o with
  | .ok a => P a
  | .undefined => True
  | .outOfFuel => False

/-- The weight of a cell in the measure of `eval_cell`: 2 for a dirty cell that
is not being visited, 1 for a dirty cell that is, 0 for a cell that is not
dirty. -/
def Cell.weight (x : Cell) : Nat :=
  if x.flags.dirty then (if x.flags.visiting then 1 else 2) else 0

/-- The measure of `eval_cell`: the weights of the cells of the store. -/
def todo_count (cells : List Cell) : Nat := (cells.map Cell.weight).sum

/-- The weights of the cells of the store that are not at `a`. -/
def todo_off (a : Addr) (cells : List Cell) : Nat :=
  (cells.map (fun x => if x.isAt a then 0 else x.weight)).sum

/-- The lengths of the contents of the store. -/
def text_bound (cells : List Cell) : Nat :=
  ((stills cells).map (fun t => match t.2.2 with
    | some c => c.length
    | none => 0)).sum

/-- The part of `eval_cell(c)` between the test of the dirty flag and the
clearing of the flags, for the dirty cell `c` found at `a`. -/
def eval_own (L : Libc) (fuel : Nat) (s : Sheet) (a : Addr) (c : Cell) : Outcome Sheet :=
  if !c.flags.formula then
    match c.content with
    | some t =>
      let shown := if t.head? = some SQUOTE then t.tail else t
      .ok { s with cells := set_cached s.cells a (.text shown) }
    | none => .ok { s with cells := set_cached s.cells a .null }
  else if c.flags.visiting then
    .ok { s with cells := set_cached s.cells a errExprCyclicRef }
  else
    let s1 : Sheet := { s with cells := mark_visiting (set_cached s.cells a .null) a true }
    match Outcome.foldl (fun st d => eval_cell L fuel st d) s1 c.deps with
    | .ok s2 =>
      let s4 : Outcome Sheet :=
        match lookup s2.cells a with
        | none => .undefined
        | some c2 =>
          if c2.flags.dirty then
            match c2.content with
            | none => .undefined
            | some t =>
              match parse_expr L s2.cells fuel s2.lex (t.drop 1) with
              | .ok (v, lx) => .ok { cells := set_cached s2.cells a v.stored, lex := lx }
              | .outOfFuel => .outOfFuel
              | .undefined => .undefined
          else .ok s2
      match s4 with
      | .ok s5 => .ok { s5 with cells := mark_visiting s5.cells a false }
      | .outOfFuel => .outOfFuel
      | .undefined => .undefined
    | .outOfFuel => .outOfFuel
    | .undefined => .undefined

/-- Three edits after which A1 reads C1, B1 reads A1 and C1 reads B1: a cycle
of length three. -/
def cycle_edits : List (Int × Int × List Char) :=
  [(0, 0, "=C1+1".toList), (1, 0, "=A1+1".toList), (2, 0, "=B1+1".toList)]

/-- Whether the cell at `a` carries `FLG_VISITING`; false without a cell. -/
def visiting_at (cells : List Cell) (a : Addr) : Bool :=
  match lookup cells a with
  | some x => x.flags.visiting
  | none => false

/-- No cell of the store is dirty or being visited. -/
def Settled (cells : List Cell) : Prop :=
  ∀ a, dirty_at cells a = false ∧ visiting_at cells a = false

/-- What a returning `eval_cell` does to the flags of the store `c0`, leaving
`c1`: the addresses and edges are kept, no cell becomes dirty, no cell becomes
visited, and a cell that is no longer dirty is read by no dirty cell. -/
def Settles (c0 c1 : List Cell) : Prop :=
  skeleton c1 = skeleton c0 ∧
  (∀ b, dirty_at c0 b = false → dirty_at c1 b = false) ∧
  (∀ b, visiting_at c1 b = true → visiting_at c0 b = true) ∧
  (∀ x, dirty_at c0 x = true → dirty_at c1 x = false →
    ∀ r ∈ revdeps_of c0 x, dirty_at c1 r = false)

/-- A property of stores that is kept by a write that sets neither flag in a
cell that has neither, and by a new blank cell. -/
def FlagSafe (Q : List Cell → Prop) : Prop :=
  (∀ (cells : List Cell) (a : Addr) (f : Cell → Cell),
    (∀ x, (f x).col = x.col ∧ (f x).row = x.row) →
    (∀ x, x.flags.dirty = false ∧ x.flags.visiting = false →
      (f x).flags.dirty = false ∧ (f x).flags.visiting = false) →
    Q cells → Q (modify cells a f)) ∧
  (∀ (cells : List Cell) (c r : Int), Q cells → Q (Cell.blank c r :: cells))

/-- No cell in the list of the store carries `FLG_DIRTY` or `FLG_VISITING`. -/
def AllClear (cells : List Cell) : Prop :=
  ∀ x ∈ cells, x.flags.dirty = false ∧ x.flags.visiting = false

/-- The two flags of every cell in the list of the store are those of the cell
that is found at its address. -/
def Uniform (cells : List Cell) : Prop :=
  ∀ x ∈ cells, dirty_at cells (x.col, x.row) = x.flags.dirty ∧
    visiting_at cells (x.col, x.row) = x.flags.visiting

/-- The sheet after the first two edits of `cycle_edits`: A1 reads C1 and B1
reads A1; the third edit closes the cycle. -/
def cycle_open : Sheet :=
  Outcome.get_or (set_cells Libc.sample 12 Sheet.empty (cycle_edits.take 2)) Sheet.empty

/-! # Theorems -/

/-! ## The lexer on cell names -/

theorem feed_cons (c : Char) (r : List Char) : feed (c :: r) = (c, r) := rfl

theorem feed_nil : feed [] = (NUL, []) := rfl

theorem letter_facts : ∀ col : Fin 26,
    isalpha (Char.ofNat (65 + col.val)) = true ∧ isdigit (Char.ofNat (65 + col.val)) = false ∧
    isspace (Char.ofNat (65 + col.val)) = false ∧
    toupper (Char.ofNat (65 + col.val)) = Char.ofNat (65 + col.val) ∧
    Char.ofNat (65 + col.val) ≠ NUL ∧ Char.ofNat (65 + col.val) ≠ ':' := by decide!

theorem parse_cellref_cell_name_fin : ∀ col : Fin 26, ∀ row : Fin 256,
    parse_cellref (cell_name col.val row.val) = (((col.val : Int), (row.val : Int)), []) := by
  decide!

theorem is_cellref_cell_name_fin : ∀ col : Fin 26, ∀ row : Fin 256,
    is_cellref (cell_name col.val row.val) = true := by decide!

theorem nat_text_facts : ∀ row : Fin 256,
    (nat_text (row.val + 1)).all (fun c => isdigit c && (toupper c == c)) = true ∧
    (nat_text (row.val + 1)).length ≤ 3 := by decide!

theorem isalnum_NUL : (isalpha NUL || isdigit NUL) = false := by decide

theorem scan_alnum_step (tok : List Char) (c : Char) (e : List Char) :
    scan_alnum tok c e =
      if isalpha c || isdigit c then scan_alnum (put tok (toupper c)) (feed e).1 (feed e).2
      else (tok, c, e) := by
  cases e with
  | nil =>
    rw [scan_alnum]
    by_cases h : (isalpha c || isdigit c) = true
    · simp only [h, if_true, feed_nil]
      rw [scan_alnum]
      simp [isalnum_NUL]
    · simp only [h, if_false]
      simp
  | cons d r =>
    rw [scan_alnum]
    simp [feed_cons]

theorem scan_alnum_append (l rest tok : List Char)
    (hl : ∀ c ∈ l, (isalpha c || isdigit c) = true ∧ toupper c = c)
    (hrest : (isalpha (feed rest).1 || isdigit (feed rest).1) = false)
    (hlen : tok.length + l.length ≤ TOKEN_MAX) :
    scan_alnum tok (feed (l ++ rest)).1 (feed (l ++ rest)).2
      = (tok ++ l, (feed rest).1, (feed rest).2) := by
  induction l generalizing tok with
  | nil =>
    rw [scan_alnum_step]
    simp [hrest]
  | cons c l ih =>
    have hc := hl c (List.mem_cons_self _ _)
    have hput : put tok c = tok ++ [c] := by
      simp only [put, TOKEN_MAX] at *
      simp only [List.length_cons] at hlen
      rw [if_pos (by omega)]
    rw [scan_alnum_step]
    simp only [List.cons_append, feed_cons, hc.1, if_true, hc.2, hput]
    rw [ih (tok ++ [c]) (fun d hd => hl d (List.mem_cons_of_mem _ hd))]
    · simp
    · simp only [List.length_append, List.length_cons, List.length_nil] at *
      omega

theorem skip_space_not_space (c : Char) (e : List Char) (h : isspace c = false) :
    skip_space c e = (c, e) := by
  cases e <;> simp [skip_space, h]

theorem cell_name_scan (col row : Nat) (hc : col < 26) (hr : row < 256) (rest : List Char)
    (hrest : (isalpha (feed rest).1 || isdigit (feed rest).1) = false) :
    scan_alnum [] (Char.ofNat (65 + col)) (nat_text (row + 1) ++ rest)
      = (cell_name col row, (feed rest).1, (feed rest).2) := by
  have hL := letter_facts ⟨col, hc⟩
  have hN := nat_text_facts ⟨row, hr⟩
  simp only at hL hN
  have h := scan_alnum_append (cell_name col row) rest [] (by
    intro c hcm
    simp only [cell_name, List.mem_cons] at hcm
    rcases hcm with rfl | hcm
    · simp [hL.1, hL.2.2.2.1]
    · have := List.all_eq_true.mp hN.1 c hcm
      simp only [Bool.and_eq_true, beq_iff_eq] at this
      simp [this.1, this.2]) hrest (by
    simp only [cell_name, List.length_cons, List.length_nil, TOKEN_MAX]
    omega)
  simpa [cell_name, feed_cons] using h

theorem get_token_cell_name (lx : Lexer) (col row : Nat) (rest : List Char)
    (hc : col < 26) (hr : row < 256)
    (hch : lx.ch = Char.ofNat (65 + col)) (hex : lx.expr = nat_text (row + 1) ++ rest)
    (hrest : (isalpha (feed rest).1 || isdigit (feed rest).1) = false)
    (hcolon : (feed rest).1 ≠ ':') :
    get_token lx =
      ⟨tokCellRef, cell_name col row, (feed rest).2, (feed rest).1, lx.current_function⟩ := by
  have hL := letter_facts ⟨col, hc⟩
  simp only at hL
  have hcr := is_cellref_cell_name_fin ⟨col, hc⟩ ⟨row, hr⟩
  simp only at hcr
  simp only [get_token, hch, hex, skip_space_not_space _ _ hL.2.2.1, hL.1, hL.2.2.2.2.1,
    if_false, if_true, get_token_ident, cell_name_scan col row hc hr rest hrest, hcr, hcolon]


/-! ## Evaluation of a formula that names one cell -/

theorem bucket_nonneg (c r : Nat) : ¬ bucket (c : Int) (r : Int) < 0 := by
  unfold bucket CELL_TBL_SIZE
  have : (0 : Int) ≤ (c : Int) + (r : Int) * 257 := by positivity
  have := Int.tmod_nonneg 31 this
  omega

theorem wrap_int_small (w : Nat) (n : Nat) (hw : 1 ≤ w) (h : n < 2 ^ (w - 1)) :
    wrap_int w (n : Int) = (n : Int) := by
  unfold wrap_int
  have h2 : (2 : Int) ^ w = 2 * 2 ^ (w - 1) := by
    conv_lhs => rw [show w = (w - 1) + 1 by omega]
    rw [pow_succ]; ring
  have h3 : ((n : Int)) < 2 ^ (w - 1) := by exact_mod_cast h
  have h4 : (0 : Int) ≤ (n : Int) := Int.natCast_nonneg n
  rw [Int.emod_eq_of_lt (by omega) (by omega)]
  omega

/-- The index computed with an `int` of `w` bits is the index as long as
`col + row * 257` stays below `2 ^ (w - 1)`. -/
theorem bucket_int_small (w col row : Nat) (hw : 1 ≤ w) (h : col + row * 257 < 2 ^ (w - 1)) :
    bucket_int w (col : Int) (row : Int) = bucket (col : Int) (row : Int) := by
  unfold bucket_int bucket
  have h1 : (row : Int) * 257 = ((row * 257 : Nat) : Int) := by push_cast; rfl
  rw [h1, wrap_int_small w (row * 257) hw (by omega)]
  have h2 : (col : Int) + ((row * 257 : Nat) : Int) = ((col + row * 257 : Nat) : Int) := by
    push_cast; rfl
  rw [h2, wrap_int_small w (col + row * 257) hw h]

/-- The index that the program computes is not negative for a cell of the
first 128 rows of the grid. -/
theorem bucket_int_nonneg (c r : Nat) (hc : c < 26) (hr : r < 128) :
    ¬ bucket_int INT_BITS (c : Int) (r : Int) < 0 := by
  rw [bucket_int_small INT_BITS c r (by decide) (by simp only [INT_BITS]; omega)]
  exact bucket_nonneg c r

theorem find_cell_grid (cells : List Cell) (c r : Nat) (hc : c < 26) (hr : r < 128) :
    find_cell cells (c : Int) (r : Int) = .ok (lookup cells ((c : Int), (r : Int))) := by
  simp [find_cell, bucket_int_nonneg c r hc hr]

theorem new_cell_grid (cells : List Cell) (c r : Nat) (hc : c < 26) (hr : r < 128) :
    new_cell cells (c : Int) (r : Int) = .ok (Cell.blank c r :: cells) := by
  simp [new_cell, bucket_int_nonneg c r hc hr]

theorem share_of_not_shared (v : Value) (h : v.isShared = false) : v.share.stored = v := by
  cases v <;> simp [Value.share, Value.stored, Value.isShared] at h ⊢

theorem stored_not_shared (v : Value) : v.stored.isShared = false := by
  cases v <;> rfl

theorem frees_cached_num (a b : ℚ) : frees_cached (.num a) (.num b) = false := rfl

theorem frees_cached_false (v v2 : Value) (h1 : v.isShared = false) (h2 : v2.isShared = false) :
    frees_cached v v2 = false := by
  simp [frees_cached, h1, h2]

theorem mul_apply_not_shared (op : TokenType) (v v2 : Value)
    (hop : op = tokMul ∨ op = tokDiv ∨ op = tokMod) : (mul_apply op v v2).isShared = false := by
  rcases hop with rfl | rfl | rfl
  · rfl
  · simp only [mul_apply]; split <;> rfl
  · simp only [mul_apply]; split <;> rfl

theorem get_token_end (lx : Lexer) (hch : lx.ch = NUL) (hex : lx.expr = []) :
    get_token lx = { lx with tok_type := tokEnd } := by
  have h : isspace NUL = false := by decide
  cases lx
  simp at hch hex
  subst hch hex
  simp [get_token, skip_space, h]

theorem parse_cellref_cell_name (col row : Nat) (hc : col < 26) (hr : row < 256) :
    parse_cellref (cell_name col row) = (((col : Int), (row : Int)), []) :=
  parse_cellref_cell_name_fin ⟨col, hc⟩ ⟨row, hr⟩

/-- The lexer after the last token of a text whose last token is the name of a cell. -/
theorem get_token_cell_name_last (lx : Lexer) (col row : Nat) (hc : col < 26) (hr : row < 256)
    (hch : lx.ch = Char.ofNat (65 + col)) (hex : lx.expr = nat_text (row + 1)) :
    get_token lx = ⟨tokCellRef, cell_name col row, [], NUL, lx.current_function⟩ := by
  have h := get_token_cell_name lx col row [] hc hr hch (by simpa using hex) (by decide) (by decide)
  simpa [feed_nil] using h

theorem eval_signs_none (k : Nat) (b : Bool) (lx : Lexer) (h1 : lx.tok_type ≠ tokMinus)
    (h2 : lx.tok_type ≠ tokPlus) : eval_signs (k + 1) b lx = .ok (b, lx) := by
  simp [eval_signs, h1, h2]

theorem apply_sign_false (v : Value) : apply_sign false v = v := by
  cases v <;> simp [apply_sign]

/-- A formula that is the name of one cell evaluates to the cached value of that
cell, sharing its text when it is a String. -/
theorem parse_expr_cell_name (L : Libc) (cells : List Cell) (k : Nat) (lx : Lexer)
    (col row : Nat) (hc : col < 26) (hr : row < 128) :
    parse_expr L cells (k + 4) lx (cell_name col row)
      = .ok ((cached_at cells ((col : Int), (row : Int))).share,
          ⟨tokEnd, cell_name col row, [], NUL, lx.current_function⟩) := by
  have h1 : get_token (next_char { lx with expr := cell_name col row })
      = ⟨tokCellRef, cell_name col row, [], NUL, lx.current_function⟩ :=
    get_token_cell_name_last _ col row hc (by omega) (by simp [next_char, cell_name])
      (by simp [next_char, cell_name])
  have h2 : get_token ⟨tokCellRef, cell_name col row, [], NUL, lx.current_function⟩
      = ⟨tokEnd, cell_name col row, [], NUL, lx.current_function⟩ := by
    rw [get_token_end _ rfl rfl]
  simp only [parse_expr, h1]
  simp only [eval_expr, eval_expr1, eval_term, eval_factor]
  rw [eval_signs_none _ _ _ (by simp) (by simp)]
  simp only [parse_cellref_cell_name col row hc (by omega), find_cell_grid cells col row hc hr, h2]
  cases hl : lookup cells ((col : Int), (row : Int)) <;>
    simp [cached_at, hl, apply_sign_false, eval_term_loop, eval_expr1_loop, eval_expr_loop,
      is_relop, Value.share]

/-- The dependency loop of `set_cell` on a formula that is the name of one cell. -/
theorem set_cell_deps_cell_name (cells : List Cell) (k : Nat) (cf : Option Function)
    (col row : Nat) (hc : col < 26) (hr : row < 128) (p : Addr) :
    set_cell_deps (k + 2) cells ⟨tokCellRef, cell_name col row, [], NUL, cf⟩ p
      = .ok (add_dep (ensure cells ((col : Int), (row : Int))) p ((col : Int), (row : Int)),
          ⟨tokEnd, cell_name col row, [], NUL, cf⟩) := by
  have h2 : get_token ⟨tokCellRef, cell_name col row, [], NUL, cf⟩
      = ⟨tokEnd, cell_name col row, [], NUL, cf⟩ := by
    rw [get_token_end _ rfl rfl]
  have hf := find_cell_grid cells col row hc hr
  have hn := new_cell_grid cells col row hc hr
  simp only [set_cell_deps, parse_cellref_cell_name col row hc (by omega)]
  simp only [hf]
  cases hl : lookup cells ((col : Int), (row : Int)) <;> simp [ensure, hl, hn, h2, set_cell_deps]

theorem trim_cell_formula_fin : ∀ col : Fin 26, ∀ row : Fin 256,
    trim ('=' :: cell_name col.val row.val) = '=' :: cell_name col.val row.val := by decide!

/-- The sheet after `set_cell(A, "=A")` on the empty sheet. -/
theorem self_reference (L : Libc) (k : Nat) (col row : Nat) (hc : col < 26) (hr : row < 128) :
    set_cell L (k + 3) Sheet.empty col row (some ('=' :: cell_name col row))
      = .ok ⟨[⟨[((col : Int), (row : Int))], [((col : Int), (row : Int))], col, row,
              some ('=' :: cell_name col row), errExprCyclicRef, ⟨false, true, false, false⟩⟩],
            ⟨tokEnd, cell_name col row, [], NUL, none⟩⟩ := by
  have ht := trim_cell_formula_fin ⟨col, hc⟩ ⟨row, (by omega)⟩
  simp only at ht
  have h1 : get_token (next_char { Lexer.init with expr := cell_name col row })
      = ⟨tokCellRef, cell_name col row, [], NUL, none⟩ :=
    get_token_cell_name_last _ col row hc (by omega) (by simp [next_char, cell_name])
      (by simp [next_char, cell_name])
  have hf := find_cell_grid [] col row hc hr
  have hn := new_cell_grid [] col row hc hr
  simp only [set_cell, Sheet.empty, hf, lookup, List.find?, hn]
  simp only [set_cell_body, Option.map, ht, is_formula_text, stored_content, List.head?,
    if_true, List.drop, h1]
  rw [set_cell_deps_cell_name _ (k + 1) none col row hc (by omega)]
  simp [reevaluate, store_text, is_formula_text, stored_content, remove_deps, modify, lookup, Cell.isAt, Cell.blank, add_dep, ensure,
    propagate_dirty, Outcome.foldl, eval_cell, Flags.zero, set_cached, mark_dirty, mark_visiting,
    settle]


/-! ## Errors and operators -/

/-- C8. A Divide-by-zero error produced inside the loop of `eval_term` is
coerced to the number 0 by the next operator of the chain: `1/0` is the
Divide-by-zero error, but `1/0*2` and `5%0/3` are the Number 0. -/
theorem C8_error_swallowed_by_later_operator :
    result_value (parse_expr Libc.sample [] 8 Lexer.init "1/0".toList) = .ok errExprDivZero ∧
    result_value (parse_expr Libc.sample [] 8 Lexer.init "1/0*2".toList) = .ok (.num 0) ∧
    result_value (parse_expr Libc.sample [] 8 Lexer.init "5%0/3".toList) = .ok (.num 0) := by
  decide!

/-- C9. An error in the first argument of a scalar call is replaced by the
Invalid-argument error, because the arity test runs first: `1/0` is the
Divide-by-zero error, but `IF(1,1/0,2)` and `F(1/0)` for every scalar
function `F` of the table are the Invalid-argument error. -/
theorem C9_argument_error_replaced :
    result_value (parse_expr Libc.sample [] 12 Lexer.init "1/0".toList) = .ok errExprDivZero ∧
    result_value (parse_expr Libc.sample [] 12 Lexer.init "IF(1,1/0,2)".toList)
      = .ok errInvalidArg ∧
    ∀ f ∈ functions, f.tok_type = tokScalarFunc →
      result_value (parse_expr Libc.sample [] 12 Lexer.init (f.name ++ "(1/0)".toList))
        = .ok errInvalidArg := by
  decide!

theorem isAt_iff (x : Cell) (a : Addr) : x.isAt a = true ↔ (x.col, x.row) = a := by
  cases a
  simp [Cell.isAt]

theorem lookup_nil (a : Addr) : lookup [] a = none := rfl

theorem lookup_cons (x : Cell) (cs : List Cell) (a : Addr) :
    lookup (x :: cs) a = if (x.col, x.row) = a then some x else lookup cs a := by
  by_cases h : (x.col, x.row) = a
  · have := (isAt_iff x a).mpr h
    simp [lookup, List.find?, this, h]
  · have : x.isAt a = false := by
      cases hx : x.isAt a
      · rfl
      · exact absurd ((isAt_iff x a).mp hx) h
    simp [lookup, List.find?, this, h]

theorem lookup_some_at (cells : List Cell) (a : Addr) (x : Cell) (h : lookup cells a = some x) :
    (x.col, x.row) = a := by
  induction cells with
  | nil => simp [lookup_nil] at h
  | cons y cs ih =>
    rw [lookup_cons] at h
    by_cases hy : (y.col, y.row) = a
    · simp only [hy, if_true, Option.some.injEq] at h
      rw [← h]; exact hy
    · simp only [hy, if_false] at h
      exact ih h

theorem lookup_mem (cells : List Cell) (a : Addr) (x : Cell) (h : lookup cells a = some x) :
    x ∈ cells := by
  unfold lookup at h
  exact List.mem_of_find?_eq_some h

/-- Reading a cell after a write through a pointer, for a write that keeps the
coordinates. -/
theorem lookup_modify (cells : List Cell) (a b : Addr) (f : Cell → Cell)
    (hf : ∀ x, (f x).col = x.col ∧ (f x).row = x.row) :
    lookup (modify cells a f) b = if b = a then (lookup cells b).map f else lookup cells b := by
  induction cells with
  | nil => simp [modify, lookup_nil]
  | cons y cs ih =>
    have ih' : lookup (modify cs a f) b
        = if b = a then (lookup cs b).map f else lookup cs b := ih
    show lookup ((if y.isAt a then f y else y) :: modify cs a f) b = _
    rw [lookup_cons, lookup_cons, ih']
    by_cases hya : (y.col, y.row) = a
    · have h1 := (isAt_iff y a).mpr hya
      simp only [h1, if_true, (hf y).1, (hf y).2]
      by_cases hyb : (y.col, y.row) = b
      · have : b = a := by rw [← hyb, hya]
        simp [hyb, this]
      · simp [hyb]
    · have h1 : y.isAt a = false := by
        cases hx : y.isAt a
        · rfl
        · exact absurd ((isAt_iff y a).mp hx) hya
      simp only [h1, if_false, Bool.false_eq_true]
      by_cases hyb : (y.col, y.row) = b
      · have : ¬ b = a := by rw [← hyb]; exact hya
        simp [hyb, this]
      · simp [hyb]

theorem skeleton_modify (cells : List Cell) (a : Addr) (f : Cell → Cell)
    (hf : ∀ x, (f x).frame = x.frame) : skeleton (modify cells a f) = skeleton cells := by
  induction cells with
  | nil => rfl
  | cons y cs ih =>
    have ih' : skeleton (modify cs a f) = skeleton cs := ih
    show (if y.isAt a then f y else y).frame :: skeleton (modify cs a f) = y.frame :: skeleton cs
    rw [ih']
    by_cases h : y.isAt a = true
    · simp [h, hf]
    · simp [h]

/-- The edge lists and the placeholder flag of the cell at an address are
determined by the skeleton of the store. -/
theorem lookup_frame_of_skeleton (cs1 cs2 : List Cell) (h : skeleton cs1 = skeleton cs2)
    (a : Addr) : (lookup cs1 a).map Cell.frame = (lookup cs2 a).map Cell.frame := by
  induction cs1 generalizing cs2 with
  | nil =>
    cases cs2 with
    | nil => rfl
    | cons y ys => simp [skeleton] at h
  | cons x xs ih =>
    cases cs2 with
    | nil => simp [skeleton] at h
    | cons y ys =>
      simp only [skeleton, List.map_cons, List.cons.injEq] at h
      have hxy : x.col = y.col ∧ x.row = y.row := by
        have := h.1
        simp only [Cell.frame, Prod.mk.injEq] at this
        exact ⟨this.1, this.2.1⟩
      rw [lookup_cons, lookup_cons, hxy.1, hxy.2]
      by_cases hy : (y.col, y.row) = a
      · simp [hy, h.1]
      · simp only [hy, if_false]
        exact ih ys h.2

theorem deps_of_skeleton (cs1 cs2 : List Cell) (h : skeleton cs1 = skeleton cs2) (a : Addr) :
    deps_of cs1 a = deps_of cs2 a := by
  have := lookup_frame_of_skeleton cs1 cs2 h a
  unfold deps_of
  cases h1 : lookup cs1 a <;> cases h2 : lookup cs2 a <;> simp [h1, h2, Cell.frame] at this ⊢
  exact this.2.2.1

theorem revdeps_of_skeleton (cs1 cs2 : List Cell) (h : skeleton cs1 = skeleton cs2) (a : Addr) :
    revdeps_of cs1 a = revdeps_of cs2 a := by
  have := lookup_frame_of_skeleton cs1 cs2 h a
  unfold revdeps_of
  cases h1 : lookup cs1 a <;> cases h2 : lookup cs2 a <;> simp [h1, h2, Cell.frame] at this ⊢
  exact this.2.2.2.1

theorem Mirrored_of_skeleton (cs1 cs2 : List Cell) (h : skeleton cs1 = skeleton cs2)
    (hm : Mirrored cs1) : Mirrored cs2 := by
  intro x y
  rw [← deps_of_skeleton cs1 cs2 h, ← revdeps_of_skeleton cs1 cs2 h]
  exact hm x y


theorem foldl_preserves {σ α : Type} (P : σ → Prop) (f : σ → α → Outcome σ)
    (hf : ∀ s a s1, P s → f s a = .ok s1 → P s1) :
    ∀ (l : List α) (s s1 : σ), P s → Outcome.foldl f s l = .ok s1 → P s1 := by
  intro l
  induction l with
  | nil =>
    intro s s1 hp h
    simp only [Outcome.foldl, Outcome.ok.injEq] at h
    rw [← h]; exact hp
  | cons a as ih =>
    intro s s1 hp h
    simp only [Outcome.foldl] at h
    cases hfa : f s a with
    | ok s2 =>
      rw [hfa] at h
      exact ih s2 s1 (hf s a s2 hp hfa) h
    | outOfFuel => rw [hfa] at h; simp at h
    | undefined => rw [hfa] at h; simp at h

theorem skeleton_mark_dirty (cells : List Cell) (a : Addr) :
    skeleton (mark_dirty cells a) = skeleton cells :=
  skeleton_modify _ _ _ (fun _ => rfl)

theorem skeleton_mark_visiting (cells : List Cell) (a : Addr) (b : Bool) :
    skeleton (mark_visiting cells a b) = skeleton cells :=
  skeleton_modify _ _ _ (fun _ => rfl)

theorem skeleton_settle (cells : List Cell) (a : Addr) :
    skeleton (settle cells a) = skeleton cells :=
  skeleton_modify _ _ _ (fun _ => rfl)

theorem skeleton_propagate_dirty (fuel : Nat) :
    ∀ (cells : List Cell) (a : Addr) (cells1 : List Cell),
      propagate_dirty fuel cells a = .ok cells1 → skeleton cells1 = skeleton cells := by
  induction fuel with
  | zero => intro cells a cells1 h; simp [propagate_dirty] at h
  | succ n ih =>
    intro cells a cells1 h
    simp only [propagate_dirty] at h
    split at h
    · simp at h
    · rename_i x hx
      split at h
      · refine foldl_preserves (fun cs => skeleton cs = skeleton cells) _ ?_ _ _ _ ?_ h
        · intro s d s1 hs hd
          rw [ih s d s1 hd]; exact hs
        · exact skeleton_mark_dirty _ _
      · simp only [Outcome.ok.injEq] at h
        rw [h]

theorem skeleton_set_cached (cells : List Cell) (a : Addr) (v : Value) :
    skeleton (set_cached cells a v) = skeleton cells :=
  skeleton_modify _ _ _ (fun _ => rfl)

theorem skeleton_eval_cell (L : Libc) (fuel : Nat) :
    ∀ (s : Sheet) (a : Addr) (s1 : Sheet),
      eval_cell L fuel s a = .ok s1 → skeleton s1.cells = skeleton s.cells := by
  induction fuel with
  | zero => intro s a s1 h; simp [eval_cell] at h
  | succ n ih =>
    intro s a s1 h
    have hfold : ∀ (l : List Addr) (t t1 : Sheet), skeleton t.cells = skeleton s.cells →
        Outcome.foldl (fun st d => eval_cell L n st d) t l = .ok t1 →
        skeleton t1.cells = skeleton s.cells := by
      intro l t t1 ht hl
      refine foldl_preserves (fun st => skeleton st.cells = skeleton s.cells) _ ?_ l t t1 ht hl
      intro u d u1 hu hd
      rw [ih u d u1 hd]; exact hu
    simp only [eval_cell] at h
    split at h
    · simp only [Outcome.ok.injEq] at h; rw [h]
    · rename_i c hc
      split at h
      · simp only [Outcome.ok.injEq] at h; rw [h]
      · split at h
        · rename_i s6 hown
          split at h
          · simp at h
          · rename_i c7 hc7
            refine hfold _ _ _ ?_ h
            simp only
            rw [skeleton_settle]
            -- the three cases of the own evaluation
            split at hown
            · split at hown
              · simp only [Outcome.ok.injEq] at hown
                rw [← hown]; exact skeleton_set_cached _ _ _
              · simp only [Outcome.ok.injEq] at hown
                rw [← hown]; exact skeleton_set_cached _ _ _
            · split at hown
              · simp only [Outcome.ok.injEq] at hown
                rw [← hown]; exact skeleton_set_cached _ _ _
              · split at hown
                · rename_i s2 hdeps
                  have hs2 : skeleton s2.cells = skeleton s.cells := by
                    refine hfold _ _ _ ?_ hdeps
                    simp only
                    rw [skeleton_mark_visiting, skeleton_set_cached]
                  split at hown
                  · rename_i s5 hs4
                    simp only [Outcome.ok.injEq] at hown
                    rw [← hown]
                    simp only
                    rw [skeleton_mark_visiting]
                    split at hs4
                    · simp at hs4
                    · split at hs4
                      · split at hs4
                        · simp at hs4
                        · split at hs4
                          · simp only [Outcome.ok.injEq] at hs4
                            rw [← hs4]
                            simp only
                            rw [skeleton_set_cached]; exact hs2
                          · simp at hs4
                          · simp at hs4
                      · simp only [Outcome.ok.injEq] at hs4
                        rw [← hs4]; exact hs2
                  · simp at hown
                  · simp at hown
                · simp at hown
                · simp at hown
        · simp at h
        · simp at h


theorem deps_of_modify (cells : List Cell) (a b : Addr) (f : Cell → Cell)
    (hf : ∀ x, (f x).col = x.col ∧ (f x).row = x.row) (hd : ∀ x, (f x).deps = x.deps) :
    deps_of (modify cells a f) b = deps_of cells b := by
  unfold deps_of
  rw [lookup_modify cells a b f hf]
  by_cases h : b = a
  · cases hl : lookup cells b <;> simp [h, hl, hd]
  · simp [h]

theorem revdeps_of_modify (cells : List Cell) (a b : Addr) (f : Cell → Cell)
    (hf : ∀ x, (f x).col = x.col ∧ (f x).row = x.row) (hd : ∀ x, (f x).revdeps = x.revdeps) :
    revdeps_of (modify cells a f) b = revdeps_of cells b := by
  unfold revdeps_of
  rw [lookup_modify cells a b f hf]
  by_cases h : b = a
  · cases hl : lookup cells b <;> simp [h, hl, hd]
  · simp [h]

theorem NoEmpty_modify (cells : List Cell) (a : Addr) (f : Cell → Cell)
    (hf : ∀ x, (f x).col = x.col ∧ (f x).row = x.row)
    (he : ∀ x, x.flags.empty = false → (f x).flags.empty = false) (h : NoEmpty cells) :
    NoEmpty (modify cells a f) := by
  intro b x hx
  rw [lookup_modify cells a b f hf] at hx
  by_cases hb : b = a
  · simp only [hb, if_true] at hx
    cases hl : lookup cells a with
    | none => simp [hl] at hx
    | some y =>
      simp only [hl, Option.map_some', Option.some.injEq] at hx
      rw [← hx]
      exact he y (h a y hl)
  · simp only [hb, if_false] at hx
    exact h b x hx

theorem lookup_isSome_modify (cells : List Cell) (a b : Addr) (f : Cell → Cell)
    (hf : ∀ x, (f x).col = x.col ∧ (f x).row = x.row) :
    (lookup (modify cells a f) b).isSome = (lookup cells b).isSome := by
  rw [lookup_modify cells a b f hf]
  by_cases h : b = a <;> simp [h]

/-! ### `add_dep` -/

theorem deps_of_add_dep (cells : List Cell) (owner dep x : Addr)
    (ho : (lookup cells owner).isSome = true) :
    deps_of (add_dep cells owner dep) x
      = if x = owner then dep :: deps_of cells x else deps_of cells x := by
  unfold add_dep
  rw [deps_of_modify _ dep x (fun z => { z with revdeps := owner :: z.revdeps })
    (fun _ => ⟨rfl, rfl⟩) (fun _ => rfl)]
  unfold deps_of
  rw [lookup_modify _ owner x (fun z => { z with deps := dep :: z.deps }) (fun _ => ⟨rfl, rfl⟩)]
  by_cases h : x = owner
  · subst h
    cases hl : lookup cells x with
    | none => simp [hl] at ho
    | some y => simp
  · simp [h]

theorem revdeps_of_add_dep (cells : List Cell) (owner dep y : Addr)
    (hd : (lookup cells dep).isSome = true) :
    revdeps_of (add_dep cells owner dep) y
      = if y = dep then owner :: revdeps_of cells y else revdeps_of cells y := by
  unfold add_dep revdeps_of
  rw [lookup_modify _ dep y (fun z => { z with revdeps := owner :: z.revdeps })
      (fun _ => ⟨rfl, rfl⟩),
    lookup_modify _ owner y (fun z => { z with deps := dep :: z.deps }) (fun _ => ⟨rfl, rfl⟩)]
  by_cases h : y = dep
  · subst h
    cases hl : lookup cells y with
    | none => simp [hl] at hd
    | some z => by_cases h2 : y = owner <;> simp [h2]
  · by_cases h2 : y = owner
    · subst h2
      cases hl : lookup cells y <;> simp [h, hl]
    · simp [h, h2]

theorem Mirrored_add_dep (cells : List Cell) (owner dep : Addr)
    (ho : (lookup cells owner).isSome = true) (hd : (lookup cells dep).isSome = true)
    (hm : Mirrored cells) : Mirrored (add_dep cells owner dep) := by
  intro x y
  rw [deps_of_add_dep cells owner dep x ho, revdeps_of_add_dep cells owner dep y hd]
  have := hm x y
  by_cases hx : x = owner
  · by_cases hy : y = dep
    · subst hx; subst hy
      simp [List.count_cons, this]
    · subst hx
      have hne : ¬ (dep = y) := fun e => hy e.symm
      simp [hy, hne, List.count_cons, this]
  · by_cases hy : y = dep
    · subst hy
      have hne : ¬ (owner = x) := fun e => hx e.symm
      simp [hx, hne, List.count_cons, this]
    · simp [hx, hy, this]

theorem NoEmpty_add_dep (cells : List Cell) (owner dep : Addr) (h : NoEmpty cells) :
    NoEmpty (add_dep cells owner dep) := by
  unfold add_dep
  exact NoEmpty_modify _ _ _ (fun _ => ⟨rfl, rfl⟩) (fun _ hx => hx)
    (NoEmpty_modify _ _ _ (fun _ => ⟨rfl, rfl⟩) (fun _ hx => hx) h)

theorem isSome_add_dep (cells : List Cell) (owner dep b : Addr) :
    (lookup (add_dep cells owner dep) b).isSome = (lookup cells b).isSome := by
  unfold add_dep
  rw [lookup_isSome_modify _ dep b (fun z => { z with revdeps := owner :: z.revdeps })
      (fun _ => ⟨rfl, rfl⟩),
    lookup_isSome_modify _ owner b (fun z => { z with deps := dep :: z.deps })
      (fun _ => ⟨rfl, rfl⟩)]


/-! ### `remove_deps` -/

theorem deps_of_remove_revdep (cells : List Cell) (c dep x : Addr) :
    deps_of (remove_revdep cells c dep) x = deps_of cells x := by
  unfold remove_revdep
  exact deps_of_modify _ c x (fun z => { z with revdeps := z.revdeps.erase dep })
    (fun _ => ⟨rfl, rfl⟩) (fun _ => rfl)

theorem revdeps_of_remove_revdep (cells : List Cell) (c dep y : Addr) :
    revdeps_of (remove_revdep cells c dep) y
      = if y = c then (revdeps_of cells y).erase dep else revdeps_of cells y := by
  unfold remove_revdep revdeps_of
  rw [lookup_modify _ c y (fun z => { z with revdeps := z.revdeps.erase dep })
    (fun _ => ⟨rfl, rfl⟩)]
  by_cases h : y = c
  · cases hl : lookup cells y <;> simp [h, hl]
  · simp [h]

theorem isSome_remove_revdep (cells : List Cell) (c dep b : Addr) :
    (lookup (remove_revdep cells c dep) b).isSome = (lookup cells b).isSome := by
  unfold remove_revdep
  exact lookup_isSome_modify _ c b (fun z => { z with revdeps := z.revdeps.erase dep })
    (fun _ => ⟨rfl, rfl⟩)

theorem NoEmpty_remove_revdep (cells : List Cell) (c dep : Addr) (h : NoEmpty cells) :
    NoEmpty (remove_revdep cells c dep) := by
  unfold remove_revdep
  exact NoEmpty_modify _ _ _ (fun _ => ⟨rfl, rfl⟩) (fun _ hx => hx) h

/-- The loop of `remove_deps`: one `remove_revdep` per outgoing edge. -/
theorem fold_remove_revdep (c : Addr) (ds : List Addr) :
    ∀ cells : List Cell,
      (∀ x, deps_of (ds.foldl (fun cs d => remove_revdep cs d c) cells) x = deps_of cells x) ∧
      (∀ y z, (revdeps_of (ds.foldl (fun cs d => remove_revdep cs d c) cells) y).count z
        = if z = c then (revdeps_of cells y).count z - ds.count y
          else (revdeps_of cells y).count z) ∧
      (∀ b, (lookup (ds.foldl (fun cs d => remove_revdep cs d c) cells) b).isSome
        = (lookup cells b).isSome) ∧
      (NoEmpty cells → NoEmpty (ds.foldl (fun cs d => remove_revdep cs d c) cells)) := by
  induction ds with
  | nil => intro cells; simp
  | cons d ds ih =>
    intro cells
    obtain ⟨h1, h2, h3, h4⟩ := ih (remove_revdep cells d c)
    simp only [List.foldl_cons]
    refine ⟨?_, ?_, ?_, ?_⟩
    · intro x; rw [h1, deps_of_remove_revdep]
    · intro y z
      rw [h2, revdeps_of_remove_revdep]
      by_cases hz : z = c
      · subst hz
        by_cases hy : y = d
        · subst hy
          simp only [if_true, List.count_cons_self, List.count_erase_self]
          omega
        · have hne : ¬ (d = y) := fun e => hy e.symm
          simp [hy, hne, List.count_cons]
      · by_cases hy : y = d
        · subst hy
          simp only [hz, if_true, if_false]
          rw [List.count_erase_of_ne hz]
        · simp [hz, hy]
    · intro b; rw [h3, isSome_remove_revdep]
    · intro hn; exact h4 (NoEmpty_remove_revdep _ _ _ hn)

theorem Mirrored_remove_deps (cells : List Cell) (c : Addr) (hm : Mirrored cells) :
    Mirrored (remove_deps cells c) := by
  unfold remove_deps
  cases hl : lookup cells c with
  | none => simpa using hm
  | some x =>
    simp only
    obtain ⟨h1, h2, h3, _⟩ := fold_remove_revdep c x.deps cells
    have hdc : deps_of cells c = x.deps := by simp [deps_of, hl]
    intro a b
    rw [revdeps_of_modify _ c b (fun y => { y with deps := [] }) (fun _ => ⟨rfl, rfl⟩)
      (fun _ => rfl), h2]
    unfold deps_of
    rw [lookup_modify _ c a (fun y => { y with deps := [] }) (fun _ => ⟨rfl, rfl⟩)]
    by_cases ha : a = c
    · subst ha
      have hmir := hm a b
      rw [hdc] at hmir
      cases hl2 : lookup (List.foldl (fun cs d => remove_revdep cs d a) cells x.deps) a <;>
        simp [hl2] <;> omega
    · have hmir := hm a b
      have hd1 := h1 a
      unfold deps_of at hd1 hmir
      simp only [ha, if_false]
      rw [hd1, hmir]

theorem NoEmpty_remove_deps (cells : List Cell) (c : Addr) (h : NoEmpty cells) :
    NoEmpty (remove_deps cells c) := by
  unfold remove_deps
  cases hl : lookup cells c with
  | none => simpa using h
  | some x =>
    simp only
    obtain ⟨_, _, _, h4⟩ := fold_remove_revdep c x.deps cells
    exact NoEmpty_modify _ _ _ (fun _ => ⟨rfl, rfl⟩) (fun _ hx => hx) (h4 h)

theorem isSome_remove_deps (cells : List Cell) (c b : Addr) :
    (lookup (remove_deps cells c) b).isSome = (lookup cells b).isSome := by
  unfold remove_deps
  cases hl : lookup cells c with
  | none => simp
  | some x =>
    simp only
    obtain ⟨_, _, h3, _⟩ := fold_remove_revdep c x.deps cells
    rw [lookup_isSome_modify _ c b (fun y => { y with deps := [] }) (fun _ => ⟨rfl, rfl⟩), h3]

/-! ### A new cell -/

theorem lookup_cons_blank (cells : List Cell) (a b : Addr) :
    lookup (Cell.blank a.1 a.2 :: cells) b
      = if a = b then some (Cell.blank a.1 a.2) else lookup cells b := by
  rw [lookup_cons]
  rfl

theorem deps_of_cons_blank (cells : List Cell) (a x : Addr) (h : lookup cells a = none) :
    deps_of (Cell.blank a.1 a.2 :: cells) x = deps_of cells x := by
  unfold deps_of
  rw [lookup_cons_blank]
  by_cases hx : a = x
  · subst hx; simp [h, Cell.blank]
  · simp [hx]

theorem revdeps_of_cons_blank (cells : List Cell) (a x : Addr) (h : lookup cells a = none) :
    revdeps_of (Cell.blank a.1 a.2 :: cells) x = revdeps_of cells x := by
  unfold revdeps_of
  rw [lookup_cons_blank]
  by_cases hx : a = x
  · subst hx; simp [h, Cell.blank]
  · simp [hx]

theorem Mirrored_cons_blank (cells : List Cell) (a : Addr) (h : lookup cells a = none)
    (hm : Mirrored cells) : Mirrored (Cell.blank a.1 a.2 :: cells) := by
  intro x y
  rw [deps_of_cons_blank cells a x h, revdeps_of_cons_blank cells a y h]
  exact hm x y

theorem NoEmpty_cons_blank (cells : List Cell) (a : Addr) (hn : NoEmpty cells) :
    NoEmpty (Cell.blank a.1 a.2 :: cells) := by
  intro b x hx
  rw [lookup_cons_blank] at hx
  by_cases hb : a = b
  · simp only [hb, if_true, Option.some.injEq] at hx
    rw [← hx]; rfl
  · simp only [hb, if_false] at hx
    exact hn b x hx

theorem isSome_cons_blank (cells : List Cell) (a b : Addr)
    (h : (lookup cells b).isSome = true) :
    (lookup (Cell.blank a.1 a.2 :: cells) b).isSome = true := by
  rw [lookup_cons_blank]
  by_cases hb : a = b <;> simp [hb, h]

theorem isSome_cons_blank_self (cells : List Cell) (a : Addr) :
    (lookup (Cell.blank a.1 a.2 :: cells) a).isSome = true := by
  rw [lookup_cons_blank]; simp

/-! ### The dependency loop of `set_cell` -/

theorem GraphInv_add_dep (cells : List Cell) (p dep : Addr)
    (hd : (lookup cells dep).isSome = true) (h : GraphInv cells p) :
    GraphInv (add_dep cells p dep) p :=
  ⟨Mirrored_add_dep cells p dep h.2.2 hd h.1, NoEmpty_add_dep cells p dep h.2.1, by
    rw [isSome_add_dep]; exact h.2.2⟩

theorem GraphInv_cons_blank (cells : List Cell) (p a : Addr) (hl : lookup cells a = none)
    (h : GraphInv cells p) : GraphInv (Cell.blank a.1 a.2 :: cells) p :=
  ⟨Mirrored_cons_blank cells a hl h.1, NoEmpty_cons_blank cells a h.2.1,
    isSome_cons_blank cells a p h.2.2⟩

theorem find_cell_ok (cells : List Cell) (c r : Int) (found : Option Cell)
    (h : find_cell cells c r = .ok found) : found = lookup cells (c, r) := by
  unfold find_cell at h
  split at h
  · simp at h
  · simp only [Outcome.ok.injEq] at h
    exact h.symm

theorem new_cell_ok (cells : List Cell) (c r : Int) (cs : List Cell)
    (h : new_cell cells c r = .ok cs) : cs = Cell.blank c r :: cells := by
  unfold new_cell at h
  split at h
  · simp at h
  · simp only [Outcome.ok.injEq] at h
    exact h.symm

theorem GraphInv_set_range_dep (cells : List Cell) (p a : Addr) (found : Option Cell)
    (hf : found = lookup cells a) (r : List Cell × Addr) (h : GraphInv cells p)
    (hr : set_range_dep cells p (range_cell found a) = .ok r) : GraphInv r.1 p ∧ r.2 = p := by
  cases found with
  | none =>
    simp only [set_range_dep, range_cell, Cell.blank, if_true] at hr
    split at hr
    · rename_i cs hcs
      simp only [Outcome.ok.injEq] at hr
      rw [← hr]
      have hcs2 := new_cell_ok _ _ _ _ hcs
      rw [hcs2]
      refine ⟨GraphInv_add_dep _ p (a.1, a.2) (isSome_cons_blank_self cells a) ?_, rfl⟩
      exact GraphInv_cons_blank cells p a hf.symm h
    · simp at hr
    · simp at hr
  | some x =>
    have hx : lookup cells a = some x := hf.symm
    have he := h.2.1 a x hx
    have hat := lookup_some_at cells a x hx
    simp only [set_range_dep, range_cell, he, Bool.false_eq_true, if_false,
      Outcome.ok.injEq] at hr
    rw [← hr, hat]
    refine ⟨GraphInv_add_dep _ p a ?_ h, rfl⟩
    simp [hx]

theorem GraphInv_process_range (cells : List Cell) (c1 r1 c2 r2 : Int) (p : Addr)
    (r : List Cell × Addr × Value) (hi : GraphInv cells p)
    (h : process_range cells c1 r1 c2 r2 p (some set_range_dep) none = .ok r) :
    GraphInv r.1 p := by
  unfold process_range at h
  split at h
  · rename_i st hst
    simp only [Outcome.ok.injEq] at h
    rw [← h]
    have := foldl_preserves (fun (st : List Cell × Addr) => GraphInv st.1 p ∧ st.2 = p) _ ?_ _ _ _
      ⟨hi, rfl⟩ hst
    · exact this.1
    · intro t a t1 ht hstep
      split at hstep
      · rename_i found hfound
        have hf := find_cell_ok _ _ _ _ hfound
        simp only at hstep
        rw [ht.2] at hstep
        exact GraphInv_set_range_dep t.1 p a found hf t1 ht.1 hstep
      · simp at hstep
      · simp at hstep
  · simp at h
  · simp at h

theorem GraphInv_set_cell_deps (fuel : Nat) :
    ∀ (cells : List Cell) (lx : Lexer) (p : Addr) (r : List Cell × Lexer),
      GraphInv cells p → set_cell_deps fuel cells lx p = .ok r → GraphInv r.1 p := by
  induction fuel with
  | zero => intro cells lx p r _ h; simp [set_cell_deps] at h
  | succ n ih =>
    intro cells lx p r hi h
    simp only [set_cell_deps] at h
    split at h
    · simp only [Outcome.ok.injEq] at h
      rw [← h]; exact hi
    · split at h
      · split at h
        · rename_i x hfound
          have hf := find_cell_ok _ _ _ _ hfound
          refine ih _ _ _ _ (GraphInv_add_dep _ p _ ?_ hi) h
          rw [← hf]; rfl
        · rename_i hfound
          have hf := find_cell_ok _ _ _ _ hfound
          split at h
          · rename_i cs hcs
            have hcs2 := new_cell_ok _ _ _ _ hcs
            refine ih _ _ _ _ (GraphInv_add_dep _ p _ ?_ ?_) h
            · rw [hcs2]; exact isSome_cons_blank_self cells _
            · rw [hcs2]; exact GraphInv_cons_blank cells p _ hf.symm hi
          · simp at h
          · simp at h
        · simp at h
        · simp at h
      · split at h
        · split at h
          · rename_i r1 hr1
            exact ih _ _ _ _ (GraphInv_process_range _ _ _ _ _ p r1 hi hr1) h
          · simp at h
          · simp at h
        · exact ih _ _ _ _ hi h


/-! ### `set_cell` keeps the edges mirrored -/

theorem NoEmpty_of_skeleton (cs1 cs2 : List Cell) (h : skeleton cs1 = skeleton cs2)
    (hn : NoEmpty cs1) : NoEmpty cs2 := by
  intro a x hx
  have := lookup_frame_of_skeleton cs1 cs2 h a
  rw [hx] at this
  cases h1 : lookup cs1 a with
  | none => simp [h1] at this
  | some y =>
    simp only [h1, Option.map_some', Option.some.injEq, Cell.frame, Prod.mk.injEq] at this
    rw [← this.2.2.2.2]
    exact hn a y h1

theorem isSome_of_skeleton (cs1 cs2 : List Cell) (h : skeleton cs1 = skeleton cs2) (a : Addr) :
    (lookup cs2 a).isSome = (lookup cs1 a).isSome := by
  have := lookup_frame_of_skeleton cs1 cs2 h a
  cases h1 : lookup cs1 a <;> cases h2 : lookup cs2 a <;> simp [h1, h2] at this ⊢

theorem GraphInv_of_skeleton (cs1 cs2 : List Cell) (p : Addr) (h : skeleton cs1 = skeleton cs2)
    (hi : GraphInv cs1 p) : GraphInv cs2 p :=
  ⟨Mirrored_of_skeleton cs1 cs2 h hi.1, NoEmpty_of_skeleton cs1 cs2 h hi.2.1, by
    rw [isSome_of_skeleton cs1 cs2 h]; exact hi.2.2⟩

theorem skeleton_reevaluate (L : Libc) (fuel : Nat) (s : Sheet) (p : Addr) (s1 : Sheet)
    (h : reevaluate L fuel s p = .ok s1) : skeleton s1.cells = skeleton s.cells := by
  unfold reevaluate at h
  split at h
  · rename_i cs hcs
    rw [skeleton_eval_cell L fuel _ p s1 h]
    exact skeleton_propagate_dirty fuel _ _ _ hcs
  · simp at h
  · simp at h

theorem Mirrored_modify (cells : List Cell) (a : Addr) (f : Cell → Cell)
    (hf : ∀ x, (f x).col = x.col ∧ (f x).row = x.row) (hd : ∀ x, (f x).deps = x.deps)
    (hr : ∀ x, (f x).revdeps = x.revdeps) (hm : Mirrored cells) :
    Mirrored (modify cells a f) := by
  intro x y
  rw [deps_of_modify cells a x f hf hd, revdeps_of_modify cells a y f hf hr]
  exact hm x y

theorem GraphInv_modify (cells : List Cell) (p : Addr) (f : Cell → Cell)
    (hf : ∀ x, (f x).col = x.col ∧ (f x).row = x.row) (hd : ∀ x, (f x).deps = x.deps)
    (hr : ∀ x, (f x).revdeps = x.revdeps)
    (he : ∀ x, x.flags.empty = false → (f x).flags.empty = false) (hi : GraphInv cells p) :
    GraphInv (modify cells p f) p :=
  ⟨Mirrored_modify cells p f hf hd hr hi.1, NoEmpty_modify cells p f hf he hi.2.1, by
    rw [lookup_isSome_modify cells p p f hf]; exact hi.2.2⟩

theorem GraphInv_remove_deps (cells : List Cell) (p : Addr) (hi : GraphInv cells p) :
    GraphInv (remove_deps cells p) p :=
  ⟨Mirrored_remove_deps cells p hi.1, NoEmpty_remove_deps cells p hi.2.1, by
    rw [isSome_remove_deps]; exact hi.2.2⟩

theorem GraphInv_clear_cell (cells : List Cell) (p : Addr) (hi : GraphInv cells p) :
    GraphInv (clear_cell cells p) p := by
  unfold clear_cell
  exact GraphInv_remove_deps _ p
    (GraphInv_modify cells p _ (fun _ => ⟨rfl, rfl⟩) (fun _ => rfl) (fun _ => rfl)
      (fun _ _ => rfl) hi)

theorem GraphInv_reevaluate (L : Libc) (fuel : Nat) (s : Sheet) (p : Addr) (s1 : Sheet)
    (hi : GraphInv s.cells p) (h : reevaluate L fuel s p = .ok s1) : GraphInv s1.cells p :=
  GraphInv_of_skeleton s.cells s1.cells p (skeleton_reevaluate L fuel s p s1 h).symm hi

theorem GraphInv_set_cell_body (L : Libc) (fuel : Nat) (s : Sheet) (p : Addr)
    (text : Option (List Char)) (s1 : Sheet) (hi : GraphInv s.cells p)
    (h : set_cell_body L fuel s p text = .ok s1) : GraphInv s1.cells p := by
  unfold set_cell_body at h
  simp only at h
  split at h
  · exact GraphInv_reevaluate L fuel _ p s1 (GraphInv_clear_cell s.cells p hi) h
  · exact GraphInv_reevaluate L fuel _ p s1 (GraphInv_clear_cell s.cells p hi) h
  · rename_i c t htxt
    have h1 : GraphInv (remove_deps (store_text s.cells p (c :: t)) p) p :=
      GraphInv_remove_deps _ p
        (GraphInv_modify s.cells p _ (fun _ => ⟨rfl, rfl⟩) (fun _ => rfl) (fun _ => rfl)
          (fun _ hx => hx) hi)
    split at h
    · split at h
      · rename_i cells2 lx hdeps
        have h2 := GraphInv_set_cell_deps fuel _ _ p _ h1 hdeps
        exact GraphInv_reevaluate L fuel _ p s1 h2 h
      · simp at h
      · simp at h
    · exact GraphInv_reevaluate L fuel _ p s1 h1 h

/-- `set_cell` keeps the edges mirrored and the placeholder flag off the store. -/
theorem set_cell_keeps_graph (L : Libc) (fuel : Nat) (s : Sheet) (c r : Int)
    (text : Option (List Char)) (s1 : Sheet) (hm : Mirrored s.cells) (hn : NoEmpty s.cells)
    (h : set_cell L fuel s c r text = .ok s1) : Mirrored s1.cells ∧ NoEmpty s1.cells := by
  unfold set_cell at h
  split at h
  · simp at h
  · simp at h
  · rename_i hfound
    have hf := find_cell_ok _ _ _ _ hfound
    split at h
    · simp only [Outcome.ok.injEq] at h
      rw [← h]; exact ⟨hm, hn⟩
    · split at h
      · rename_i cs hcs
        have hcs2 := new_cell_ok _ _ _ _ hcs
        have hi : GraphInv cs (c, r) := by
          rw [hcs2]
          exact ⟨Mirrored_cons_blank s.cells (c, r) hf.symm hm,
            NoEmpty_cons_blank s.cells (c, r) hn, isSome_cons_blank_self s.cells (c, r)⟩
        have := GraphInv_set_cell_body L fuel _ (c, r) text s1 hi h
        exact ⟨this.1, this.2.1⟩
      · simp at h
      · simp at h
  · rename_i x hfound
    have hf := find_cell_ok _ _ _ _ hfound
    split at h
    · simp only [Outcome.ok.injEq] at h
      rw [← h]; exact ⟨hm, hn⟩
    · have hi : GraphInv s.cells (c, r) := ⟨hm, hn, by rw [← hf]; rfl⟩
      have := GraphInv_set_cell_body L fuel _ (c, r) text s1 hi h
      exact ⟨this.1, this.2.1⟩

theorem Reachable_graph (L : Libc) (s : Sheet) (h : Reachable L s) :
    Mirrored s.cells ∧ NoEmpty s.cells := by
  induction h with
  | empty =>
    refine ⟨?_, ?_⟩
    · intro x y; rfl
    · intro a x hx; simp [Sheet.empty, lookup_nil] at hx
  | step s s1 fuel c r text _ hstep ih =>
    exact set_cell_keeps_graph L fuel s c r text s1 ih.1 ih.2 hstep


/-- C7. In every state reachable from the empty sheet by `set_cell` calls, each
cell `y` occurs in the outgoing list of each cell `x` as often as `x` occurs
in the incoming list of `y`; `add_dep` (between two cells of the store) and
`remove_deps` each keep a store mirrored. -/
theorem C7_edges_mirrored (L : Libc) (s : Sheet) (h : Reachable L s) :
    Mirrored s.cells ∧
    (∀ (cells : List Cell) (owner dep : Addr), (lookup cells owner).isSome = true →
      (lookup cells dep).isSome = true → Mirrored cells → Mirrored (add_dep cells owner dep)) ∧
    (∀ (cells : List Cell) (c : Addr), Mirrored cells → Mirrored (remove_deps cells c)) :=
  ⟨(Reachable_graph L s h).1, fun cells owner dep ho hd hm => Mirrored_add_dep cells owner dep ho hd hm,
    fun cells c hm => Mirrored_remove_deps cells c hm⟩

/-- The sheet after `A1 := "=B1+B1"` then `A1 := "=SUM(B1:C2)"` is reachable, so
its edges are mirrored. -/
theorem C7_edges_mirrored_witness :
    Reachable Libc.sample (Outcome.get_or (set_cells Libc.sample 12 Sheet.empty
        [(0, 0, "=B1+B1".toList), (0, 0, "=SUM(B1:C2)".toList)]) Sheet.empty) ∧
    Mirrored (Outcome.get_or (set_cells Libc.sample 12 Sheet.empty
        [(0, 0, "=B1+B1".toList), (0, 0, "=SUM(B1:C2)".toList)]) Sheet.empty).cells := by
  have h1 : Reachable Libc.sample (Outcome.get_or (set_cell Libc.sample 12 Sheet.empty 0 0
      (some "=B1+B1".toList)) Sheet.empty) :=
    Reachable.step Sheet.empty _ 12 0 0 (some "=B1+B1".toList) Reachable.empty (by decide!)
  have h2 : Reachable Libc.sample (Outcome.get_or (set_cells Libc.sample 12 Sheet.empty
      [(0, 0, "=B1+B1".toList), (0, 0, "=SUM(B1:C2)".toList)]) Sheet.empty) :=
    Reachable.step _ _ 12 0 0 (some "=SUM(B1:C2)".toList) h1 (by decide!)
  exact ⟨h2, (C7_edges_mirrored Libc.sample _ h2).1⟩


/-! ## One-digit numbers -/

theorem digit_facts : ∀ n : Fin 10,
    isalpha (Char.ofNat (48 + n.val)) = false ∧ isdigit (Char.ofNat (48 + n.val)) = true ∧
    isspace (Char.ofNat (48 + n.val)) = false ∧ Char.ofNat (48 + n.val) ≠ NUL ∧
    Char.ofNat (48 + n.val) ≠ '=' ∧ Char.ofNat (48 + n.val) ≠ SQUOTE ∧
    trim [Char.ofNat (48 + n.val)] = [Char.ofNat (48 + n.val)] ∧
    strtof [Char.ofNat (48 + n.val)] = ((n.val : ℚ), []) := by decide!

theorem isdigit_NUL : isdigit NUL = false := by decide

/-- The lexer on a text that is one digit. -/
theorem get_token_digit (lx : Lexer) (n : Nat) (hn : n < 10) :
    get_token (next_char { lx with expr := [Char.ofNat (48 + n)] })
      = ⟨tokNumber, [Char.ofNat (48 + n)], [], NUL, lx.current_function⟩ := by
  have hd := digit_facts ⟨n, hn⟩
  simp only at hd
  have hdot : NUL ≠ '.' := by decide
  simp [next_char, get_token, skip_space_not_space _ _ hd.2.2.1, hd.1, hd.2.1, hd.2.2.2.1,
    get_token_number, scan_digits, isdigit_NUL, hdot, put, TOKEN_MAX]

/-- A formula that is one digit evaluates to the number it denotes. -/
theorem parse_expr_digit (L : Libc) (cells : List Cell) (k : Nat) (lx : Lexer) (n : Nat)
    (hn : n < 10) :
    parse_expr L cells (k + 4) lx [Char.ofNat (48 + n)]
      = .ok (.num (n : ℚ), ⟨tokEnd, [Char.ofNat (48 + n)], [], NUL, lx.current_function⟩) := by
  have hd := digit_facts ⟨n, hn⟩
  simp only at hd
  have h2 : get_token ⟨tokNumber, [Char.ofNat (48 + n)], [], NUL, lx.current_function⟩
      = ⟨tokEnd, [Char.ofNat (48 + n)], [], NUL, lx.current_function⟩ := by
    rw [get_token_end _ rfl rfl]
  simp only [parse_expr, get_token_digit lx n hn]
  simp only [eval_expr, eval_expr1, eval_term, eval_factor]
  rw [eval_signs_none _ _ _ (by simp) (by simp)]
  simp [hd.2.2.2.2.2.2.2, h2, make_num, apply_sign_false, eval_term_loop, eval_expr1_loop,
    eval_expr_loop, is_relop, Value.isError]

theorem parse_expr_digit_le (L : Libc) (cells : List Cell) (f : Nat) (lx : Lexer) (n : Nat)
    (hn : n < 10) (hf : 4 ≤ f) :
    parse_expr L cells f lx [Char.ofNat (48 + n)]
      = .ok (.num (n : ℚ), ⟨tokEnd, [Char.ofNat (48 + n)], [], NUL, lx.current_function⟩) := by
  obtain ⟨k, rfl⟩ := Nat.exists_eq_add_of_le' hf
  exact parse_expr_digit L cells k lx n hn

theorem parse_expr_cell_name_le (L : Libc) (cells : List Cell) (f : Nat) (lx : Lexer)
    (col row : Nat) (hc : col < 26) (hr : row < 128) (hf : 4 ≤ f) :
    parse_expr L cells f lx (cell_name col row)
      = .ok ((cached_at cells ((col : Int), (row : Int))).share,
          ⟨tokEnd, cell_name col row, [], NUL, lx.current_function⟩) := by
  obtain ⟨k, rfl⟩ := Nat.exists_eq_add_of_le' hf
  exact parse_expr_cell_name L cells k lx col row hc (by omega)

/-- The dependency loop of `set_cell` on a formula that is one number. -/
theorem set_cell_deps_number (cells : List Cell) (k : Nat) (cf : Option Function)
    (t : List Char) (p : Addr) :
    set_cell_deps (k + 2) cells ⟨tokNumber, t, [], NUL, cf⟩ p
      = .ok (cells, ⟨tokEnd, t, [], NUL, cf⟩) := by
  have h2 : get_token ⟨tokNumber, t, [], NUL, cf⟩ = ⟨tokEnd, t, [], NUL, cf⟩ := by
    rw [get_token_end _ rfl rfl]
  simp [set_cell_deps, h2]

/-- `set_cell` of a one-digit text on a cell that is in the store, or on an
address without a cell: the cell becomes the formula `=d` without outgoing
edges, and recomputation starts there. -/
theorem set_cell_digit (L : Libc) (k : Nat) (s : Sheet) (c r n : Nat) (hn : n < 10)
    (hc : c < 26) (hr : r < 128)
    (hdiff : ∀ x, lookup s.cells ((c : Int), (r : Int)) = some x →
      x.content ≠ some [Char.ofNat (48 + n)]) :
    set_cell L (k + 2) s c r (some [Char.ofNat (48 + n)])
      = reevaluate L (k + 2)
          ⟨remove_deps (store_text (ensure s.cells ((c : Int), (r : Int))) ((c : Int), (r : Int))
              [Char.ofNat (48 + n)]) ((c : Int), (r : Int)),
            ⟨tokEnd, [Char.ofNat (48 + n)], [], NUL, s.lex.current_function⟩⟩
          ((c : Int), (r : Int)) := by
  have hd := digit_facts ⟨n, hn⟩
  simp only at hd
  have hform : is_formula_text [Char.ofNat (48 + n)] = true := by
    simp [is_formula_text, hd.2.2.2.2.1, hd.2.2.2.2.2.1, hd.2.2.2.2.2.2.2]
  have hcont : stored_content [Char.ofNat (48 + n)] = ['=', Char.ofNat (48 + n)] := by
    simp [stored_content, hd.2.2.2.2.1, hd.2.2.2.2.2.1, hd.2.2.2.2.2.2.2]
  have hbody : ∀ cells : List Cell,
      set_cell_body L (k + 2) ⟨cells, s.lex⟩ ((c : Int), (r : Int)) (some [Char.ofNat (48 + n)])
        = reevaluate L (k + 2)
          ⟨remove_deps (store_text cells ((c : Int), (r : Int)) [Char.ofNat (48 + n)])
              ((c : Int), (r : Int)),
            ⟨tokEnd, [Char.ofNat (48 + n)], [], NUL, s.lex.current_function⟩⟩
          ((c : Int), (r : Int)) := by
    intro cells
    simp only [set_cell_body, Option.map, hd.2.2.2.2.2.2.1, hform, hcont, if_true, List.drop,
      get_token_digit s.lex n hn]
    rw [set_cell_deps_number _ k]
  simp only [set_cell, find_cell_grid s.cells c r hc hr, new_cell_grid s.cells c r hc hr]
  cases hl : lookup s.cells ((c : Int), (r : Int)) with
  | none =>
    simp only [ensure, hl]
    simp [hbody]
  | some x =>
    have := hdiff x hl
    simp only [ensure, hl]
    have hne : ¬ (x.content.isSome = true ∧ x.content = some [Char.ofNat (48 + n)]) := by
      intro h; exact this h.2
    simp only [hne, if_false]
    exact hbody s.cells


/-! ## Formulas that name one cell -/

theorem formula_text_eq (t : List Char) :
    is_formula_text ('=' :: t) = true ∧ stored_content ('=' :: t) = '=' :: t := by
  simp [is_formula_text, stored_content]

/-- `set_cell` of the formula `=B` on the cell `A`: the edges of `A` are
replaced by the one edge to `B`, and recomputation starts at `A`. -/
theorem set_cell_ref (L : Libc) (k : Nat) (s : Sheet) (ca ra cb rb : Nat)
    (hca : ca < 26) (hra : ra < 128) (hcb : cb < 26) (hrb : rb < 128)
    (hdiff : ∀ x, lookup s.cells ((ca : Int), (ra : Int)) = some x →
      x.content ≠ some ('=' :: cell_name cb rb)) :
    set_cell L (k + 2) s ca ra (some ('=' :: cell_name cb rb))
      = reevaluate L (k + 2)
          ⟨add_dep (ensure (remove_deps (store_text (ensure s.cells ((ca : Int), (ra : Int)))
              ((ca : Int), (ra : Int)) ('=' :: cell_name cb rb)) ((ca : Int), (ra : Int)))
              ((cb : Int), (rb : Int))) ((ca : Int), (ra : Int)) ((cb : Int), (rb : Int)),
            ⟨tokEnd, cell_name cb rb, [], NUL, s.lex.current_function⟩⟩
          ((ca : Int), (ra : Int)) := by
  have ht := trim_cell_formula_fin ⟨cb, hcb⟩ ⟨rb, (by omega)⟩
  simp only at ht
  have h1 : get_token (next_char { s.lex with expr := cell_name cb rb })
      = ⟨tokCellRef, cell_name cb rb, [], NUL, s.lex.current_function⟩ :=
    get_token_cell_name_last _ cb rb hcb (by omega) (by simp [next_char, cell_name])
      (by simp [next_char, cell_name])
  have hbody : ∀ cells : List Cell,
      set_cell_body L (k + 2) ⟨cells, s.lex⟩ ((ca : Int), (ra : Int))
          (some ('=' :: cell_name cb rb))
        = reevaluate L (k + 2)
          ⟨add_dep (ensure (remove_deps (store_text cells ((ca : Int), (ra : Int))
              ('=' :: cell_name cb rb)) ((ca : Int), (ra : Int))) ((cb : Int), (rb : Int)))
              ((ca : Int), (ra : Int)) ((cb : Int), (rb : Int)),
            ⟨tokEnd, cell_name cb rb, [], NUL, s.lex.current_function⟩⟩
          ((ca : Int), (ra : Int)) := by
    intro cells
    simp only [set_cell_body, Option.map, ht, (formula_text_eq _).1, (formula_text_eq _).2,
      if_true, List.drop, h1]
    rw [set_cell_deps_cell_name _ k _ cb rb hcb (by omega)]
  simp only [set_cell, find_cell_grid s.cells ca ra hca hra, new_cell_grid s.cells ca ra hca hra]
  cases hl : lookup s.cells ((ca : Int), (ra : Int)) with
  | none =>
    have he : ensure s.cells ((ca : Int), (ra : Int)) = Cell.blank ca ra :: s.cells := by
      simp [ensure, hl]
    rw [he]
    simp only [reduceCtorEq, false_or, if_false]
    exact hbody _
  | some x =>
    have := hdiff x hl
    have he : ensure s.cells ((ca : Int), (ra : Int)) = s.cells := by
      simp [ensure, hl]
    rw [he]
    have hne : ¬ (x.content.isSome = true ∧ x.content = some ('=' :: cell_name cb rb)) := by
      intro h; exact this h.2
    simp only [hne, if_false]
    exact hbody s.cells

/-- The sheet after `set_cell(A, "=B")` on the empty sheet, for `A ≠ B`: `B` is
a placeholder read by `A`, and `A` holds Null. -/
theorem set_ref_on_empty (L : Libc) (k : Nat) (ca ra cb rb : Nat)
    (hca : ca < 26) (hra : ra < 128) (hcb : cb < 26) (hrb : rb < 128) (hne : ¬ (ca = cb ∧ ra = rb)) :
    set_cell L (k + 6) Sheet.empty ca ra (some ('=' :: cell_name cb rb))
      = .ok ⟨[⟨[], [((ca : Int), (ra : Int))], cb, rb, none, .null, ⟨false, false, false, false⟩⟩,
              ⟨[((cb : Int), (rb : Int))], [], ca, ra, some ('=' :: cell_name cb rb), .null,
                ⟨false, true, false, false⟩⟩],
            ⟨tokEnd, cell_name cb rb, [], NUL, none⟩⟩ := by
  have hne' : ¬ (cb = ca ∧ rb = ra) := by tauto
  rw [set_cell_ref L (k + 4) Sheet.empty ca ra cb rb hca hra hcb hrb
    (by simp [Sheet.empty, lookup])]
  simp [Sheet.empty, Lexer.init, reevaluate, remove_deps, store_text, modify, lookup, Cell.isAt,
    Cell.blank, add_dep, ensure, propagate_dirty, mark_dirty, Outcome.foldl, eval_cell,
    Flags.zero, set_cached, mark_visiting, settle, hne, hne', (formula_text_eq _).1,
    (formula_text_eq _).2, parse_expr_cell_name_le L _ (k + 5) _ cb rb hcb hrb (by omega),
    cached_at, Value.share, Value.stored]

/-- A one-digit number put into a cell `B` whose only reader is the formula
`=B` in `A`: both cells hold the number. -/
theorem digit_into_referenced (L : Libc) (k : Nat) (ca ra cb rb n : Nat)
    (hcb : cb < 26) (hrb : rb < 128) (hn : n < 10) (hne : ¬ (ca = cb ∧ ra = rb))
    (bc : Option (List Char)) (bv av : Value) (bf : Bool) (lx : Lexer)
    (hbc : bc ≠ some [Char.ofNat (48 + n)]) :
    set_cell L (k + 8)
        ⟨[⟨[], [((ca : Int), (ra : Int))], cb, rb, bc, bv, ⟨false, bf, false, false⟩⟩,
          ⟨[((cb : Int), (rb : Int))], [], ca, ra, some ('=' :: cell_name cb rb), av,
            ⟨false, true, false, false⟩⟩], lx⟩
        cb rb (some [Char.ofNat (48 + n)])
      = .ok ⟨[⟨[], [((ca : Int), (ra : Int))], cb, rb, some ['=', Char.ofNat (48 + n)],
                .num (n : ℚ), ⟨false, true, false, false⟩⟩,
              ⟨[((cb : Int), (rb : Int))], [], ca, ra, some ('=' :: cell_name cb rb),
                .num (n : ℚ), ⟨false, true, false, false⟩⟩],
            ⟨tokEnd, cell_name cb rb, [], NUL, lx.current_function⟩⟩ := by
  have hne' : ¬ (cb = ca ∧ rb = ra) := by tauto
  have hd := digit_facts ⟨n, hn⟩
  simp only at hd
  have hform : is_formula_text [Char.ofNat (48 + n)] = true := by
    simp [is_formula_text, hd.2.2.2.2.1, hd.2.2.2.2.2.1, hd.2.2.2.2.2.2.2]
  have hcont : stored_content [Char.ofNat (48 + n)] = ['=', Char.ofNat (48 + n)] := by
    simp [stored_content, hd.2.2.2.2.1, hd.2.2.2.2.2.1, hd.2.2.2.2.2.2.2]
  rw [set_cell_digit L (k + 6) _ cb rb n hn hcb hrb (by
    intro x hx
    simp [lookup, Cell.isAt] at hx
    rw [← hx]; exact hbc)]
  simp [reevaluate, remove_deps, store_text, modify, lookup, Cell.isAt,
    Cell.blank, add_dep, ensure, propagate_dirty, mark_dirty, Outcome.foldl, eval_cell,
    Flags.zero, set_cached, mark_visiting, settle, hne, hne', hform, hcont,
    parse_expr_cell_name_le L _ (k + 6) _ cb rb hcb hrb (by omega),
    parse_expr_digit_le L _ (k + 7) _ n hn (by omega), cached_at, Value.share, Value.stored]


/-- A one-digit number put into the only cell of the sheet, whether or not the
cell read itself before: the cell holds the number and has no edges. -/
theorem digit_into_single (L : Libc) (k : Nat) (ca ra n : Nat) (hn : n < 10)
    (hca : ca < 26) (hra : ra < 128)
    (ds : List Addr) (hds : ds = [] ∨ ds = [((ca : Int), (ra : Int))])
    (ct : Option (List Char)) (v : Value) (fm : Bool) (lx : Lexer)
    (hct : ct ≠ some [Char.ofNat (48 + n)]) :
    set_cell L (k + 8) ⟨[⟨ds, ds, ca, ra, ct, v, ⟨false, fm, false, false⟩⟩], lx⟩ ca ra
        (some [Char.ofNat (48 + n)])
      = .ok ⟨[⟨[], [], ca, ra, some ['=', Char.ofNat (48 + n)], .num (n : ℚ),
                ⟨false, true, false, false⟩⟩],
            ⟨tokEnd, [Char.ofNat (48 + n)], [], NUL, lx.current_function⟩⟩ := by
  have hd := digit_facts ⟨n, hn⟩
  simp only at hd
  have hform : is_formula_text [Char.ofNat (48 + n)] = true := by
    simp [is_formula_text, hd.2.2.2.2.1, hd.2.2.2.2.2.1, hd.2.2.2.2.2.2.2]
  have hcont : stored_content [Char.ofNat (48 + n)] = ['=', Char.ofNat (48 + n)] := by
    simp [stored_content, hd.2.2.2.2.1, hd.2.2.2.2.2.1, hd.2.2.2.2.2.2.2]
  rw [set_cell_digit L (k + 6) _ ca ra n hn hca hra (by
    intro x hx
    simp [lookup, Cell.isAt] at hx
    rw [← hx]; exact hct)]
  rcases hds with rfl | rfl <;>
  simp [reevaluate, remove_deps, remove_revdep, store_text, modify, lookup, Cell.isAt,
    Cell.blank, add_dep, ensure, propagate_dirty, mark_dirty, Outcome.foldl, eval_cell,
    Flags.zero, set_cached, mark_visiting, settle, hform, hcont,
    parse_expr_digit_le L _ (k + 7) _ n hn (by omega), cached_at, Value.stored]

theorem five_seven : (['5'] : List Char) = [Char.ofNat (48 + 5)] ∧
    (['7'] : List Char) = [Char.ofNat (48 + 7)] := by decide

/-- C1. Starting from the empty sheet, for all cell addresses A and B (equal or
not) of the rows 1 to 128: after `set_cell(A, "=B")` and `set_cell(B, "5")` the
cached value of A is the Number 5, and after a further `set_cell(B, "7")` it is
the Number 7. From row 129 on the claim fails on the 16-bit `int` of the
target: the index `(col + row * 257) % 31` of A129 is -28, `find_cell` reads
`hash_table[-28]`, and both `set_cell(A129, "=B1")` and `set_cell(A1, "=A129")`
are undefined. -/
theorem C1_reference_follows_value :
    (∀ (L : Libc) (k ca ra cb rb : Nat), ca < 26 → ra < 128 → cb < 26 → rb < 128 →
      ∃ s2 s3 : Sheet,
        set_cells L (k + 8) Sheet.empty [(ca, ra, '=' :: cell_name cb rb), (cb, rb, ['5'])]
          = .ok s2 ∧
        cached_at s2.cells ((ca : Int), (ra : Int)) = .num 5 ∧
        set_cell L (k + 8) s2 cb rb (some ['7']) = .ok s3 ∧
        cached_at s3.cells ((ca : Int), (ra : Int)) = .num 7) ∧
    bucket_int INT_BITS 0 128 = -28 ∧
    cached_after (set_cells Libc.sample 8 Sheet.empty [(0, 128, "=B1".toList)]) (0, 128)
      = .undefined ∧
    cached_after (set_cells Libc.sample 8 Sheet.empty [(0, 0, "=A129".toList)]) (0, 0)
      = .undefined := by
  refine ⟨fun L k ca ra cb rb hca hra hcb hrb => ?_, by decide!, by decide!, by decide!⟩
  rw [five_seven.1, five_seven.2]
  by_cases hne : ca = cb ∧ ra = rb
  · obtain ⟨rfl, rfl⟩ := hne
    have e1 : set_cells L (k + 8) Sheet.empty
        [(ca, ra, '=' :: cell_name ca ra), (ca, ra, [Char.ofNat (48 + 5)])]
        = .ok ⟨[⟨[], [], ca, ra, some ['=', Char.ofNat (48 + 5)], .num ((5 : Nat) : ℚ),
                ⟨false, true, false, false⟩⟩],
            ⟨tokEnd, [Char.ofNat (48 + 5)], [], NUL, none⟩⟩ := by
      simp only [set_cells, Outcome.foldl]
      rw [self_reference L (k + 5) ca ra hca (by omega)]
      simp only
      rw [digit_into_single L k ca ra 5 (by omega) hca hra _ (Or.inr rfl) _ _ _ _ (by
        intro h
        simp only [Option.some.injEq] at h
        have := congrArg List.length h
        simp [cell_name] at this)]
    have e2 := digit_into_single L k ca ra 7 (by omega) hca hra [] (Or.inl rfl)
      (some ['=', Char.ofNat (48 + 5)]) (.num ((5 : Nat) : ℚ)) true
      ⟨tokEnd, [Char.ofNat (48 + 5)], [], NUL, none⟩ (by decide)
    exact ⟨_, _, e1, by simp [cached_at, lookup, Cell.isAt], e2,
      by simp [cached_at, lookup, Cell.isAt]⟩
  · have hne' : ¬ (cb = ca ∧ rb = ra) := by tauto
    have e1 : set_cells L (k + 8) Sheet.empty
        [(ca, ra, '=' :: cell_name cb rb), (cb, rb, [Char.ofNat (48 + 5)])]
        = .ok ⟨[⟨[], [((ca : Int), (ra : Int))], cb, rb, some ['=', Char.ofNat (48 + 5)],
                .num ((5 : Nat) : ℚ), ⟨false, true, false, false⟩⟩,
              ⟨[((cb : Int), (rb : Int))], [], ca, ra, some ('=' :: cell_name cb rb),
                .num ((5 : Nat) : ℚ), ⟨false, true, false, false⟩⟩],
            ⟨tokEnd, cell_name cb rb, [], NUL, none⟩⟩ := by
      simp only [set_cells, Outcome.foldl]
      rw [set_ref_on_empty L (k + 2) ca ra cb rb hca hra hcb hrb hne]
      simp only
      rw [digit_into_referenced L k ca ra cb rb 5 hcb hrb (by omega) hne _ _ _ _ _ (by simp)]
    have e2 := digit_into_referenced L k ca ra cb rb 7 hcb hrb (by omega) hne
      (some ['=', Char.ofNat (48 + 5)]) (.num ((5 : Nat) : ℚ)) (.num ((5 : Nat) : ℚ)) true
      ⟨tokEnd, cell_name cb rb, [], NUL, none⟩ (by decide)
    exact ⟨_, _, e1, by simp [cached_at, lookup, Cell.isAt, hne'], e2,
      by simp [cached_at, lookup, Cell.isAt, hne']⟩

/-- Cell A1 read by itself, then 5, then 7; and cell A1 reading B2. -/
theorem C1_reference_follows_value_witness :
    ∃ s2 s3 : Sheet,
      set_cells Libc.sample 8 Sheet.empty [(0, 0, '=' :: cell_name 1 1), (1, 1, ['5'])]
        = .ok s2 ∧
      cached_at s2.cells (0, 0) = .num 5 ∧
      set_cell Libc.sample 8 s2 1 1 (some ['7']) = .ok s3 ∧
      cached_at s3.cells (0, 0) = .num 7 :=
  C1_reference_follows_value.1 Libc.sample 0 0 0 1 1 (by decide) (by decide) (by decide)
    (by decide)

/-- The sheet after `set_cell(A, "=B")` then `set_cell(B, "=A")` on the empty
sheet, for `A ≠ B`. -/
theorem mutual_cycle (L : Libc) (k ca ra cb rb : Nat)
    (hca : ca < 26) (hra : ra < 128) (hcb : cb < 26) (hrb : rb < 128)
    (hne : ¬ (ca = cb ∧ ra = rb)) :
    set_cells L (k + 8) Sheet.empty
        [(ca, ra, '=' :: cell_name cb rb), (cb, rb, '=' :: cell_name ca ra)]
      = .ok ⟨[⟨[((ca : Int), (ra : Int))], [((ca : Int), (ra : Int))], cb, rb,
                some ('=' :: cell_name ca ra), errExprCyclicRef, ⟨false, true, false, false⟩⟩,
              ⟨[((cb : Int), (rb : Int))], [((cb : Int), (rb : Int))], ca, ra,
                some ('=' :: cell_name cb rb), errExprCyclicRef, ⟨false, true, false, false⟩⟩],
            ⟨tokEnd, cell_name ca ra, [], NUL, none⟩⟩ := by
  have hne' : ¬ (cb = ca ∧ rb = ra) := by tauto
  simp only [set_cells, Outcome.foldl]
  rw [set_ref_on_empty L (k + 2) ca ra cb rb hca hra hcb hrb hne]
  simp only
  rw [set_cell_ref L (k + 6) _ cb rb ca ra hcb hrb hca hra (by
    intro x hx
    simp [lookup, Cell.isAt, hne'] at hx
    rw [← hx]; simp)]
  simp [reevaluate, remove_deps, store_text, modify, lookup, Cell.isAt,
    Cell.blank, add_dep, ensure, propagate_dirty, mark_dirty, Outcome.foldl, eval_cell,
    Flags.zero, set_cached, mark_visiting, settle, hne, hne', (formula_text_eq _).1,
    (formula_text_eq _).2, errExprCyclicRef, find_cell_grid _ ca ra hca hra,
    find_cell_grid _ cb rb hcb hrb]

/-- C5. Starting from the empty sheet, for all distinct cell addresses A and
B of the rows 1 to 128, after `set_cell(A, "=B")` then `set_cell(B, "=A")` the
cached values of A and of B are the Cyclic-reference error. From row 129 on
the claim fails on the 16-bit `int` of the target, where `find_cell` computes
a negative index: with A = A1 and B = A129, and with A = A129 and B = A1, the
two calls are undefined. -/
theorem C5_mutual_cycle :
    (∀ (L : Libc) (k ca ra cb rb : Nat), ca < 26 → ra < 128 → cb < 26 → rb < 128 →
      ¬ (ca = cb ∧ ra = rb) →
      ∃ s2 : Sheet,
        set_cells L (k + 8) Sheet.empty
          [(ca, ra, '=' :: cell_name cb rb), (cb, rb, '=' :: cell_name ca ra)] = .ok s2 ∧
        cached_at s2.cells ((ca : Int), (ra : Int)) = errExprCyclicRef ∧
        cached_at s2.cells ((cb : Int), (rb : Int)) = errExprCyclicRef) ∧
    cached_after (set_cells Libc.sample 8 Sheet.empty
      [(0, 0, "=A129".toList), (0, 128, "=A1".toList)]) (0, 0) = .undefined ∧
    cached_after (set_cells Libc.sample 8 Sheet.empty
      [(0, 128, "=A1".toList), (0, 0, "=A129".toList)]) (0, 128) = .undefined := by
  refine ⟨fun L k ca ra cb rb hca hra hcb hrb hne => ?_, by decide!, by decide!⟩
  have hne' : ¬ (cb = ca ∧ rb = ra) := by tauto
  refine ⟨_, mutual_cycle L k ca ra cb rb hca (by omega) hcb (by omega) hne, ?_, ?_⟩
  · simp [cached_at, lookup, Cell.isAt, hne']
  · simp [cached_at, lookup, Cell.isAt]

/-- Cells A1 and B1. -/
theorem C5_mutual_cycle_witness :
    ∃ s2 : Sheet,
      set_cells Libc.sample 8 Sheet.empty
        [(0, 0, '=' :: cell_name 1 0), (1, 0, '=' :: cell_name 0 0)] = .ok s2 ∧
      cached_at s2.cells (0, 0) = errExprCyclicRef ∧
      cached_at s2.cells (1, 0) = errExprCyclicRef :=
  C5_mutual_cycle.1 Libc.sample 0 0 0 1 0 (by decide) (by decide) (by decide) (by decide)
    (by decide)


/-! ## Formulas that add two cells -/

theorem dropWhile_of_head {p : Char → Bool} (l : List Char)
    (h : ∀ c, l.head? = some c → p c = false) : l.dropWhile p = l := by
  cases l with
  | nil => rfl
  | cons c t => simp [List.dropWhile, h c rfl]

/-- `trim` leaves a text alone that neither starts nor ends with white space. -/
theorem trim_of_ends (s : List Char) (h1 : ∀ c, s.head? = some c → isspace c = false)
    (h2 : ∀ c, s.getLast? = some c → isspace c = false) : trim s = s := by
  unfold trim
  rw [dropWhile_of_head s.reverse (by simpa using h2), List.reverse_reverse,
    dropWhile_of_head s h1]

theorem cell_name_last_fin : ∀ col : Fin 26, ∀ row : Fin 256,
    (cell_name col.val row.val).getLast?.map isspace = some false := by decide!

theorem plus_facts : isalpha '+' = false ∧ isdigit '+' = false ∧ isspace '+' = false ∧
    ('+' : Char) ≠ NUL ∧ ('+' : Char) ≠ ':' ∧ ('+' : Char) ≠ '=' ∧ ('+' : Char) ≠ '<' ∧
    ('+' : Char) ≠ '>' := by decide

theorem trim_sum_formula (cb rb cc rc : Nat) (hcc : cc < 26) (hrc : rc < 256) :
    trim ('=' :: sum_text cb rb cc rc) = '=' :: sum_text cb rb cc rc := by
  apply trim_of_ends
  · intro c hc
    simp only [List.head?_cons, Option.some.injEq] at hc
    rw [← hc]; decide
  · intro c hc
    have h := cell_name_last_fin ⟨cc, hcc⟩ ⟨rc, hrc⟩
    simp only at h
    have hx : ('=' :: sum_text cb rb cc rc).getLast? = (cell_name cc rc).getLast? := by
      have : '=' :: sum_text cb rb cc rc = ('=' :: cell_name cb rb ++ ['+']) ++ cell_name cc rc := by
        simp [sum_text]
      rw [this, List.getLast?_append]
      cases hl : (cell_name cc rc).getLast? with
      | none => simp [hl] at h
      | some d => simp
    rw [hx] at hc
    rw [hc] at h
    simpa using h

/-- The three tokens of `B+C` and the end of the text. -/
theorem get_token_sum (lx : Lexer) (cb rb cc rc : Nat)
    (hcb : cb < 26) (hrb : rb < 128) (hcc : cc < 26) (hrc : rc < 128) :
    get_token (next_char { lx with expr := sum_text cb rb cc rc })
      = ⟨tokCellRef, cell_name cb rb, cell_name cc rc, '+', lx.current_function⟩ ∧
    get_token ⟨tokCellRef, cell_name cb rb, cell_name cc rc, '+', lx.current_function⟩
      = ⟨tokPlus, cell_name cb rb, nat_text (rc + 1), Char.ofNat (65 + cc),
          lx.current_function⟩ ∧
    get_token ⟨tokPlus, cell_name cb rb, nat_text (rc + 1), Char.ofNat (65 + cc),
        lx.current_function⟩
      = ⟨tokCellRef, cell_name cc rc, [], NUL, lx.current_function⟩ ∧
    get_token ⟨tokCellRef, cell_name cc rc, [], NUL, lx.current_function⟩
      = ⟨tokEnd, cell_name cc rc, [], NUL, lx.current_function⟩ := by
  refine ⟨?_, ?_, ?_, ?_⟩
  · have h := get_token_cell_name (next_char { lx with expr := sum_text cb rb cc rc }) cb rb
      ('+' :: cell_name cc rc) hcb (by omega) (by simp [next_char, sum_text, cell_name])
      (by simp [next_char, sum_text, cell_name]) (by simp [feed_cons, plus_facts])
      (by simp [feed_cons, plus_facts])
    simpa [feed_cons, next_char] using h
  · simp [get_token, skip_space_not_space _ _ plus_facts.2.2.1, plus_facts, next_char, cell_name]
  · exact get_token_cell_name_last _ cc rc hcc (by omega) rfl rfl
  · rw [get_token_end _ rfl rfl]

/-- One turn of the dependency loop of `set_cell` at the name of a cell. -/
theorem set_cell_deps_at_ref (cells : List Cell) (n : Nat) (lx : Lexer) (c r : Nat)
    (hc : c < 26) (hr : r < 128) (p : Addr) (htok : lx.tok_type = tokCellRef)
    (hname : lx.token = cell_name c r) :
    set_cell_deps (n + 1) cells lx p
      = set_cell_deps n (add_dep (ensure cells ((c : Int), (r : Int))) p ((c : Int), (r : Int)))
          (get_token lx) p := by
  simp only [set_cell_deps, htok, hname, parse_cellref_cell_name c r hc (by omega),
    find_cell_grid cells c r hc hr, new_cell_grid cells c r hc hr, reduceCtorEq, or_self,
    if_false, if_true]
  cases hl : lookup cells ((c : Int), (r : Int)) <;> simp [ensure, hl]

/-- One turn of the dependency loop of `set_cell` at an operator. -/
theorem set_cell_deps_at_plus (cells : List Cell) (n : Nat) (lx : Lexer) (p : Addr)
    (htok : lx.tok_type = tokPlus) :
    set_cell_deps (n + 1) cells lx p = set_cell_deps n cells (get_token lx) p := by
  simp [set_cell_deps, htok]

/-- The dependency loop of `set_cell` at the end of the text. -/
theorem set_cell_deps_at_end (cells : List Cell) (n : Nat) (lx : Lexer) (p : Addr)
    (htok : lx.tok_type = tokEnd) : set_cell_deps (n + 1) cells lx p = .ok (cells, lx) := by
  simp [set_cell_deps, htok]

/-- The dependency loop of `set_cell` on the formula `=B+C`. -/
theorem set_cell_deps_sum (cells : List Cell) (f : Nat) (hf : 4 ≤ f) (lx : Lexer)
    (cb rb cc rc : Nat) (hcb : cb < 26) (hrb : rb < 128) (hcc : cc < 26) (hrc : rc < 128)
    (p : Addr) :
    set_cell_deps f cells (get_token (next_char { lx with expr := sum_text cb rb cc rc })) p
      = .ok (add_dep (ensure (add_dep (ensure cells ((cb : Int), (rb : Int))) p
              ((cb : Int), (rb : Int))) ((cc : Int), (rc : Int))) p ((cc : Int), (rc : Int)),
          ⟨tokEnd, cell_name cc rc, [], NUL, lx.current_function⟩) := by
  obtain ⟨k, rfl⟩ := Nat.exists_eq_add_of_le' hf
  obtain ⟨h1, h2, h3, h4⟩ := get_token_sum lx cb rb cc rc hcb (by omega) hcc (by omega)
  rw [h1, set_cell_deps_at_ref cells (k + 3) _ cb rb hcb (by omega) p rfl rfl, h2,
    set_cell_deps_at_plus _ (k + 2) _ p rfl, h3,
    set_cell_deps_at_ref _ (k + 1) _ cc rc hcc (by omega) p rfl rfl, h4,
    set_cell_deps_at_end _ k _ p rfl]

/-- The formula `B+C` where both cells hold Null (or are absent) is the Number 0. -/
theorem parse_expr_sum_null (L : Libc) (cells : List Cell) (f : Nat) (hf : 5 ≤ f) (lx : Lexer)
    (cb rb cc rc : Nat) (hcb : cb < 26) (hrb : rb < 128) (hcc : cc < 26) (hrc : rc < 128)
    (hb : cached_at cells ((cb : Int), (rb : Int)) = .null)
    (hc : cached_at cells ((cc : Int), (rc : Int)) = .null) :
    parse_expr L cells f lx (sum_text cb rb cc rc)
      = .ok (.num 0, ⟨tokEnd, cell_name cc rc, [], NUL, lx.current_function⟩) := by
  obtain ⟨k, rfl⟩ := Nat.exists_eq_add_of_le' hf
  obtain ⟨h1, h2, h3, h4⟩ := get_token_sum lx cb rb cc rc hcb (by omega) hcc (by omega)
  have hvb : ∀ o : Option Cell, o = lookup cells ((cb : Int), (rb : Int)) →
      (match o with
        | some c => c.cached
        | none => Value.null) = .null := by
    intro o ho; subst ho; exact hb
  have hvc : ∀ o : Option Cell, o = lookup cells ((cc : Int), (rc : Int)) →
      (match o with
        | some c => c.cached
        | none => Value.null) = .null := by
    intro o ho; subst ho; exact hc
  simp only [parse_expr, h1]
  simp only [eval_expr, eval_expr1, eval_term, eval_factor]
  rw [eval_signs_none _ _ _ (by simp) (by simp)]
  simp only [parse_cellref_cell_name cb rb hcb (by omega), find_cell_grid cells cb rb hcb hrb, h2]
  cases hlb : lookup cells ((cb : Int), (rb : Int)) with
  | none =>
    simp only [apply_sign_false, Value.isError, eval_term_loop, eval_expr1_loop]
    simp only [reduceCtorEq, or_self, if_false, or_true, true_or, if_true, h3, eval_term,
      eval_factor, Bool.false_eq_true]
    rw [eval_signs_none _ _ _ (by simp) (by simp)]
    simp only [parse_cellref_cell_name cc rc hcc (by omega), find_cell_grid cells cc rc hcc hrc, h4]
    cases hlc : lookup cells ((cc : Int), (rc : Int)) with
    | none =>
      simp [apply_sign_false, Value.isError, eval_term_loop, eval_expr1_loop, eval_expr_loop,
        add_apply, is_str_value, to_num, make_num, is_relop, Value.share, frees_cached,
        Value.isShared]
    | some y =>
      have := hvc _ hlc.symm
      simp only at this
      simp [this, apply_sign_false, Value.isError, eval_term_loop, eval_expr1_loop,
        eval_expr_loop, add_apply, is_str_value, to_num, make_num, is_relop, Value.share,
        frees_cached, Value.isShared]
  | some x =>
    have hx := hvb _ hlb.symm
    simp only at hx
    simp only [hx, Value.share, apply_sign_false, Value.isError, eval_term_loop, eval_expr1_loop]
    simp only [reduceCtorEq, or_self, if_false, or_true, true_or, if_true, h3, eval_term,
      eval_factor, Bool.false_eq_true]
    rw [eval_signs_none _ _ _ (by simp) (by simp)]
    simp only [parse_cellref_cell_name cc rc hcc (by omega), find_cell_grid cells cc rc hcc hrc, h4]
    cases hlc : lookup cells ((cc : Int), (rc : Int)) with
    | none =>
      simp [apply_sign_false, Value.isError, eval_term_loop, eval_expr1_loop, eval_expr_loop,
        add_apply, is_str_value, to_num, make_num, is_relop, Value.share, frees_cached,
        Value.isShared]
    | some y =>
      have := hvc _ hlc.symm
      simp only at this
      simp [this, apply_sign_false, Value.isError, eval_term_loop, eval_expr1_loop,
        eval_expr_loop, add_apply, is_str_value, to_num, make_num, is_relop, Value.share,
        frees_cached, Value.isShared]

theorem nat_text_length_fin : ∀ row : Fin 256,
    1 ≤ (nat_text (row.val + 1)).length ∧ (nat_text (row.val + 1)).length ≤ 3 := by decide!

/-- A formula `=B+C` is longer than a formula `=D`. -/
theorem sum_formula_ne_ref (cb rb cc rc cd rd : Nat) (hrb : rb < 256) (hrc : rc < 256)
    (hrd : rd < 256) :
    (some ('=' :: sum_text cb rb cc rc) : Option (List Char)) ≠ some ('=' :: cell_name cd rd) := by
  intro h
  simp only [Option.some.injEq, List.cons.injEq, true_and] at h
  have := congrArg List.length h
  have h1 := nat_text_length_fin ⟨rb, hrb⟩
  have h2 := nat_text_length_fin ⟨rc, hrc⟩
  have h3 := nat_text_length_fin ⟨rd, hrd⟩
  simp only at h1 h2 h3
  simp [sum_text, cell_name] at this
  omega

/-- `set_cell` of the formula `=B+C` on the cell `A`: the edges of `A` are
replaced by the edges to `B` and to `C`, and recomputation starts at `A`. -/
theorem set_cell_sum (L : Libc) (f : Nat) (hf : 4 ≤ f) (s : Sheet) (ca ra cb rb cc rc : Nat)
    (hxa : ca < 26) (hra : ra < 128) (hcb : cb < 26) (hrb : rb < 128) (hcc : cc < 26) (hrc : rc < 128)
    (hdiff : ∀ x, lookup s.cells ((ca : Int), (ra : Int)) = some x →
      x.content ≠ some ('=' :: sum_text cb rb cc rc)) :
    set_cell L f s ca ra (some ('=' :: sum_text cb rb cc rc))
      = reevaluate L f
          ⟨add_dep (ensure (add_dep (ensure (remove_deps (store_text
              (ensure s.cells ((ca : Int), (ra : Int))) ((ca : Int), (ra : Int))
              ('=' :: sum_text cb rb cc rc)) ((ca : Int), (ra : Int)))
              ((cb : Int), (rb : Int))) ((ca : Int), (ra : Int)) ((cb : Int), (rb : Int)))
              ((cc : Int), (rc : Int))) ((ca : Int), (ra : Int)) ((cc : Int), (rc : Int)),
            ⟨tokEnd, cell_name cc rc, [], NUL, s.lex.current_function⟩⟩
          ((ca : Int), (ra : Int)) := by
  have ht := trim_sum_formula cb rb cc rc hcc (by omega)
  have hbody : ∀ cells : List Cell,
      set_cell_body L f ⟨cells, s.lex⟩ ((ca : Int), (ra : Int))
          (some ('=' :: sum_text cb rb cc rc))
        = reevaluate L f
          ⟨add_dep (ensure (add_dep (ensure (remove_deps (store_text cells
              ((ca : Int), (ra : Int)) ('=' :: sum_text cb rb cc rc)) ((ca : Int), (ra : Int)))
              ((cb : Int), (rb : Int))) ((ca : Int), (ra : Int)) ((cb : Int), (rb : Int)))
              ((cc : Int), (rc : Int))) ((ca : Int), (ra : Int)) ((cc : Int), (rc : Int)),
            ⟨tokEnd, cell_name cc rc, [], NUL, s.lex.current_function⟩⟩
          ((ca : Int), (ra : Int)) := by
    intro cells
    simp only [set_cell_body, Option.map, ht, (formula_text_eq _).1, (formula_text_eq _).2,
      if_true, List.drop]
    rw [set_cell_deps_sum _ f hf s.lex cb rb cc rc hcb (by omega) hcc (by omega)]
  simp only [set_cell, find_cell_grid s.cells ca ra hxa hra, new_cell_grid s.cells ca ra hxa hra]
  cases hl : lookup s.cells ((ca : Int), (ra : Int)) with
  | none =>
    have he : ensure s.cells ((ca : Int), (ra : Int)) = Cell.blank ca ra :: s.cells := by
      simp [ensure, hl]
    rw [he]
    simp only [reduceCtorEq, false_or, if_false]
    exact hbody _
  | some x =>
    have := hdiff x hl
    have he : ensure s.cells ((ca : Int), (ra : Int)) = s.cells := by
      simp [ensure, hl]
    rw [he]
    have hne : ¬ (x.content.isSome = true ∧ x.content = some ('=' :: sum_text cb rb cc rc)) := by
      intro h; exact this h.2
    simp only [hne, if_false]
    exact hbody s.cells

/-- The sheet after `set_cell(A, "=B+C")` then `set_cell(A, "=D")` on the empty
sheet, for four distinct cells. -/
theorem reassigned (L : Libc) (k ca ra cb rb cc rc cd rd : Nat)
    (hxa : ca < 26) (hra : ra < 128) (hcb : cb < 26) (hrb : rb < 128) (hcc : cc < 26) (hrc : rc < 128)
    (hcd : cd < 26) (hrd : rd < 128)
    (hab : ¬ (ca = cb ∧ ra = rb)) (hac : ¬ (ca = cc ∧ ra = rc)) (had : ¬ (ca = cd ∧ ra = rd))
    (hbc : ¬ (cb = cc ∧ rb = rc)) (hbd : ¬ (cb = cd ∧ rb = rd)) (hcd' : ¬ (cc = cd ∧ rc = rd)) :
    set_cells L (k + 10) Sheet.empty
        [(ca, ra, '=' :: sum_text cb rb cc rc), (ca, ra, '=' :: cell_name cd rd)]
      = .ok ⟨[⟨[], [((ca : Int), (ra : Int))], cd, rd, none, .null, ⟨false, false, false, false⟩⟩,
              ⟨[], [], cc, rc, none, .null, ⟨false, false, false, false⟩⟩,
              ⟨[], [], cb, rb, none, .null, ⟨false, false, false, false⟩⟩,
              ⟨[((cd : Int), (rd : Int))], [], ca, ra, some ('=' :: cell_name cd rd), .null,
                ⟨false, true, false, false⟩⟩],
            ⟨tokEnd, cell_name cd rd, [], NUL, none⟩⟩ := by
  have hba : ¬ (cb = ca ∧ rb = ra) := fun h => hab ⟨h.1.symm, h.2.symm⟩
  have hca : ¬ (cc = ca ∧ rc = ra) := fun h => hac ⟨h.1.symm, h.2.symm⟩
  have hda : ¬ (cd = ca ∧ rd = ra) := fun h => had ⟨h.1.symm, h.2.symm⟩
  have hcb' : ¬ (cc = cb ∧ rc = rb) := fun h => hbc ⟨h.1.symm, h.2.symm⟩
  have hdb : ¬ (cd = cb ∧ rd = rb) := fun h => hbd ⟨h.1.symm, h.2.symm⟩
  have hdc : ¬ (cd = cc ∧ rd = rc) := fun h => hcd' ⟨h.1.symm, h.2.symm⟩
  have e1 : set_cell L (k + 10) Sheet.empty ca ra (some ('=' :: sum_text cb rb cc rc))
      = .ok ⟨[⟨[], [((ca : Int), (ra : Int))], cc, rc, none, .null, ⟨false, false, false, false⟩⟩,
              ⟨[], [((ca : Int), (ra : Int))], cb, rb, none, .null, ⟨false, false, false, false⟩⟩,
              ⟨[((cc : Int), (rc : Int)), ((cb : Int), (rb : Int))], [], ca, ra,
                some ('=' :: sum_text cb rb cc rc), .num 0, ⟨false, true, false, false⟩⟩],
            ⟨tokEnd, cell_name cc rc, [], NUL, none⟩⟩ := by
    have h0 := set_cell_sum L (k + 10) (by omega) Sheet.empty ca ra cb rb cc rc hxa hra hcb hrb
      hcc hrc
      (by intro x hx; simp [Sheet.empty, lookup] at hx)
    rw [h0]
    simp [Sheet.empty, Lexer.init, reevaluate, remove_deps, store_text, modify, lookup, Cell.isAt,
      Cell.blank, add_dep, ensure, propagate_dirty, mark_dirty, Outcome.foldl, eval_cell,
      Flags.zero, set_cached, mark_visiting, settle, hab, hac, hbc, hba, hca, hcb',
      (formula_text_eq _).1, (formula_text_eq _).2, cached_at,
      parse_expr_sum_null L _ (k + 9) (by omega) _ cb rb cc rc hcb hrb hcc hrc, Value.stored,
      find_cell_grid _ ca ra hxa hra]
  simp only [set_cells, Outcome.foldl, e1]
  rw [set_cell_ref L (k + 8) _ ca ra cd rd hxa hra hcd hrd (by
    intro x hx
    simp [lookup, Cell.isAt, hca, hba] at hx
    rw [← hx]
    exact sum_formula_ne_ref cb rb cc rc cd rd (by omega) (by omega) (by omega))]
  simp [reevaluate, remove_deps, remove_revdep, store_text, modify, lookup, Cell.isAt,
    Cell.blank, add_dep, ensure, propagate_dirty, mark_dirty, Outcome.foldl, eval_cell,
    Flags.zero, set_cached, mark_visiting, settle, hab, hac, had, hbc, hbd, hcd', hba, hca, hda,
    hcb', hdb, hdc, (formula_text_eq _).1, (formula_text_eq _).2,
    parse_expr_cell_name_le L _ (k + 9) _ cd rd hcd hrd (by omega), cached_at, Value.share,
    Value.stored, find_cell_grid _ ca ra hxa hra]

/-! ## Cells that are not dirty are left alone -/

/-- `eval_cell` changes no cell that is not dirty when it is called. -/
theorem eval_cell_frame (L : Libc) (fuel : Nat) :
    ∀ (s : Sheet) (a : Addr) (s1 : Sheet), eval_cell L fuel s a = .ok s1 →
      ∀ (b : Addr) (x : Cell), lookup s.cells b = some x → x.flags.dirty = false →
        lookup s1.cells b = some x := by
  induction fuel with
  | zero => intro s a s1 h; simp [eval_cell] at h
  | succ n ih =>
    intro s a s1 h b x hb hx
    have hfold : ∀ (l : List Addr) (t t1 : Sheet), lookup t.cells b = some x →
        Outcome.foldl (fun st d => eval_cell L n st d) t l = .ok t1 →
        lookup t1.cells b = some x := by
      intro l t t1 ht hl
      refine foldl_preserves (fun st => lookup st.cells b = some x) _ ?_ l t t1 ht hl
      intro u d u1 hu hd
      exact ih u d u1 hd b x hu hx
    simp only [eval_cell] at h
    split at h
    · simp only [Outcome.ok.injEq] at h; rw [← h]; exact hb
    · rename_i c hc
      split at h
      · simp only [Outcome.ok.injEq] at h; rw [← h]; exact hb
      · rename_i hdirty
        have hba : b ≠ a := by
          intro e
          rw [e, hc] at hb
          simp only [Option.some.injEq] at hb
          rw [hb] at hdirty
          simp [hx] at hdirty
        have hmod : ∀ (cs : List Cell) (f : Cell → Cell),
            (∀ y, (f y).col = y.col ∧ (f y).row = y.row) → lookup cs b = some x →
            lookup (modify cs a f) b = some x := by
          intro cs f hf hcs
          rw [lookup_modify cs a b f hf]
          simp [hba, hcs]
        split at h
        · rename_i s6 hown
          split at h
          · simp at h
          · rename_i c7 hc7
            refine hfold _ _ _ ?_ h
            simp only
            refine hmod _ _ (fun _ => ⟨rfl, rfl⟩) ?_
            split at hown
            · split at hown
              · simp only [Outcome.ok.injEq] at hown
                rw [← hown]; exact hmod _ _ (fun _ => ⟨rfl, rfl⟩) hb
              · simp only [Outcome.ok.injEq] at hown
                rw [← hown]; exact hmod _ _ (fun _ => ⟨rfl, rfl⟩) hb
            · split at hown
              · simp only [Outcome.ok.injEq] at hown
                rw [← hown]; exact hmod _ _ (fun _ => ⟨rfl, rfl⟩) hb
              · split at hown
                · rename_i s2 hdeps
                  have hs2 : lookup s2.cells b = some x := by
                    refine hfold _ _ _ ?_ hdeps
                    simp only
                    exact hmod _ _ (fun _ => ⟨rfl, rfl⟩) (hmod _ _ (fun _ => ⟨rfl, rfl⟩) hb)
                  split at hown
                  · rename_i s5 hs4
                    simp only [Outcome.ok.injEq] at hown
                    rw [← hown]
                    simp only
                    refine hmod _ _ (fun _ => ⟨rfl, rfl⟩) ?_
                    split at hs4
                    · simp at hs4
                    · split at hs4
                      · split at hs4
                        · simp at hs4
                        · split at hs4
                          · simp only [Outcome.ok.injEq] at hs4
                            rw [← hs4]
                            simp only
                            exact hmod _ _ (fun _ => ⟨rfl, rfl⟩) hs2
                          · simp at hs4
                          · simp at hs4
                      · simp only [Outcome.ok.injEq] at hs4
                        rw [← hs4]; exact hs2
                  · simp at hown
                  · simp at hown
                · simp at hown
                · simp at hown
        · simp at h
        · simp at h


theorem clean_value_modify (cells : List Cell) (a A : Addr) (f : Cell → Cell) (v : Value)
    (hf : ∀ x, (f x).col = x.col ∧ (f x).row = x.row)
    (hc : a ≠ A ∨ ∀ y, (f y).cached = y.cached ∧ (f y).flags.dirty = y.flags.dirty)
    (h : clean_value cells A v) : clean_value (modify cells a f) A v := by
  unfold clean_value at h ⊢
  rw [lookup_modify cells a A f hf]
  by_cases hA : A = a
  · rcases hc with hc | hc
    · exact absurd hA.symm hc
    · cases hl : lookup cells A with
      | none => rw [hl] at h; simp [hA, hl, h]
      | some y =>
        rw [hl] at h
        simp only [hA, if_true, Option.map_some']
        rw [(hc y).1, (hc y).2]
        exact h
  · simp only [hA, if_false]; exact h

theorem clean_value_cons_blank (cells : List Cell) (a A : Addr) (v : Value)
    (hl : lookup cells a = none) (h : clean_value cells A v) :
    clean_value (Cell.blank a.1 a.2 :: cells) A v := by
  unfold clean_value at h ⊢
  rw [lookup_cons_blank]
  by_cases ha : a = A
  · subst ha
    rw [hl] at h
    simp [h, Cell.blank, Flags.zero]
  · simp only [ha, if_false]; exact h

theorem clean_value_add_dep (cells : List Cell) (owner dep A : Addr) (v : Value)
    (h : clean_value cells A v) : clean_value (add_dep cells owner dep) A v := by
  unfold add_dep
  exact clean_value_modify _ _ _ _ _ (fun _ => ⟨rfl, rfl⟩) (Or.inr (fun _ => ⟨rfl, rfl⟩))
    (clean_value_modify _ _ _ _ _ (fun _ => ⟨rfl, rfl⟩) (Or.inr (fun _ => ⟨rfl, rfl⟩)) h)

theorem clean_value_fold_remove_revdep (c A : Addr) (v : Value) (ds : List Addr) :
    ∀ cells : List Cell, clean_value cells A v →
      clean_value (ds.foldl (fun cs d => remove_revdep cs d c) cells) A v := by
  induction ds with
  | nil => intro cells h; exact h
  | cons d ds ih =>
    intro cells h
    simp only [List.foldl_cons]
    refine ih _ ?_
    unfold remove_revdep
    exact clean_value_modify _ _ _ _ _ (fun _ => ⟨rfl, rfl⟩) (Or.inr (fun _ => ⟨rfl, rfl⟩)) h

theorem clean_value_remove_deps (cells : List Cell) (c A : Addr) (v : Value)
    (h : clean_value cells A v) : clean_value (remove_deps cells c) A v := by
  unfold remove_deps
  cases hl : lookup cells c with
  | none => simpa using h
  | some x =>
    simp only
    exact clean_value_modify _ _ _ _ _ (fun _ => ⟨rfl, rfl⟩) (Or.inr (fun _ => ⟨rfl, rfl⟩))
      (clean_value_fold_remove_revdep c A v x.deps cells h)

theorem OnlySelf_modify (cells : List Cell) (a p : Addr) (f : Cell → Cell)
    (hf : ∀ x, (f x).col = x.col ∧ (f x).row = x.row) (hr : ∀ x, (f x).revdeps = x.revdeps)
    (h : OnlySelf cells p) : OnlySelf (modify cells a f) p := by
  unfold OnlySelf
  rw [revdeps_of_modify cells a p f hf hr]
  exact h

theorem OnlySelf_cons_blank (cells : List Cell) (a p : Addr) (hl : lookup cells a = none)
    (h : OnlySelf cells p) : OnlySelf (Cell.blank a.1 a.2 :: cells) p := by
  unfold OnlySelf
  rw [revdeps_of_cons_blank cells a p hl]
  exact h

theorem OnlySelf_add_dep (cells : List Cell) (p dep : Addr)
    (hd : (lookup cells dep).isSome = true) (h : OnlySelf cells p) :
    OnlySelf (add_dep cells p dep) p := by
  unfold OnlySelf
  rw [revdeps_of_add_dep cells p dep p hd]
  by_cases hp : p = dep
  · simp only [hp, if_true]
    intro z hz
    rcases List.mem_cons.mp hz with hz | hz
    · exact hz
    · rw [← hp] at hz ⊢
      exact h z hz
  · simp only [hp, if_false]
    exact h

theorem OnlySelf_remove_deps (cells : List Cell) (p : Addr) (h : OnlySelf cells p) :
    OnlySelf (remove_deps cells p) p := by
  unfold remove_deps
  cases hl : lookup cells p with
  | none => simpa using h
  | some x =>
    simp only
    obtain ⟨_, h2, _, _⟩ := fold_remove_revdep p x.deps cells
    unfold OnlySelf
    rw [revdeps_of_modify _ p p (fun y => { y with deps := [] }) (fun _ => ⟨rfl, rfl⟩)
      (fun _ => rfl)]
    intro z hz
    by_cases hzp : z = p
    · exact hzp
    · have hc := h2 p z
      simp only [hzp, if_false] at hc
      have hpos : 0 < (revdeps_of cells p).count z := by
        rw [← hc]; exact List.count_pos_iff.mpr hz
      exact h z (List.count_pos_iff.mp hpos)

theorem Unread_add_dep (cells : List Cell) (p A dep : Addr) (v : Value)
    (hd : (lookup cells dep).isSome = true) (h : Unread cells p A v) :
    Unread (add_dep cells p dep) p A v :=
  ⟨GraphInv_add_dep cells p dep hd h.1, clean_value_add_dep cells p dep A v h.2.1,
    OnlySelf_add_dep cells p dep hd h.2.2⟩

theorem Unread_cons_blank (cells : List Cell) (p A a : Addr) (v : Value)
    (hl : lookup cells a = none) (h : Unread cells p A v) :
    Unread (Cell.blank a.1 a.2 :: cells) p A v :=
  ⟨GraphInv_cons_blank cells p a hl h.1, clean_value_cons_blank cells a A v hl h.2.1,
    OnlySelf_cons_blank cells a p hl h.2.2⟩

theorem Unread_remove_deps (cells : List Cell) (p A : Addr) (v : Value)
    (h : Unread cells p A v) : Unread (remove_deps cells p) p A v :=
  ⟨GraphInv_remove_deps cells p h.1, clean_value_remove_deps cells p A v h.2.1,
    OnlySelf_remove_deps cells p h.2.2⟩

theorem Unread_modify (cells : List Cell) (p A : Addr) (v : Value) (f : Cell → Cell)
    (hA : A ≠ p)
    (hf : ∀ x, (f x).col = x.col ∧ (f x).row = x.row) (hd : ∀ x, (f x).deps = x.deps)
    (hr : ∀ x, (f x).revdeps = x.revdeps)
    (he : ∀ x, x.flags.empty = false → (f x).flags.empty = false) (h : Unread cells p A v) :
    Unread (modify cells p f) p A v :=
  ⟨GraphInv_modify cells p f hf hd hr he h.1,
    clean_value_modify cells p A f v hf (Or.inl (fun e => hA e.symm)) h.2.1,
    OnlySelf_modify cells p p f hf hr h.2.2⟩

theorem Unread_set_range_dep (cells : List Cell) (p A a : Addr) (v : Value)
    (found : Option Cell)
    (hf : found = lookup cells a) (r : List Cell × Addr) (h : Unread cells p A v)
    (hr : set_range_dep cells p (range_cell found a) = .ok r) : Unread r.1 p A v ∧ r.2 = p := by
  cases found with
  | none =>
    simp only [set_range_dep, range_cell, Cell.blank, if_true] at hr
    split at hr
    · rename_i cs hcs
      simp only [Outcome.ok.injEq] at hr
      rw [← hr]
      have hcs2 := new_cell_ok _ _ _ _ hcs
      rw [hcs2]
      refine ⟨Unread_add_dep _ p A (a.1, a.2) v (isSome_cons_blank_self cells a) ?_, rfl⟩
      exact Unread_cons_blank cells p A a v hf.symm h
    · simp at hr
    · simp at hr
  | some x =>
    have hx : lookup cells a = some x := hf.symm
    have he := h.1.2.1 a x hx
    have hat := lookup_some_at cells a x hx
    simp only [set_range_dep, range_cell, he, Bool.false_eq_true, if_false,
      Outcome.ok.injEq] at hr
    rw [← hr, hat]
    refine ⟨Unread_add_dep _ p A a v ?_ h, rfl⟩
    simp [hx]

theorem Unread_process_range (cells : List Cell) (c1 r1 c2 r2 : Int) (p A : Addr) (v : Value)
    (r : List Cell × Addr × Value) (hi : Unread cells p A v)
    (h : process_range cells c1 r1 c2 r2 p (some set_range_dep) none = .ok r) :
    Unread r.1 p A v := by
  unfold process_range at h
  split at h
  · rename_i st hst
    simp only [Outcome.ok.injEq] at h
    rw [← h]
    have := foldl_preserves (fun (st : List Cell × Addr) => Unread st.1 p A v ∧ st.2 = p) _ ?_ _ _ _
      ⟨hi, rfl⟩ hst
    · exact this.1
    · intro t a t1 ht hstep
      split at hstep
      · rename_i found hfound
        have hf := find_cell_ok _ _ _ _ hfound
        simp only at hstep
        rw [ht.2] at hstep
        exact Unread_set_range_dep t.1 p A a v found hf t1 ht.1 hstep
      · simp at hstep
      · simp at hstep
  · simp at h
  · simp at h

theorem Unread_set_cell_deps (A : Addr) (v : Value) (fuel : Nat) :
    ∀ (cells : List Cell) (lx : Lexer) (p : Addr) (r : List Cell × Lexer),
      Unread cells p A v → set_cell_deps fuel cells lx p = .ok r → Unread r.1 p A v := by
  induction fuel with
  | zero => intro cells lx p r _ h; simp [set_cell_deps] at h
  | succ n ih =>
    intro cells lx p r hi h
    simp only [set_cell_deps] at h
    split at h
    · simp only [Outcome.ok.injEq] at h
      rw [← h]; exact hi
    · split at h
      · split at h
        · rename_i x hfound
          have hf := find_cell_ok _ _ _ _ hfound
          refine ih _ _ _ _ (Unread_add_dep _ p A _ v ?_ hi) h
          rw [← hf]; rfl
        · rename_i hfound
          have hf := find_cell_ok _ _ _ _ hfound
          split at h
          · rename_i cs hcs
            have hcs2 := new_cell_ok _ _ _ _ hcs
            refine ih _ _ _ _ (Unread_add_dep _ p A _ v ?_ ?_) h
            · rw [hcs2]; exact isSome_cons_blank_self cells _
            · rw [hcs2]; exact Unread_cons_blank cells p A _ v hf.symm hi
          · simp at h
          · simp at h
        · simp at h
        · simp at h
      · split at h
        · split at h
          · rename_i r1 hr1
            exact ih _ _ _ _ (Unread_process_range _ _ _ _ _ p A v r1 hi hr1) h
          · simp at h
          · simp at h
        · exact ih _ _ _ _ hi h

theorem Unread_clear_cell (cells : List Cell) (p A : Addr) (v : Value) (hA : A ≠ p)
    (hi : Unread cells p A v) : Unread (clear_cell cells p) p A v := by
  unfold clear_cell
  exact Unread_remove_deps _ p A v
    (Unread_modify cells p A v _ hA (fun _ => ⟨rfl, rfl⟩) (fun _ => rfl) (fun _ => rfl)
      (fun _ _ => rfl) hi)

theorem foldl_preserves_mem {σ α : Type} (P : σ → Prop) (f : σ → α → Outcome σ) :
    ∀ (l : List α), (∀ s a s1, a ∈ l → P s → f s a = .ok s1 → P s1) →
      ∀ (s s1 : σ), P s → Outcome.foldl f s l = .ok s1 → P s1 := by
  intro l
  induction l with
  | nil =>
    intro _ s s1 hp h
    simp only [Outcome.foldl, Outcome.ok.injEq] at h
    rw [← h]; exact hp
  | cons a as ih =>
    intro hf s s1 hp h
    simp only [Outcome.foldl] at h
    cases hfa : f s a with
    | ok s2 =>
      rw [hfa] at h
      exact ih (fun t b t1 hb => hf t b t1 (List.mem_cons_of_mem _ hb)) s2 s1
        (hf s a s2 (List.mem_cons_self _ _) hp hfa) h
    | outOfFuel => rw [hfa] at h; simp at h
    | undefined => rw [hfa] at h; simp at h

/-- When no other cell reads `p`, `propagate_dirty(p)` writes to `p` alone. -/
theorem propagate_dirty_unread (fuel : Nat) (cells : List Cell) (p : Addr) (cs : List Cell)
    (ho : OnlySelf cells p) (h : propagate_dirty fuel cells p = .ok cs) :
    ∀ a, a ≠ p → lookup cs a = lookup cells a := by
  cases fuel with
  | zero => simp [propagate_dirty] at h
  | succ n =>
    simp only [propagate_dirty] at h
    split at h
    · simp at h
    · rename_i x hx
      split at h
      · have hrev : ∀ z ∈ x.revdeps, z = p := by
          intro z hz
          refine ho z ?_
          simp only [revdeps_of, hx]; exact hz
        have := foldl_preserves_mem
          (fun t => (∃ y, lookup t p = some y ∧ y.flags.dirty = true) ∧
            ∀ a, a ≠ p → lookup t a = lookup cells a)
          (fun t d => propagate_dirty n t d) x.revdeps ?_ _ _ ?_ h
        · exact this.2
        · intro t d t1 hd ht hstep
          rw [hrev d hd] at hstep
          obtain ⟨y, hy, hyd⟩ := ht.1
          cases n with
          | zero => simp [propagate_dirty] at hstep
          | succ m =>
            simp only [propagate_dirty, hy, hyd, Bool.not_true, Bool.false_eq_true, if_false,
              Outcome.ok.injEq] at hstep
            rw [← hstep]; exact ht
        · refine ⟨?_, ?_⟩
          · unfold mark_dirty
            rw [lookup_modify _ p p (fun y => { y with flags := { y.flags with dirty := true } })
              (fun _ => ⟨rfl, rfl⟩)]
            simp [hx]
          · intro a ha
            unfold mark_dirty
            rw [lookup_modify _ p a (fun y => { y with flags := { y.flags with dirty := true } })
              (fun _ => ⟨rfl, rfl⟩)]
            simp [ha]
      · simp only [Outcome.ok.injEq] at h
        intro a _; rw [h]

theorem clean_value_reevaluate (L : Libc) (fuel : Nat) (s : Sheet) (p A : Addr) (v : Value)
    (s1 : Sheet) (hA : A ≠ p) (hi : Unread s.cells p A v)
    (h : reevaluate L fuel s p = .ok s1) : clean_value s1.cells A v := by
  unfold reevaluate at h
  split at h
  · rename_i cs hcs
    have hl := propagate_dirty_unread fuel s.cells p cs hi.2.2 hcs A hA
    have hv := hi.2.1
    unfold clean_value at hv ⊢
    cases hx : lookup s.cells A with
    | some x =>
      rw [hx] at hv hl
      rw [eval_cell_frame L fuel _ p s1 h A x hl hv.2]
      exact hv
    | none =>
      rw [hx] at hv hl
      have hsk := skeleton_eval_cell L fuel _ p s1 h
      have hs := isSome_of_skeleton _ _ hsk.symm A
      simp only [hl, Option.isSome_none] at hs
      cases h1 : lookup s1.cells A with
      | none => exact hv
      | some y => rw [h1] at hs; simp at hs
  · simp at h
  · simp at h

theorem clean_value_set_cell_body (L : Libc) (fuel : Nat) (s : Sheet) (p A : Addr) (v : Value)
    (text : Option (List Char)) (s1 : Sheet) (hA : A ≠ p) (hi : Unread s.cells p A v)
    (h : set_cell_body L fuel s p text = .ok s1) : clean_value s1.cells A v := by
  unfold set_cell_body at h
  simp only at h
  split at h
  · exact clean_value_reevaluate L fuel _ p A v s1 hA (Unread_clear_cell s.cells p A v hA hi) h
  · exact clean_value_reevaluate L fuel _ p A v s1 hA (Unread_clear_cell s.cells p A v hA hi) h
  · rename_i c t htxt
    have h1 : Unread (remove_deps (store_text s.cells p (c :: t)) p) p A v :=
      Unread_remove_deps _ p A v
        (Unread_modify s.cells p A v _ hA (fun _ => ⟨rfl, rfl⟩) (fun _ => rfl) (fun _ => rfl)
          (fun _ hx => hx) hi)
    split at h
    · split at h
      · rename_i cells2 lx hdeps
        have h2 := Unread_set_cell_deps A v fuel _ _ p _ h1 hdeps
        exact clean_value_reevaluate L fuel _ p A v s1 hA h2 h
      · simp at h
      · simp at h
    · exact clean_value_reevaluate L fuel _ p A v s1 hA h1 h

/-- An edit of a cell that no other cell reads leaves every other cell that is
not dirty with the cached value it had. -/
theorem set_cell_unread (L : Libc) (fuel : Nat) (s : Sheet) (c r : Int)
    (text : Option (List Char)) (s1 : Sheet) (A : Addr) (v : Value)
    (hm : Mirrored s.cells) (hn : NoEmpty s.cells) (hA : A ≠ (c, r))
    (hv : clean_value s.cells A v) (ho : OnlySelf s.cells (c, r))
    (h : set_cell L fuel s c r text = .ok s1) : clean_value s1.cells A v := by
  unfold set_cell at h
  split at h
  · simp at h
  · simp at h
  · rename_i hfound
    have hf := find_cell_ok _ _ _ _ hfound
    split at h
    · simp only [Outcome.ok.injEq] at h
      rw [← h]; exact hv
    · split at h
      · rename_i cs hcs
        have hcs2 := new_cell_ok _ _ _ _ hcs
        have hi : Unread cs (c, r) A v := by
          rw [hcs2]
          exact ⟨⟨Mirrored_cons_blank s.cells (c, r) hf.symm hm,
            NoEmpty_cons_blank s.cells (c, r) hn, isSome_cons_blank_self s.cells (c, r)⟩,
            clean_value_cons_blank s.cells (c, r) A v hf.symm hv,
            OnlySelf_cons_blank s.cells (c, r) (c, r) hf.symm ho⟩
        exact clean_value_set_cell_body L fuel _ (c, r) A v text s1 hA hi h
      · simp at h
      · simp at h
  · rename_i x hfound
    have hf := find_cell_ok _ _ _ _ hfound
    split at h
    · simp only [Outcome.ok.injEq] at h
      rw [← h]; exact hv
    · have hi : Unread s.cells (c, r) A v := ⟨⟨hm, hn, by rw [← hf]; rfl⟩, hv, ho⟩
      exact clean_value_set_cell_body L fuel _ (c, r) A v text s1 hA hi h

theorem clean_value_cached (cells : List Cell) (A : Addr) (v : Value)
    (h : clean_value cells A v) : cached_at cells A = v := by
  unfold clean_value at h
  unfold cached_at
  cases hl : lookup cells A with
  | none => rw [hl] at h; exact h.symm
  | some x => rw [hl] at h; exact h.1

theorem Reachable_set_cells (L : Libc) (fuel : Nat) (ops : List (Int × Int × List Char))
    (s s1 : Sheet) (hs : Reachable L s) (h : set_cells L fuel s ops = .ok s1) :
    Reachable L s1 := by
  unfold set_cells at h
  refine foldl_preserves (Reachable L) _ ?_ ops s s1 hs h
  intro t op t1 ht hstep
  exact Reachable.step t t1 fuel op.1 op.2.1 (some op.2.2) ht hstep

/-! ### The edges after a reassignment -/

theorem ensure_eq (cells : List Cell) (a : Addr) :
    (lookup cells a = none ∧ ensure cells a = Cell.blank a.1 a.2 :: cells) ∨
    ((lookup cells a).isSome = true ∧ ensure cells a = cells) := by
  unfold ensure
  cases h : lookup cells a with
  | none => exact Or.inl ⟨rfl, rfl⟩
  | some x => exact Or.inr ⟨rfl, rfl⟩

theorem GraphInv_ensure (cells : List Cell) (p a : Addr) (h : GraphInv cells p) :
    GraphInv (ensure cells a) p ∧ (lookup (ensure cells a) a).isSome = true ∧
    (∀ x, deps_of (ensure cells a) x = deps_of cells x) ∧
    (∀ x, revdeps_of (ensure cells a) x = revdeps_of cells x) := by
  rcases ensure_eq cells a with ⟨hl, he⟩ | ⟨hl, he⟩
  · rw [he]
    exact ⟨GraphInv_cons_blank cells p a hl h, isSome_cons_blank_self cells a,
      fun x => deps_of_cons_blank cells a x hl, fun x => revdeps_of_cons_blank cells a x hl⟩
  · rw [he]
    exact ⟨h, hl, fun _ => rfl, fun _ => rfl⟩

theorem deps_of_remove_deps_self (cells : List Cell) (c : Addr) :
    deps_of (remove_deps cells c) c = [] := by
  unfold remove_deps
  cases hl : lookup cells c with
  | none => simp [deps_of, hl]
  | some x =>
    simp only
    unfold deps_of
    rw [lookup_modify _ c c (fun y => { y with deps := [] }) (fun _ => ⟨rfl, rfl⟩)]
    cases h2 : lookup (List.foldl (fun cs d => remove_revdep cs d c) cells x.deps) c <;> simp

/-- The edges of `A` after `set_cell(A, "=D")` has changed the content of `A`,
from a store with mirrored edges: the outgoing list of `A` is `[D]`, and `A` is
in the incoming list of no cell but `D`. -/
theorem reassign_edges (L : Libc) (k : Nat) (s s1 : Sheet) (ca ra cd rd : Nat)
    (hxa : ca < 26) (hra : ra < 128) (hcd : cd < 26) (hrd : rd < 128) (hm : Mirrored s.cells) (hn : NoEmpty s.cells)
    (hdiff : ∀ x, lookup s.cells ((ca : Int), (ra : Int)) = some x →
      x.content ≠ some ('=' :: cell_name cd rd))
    (h : set_cell L (k + 2) s ca ra (some ('=' :: cell_name cd rd)) = .ok s1) :
    deps_of s1.cells ((ca : Int), (ra : Int)) = [((cd : Int), (rd : Int))] ∧
    ∀ b : Addr, b ≠ ((cd : Int), (rd : Int)) →
      ((ca : Int), (ra : Int)) ∉ revdeps_of s1.cells b := by
  rw [set_cell_ref L k s ca ra cd rd hxa hra hcd hrd hdiff] at h
  have hsk := skeleton_reevaluate L (k + 2) _ _ s1 h
  simp only at hsk
  rw [deps_of_skeleton _ _ hsk]
  have h0 : GraphInv (ensure s.cells ((ca : Int), (ra : Int))) ((ca : Int), (ra : Int)) := by
    rcases ensure_eq s.cells ((ca : Int), (ra : Int)) with ⟨hl, he⟩ | ⟨hl, he⟩
    · rw [he]
      exact ⟨Mirrored_cons_blank _ _ hl hm, NoEmpty_cons_blank _ _ hn,
        isSome_cons_blank_self _ _⟩
    · rw [he]; exact ⟨hm, hn, hl⟩
  have h1 : GraphInv (remove_deps (store_text (ensure s.cells ((ca : Int), (ra : Int)))
      ((ca : Int), (ra : Int)) ('=' :: cell_name cd rd)) ((ca : Int), (ra : Int)))
      ((ca : Int), (ra : Int)) :=
    GraphInv_remove_deps _ _
      (GraphInv_modify _ _ _ (fun _ => ⟨rfl, rfl⟩) (fun _ => rfl) (fun _ => rfl)
        (fun _ hx => hx) h0)
  obtain ⟨h2, h2d, h2deps, h2rev⟩ := GraphInv_ensure _ _ ((cd : Int), (rd : Int)) h1
  refine ⟨?_, ?_⟩
  · rw [deps_of_add_dep _ _ _ _ h2.2.2, if_pos rfl, h2deps, deps_of_remove_deps_self]
  · intro b hb
    rw [revdeps_of_skeleton _ _ hsk, revdeps_of_add_dep _ _ _ _ h2d, if_neg hb, h2rev]
    intro hmem
    have hc := h1.1 ((ca : Int), (ra : Int)) b
    rw [deps_of_remove_deps_self] at hc
    have hpos := List.count_pos_iff.mpr hmem
    rw [← hc] at hpos
    simp at hpos

/-! ### Reassignment -/

/-- C6. For cells A, B, C, D of the rows 1 to 128, two by two distinct:
`set_cell(A, "=B+C")` then `set_cell(A, "=D")` on the empty sheet return, and
in the sheet they leave the outgoing list of A is `[D]`, A is in the incoming
list of neither B nor C, `propagate_dirty` at B or at C returns and leaves A
not dirty, every returning `set_cell` on B or on C (whatever the text) leaves
the cached value of A as it was, and such calls return for a one-digit number;
`set_cell(D, n)` for a digit `n` returns and leaves A with the Number `n`.
Besides, from every reachable sheet a `set_cell(A, "=D")` that changes the
content of A leaves A with the outgoing list `[D]` and in the incoming list of
no cell but D. From row 129 on the claim fails on the 16-bit `int` of the
target, where `find_cell` computes a negative index: with A = A129, and with
A = A1 and B = A129, the two calls are undefined. -/
theorem C6_reassignment_replaces_edges :
    (∀ (L : Libc) (k ca ra cb rb cc rc cd rd n : Nat),
      ca < 26 → ra < 128 → cb < 26 → rb < 128 → cc < 26 → rc < 128 → cd < 26 → rd < 128 →
      ¬ (ca = cb ∧ ra = rb) → ¬ (ca = cc ∧ ra = rc) → ¬ (ca = cd ∧ ra = rd) →
      ¬ (cb = cc ∧ rb = rc) → ¬ (cb = cd ∧ rb = rd) → ¬ (cc = cd ∧ rc = rd) → n < 10 →
    (∃ s2 : Sheet,
      set_cells L (k + 10) Sheet.empty
          [(ca, ra, '=' :: sum_text cb rb cc rc), (ca, ra, '=' :: cell_name cd rd)] = .ok s2 ∧
      deps_of s2.cells ((ca : Int), (ra : Int)) = [((cd : Int), (rd : Int))] ∧
      ((ca : Int), (ra : Int)) ∉ revdeps_of s2.cells ((cb : Int), (rb : Int)) ∧
      ((ca : Int), (ra : Int)) ∉ revdeps_of s2.cells ((cc : Int), (rc : Int)) ∧
      (∃ (cs : List Cell) (x : Cell),
        propagate_dirty (k + 10) s2.cells ((cb : Int), (rb : Int)) = .ok cs ∧
        lookup cs ((ca : Int), (ra : Int)) = some x ∧ x.flags.dirty = false) ∧
      (∃ (cs : List Cell) (x : Cell),
        propagate_dirty (k + 10) s2.cells ((cc : Int), (rc : Int)) = .ok cs ∧
        lookup cs ((ca : Int), (ra : Int)) = some x ∧ x.flags.dirty = false) ∧
      (∀ (fuel : Nat) (text : Option (List Char)) (s3 : Sheet),
        set_cell L fuel s2 cb rb text = .ok s3 →
        cached_at s3.cells ((ca : Int), (ra : Int)) = cached_at s2.cells ((ca : Int), (ra : Int))) ∧
      (∀ (fuel : Nat) (text : Option (List Char)) (s3 : Sheet),
        set_cell L fuel s2 cc rc text = .ok s3 →
        cached_at s3.cells ((ca : Int), (ra : Int)) = cached_at s2.cells ((ca : Int), (ra : Int))) ∧
      (∃ s3 : Sheet, set_cell L (k + 10) s2 cb rb (some [Char.ofNat (48 + n)]) = .ok s3) ∧
      (∃ s3 : Sheet, set_cell L (k + 10) s2 cc rc (some [Char.ofNat (48 + n)]) = .ok s3) ∧
      cached_at s2.cells ((ca : Int), (ra : Int)) = .null ∧
      (∃ s4 : Sheet, set_cell L (k + 10) s2 cd rd (some [Char.ofNat (48 + n)]) = .ok s4 ∧
        cached_at s4.cells ((ca : Int), (ra : Int)) = .num (n : ℚ))) ∧
    (∀ (s s1 : Sheet) (j : Nat), Reachable L s →
      (∀ x, lookup s.cells ((ca : Int), (ra : Int)) = some x →
        x.content ≠ some ('=' :: cell_name cd rd)) →
      set_cell L (j + 2) s ca ra (some ('=' :: cell_name cd rd)) = .ok s1 →
      deps_of s1.cells ((ca : Int), (ra : Int)) = [((cd : Int), (rd : Int))] ∧
      ∀ b : Addr, b ≠ ((cd : Int), (rd : Int)) →
        ((ca : Int), (ra : Int)) ∉ revdeps_of s1.cells b)) ∧
    cached_after (set_cells Libc.sample 10 Sheet.empty
      [(0, 128, "=B1+C1".toList), (0, 128, "=D1".toList)]) (0, 128) = .undefined ∧
    cached_after (set_cells Libc.sample 10 Sheet.empty
      [(0, 0, "=A129+C1".toList), (0, 0, "=D1".toList)]) (0, 0) = .undefined := by
  refine ⟨fun L k ca ra cb rb cc rc cd rd n hxa hra hcb hrb hcc hrc hcd hrd hab hac had hbc hbd
    hcd' hn => ?_, by decide!, by decide!⟩
  have hba : ¬ (cb = ca ∧ rb = ra) := fun h => hab ⟨h.1.symm, h.2.symm⟩
  have hca : ¬ (cc = ca ∧ rc = ra) := fun h => hac ⟨h.1.symm, h.2.symm⟩
  have hda : ¬ (cd = ca ∧ rd = ra) := fun h => had ⟨h.1.symm, h.2.symm⟩
  have hcb' : ¬ (cc = cb ∧ rc = rb) := fun h => hbc ⟨h.1.symm, h.2.symm⟩
  have hdb : ¬ (cd = cb ∧ rd = rb) := fun h => hbd ⟨h.1.symm, h.2.symm⟩
  have hdc : ¬ (cd = cc ∧ rd = rc) := fun h => hcd' ⟨h.1.symm, h.2.symm⟩
  have hd := digit_facts ⟨n, hn⟩
  simp only at hd
  have hform : is_formula_text [Char.ofNat (48 + n)] = true := by
    simp [is_formula_text, hd.2.2.2.2.1, hd.2.2.2.2.2.1, hd.2.2.2.2.2.2.2]
  have hcont : stored_content [Char.ofNat (48 + n)] = ['=', Char.ofNat (48 + n)] := by
    simp [stored_content, hd.2.2.2.2.1, hd.2.2.2.2.2.1, hd.2.2.2.2.2.2.2]
  have e := reassigned L k ca ra cb rb cc rc cd rd hxa hra hcb hrb hcc hrc hcd hrd hab hac had
    hbc hbd hcd'
  have hreach := Reachable_set_cells L (k + 10) _ _ _ Reachable.empty e
  have hgraph := Reachable_graph L _ hreach
  have hclean : clean_value
      [⟨[], [((ca : Int), (ra : Int))], cd, rd, none, .null, ⟨false, false, false, false⟩⟩,
        ⟨[], [], cc, rc, none, .null, ⟨false, false, false, false⟩⟩,
        ⟨[], [], cb, rb, none, .null, ⟨false, false, false, false⟩⟩,
        ⟨[((cd : Int), (rd : Int))], [], ca, ra, some ('=' :: cell_name cd rd), .null,
          ⟨false, true, false, false⟩⟩] ((ca : Int), (ra : Int)) .null := by
    simp [clean_value, lookup, Cell.isAt, hca, hba, hda]
  refine ⟨⟨_, e, ?_, ?_, ?_, ?_, ?_, ?_, ?_, ?_, ?_, ?_, ?_⟩, ?_⟩
  · simp [deps_of, lookup, Cell.isAt, hca, hba, hda]
  · simp [revdeps_of, lookup, Cell.isAt, hcb', hdb]
  · simp [revdeps_of, lookup, Cell.isAt, hdc]
  · refine ⟨[⟨[], [((ca : Int), (ra : Int))], cd, rd, none, .null, ⟨false, false, false, false⟩⟩,
        ⟨[], [], cc, rc, none, .null, ⟨false, false, false, false⟩⟩,
        ⟨[], [], cb, rb, none, .null, ⟨true, false, false, false⟩⟩,
        ⟨[((cd : Int), (rd : Int))], [], ca, ra, some ('=' :: cell_name cd rd), .null,
          ⟨false, true, false, false⟩⟩],
      ⟨[((cd : Int), (rd : Int))], [], ca, ra, some ('=' :: cell_name cd rd), .null,
        ⟨false, true, false, false⟩⟩, ?_, ?_, rfl⟩
    · simp [propagate_dirty, mark_dirty, modify, lookup, Cell.isAt, Outcome.foldl, hcb', hdb,
        hab, hbc, hbd]
    · simp [lookup, Cell.isAt, hca, hba, hda, hab]
  · refine ⟨[⟨[], [((ca : Int), (ra : Int))], cd, rd, none, .null, ⟨false, false, false, false⟩⟩,
        ⟨[], [], cc, rc, none, .null, ⟨true, false, false, false⟩⟩,
        ⟨[], [], cb, rb, none, .null, ⟨false, false, false, false⟩⟩,
        ⟨[((cd : Int), (rd : Int))], [], ca, ra, some ('=' :: cell_name cd rd), .null,
          ⟨false, true, false, false⟩⟩],
      ⟨[((cd : Int), (rd : Int))], [], ca, ra, some ('=' :: cell_name cd rd), .null,
        ⟨false, true, false, false⟩⟩, ?_, ?_, rfl⟩
    · simp [propagate_dirty, mark_dirty, modify, lookup, Cell.isAt, Outcome.foldl, hdc,
        hac, hbc, hcd', hcb']
    · simp [lookup, Cell.isAt, hca, hba, hda, hac, hbc, hcb']
  · intro fuel text s3 h3
    have := set_cell_unread L fuel _ cb rb text s3 ((ca : Int), (ra : Int)) .null hgraph.1
      hgraph.2 (by simp [hab]) hclean
      (by intro z hz; simp [revdeps_of, lookup, Cell.isAt, hcb', hdb] at hz) h3
    rw [clean_value_cached _ _ _ this, clean_value_cached _ _ _ hclean]
  · intro fuel text s3 h3
    have := set_cell_unread L fuel _ cc rc text s3 ((ca : Int), (ra : Int)) .null hgraph.1
      hgraph.2 (by simp [hac]) hclean
      (by intro z hz; simp [revdeps_of, lookup, Cell.isAt, hdc] at hz) h3
    rw [clean_value_cached _ _ _ this, clean_value_cached _ _ _ hclean]
  · rw [set_cell_digit L (k + 8) _ cb rb n hn hcb hrb (by
      intro x hx
      simp [lookup, Cell.isAt, hcb', hdb] at hx
      rw [← hx]; simp)]
    simp [reevaluate, remove_deps, remove_revdep, store_text, modify, lookup, Cell.isAt,
      Cell.blank, add_dep, ensure, propagate_dirty, mark_dirty, Outcome.foldl, eval_cell,
      Flags.zero, set_cached, mark_visiting, settle, hab, hac, had, hbc, hbd, hcd', hba, hca, hda,
      hcb', hdb, hdc, hform, hcont,
      parse_expr_digit_le L _ (k + 9) _ n hn (by omega), cached_at, Value.stored]
  · rw [set_cell_digit L (k + 8) _ cc rc n hn hcc hrc (by
      intro x hx
      simp [lookup, Cell.isAt, hdc] at hx
      rw [← hx]; simp)]
    simp [reevaluate, remove_deps, remove_revdep, store_text, modify, lookup, Cell.isAt,
      Cell.blank, add_dep, ensure, propagate_dirty, mark_dirty, Outcome.foldl, eval_cell,
      Flags.zero, set_cached, mark_visiting, settle, hab, hac, had, hbc, hbd, hcd', hba, hca, hda,
      hcb', hdb, hdc, hform, hcont,
      parse_expr_digit_le L _ (k + 9) _ n hn (by omega), cached_at, Value.stored]
  · exact clean_value_cached _ _ _ hclean
  · rw [set_cell_digit L (k + 8) _ cd rd n hn hcd hrd (by
      intro x hx
      simp [lookup, Cell.isAt] at hx
      rw [← hx]; simp)]
    simp [reevaluate, remove_deps, remove_revdep, store_text, modify, lookup, Cell.isAt,
      Cell.blank, add_dep, ensure, propagate_dirty, mark_dirty, Outcome.foldl, eval_cell,
      Flags.zero, set_cached, mark_visiting, settle, hab, hac, had, hbc, hbd, hcd', hba, hca, hda,
      hcb', hdb, hdc, hform, hcont,
      parse_expr_cell_name_le L _ (k + 8) _ cd rd hcd hrd (by omega),
      parse_expr_digit_le L _ (k + 9) _ n hn (by omega), cached_at, Value.share, Value.stored]
  · intro s s1 j hs hdiff h
    have hg := Reachable_graph L s hs
    exact reassign_edges L j s s1 ca ra cd rd hxa hra hcd hrd hg.1 hg.2 hdiff h

/-- Cells A1, B1, C1, D1 and the digit 7. -/
theorem C6_reassignment_replaces_edges_witness :
    ∃ s2 : Sheet,
      set_cells Libc.sample 10 Sheet.empty
          [(0, 0, '=' :: sum_text 1 0 2 0), (0, 0, '=' :: cell_name 3 0)] = .ok s2 ∧
      deps_of s2.cells (0, 0) = [(3, 0)] ∧
      (0, 0) ∉ revdeps_of s2.cells (1, 0) ∧
      (0, 0) ∉ revdeps_of s2.cells (2, 0) ∧
      (∃ (cs : List Cell) (x : Cell),
        propagate_dirty 10 s2.cells (1, 0) = .ok cs ∧
        lookup cs (0, 0) = some x ∧ x.flags.dirty = false) ∧
      (∃ (cs : List Cell) (x : Cell),
        propagate_dirty 10 s2.cells (2, 0) = .ok cs ∧
        lookup cs (0, 0) = some x ∧ x.flags.dirty = false) ∧
      (∀ (fuel : Nat) (text : Option (List Char)) (s3 : Sheet),
        set_cell Libc.sample fuel s2 1 0 text = .ok s3 →
        cached_at s3.cells (0, 0) = cached_at s2.cells (0, 0)) ∧
      (∀ (fuel : Nat) (text : Option (List Char)) (s3 : Sheet),
        set_cell Libc.sample fuel s2 2 0 text = .ok s3 →
        cached_at s3.cells (0, 0) = cached_at s2.cells (0, 0)) ∧
      (∃ s3 : Sheet, set_cell Libc.sample 10 s2 1 0 (some ['7']) = .ok s3) ∧
      (∃ s3 : Sheet, set_cell Libc.sample 10 s2 2 0 (some ['7']) = .ok s3) ∧
      cached_at s2.cells (0, 0) = .null ∧
      (∃ s4 : Sheet, set_cell Libc.sample 10 s2 3 0 (some ['7']) = .ok s4 ∧
        cached_at s4.cells (0, 0) = .num ((7 : Nat) : ℚ)) :=
  (C6_reassignment_replaces_edges.1 Libc.sample 0 0 0 1 0 2 0 3 0 7 (by decide) (by decide)
    (by decide) (by decide) (by decide) (by decide) (by decide) (by decide) (by decide)
    (by decide) (by decide) (by decide) (by decide) (by decide) (by decide)).1

/-! ## A cell that reads itself -/

theorem lookup_modify_self (cells : List Cell) (a : Addr) (f : Cell → Cell) (x : Cell)
    (hf : ∀ x, (f x).col = x.col ∧ (f x).row = x.row) (h : lookup cells a = some x) :
    lookup (modify cells a f) a = some (f x) := by
  rw [lookup_modify cells a a f hf, h]
  simp

theorem lookup_set_cached_self (cells : List Cell) (a : Addr) (v : Value) (x : Cell)
    (h : lookup cells a = some x) :
    lookup (set_cached cells a v) a = some { x with cached := v } :=
  lookup_modify_self cells a _ x (fun _ => ⟨rfl, rfl⟩) h

theorem lookup_mark_visiting_self (cells : List Cell) (a : Addr) (b : Bool) (x : Cell)
    (h : lookup cells a = some x) :
    lookup (mark_visiting cells a b) a
      = some { x with flags := { x.flags with visiting := b } } :=
  lookup_modify_self cells a _ x (fun _ => ⟨rfl, rfl⟩) h

theorem lookup_settle_self (cells : List Cell) (a : Addr) (x : Cell)
    (h : lookup cells a = some x) :
    lookup (settle cells a) a
      = some { x with flags := { x.flags with dirty := false, visiting := false } } :=
  lookup_modify_self cells a _ x (fun _ => ⟨rfl, rfl⟩) h

theorem lookup_mark_dirty_self (cells : List Cell) (a : Addr) (x : Cell)
    (h : lookup cells a = some x) :
    lookup (mark_dirty cells a) a = some { x with flags := { x.flags with dirty := true } } :=
  lookup_modify_self cells a _ x (fun _ => ⟨rfl, rfl⟩) h

/-- A run of `eval_cell` over a list of cells changes no cell that is not dirty. -/
theorem eval_cells_frame (L : Libc) (fuel : Nat) (l : List Addr) (s s1 : Sheet) (b : Addr)
    (x : Cell) (hb : lookup s.cells b = some x) (hx : x.flags.dirty = false)
    (h : Outcome.foldl (fun st d => eval_cell L fuel st d) s l = .ok s1) :
    lookup s1.cells b = some x := by
  refine foldl_preserves (fun st => lookup st.cells b = some x) _ ?_ l s s1 hb h
  intro u d u1 hu hd
  exact eval_cell_frame L fuel u d u1 hd b x hu hx

/-- `eval_cell` on a dirty formula cell that is being visited: the cell gets the
Cyclic-reference error and both flags are cleared. -/
theorem eval_cell_revisit (L : Libc) (fuel : Nat) (s s1 : Sheet) (a : Addr) (x : Cell)
    (hl : lookup s.cells a = some x) (hd : x.flags.dirty = true)
    (hf : x.flags.formula = true) (hv : x.flags.visiting = true)
    (h : eval_cell L fuel s a = .ok s1) :
    ∃ y, lookup s1.cells a = some y ∧ y.cached = errExprCyclicRef ∧
      y.flags.dirty = false ∧ y.flags.visiting = false := by
  cases fuel with
  | zero => simp [eval_cell] at h
  | succ n =>
    have h7 := lookup_settle_self _ a _ (lookup_set_cached_self s.cells a errExprCyclicRef x hl)
    simp only [eval_cell, hl, hd, hf, hv, Bool.not_true, Bool.false_eq_true, if_false, if_true,
      h7] at h
    exact ⟨_, eval_cells_frame L n _ _ s1 a _ h7 rfl h, rfl, rfl, rfl⟩

/-- `eval_cell` on a dirty formula cell whose only outgoing edge leads to
itself: when it returns, the cell holds the Cyclic-reference error and is
neither dirty nor being visited. -/
theorem eval_cell_self (L : Libc) (fuel : Nat) (s s1 : Sheet) (a : Addr) (x : Cell)
    (hl : lookup s.cells a = some x) (hd : x.flags.dirty = true)
    (hf : x.flags.formula = true) (hv : x.flags.visiting = false) (hdeps : x.deps = [a])
    (h : eval_cell L fuel s a = .ok s1) :
    ∃ y, lookup s1.cells a = some y ∧ y.cached = errExprCyclicRef ∧
      y.flags.dirty = false ∧ y.flags.visiting = false := by
  cases fuel with
  | zero => simp [eval_cell] at h
  | succ n =>
    have h1 := lookup_mark_visiting_self _ a true _ (lookup_set_cached_self s.cells a .null x hl)
    simp only [eval_cell, hl, hd, hf, hv, hdeps, Bool.not_true, Bool.false_eq_true, if_false,
      Outcome.foldl] at h
    cases hin : eval_cell L n
        { s with cells := mark_visiting (set_cached s.cells a .null) a true } a with
    | outOfFuel => rw [hin] at h; simp at h
    | undefined => rw [hin] at h; simp at h
    | ok s2 =>
      obtain ⟨y, h2, hyc, hyd, _⟩ := eval_cell_revisit L n
        { s with cells := mark_visiting (set_cached s.cells a .null) a true } s2 a _ h1 hd hf rfl hin
      rw [hin] at h
      simp only [h2, hyd, Bool.false_eq_true, if_false] at h
      have h3 := lookup_settle_self _ a _ (lookup_mark_visiting_self s2.cells a false _ h2)
      simp only [h3] at h
      have := eval_cells_frame L n _ _ s1 a _ h3 rfl h
      exact ⟨_, this, hyc, rfl, rfl⟩

theorem dirtied_refl (x : Cell) : Cell.dirtied x x := ⟨rfl, fun h => h⟩

theorem dirtied_trans (x y z : Cell) (h1 : Cell.dirtied x y) (h2 : Cell.dirtied y z) :
    Cell.dirtied x z := by
  obtain ⟨e1, m1⟩ := h1
  obtain ⟨e2, m2⟩ := h2
  refine ⟨?_, fun h => m2 (m1 h)⟩
  rw [e2]
  rw [e1]

/-- `propagate_dirty` sets dirty flags and changes nothing else; the cell it is
called on is dirty when it returns. -/
theorem propagate_dirty_dirtied (fuel : Nat) :
    ∀ (cells : List Cell) (c : Addr) (cs : List Cell), propagate_dirty fuel cells c = .ok cs →
      (∀ b x, lookup cells b = some x → ∃ y, lookup cs b = some y ∧ Cell.dirtied x y) ∧
      (∃ y, lookup cs c = some y ∧ y.flags.dirty = true) := by
  induction fuel with
  | zero => intro cells c cs h; simp [propagate_dirty] at h
  | succ n ih =>
    intro cells c cs h
    simp only [propagate_dirty] at h
    split at h
    · simp at h
    · rename_i x hx
      split at h
      · rename_i hnd
        have hm := lookup_mark_dirty_self cells c x hx
        have hfold := foldl_preserves
          (fun t => ∀ b z, lookup (mark_dirty cells c) b = some z →
            ∃ y, lookup t b = some y ∧ Cell.dirtied z y)
          (fun t d => propagate_dirty n t d) ?_ x.revdeps _ cs
          (fun b z hz => ⟨z, hz, dirtied_refl z⟩) h
        · refine ⟨?_, ?_⟩
          · intro b z hz
            have hb : ∃ z1, lookup (mark_dirty cells c) b = some z1 ∧ Cell.dirtied z z1 := by
              unfold mark_dirty
              rw [lookup_modify cells c b
                (fun y => { y with flags := { y.flags with dirty := true } })
                (fun _ => ⟨rfl, rfl⟩)]
              by_cases hbc : b = c
              · simp only [hbc, if_true]
                rw [← hbc, hz]
                exact ⟨_, rfl, rfl, fun _ => rfl⟩
              · simp only [hbc, if_false]
                exact ⟨z, hz, dirtied_refl z⟩
            obtain ⟨z1, hz1, hd1⟩ := hb
            obtain ⟨y, hy, hd2⟩ := hfold b z1 hz1
            exact ⟨y, hy, dirtied_trans z z1 y hd1 hd2⟩
          · obtain ⟨y, hy, hd2⟩ := hfold c _ hm
            exact ⟨y, hy, hd2.2 rfl⟩
        · intro t d t1 ht hstep b z hz
          obtain ⟨y, hy, hd1⟩ := ht b z hz
          obtain ⟨y1, hy1, hd2⟩ := (ih t d t1 hstep).1 b y hy
          exact ⟨y1, hy1, dirtied_trans z y y1 hd1 hd2⟩
      · rename_i hdirty
        simp only [Outcome.ok.injEq] at h
        rw [← h]
        refine ⟨fun b z hz => ⟨z, hz, dirtied_refl z⟩, x, hx, ?_⟩
        simpa using hdirty

/-- A write that keeps coordinates, content and flags of the cell it is applied to. -/
theorem lookup_kept_modify (cells : List Cell) (a b : Addr) (f : Cell → Cell) (x : Cell)
    (hf : ∀ x, (f x).col = x.col ∧ (f x).row = x.row)
    (hk : ∀ x, (f x).flags = x.flags ∧ (f x).content = x.content)
    (h : lookup cells b = some x) :
    ∃ y, lookup (modify cells a f) b = some y ∧ y.flags = x.flags ∧ y.content = x.content := by
  rw [lookup_modify cells a b f hf, h]
  by_cases hb : b = a
  · simp only [hb, if_true, Option.map_some']
    exact ⟨_, rfl, (hk x).1, (hk x).2⟩
  · simp only [hb, if_false]
    exact ⟨x, rfl, rfl, rfl⟩

/-- `remove_deps` keeps the flags and the content of every cell. -/
theorem lookup_kept_remove_deps (cells : List Cell) (c b : Addr) (x : Cell)
    (h : lookup cells b = some x) :
    ∃ y, lookup (remove_deps cells c) b = some y ∧ y.flags = x.flags ∧ y.content = x.content := by
  have hfold : ∀ (ds : List Addr) (cs : List Cell),
      (∃ y, lookup cs b = some y ∧ y.flags = x.flags ∧ y.content = x.content) →
      ∃ y, lookup (ds.foldl (fun cs d => remove_revdep cs d c) cs) b = some y ∧
        y.flags = x.flags ∧ y.content = x.content := by
    intro ds
    induction ds with
    | nil => intro cs hcs; exact hcs
    | cons d ds ih =>
      intro cs hcs
      simp only [List.foldl_cons]
      refine ih _ ?_
      obtain ⟨y, hy, h1, h2⟩ := hcs
      unfold remove_revdep
      obtain ⟨z, hz, h3, h4⟩ := lookup_kept_modify cs d b
        (fun z => { z with revdeps := z.revdeps.erase c }) y (fun _ => ⟨rfl, rfl⟩)
        (fun _ => ⟨rfl, rfl⟩) hy
      exact ⟨z, hz, h3.trans h1, h4.trans h2⟩
  unfold remove_deps
  cases hl : lookup cells c with
  | none => exact ⟨x, h, rfl, rfl⟩
  | some w =>
    simp only
    obtain ⟨y, hy, h1, h2⟩ := hfold w.deps cells ⟨x, h, rfl, rfl⟩
    obtain ⟨z, hz, h3, h4⟩ := lookup_kept_modify _ c b (fun y => { y with deps := [] }) y
      (fun _ => ⟨rfl, rfl⟩) (fun _ => ⟨rfl, rfl⟩) hy
    exact ⟨z, hz, h3.trans h1, h4.trans h2⟩

/-- `set_cell(A, "=A")` on any sheet in which `A` is not being visited and does
not hold the content `=A` already: when the call returns, `A` holds the
Cyclic-reference error and is neither dirty nor being visited. -/
theorem self_reference_result (L : Libc) (j : Nat) (s s1 : Sheet) (ca ra : Nat)
    (hca : ca < 26) (hra : ra < 128)
    (hvis : ∀ x, lookup s.cells ((ca : Int), (ra : Int)) = some x → x.flags.visiting = false)
    (hdiff : ∀ x, lookup s.cells ((ca : Int), (ra : Int)) = some x →
      x.content ≠ some ('=' :: cell_name ca ra))
    (h : set_cell L (j + 2) s ca ra (some ('=' :: cell_name ca ra)) = .ok s1) :
    ∃ y, lookup s1.cells ((ca : Int), (ra : Int)) = some y ∧ y.cached = errExprCyclicRef ∧
      y.flags.dirty = false ∧ y.flags.visiting = false := by
  rw [set_cell_ref L j s ca ra ca ra hca hra hca hra hdiff] at h
  -- the cell is in the store, not being visited
  have hE : ∃ e, lookup (ensure s.cells ((ca : Int), (ra : Int))) ((ca : Int), (ra : Int)) = some e ∧
      e.flags.visiting = false := by
    rcases ensure_eq s.cells ((ca : Int), (ra : Int)) with ⟨hl, he⟩ | ⟨hl, he⟩
    · rw [he, lookup_cons_blank]
      exact ⟨_, if_pos rfl, rfl⟩
    · rw [he]
      cases hx : lookup s.cells ((ca : Int), (ra : Int)) with
      | none => rw [hx] at hl; simp at hl
      | some e => exact ⟨e, rfl, hvis e hx⟩
  obtain ⟨e, he, hev⟩ := hE
  have hS := lookup_modify_self _ ((ca : Int), (ra : Int))
    (fun x => { x with content := some (stored_content ('=' :: cell_name ca ra)),
                       flags := { x.flags with formula := is_formula_text ('=' :: cell_name ca ra) } })
    e (fun _ => ⟨rfl, rfl⟩) he
  obtain ⟨x, hx, hxf, _⟩ := lookup_kept_remove_deps _ ((ca : Int), (ra : Int))
    ((ca : Int), (ra : Int)) _ hS
  have hxd := deps_of_remove_deps_self (store_text (ensure s.cells ((ca : Int), (ra : Int)))
    ((ca : Int), (ra : Int)) ('=' :: cell_name ca ra)) ((ca : Int), (ra : Int))
  have hx' : lookup (remove_deps (store_text (ensure s.cells ((ca : Int), (ra : Int)))
      ((ca : Int), (ra : Int)) ('=' :: cell_name ca ra)) ((ca : Int), (ra : Int)))
      ((ca : Int), (ra : Int)) = some x := hx
  have hxdeps : x.deps = [] := by
    simpa [deps_of, hx'] using hxd
  have hens : ensure (remove_deps (store_text (ensure s.cells ((ca : Int), (ra : Int)))
      ((ca : Int), (ra : Int)) ('=' :: cell_name ca ra)) ((ca : Int), (ra : Int)))
      ((ca : Int), (ra : Int))
      = remove_deps (store_text (ensure s.cells ((ca : Int), (ra : Int)))
      ((ca : Int), (ra : Int)) ('=' :: cell_name ca ra)) ((ca : Int), (ra : Int)) := by
    rcases ensure_eq (remove_deps (store_text (ensure s.cells ((ca : Int), (ra : Int)))
      ((ca : Int), (ra : Int)) ('=' :: cell_name ca ra)) ((ca : Int), (ra : Int)))
      ((ca : Int), (ra : Int)) with ⟨hl, _⟩ | ⟨_, he2⟩
    · rw [hx'] at hl; simp at hl
    · exact he2
  rw [hens] at h
  have h2 : lookup (add_dep (remove_deps (store_text (ensure s.cells ((ca : Int), (ra : Int)))
      ((ca : Int), (ra : Int)) ('=' :: cell_name ca ra)) ((ca : Int), (ra : Int)))
      ((ca : Int), (ra : Int)) ((ca : Int), (ra : Int))) ((ca : Int), (ra : Int))
      = some { x with deps := [((ca : Int), (ra : Int))],
                      revdeps := ((ca : Int), (ra : Int)) :: x.revdeps } := by
    unfold add_dep
    rw [lookup_modify_self _ _
      (fun z => { z with revdeps := ((ca : Int), (ra : Int)) :: z.revdeps }) _
      (fun _ => ⟨rfl, rfl⟩)
      (lookup_modify_self _ _ (fun z => { z with deps := ((ca : Int), (ra : Int)) :: z.deps }) x
        (fun _ => ⟨rfl, rfl⟩) hx')]
    simp [hxdeps]
  unfold reevaluate at h
  split at h
  · rename_i cs hcs
    obtain ⟨hall, _⟩ := propagate_dirty_dirtied (j + 2) _ _ cs hcs
    obtain ⟨a1, ha1, hd1⟩ := hall _ _ h2
    obtain ⟨y0, hy0, hyd⟩ := (propagate_dirty_dirtied (j + 2) _ _ cs hcs).2
    rw [ha1] at hy0
    simp only [Option.some.injEq] at hy0
    rw [← hy0] at hyd
    have hform : a1.flags.formula = true := by
      rw [hd1.1]
      simp [hxf, (formula_text_eq _).1]
    have hvis1 : a1.flags.visiting = false := by
      rw [hd1.1]
      simp [hxf, hev]
    have hdeps1 : a1.deps = [((ca : Int), (ra : Int))] := by
      rw [hd1.1]
    exact eval_cell_self L (j + 2) _ s1 _ a1 ha1 hyd hform hvis1 hdeps1 h
  · simp at h
  · simp at h

/-- `eval_cell` returns at once on a cell that is not dirty. -/
theorem eval_cell_clean (L : Libc) (m : Nat) (s : Sheet) (a : Addr) (x : Cell)
    (hl : lookup s.cells a = some x) (hd : x.flags.dirty = false) :
    eval_cell L (m + 1) s a = .ok s := by
  simp only [eval_cell, hl, hd, Bool.not_false, if_true]

/-- One level of `eval_cell` on a dirty formula cell that is being visited and
whose only incoming edge comes from itself. -/
theorem eval_cell_revisit_step (L : Libc) (m : Nat) (s : Sheet) (a : Addr) (x : Cell)
    (hl : lookup s.cells a = some x) (hd : x.flags.dirty = true)
    (hf : x.flags.formula = true) (hv : x.flags.visiting = true) (hrev : x.revdeps = [a])
    (hnext : eval_cell L m { s with cells := settle (set_cached s.cells a errExprCyclicRef) a } a
      = .ok { s with cells := settle (set_cached s.cells a errExprCyclicRef) a }) :
    eval_cell L (m + 1) s a
      = .ok { s with cells := settle (set_cached s.cells a errExprCyclicRef) a } := by
  have h7 := lookup_settle_self _ a _ (lookup_set_cached_self s.cells a errExprCyclicRef x hl)
  simp only [eval_cell, hl, hd, hf, hv, h7, hrev, Bool.not_true, Bool.false_eq_true, if_false,
    if_true, Outcome.foldl, hnext]

/-- One level of `eval_cell` on a dirty formula cell that is not being visited
and whose only edges lead to itself, given what the calls it makes return. -/
theorem eval_cell_self_step (L : Libc) (m : Nat) (s s2 : Sheet) (a : Addr) (x y : Cell)
    (hl : lookup s.cells a = some x) (hd : x.flags.dirty = true)
    (hf : x.flags.formula = true) (hv : x.flags.visiting = false) (hdeps : x.deps = [a])
    (hin : eval_cell L m { s with cells := mark_visiting (set_cached s.cells a .null) a true } a
      = .ok s2)
    (h2 : lookup s2.cells a = some y) (hyd : y.flags.dirty = false) (hyr : y.revdeps = [a])
    (hlast : eval_cell L m { s2 with cells := settle (mark_visiting s2.cells a false) a } a
      = .ok { s2 with cells := settle (mark_visiting s2.cells a false) a }) :
    eval_cell L (m + 1) s a
      = .ok { s2 with cells := settle (mark_visiting s2.cells a false) a } := by
  have h9 := lookup_settle_self _ a _ (lookup_mark_visiting_self s2.cells a false y h2)
  simp only [eval_cell, hl, hd, hf, hv, hdeps, Bool.not_true, Bool.false_eq_true, if_false,
    Outcome.foldl, hin, h2, hyd, h9, hyr, hlast]

/-- `eval_cell` returns on a dirty formula cell whose only outgoing and only
incoming edge lead to itself. -/
theorem eval_cell_self_returns (L : Libc) (j : Nat) (s : Sheet) (a : Addr) (x : Cell)
    (hl : lookup s.cells a = some x) (hd : x.flags.dirty = true)
    (hf : x.flags.formula = true) (hv : x.flags.visiting = false) (hdeps : x.deps = [a])
    (hrev : x.revdeps = [a]) :
    ∃ s1, eval_cell L (j + 3) s a = .ok s1 := by
  have h1 := lookup_mark_visiting_self _ a true _ (lookup_set_cached_self s.cells a .null x hl)
  have h7 := lookup_settle_self _ a _
    (lookup_set_cached_self (mark_visiting (set_cached s.cells a .null) a true) a
      errExprCyclicRef _ h1)
  have hin := eval_cell_revisit_step L (j + 1)
    { s with cells := mark_visiting (set_cached s.cells a .null) a true } a _ h1 hd hf rfl hrev
    (eval_cell_clean L j _ a _ h7 rfl)
  have h9 := lookup_settle_self _ a _ (lookup_mark_visiting_self _ a false _ h7)
  exact ⟨_, eval_cell_self_step L (j + 2) s _ a x _ hl hd hf hv hdeps hin h7 rfl hrev
    (eval_cell_clean L (j + 1) _ a _ h9 rfl)⟩

/-- `propagate_dirty` returns on a cell whose only incoming edge comes from itself. -/
theorem propagate_dirty_self_returns (j : Nat) (cells : List Cell) (a : Addr) (x : Cell)
    (hl : lookup cells a = some x) (hrev : x.revdeps = [a]) :
    ∃ cs, propagate_dirty (j + 2) cells a = .ok cs := by
  have hm := lookup_mark_dirty_self cells a x hl
  by_cases hd : x.flags.dirty = true
  · simp only [propagate_dirty, hl, hd, Bool.not_true, Bool.false_eq_true, if_false]
    exact ⟨_, rfl⟩
  · simp only [propagate_dirty, hl, hd, hm, hrev, Bool.not_false, if_true, Outcome.foldl,
      Bool.not_true, Bool.false_eq_true, if_false]
    exact ⟨_, rfl⟩

/-- `set_cell(A, "=A")` returns on every sheet with mirrored edges in which no
other cell reads `A`. -/
theorem self_reference_returns (L : Libc) (j : Nat) (s : Sheet) (ca ra : Nat)
    (hca : ca < 26) (hra : ra < 128) (hm : Mirrored s.cells) (hn : NoEmpty s.cells)
    (ho : OnlySelf s.cells ((ca : Int), (ra : Int)))
    (hvis : ∀ x, lookup s.cells ((ca : Int), (ra : Int)) = some x → x.flags.visiting = false)
    (hdiff : ∀ x, lookup s.cells ((ca : Int), (ra : Int)) = some x →
      x.content ≠ some ('=' :: cell_name ca ra)) :
    ∃ s1, set_cell L (j + 3) s ca ra (some ('=' :: cell_name ca ra)) = .ok s1 := by
  rw [set_cell_ref L (j + 1) s ca ra ca ra hca hra hca hra hdiff]
  -- the store before the new edge is added
  have hE : ∃ e, lookup (ensure s.cells ((ca : Int), (ra : Int))) ((ca : Int), (ra : Int)) = some e ∧
      e.flags.visiting = false := by
    rcases ensure_eq s.cells ((ca : Int), (ra : Int)) with ⟨hl, he⟩ | ⟨hl, he⟩
    · rw [he, lookup_cons_blank]
      exact ⟨_, if_pos rfl, rfl⟩
    · rw [he]
      cases hx : lookup s.cells ((ca : Int), (ra : Int)) with
      | none => rw [hx] at hl; simp at hl
      | some e => exact ⟨e, rfl, hvis e hx⟩
  obtain ⟨e, he, hev⟩ := hE
  have h0 : GraphInv (ensure s.cells ((ca : Int), (ra : Int))) ((ca : Int), (ra : Int)) ∧
      OnlySelf (ensure s.cells ((ca : Int), (ra : Int))) ((ca : Int), (ra : Int)) := by
    rcases ensure_eq s.cells ((ca : Int), (ra : Int)) with ⟨hl, he⟩ | ⟨hl, he⟩
    · rw [he]
      exact ⟨⟨Mirrored_cons_blank _ _ hl hm, NoEmpty_cons_blank _ _ hn,
        isSome_cons_blank_self _ _⟩, OnlySelf_cons_blank _ _ _ hl ho⟩
    · rw [he]; exact ⟨⟨hm, hn, hl⟩, ho⟩
  have h1 : GraphInv (remove_deps (store_text (ensure s.cells ((ca : Int), (ra : Int)))
      ((ca : Int), (ra : Int)) ('=' :: cell_name ca ra)) ((ca : Int), (ra : Int)))
      ((ca : Int), (ra : Int)) :=
    GraphInv_remove_deps _ _
      (GraphInv_modify _ _ _ (fun _ => ⟨rfl, rfl⟩) (fun _ => rfl) (fun _ => rfl)
        (fun _ hx => hx) h0.1)
  have h1o : OnlySelf (remove_deps (store_text (ensure s.cells ((ca : Int), (ra : Int)))
      ((ca : Int), (ra : Int)) ('=' :: cell_name ca ra)) ((ca : Int), (ra : Int)))
      ((ca : Int), (ra : Int)) :=
    OnlySelf_remove_deps _ _
      (OnlySelf_modify _ _ _ _ (fun _ => ⟨rfl, rfl⟩) (fun _ => rfl) h0.2)
  have hS := lookup_modify_self _ ((ca : Int), (ra : Int))
    (fun x => { x with content := some (stored_content ('=' :: cell_name ca ra)),
                       flags := { x.flags with formula := is_formula_text ('=' :: cell_name ca ra) } })
    e (fun _ => ⟨rfl, rfl⟩) he
  obtain ⟨x, hx, hxf, _⟩ := lookup_kept_remove_deps _ ((ca : Int), (ra : Int))
    ((ca : Int), (ra : Int)) _ hS
  have hxd := deps_of_remove_deps_self (store_text (ensure s.cells ((ca : Int), (ra : Int)))
    ((ca : Int), (ra : Int)) ('=' :: cell_name ca ra)) ((ca : Int), (ra : Int))
  have hx' : lookup (remove_deps (store_text (ensure s.cells ((ca : Int), (ra : Int)))
      ((ca : Int), (ra : Int)) ('=' :: cell_name ca ra)) ((ca : Int), (ra : Int)))
      ((ca : Int), (ra : Int)) = some x := hx
  have hxdeps : x.deps = [] := by
    simpa [deps_of, hx'] using hxd
  have hxrev : x.revdeps = [] := by
    have hmir := h1.1 ((ca : Int), (ra : Int)) ((ca : Int), (ra : Int))
    rw [hxd] at hmir
    have hall := h1o
    unfold OnlySelf at hall
    simp only [revdeps_of, hx'] at hmir hall
    refine List.eq_nil_iff_forall_not_mem.mpr ?_
    intro z hz
    have hza := hall z hz
    rw [hza] at hz
    have := List.count_pos_iff.mpr hz
    rw [← hmir] at this
    simp at this
  have hens : ensure (remove_deps (store_text (ensure s.cells ((ca : Int), (ra : Int)))
      ((ca : Int), (ra : Int)) ('=' :: cell_name ca ra)) ((ca : Int), (ra : Int)))
      ((ca : Int), (ra : Int))
      = remove_deps (store_text (ensure s.cells ((ca : Int), (ra : Int)))
      ((ca : Int), (ra : Int)) ('=' :: cell_name ca ra)) ((ca : Int), (ra : Int)) := by
    rcases ensure_eq (remove_deps (store_text (ensure s.cells ((ca : Int), (ra : Int)))
      ((ca : Int), (ra : Int)) ('=' :: cell_name ca ra)) ((ca : Int), (ra : Int)))
      ((ca : Int), (ra : Int)) with ⟨hl, _⟩ | ⟨_, he2⟩
    · rw [hx'] at hl; simp at hl
    · exact he2
  rw [hens]
  have h2 : lookup (add_dep (remove_deps (store_text (ensure s.cells ((ca : Int), (ra : Int)))
      ((ca : Int), (ra : Int)) ('=' :: cell_name ca ra)) ((ca : Int), (ra : Int)))
      ((ca : Int), (ra : Int)) ((ca : Int), (ra : Int))) ((ca : Int), (ra : Int))
      = some { x with deps := [((ca : Int), (ra : Int))],
                      revdeps := [((ca : Int), (ra : Int))] } := by
    unfold add_dep
    rw [lookup_modify_self _ _
      (fun z => { z with revdeps := ((ca : Int), (ra : Int)) :: z.revdeps }) _
      (fun _ => ⟨rfl, rfl⟩)
      (lookup_modify_self _ _ (fun z => { z with deps := ((ca : Int), (ra : Int)) :: z.deps }) x
        (fun _ => ⟨rfl, rfl⟩) hx')]
    simp [hxdeps, hxrev]
  obtain ⟨cs, hcs⟩ := propagate_dirty_self_returns (j + 1) _ _ _ h2 rfl
  unfold reevaluate
  simp only [hcs]
  obtain ⟨hall, _⟩ := propagate_dirty_dirtied (j + 3) _ _ cs hcs
  obtain ⟨a1, ha1, hd1⟩ := hall _ _ h2
  obtain ⟨y0, hy0, hyd⟩ := (propagate_dirty_dirtied (j + 3) _ _ cs hcs).2
  rw [ha1] at hy0
  simp only [Option.some.injEq] at hy0
  rw [← hy0] at hyd
  have hform : a1.flags.formula = true := by
    rw [hd1.1]
    simp [hxf, (formula_text_eq _).1]
  have hvis1 : a1.flags.visiting = false := by
    rw [hd1.1]
    simp [hxf, hev]
  have hdeps1 : a1.deps = [((ca : Int), (ra : Int))] := by
    rw [hd1.1]
  have hrev1 : a1.revdeps = [((ca : Int), (ra : Int))] := by
    rw [hd1.1]
  exact eval_cell_self_returns L j _ _ a1 ha1 hyd hform hvis1 hdeps1 hrev1

/-- For a cell address A of the rows 1 to 128, `set_cell(A, "=A")` on the empty
sheet returns, and leaves A with the Cyclic-reference error as cached value,
neither dirty nor being visited. The call also returns on every reachable
sheet in which no other cell reads A, and on every sheet whatever, when the
call returns, A holds the Cyclic-reference error and is neither dirty nor
being visited (A not being visited before the call, and not holding the
content `=A` already). -/
theorem self_reference_on_sheets (L : Libc) (k ca ra : Nat) (hca : ca < 26) (hra : ra < 128) :
    (∃ (s1 : Sheet) (x : Cell),
      set_cell L (k + 3) Sheet.empty ca ra (some ('=' :: cell_name ca ra)) = .ok s1 ∧
      lookup s1.cells ((ca : Int), (ra : Int)) = some x ∧
      x.cached = errExprCyclicRef ∧ x.flags.dirty = false ∧ x.flags.visiting = false) ∧
    (∀ s : Sheet, Reachable L s → OnlySelf s.cells ((ca : Int), (ra : Int)) →
      (∀ x, lookup s.cells ((ca : Int), (ra : Int)) = some x →
        x.flags.visiting = false ∧ x.content ≠ some ('=' :: cell_name ca ra)) →
      ∃ s1, set_cell L (k + 3) s ca ra (some ('=' :: cell_name ca ra)) = .ok s1) ∧
    (∀ (s s1 : Sheet) (j : Nat),
      (∀ x, lookup s.cells ((ca : Int), (ra : Int)) = some x →
        x.flags.visiting = false ∧ x.content ≠ some ('=' :: cell_name ca ra)) →
      set_cell L (j + 2) s ca ra (some ('=' :: cell_name ca ra)) = .ok s1 →
      ∃ y, lookup s1.cells ((ca : Int), (ra : Int)) = some y ∧
        y.cached = errExprCyclicRef ∧ y.flags.dirty = false ∧ y.flags.visiting = false) := by
  refine ⟨?_, ?_, ?_⟩
  · refine ⟨_, ⟨[((ca : Int), (ra : Int))], [((ca : Int), (ra : Int))], ca, ra,
      some ('=' :: cell_name ca ra), errExprCyclicRef, ⟨false, true, false, false⟩⟩,
      self_reference L k ca ra hca hra, ?_, rfl, rfl, rfl⟩
    simp [lookup, Cell.isAt]
  · intro s hs ho hx
    have hg := Reachable_graph L s hs
    exact self_reference_returns L k s ca ra hca hra hg.1 hg.2 ho (fun x h => (hx x h).1)
      (fun x h => (hx x h).2)
  · intro s s1 j hx h
    exact self_reference_result L j s s1 ca ra hca hra (fun x h => (hx x h).1)
      (fun x h => (hx x h).2) h

/-! ## A cell read along two paths -/

/-- C2. After `A1 := 1`, `B1 := "=A1"`, `C1 := "=A1+B1"`, `A1 := 2` the cells A1
and B1 hold the Number 2, the formula text of C1 evaluates to the Number 4
against them, but the cached value of C1 is the Cyclic-reference error. -/
theorem C2_cached_value_differs_from_formula :
    cached_after (set_cells Libc.sample 12 Sheet.empty diamond_edits) (0, 0) = .ok (.num 2) ∧
    cached_after (set_cells Libc.sample 12 Sheet.empty diamond_edits) (1, 0) = .ok (.num 2) ∧
    formula_after Libc.sample 12 (set_cells Libc.sample 12 Sheet.empty diamond_edits)
      "A1+B1".toList = .ok (.num 4) ∧
    cached_after (set_cells Libc.sample 12 Sheet.empty diamond_edits) (2, 0)
      = .ok errExprCyclicRef := by
  decide!

/-- C3. After `A1 := 1`, `B1 := "=A1"`, `C1 := "=A1+B1"`, `A1 := 2` every outgoing
edge of every cell leads to a cell of a smaller column, so the dependency
graph has no cycle; yet the cached value of C1 is the Cyclic-reference error. -/
theorem C3_cyclic_error_without_cycle :
    (∀ x ∈ (Outcome.get_or (set_cells Libc.sample 12 Sheet.empty diamond_edits)
        Sheet.empty).cells, ∀ d ∈ x.deps, d.1 < x.col) ∧
    cached_after (set_cells Libc.sample 12 Sheet.empty diamond_edits) (2, 0)
      = .ok errExprCyclicRef := by
  decide!

/-! ## More fuel gives the same result -/

theorem eval_signs_mono : ∀ (n : Nat) (neg : Bool) (lx : Lexer) (r : Bool × Lexer),
    eval_signs n neg lx = .ok r → eval_signs (n + 1) neg lx = .ok r := by
  intro n
  induction n with
  | zero => intro neg lx r h; simp [eval_signs] at h
  | succ n ih =>
    intro neg lx r h
    rw [eval_signs] at h ⊢
    split at h
    · rename_i h1; simp only [h1, if_true]; exact ih _ _ _ h
    · rename_i h1
      split at h
      · rename_i h2; simp only [h1, h2, if_true, if_false]; exact ih _ _ _ h
      · rename_i h2; simp only [h1, h2, if_false]; exact h

/-- One more unit of fuel does not change a result of the evaluator. -/
theorem eval_mono_step (L : Libc) (cells : List Cell) : ∀ n : Nat,
    (∀ lx r, eval_expr L cells n lx = .ok r → eval_expr L cells (n + 1) lx = .ok r) ∧
    (∀ v lx r, eval_expr_loop L cells n v lx = .ok r → eval_expr_loop L cells (n + 1) v lx = .ok r) ∧
    (∀ lx r, eval_expr1 L cells n lx = .ok r → eval_expr1 L cells (n + 1) lx = .ok r) ∧
    (∀ v lx r, eval_expr1_loop L cells n v lx = .ok r →
      eval_expr1_loop L cells (n + 1) v lx = .ok r) ∧
    (∀ lx r, eval_term L cells n lx = .ok r → eval_term L cells (n + 1) lx = .ok r) ∧
    (∀ v lx r, eval_term_loop L cells n v lx = .ok r → eval_term_loop L cells (n + 1) v lx = .ok r) ∧
    (∀ args lx r, eval_args L cells n args lx = .ok r → eval_args L cells (n + 1) args lx = .ok r) ∧
    (∀ lx r, eval_factor L cells n lx = .ok r → eval_factor L cells (n + 1) lx = .ok r) := by
  intro n
  induction n with
  | zero =>
    refine ⟨?_, ?_, ?_, ?_, ?_, ?_, ?_, ?_⟩ <;> intros <;> rename_i h <;>
      simp [eval_expr, eval_expr_loop, eval_expr1, eval_expr1_loop, eval_term, eval_term_loop,
        eval_args, eval_factor] at h
  | succ n ih =>
    obtain ⟨iE, iEl, iE1, iE1l, iT, iTl, iA, iF⟩ := ih
    refine ⟨?_, ?_, ?_, ?_, ?_, ?_, ?_, ?_⟩
    · intro lx r h
      rw [eval_expr] at h ⊢
      split at h
      · rename_i v lx1 h1
        rw [iE1 _ _ h1]
        simp only
        split at h
        · rename_i hv; simp only [hv, if_true]; exact h
        · rename_i hv; simp only [hv, if_false]; exact iEl _ _ _ h
      · simp at h
      · simp at h
    · intro v lx r h
      rw [eval_expr_loop] at h ⊢
      split at h
      · rename_i hop
        simp only [hop, if_true]
        split at h
        · rename_i v2 lx2 h1
          rw [iE1 _ _ h1]
          simp only
          split at h
          · rename_i hv; simp only [hv, if_true]; exact h
          · rename_i hv
            simp only [hv, if_false]
            split at h
            · simp at h
            · rename_i hfr; simp only [hfr, if_false]; exact iEl _ _ _ h
        · simp at h
        · simp at h
      · rename_i hop
        simp only [hop, if_false]; exact h
    · intro lx r h
      rw [eval_expr1] at h ⊢
      split at h
      · rename_i v lx1 h1
        rw [iT _ _ h1]
        simp only
        split at h
        · rename_i hv; simp only [hv, if_true]; exact h
        · rename_i hv; simp only [hv, if_false]; exact iE1l _ _ _ h
      · simp at h
      · simp at h
    · intro v lx r h
      rw [eval_expr1_loop] at h ⊢
      split at h
      · rename_i hop
        simp only [hop, if_true]
        split at h
        · rename_i v2 lx2 h1
          rw [iT _ _ h1]
          simp only
          split at h
          · rename_i hv; simp only [hv, if_true]; exact h
          · rename_i hv
            simp only [hv, if_false]
            split at h
            · simp at h
            · rename_i hfr
              simp only [hfr, if_false]
              split at h
              · rename_i res hres
                exact iE1l _ _ _ h
              · simp at h
              · simp at h
        · simp at h
        · simp at h
      · rename_i hop
        simp only [hop, if_false]; exact h
    · intro lx r h
      rw [eval_term] at h ⊢
      split at h
      · rename_i v lx1 h1
        rw [iF _ _ h1]
        simp only
        split at h
        · rename_i hv; simp only [hv, if_true]; exact h
        · rename_i hv; simp only [hv, if_false]; exact iTl _ _ _ h
      · simp at h
      · simp at h
    · intro v lx r h
      rw [eval_term_loop] at h ⊢
      split at h
      · rename_i hop
        simp only [hop, if_true]
        split at h
        · rename_i v2 lx2 h1
          rw [iF _ _ h1]
          simp only
          split at h
          · rename_i hv; simp only [hv, if_true]; exact h
          · rename_i hv
            simp only [hv, if_false]
            split at h
            · simp at h
            · rename_i hfr; simp only [hfr, if_false]; exact iTl _ _ _ h
        · simp at h
        · simp at h
      · rename_i hop
        simp only [hop, if_false]; exact h
    · intro args lx r h
      rw [eval_args] at h ⊢
      split at h
      · rename_i hlen
        simp only [hlen, if_true]
        split at h
        · rename_i arg lx1 h1
          rw [iE _ _ h1]
          simp only
          split at h
          · rename_i hv; simp only [hv, if_true]; exact h
          · rename_i hv
            simp only [hv, if_false]
            split at h
            · rename_i hc; rw [if_pos hc]; exact h
            · rename_i hc; rw [if_neg hc]; exact iA _ _ _ h
        · simp at h
        · simp at h
      · rename_i hlen
        simp only [hlen, if_false]; exact h
    · intro lx r h
      rw [eval_factor] at h ⊢
      split at h
      · simp at h
      · simp at h
      · rename_i negative lx1 hs
        rw [eval_signs_mono _ _ _ _ hs]
        split at h
        · rename_i heq; simp only [heq]; exact h
        · rename_i heq
          simp only [heq]
          split at h
          · rename_i v lx2 h1
            rw [iE _ _ h1]
            exact h
          · simp at h
          · simp at h
        · rename_i heq; simp only [heq]; exact h
        · rename_i heq; simp only [heq]; exact h
        · rename_i heq; simp only [heq]; exact h
        · rename_i heq
          simp only [heq]
          dsimp only at h
          split at h
          · rename_i he; simp only [he, if_true]; exact h
          · rename_i he
            simp only [he, if_false]
            split at h
            · rename_i err args lx2 h1
              rw [iA _ _ _ h1]
              exact h
            · simp at h
            · simp at h
        · rename_i heq; simp only [heq]; exact h
        · rename_i h1 h2 h3 h4 h5 h6 h7
          dsimp only
          split
          · rename_i hh; exact absurd hh h1
          · rename_i hh; exact absurd hh h2
          · rename_i hh; exact absurd hh h3
          · rename_i hh; exact absurd hh h4
          · rename_i hh; exact absurd hh h5
          · rename_i hh; exact absurd hh h6
          · rename_i hh; exact absurd hh h7
          · exact h

/-- A result of the evaluator is kept with any larger fuel. -/
theorem eval_mono (L : Libc) (cells : List Cell) (n m : Nat) (hnm : n ≤ m) :
    (∀ lx r, eval_expr L cells n lx = .ok r → eval_expr L cells m lx = .ok r) ∧
    (∀ v lx r, eval_expr_loop L cells n v lx = .ok r → eval_expr_loop L cells m v lx = .ok r) ∧
    (∀ lx r, eval_expr1 L cells n lx = .ok r → eval_expr1 L cells m lx = .ok r) ∧
    (∀ v lx r, eval_expr1_loop L cells n v lx = .ok r → eval_expr1_loop L cells m v lx = .ok r) ∧
    (∀ lx r, eval_term L cells n lx = .ok r → eval_term L cells m lx = .ok r) ∧
    (∀ v lx r, eval_term_loop L cells n v lx = .ok r → eval_term_loop L cells m v lx = .ok r) ∧
    (∀ args lx r, eval_args L cells n args lx = .ok r → eval_args L cells m args lx = .ok r) ∧
    (∀ lx r, eval_factor L cells n lx = .ok r → eval_factor L cells m lx = .ok r) := by
  induction m with
  | zero =>
    have : n = 0 := by omega
    subst this
    exact ⟨fun _ _ h => h, fun _ _ _ h => h, fun _ _ h => h, fun _ _ _ h => h, fun _ _ h => h,
      fun _ _ _ h => h, fun _ _ _ h => h, fun _ _ h => h⟩
  | succ m ih =>
    by_cases hn : n = m + 1
    · subst hn
      exact ⟨fun _ _ h => h, fun _ _ _ h => h, fun _ _ h => h, fun _ _ _ h => h, fun _ _ h => h,
        fun _ _ _ h => h, fun _ _ _ h => h, fun _ _ h => h⟩
    · obtain ⟨a1, a2, a3, a4, a5, a6, a7, a8⟩ := ih (by omega)
      obtain ⟨b1, b2, b3, b4, b5, b6, b7, b8⟩ := eval_mono_step L cells m
      exact ⟨fun lx r h => b1 lx r (a1 lx r h), fun v lx r h => b2 v lx r (a2 v lx r h),
        fun lx r h => b3 lx r (a3 lx r h), fun v lx r h => b4 v lx r (a4 v lx r h),
        fun lx r h => b5 lx r (a5 lx r h), fun v lx r h => b6 v lx r (a6 v lx r h),
        fun args lx r h => b7 args lx r (a7 args lx r h), fun lx r h => b8 lx r (a8 lx r h)⟩

theorem eval_expr_mono (L : Libc) (cells : List Cell) (n m : Nat) (hnm : n ≤ m) (lx : Lexer)
    (r : Value × Lexer) (h : eval_expr L cells n lx = .ok r) : eval_expr L cells m lx = .ok r :=
  (eval_mono L cells n m hnm).1 lx r h

theorem eval_expr1_mono (L : Libc) (cells : List Cell) (n m : Nat) (hnm : n ≤ m) (lx : Lexer)
    (r : Value × Lexer) (h : eval_expr1 L cells n lx = .ok r) : eval_expr1 L cells m lx = .ok r :=
  (eval_mono L cells n m hnm).2.2.1 lx r h

theorem eval_term_mono (L : Libc) (cells : List Cell) (n m : Nat) (hnm : n ≤ m) (lx : Lexer)
    (r : Value × Lexer) (h : eval_term L cells n lx = .ok r) : eval_term L cells m lx = .ok r :=
  (eval_mono L cells n m hnm).2.2.2.2.1 lx r h

theorem eval_factor_mono (L : Libc) (cells : List Cell) (n m : Nat) (hnm : n ≤ m) (lx : Lexer)
    (r : Value × Lexer) (h : eval_factor L cells n lx = .ok r) : eval_factor L cells m lx = .ok r :=
  (eval_mono L cells n m hnm).2.2.2.2.2.2.2 lx r h

/-! ## One operand, two operands -/

theorem eval_factor_fuel_pos (L : Libc) (cells : List Cell) (n : Nat) (lx : Lexer)
    (r : Value × Lexer) (h : eval_factor L cells n lx = .ok r) : ∃ k, n = k + 1 := by
  cases n with
  | zero => simp [eval_factor] at h
  | succ k => exact ⟨k, rfl⟩

theorem eval_term_fuel_pos (L : Libc) (cells : List Cell) (n : Nat) (lx : Lexer)
    (r : Value × Lexer) (h : eval_term L cells n lx = .ok r) : ∃ k, n = k + 1 := by
  cases n with
  | zero => simp [eval_term] at h
  | succ k => exact ⟨k, rfl⟩

theorem eval_expr1_fuel_pos (L : Libc) (cells : List Cell) (n : Nat) (lx : Lexer)
    (r : Value × Lexer) (h : eval_expr1 L cells n lx = .ok r) : ∃ k, n = k + 1 := by
  cases n with
  | zero => simp [eval_expr1] at h
  | succ k => exact ⟨k, rfl⟩

/-- The loop of `eval_term` ends at a token that is none of `*`, `/`, `%`. -/
theorem eval_term_loop_end (L : Libc) (cells : List Cell) (k : Nat) (v : Value) (lx : Lexer)
    (hend : ¬ (lx.tok_type = tokMul ∨ lx.tok_type = tokDiv ∨ lx.tok_type = tokMod)) :
    eval_term_loop L cells (k + 1) v lx = .ok (v, lx) := by
  rw [eval_term_loop, if_neg hend]

/-- The loop of `eval_expr1` ends at a token that is neither `+` nor `-`. -/
theorem eval_expr1_loop_end (L : Libc) (cells : List Cell) (k : Nat) (v : Value) (lx : Lexer)
    (hend : ¬ (lx.tok_type = tokPlus ∨ lx.tok_type = tokMinus)) :
    eval_expr1_loop L cells (k + 1) v lx = .ok (v, lx) := by
  rw [eval_expr1_loop, if_neg hend]

/-- The loop of `eval_expr` ends at a token that is not a relational operator. -/
theorem eval_expr_loop_end (L : Libc) (cells : List Cell) (k : Nat) (v : Value) (lx : Lexer)
    (hend : is_relop lx.tok_type = false) :
    eval_expr_loop L cells (k + 1) v lx = .ok (v, lx) := by
  rw [eval_expr_loop]
  simp [hend]

/-- A term that is one factor. -/
theorem eval_term_single (L : Libc) (cells : List Cell) (n : Nat) (lx lx1 : Lexer) (v : Value)
    (h : eval_factor L cells n lx = .ok (v, lx1))
    (hend : ¬ (lx1.tok_type = tokMul ∨ lx1.tok_type = tokDiv ∨ lx1.tok_type = tokMod)) :
    eval_term L cells (n + 1) lx = .ok (v, lx1) := by
  obtain ⟨k, rfl⟩ := eval_factor_fuel_pos L cells n lx _ h
  rw [eval_term, h]
  simp only
  rw [eval_term_loop_end L cells k v lx1 hend]
  simp

/-- A sum that is one term. -/
theorem eval_expr1_single (L : Libc) (cells : List Cell) (n : Nat) (lx lx1 : Lexer) (v : Value)
    (h : eval_term L cells n lx = .ok (v, lx1))
    (hend : ¬ (lx1.tok_type = tokPlus ∨ lx1.tok_type = tokMinus)) :
    eval_expr1 L cells (n + 1) lx = .ok (v, lx1) := by
  obtain ⟨k, rfl⟩ := eval_term_fuel_pos L cells n lx _ h
  rw [eval_expr1, h]
  simp only
  rw [eval_expr1_loop_end L cells k v lx1 hend]
  simp

/-- An expression that is one sum. -/
theorem eval_expr_single (L : Libc) (cells : List Cell) (n : Nat) (lx lx1 : Lexer) (v : Value)
    (h : eval_expr1 L cells n lx = .ok (v, lx1)) (hend : is_relop lx1.tok_type = false) :
    eval_expr L cells (n + 1) lx = .ok (v, lx1) := by
  obtain ⟨k, rfl⟩ := eval_expr1_fuel_pos L cells n lx _ h
  rw [eval_expr, h]
  simp only
  rw [eval_expr_loop_end L cells k v lx1 hend]
  simp

/-- A term of two factors `a op b` with `op` one of `*`, `/`, `%`. -/
theorem eval_term_binary (L : Libc) (cells : List Cell) (f1 f2 n : Nat) (lx lx1 lx2 : Lexer)
    (v v2 : Value) (hf1 : f1 ≤ n) (hf2 : f2 ≤ n)
    (h1 : eval_factor L cells f1 lx = .ok (v, lx1)) (hv : v.isError = false)
    (hop : lx1.tok_type = tokMul ∨ lx1.tok_type = tokDiv ∨ lx1.tok_type = tokMod)
    (h2 : eval_factor L cells f2 (get_token lx1) = .ok (v2, lx2)) (hv2 : v2.isError = false)
    (hend : ¬ (lx2.tok_type = tokMul ∨ lx2.tok_type = tokDiv ∨ lx2.tok_type = tokMod))
    (hfree : frees_cached v v2 = false) :
    eval_term L cells (n + 2) lx = .ok (mul_apply lx1.tok_type v v2, lx2) := by
  obtain ⟨k, rfl⟩ := eval_factor_fuel_pos L cells n _ _ (eval_factor_mono L cells f2 n hf2 _ _ h2)
  rw [eval_term, eval_factor_mono L cells f1 (k + 1 + 1) (by omega) _ _ h1]
  simp only [hv, Bool.false_eq_true, if_false]
  rw [eval_term_loop, if_pos hop, eval_factor_mono L cells f2 (k + 1) hf2 _ _ h2]
  simp only [hv2, hfree, Bool.false_eq_true, if_false]
  exact eval_term_loop_end L cells k _ lx2 hend

/-- A sum of two terms `a op b` with `op` one of `+`, `-`. -/
theorem eval_expr1_binary (L : Libc) (cells : List Cell) (f1 f2 n : Nat) (lx lx1 lx2 : Lexer)
    (v v2 res : Value) (hf1 : f1 ≤ n) (hf2 : f2 ≤ n)
    (h1 : eval_term L cells f1 lx = .ok (v, lx1)) (hv : v.isError = false)
    (hop : lx1.tok_type = tokPlus ∨ lx1.tok_type = tokMinus)
    (h2 : eval_term L cells f2 (get_token lx1) = .ok (v2, lx2)) (hv2 : v2.isError = false)
    (hres : add_apply lx1.tok_type v v2 = .ok res)
    (hend : ¬ (lx2.tok_type = tokPlus ∨ lx2.tok_type = tokMinus))
    (hfree : frees_cached v v2 = false) :
    eval_expr1 L cells (n + 2) lx = .ok (res, lx2) := by
  obtain ⟨k, rfl⟩ := eval_term_fuel_pos L cells n _ _ (eval_term_mono L cells f2 n hf2 _ _ h2)
  rw [eval_expr1, eval_term_mono L cells f1 (k + 1 + 1) (by omega) _ _ h1]
  simp only [hv, Bool.false_eq_true, if_false]
  rw [eval_expr1_loop, if_pos hop, eval_term_mono L cells f2 (k + 1) hf2 _ _ h2]
  simp only [hv2, hfree, Bool.false_eq_true, if_false, hres]
  exact eval_expr1_loop_end L cells k _ lx2 hend

/-- A comparison of two sums `a op b` with `op` a relational operator. -/
theorem eval_expr_binary (L : Libc) (cells : List Cell) (f1 f2 n : Nat) (lx lx1 lx2 : Lexer)
    (v v2 : Value) (hf1 : f1 ≤ n) (hf2 : f2 ≤ n)
    (h1 : eval_expr1 L cells f1 lx = .ok (v, lx1)) (hv : v.isError = false)
    (hop : is_relop lx1.tok_type = true)
    (h2 : eval_expr1 L cells f2 (get_token lx1) = .ok (v2, lx2)) (hv2 : v2.isError = false)
    (hend : is_relop lx2.tok_type = false) (hfree : frees_cached v v2 = false) :
    eval_expr L cells (n + 2) lx = .ok (rel_apply lx1.tok_type v v2, lx2) := by
  obtain ⟨k, rfl⟩ := eval_expr1_fuel_pos L cells n _ _ (eval_expr1_mono L cells f2 n hf2 _ _ h2)
  rw [eval_expr, eval_expr1_mono L cells f1 (k + 1 + 1) (by omega) _ _ h1]
  simp only [hv, Bool.false_eq_true, if_false]
  rw [eval_expr_loop]
  simp only [hop, if_true]
  rw [eval_expr1_mono L cells f2 (k + 1) hf2 _ _ h2]
  simp only [hv2, hfree, Bool.false_eq_true, if_false]
  exact eval_expr_loop_end L cells k _ lx2 hend

/-! ## Division by zero -/

theorem trunc_int_nonneg (y : ℚ) (hy : 0 ≤ y) : trunc_int y = ⌊y⌋ := by
  unfold trunc_int
  rw [Int.tdiv_eq_ediv (Rat.num_nonneg.mpr hy) (by exact_mod_cast Nat.zero_le _)]
  exact (Rat.floor_def' y).symm

theorem trunc_int_neg (q : ℚ) : trunc_int (-q) = -trunc_int q := by
  unfold trunc_int
  simp [Int.neg_tdiv]

/-- The cast `(int)q` leaves a fraction of the sign of `q`, below 1 in size. -/
theorem trunc_int_frac (q : ℚ) :
    |q - (trunc_int q : ℚ)| < 1 ∧ (0 ≤ q → 0 ≤ q - (trunc_int q : ℚ)) ∧
    (q ≤ 0 → q - (trunc_int q : ℚ) ≤ 0) := by
  rcases le_total 0 q with h | h
  · rw [trunc_int_nonneg q h]
    have h1 := Int.floor_le q
    have h2 := Int.lt_floor_add_one q
    refine ⟨by rw [abs_lt]; constructor <;> linarith, fun _ => by linarith, fun h' => ?_⟩
    have : q = 0 := le_antisymm h' h
    subst this; simp
  · have hq : trunc_int q = -⌊-q⌋ := by
      have := trunc_int_neg (-q)
      rw [neg_neg] at this
      rw [this, trunc_int_nonneg (-q) (by linarith)]
    rw [hq]
    have h1 := Int.floor_le (-q)
    have h2 := Int.lt_floor_add_one (-q)
    push_cast
    refine ⟨by rw [abs_lt]; constructor <;> linarith, fun h' => ?_, fun _ => by linarith⟩
    have : q = 0 := le_antisymm h h'
    subst this; simp

/-- `fmodf(x, y)` for `y ≠ 0` is `x` less a whole multiple of `y`, smaller than
`y` in size, and of the sign of `x`. -/
theorem fmodf_spec (x y : ℚ) (hy : y ≠ 0) :
    (∃ t : Int, fmodf x y = x - (t : ℚ) * y) ∧ |fmodf x y| < |y| ∧
    (0 ≤ x → 0 ≤ fmodf x y) ∧ (x ≤ 0 → fmodf x y ≤ 0) := by
  have hf : fmodf x y = (x / y - (trunc_int (x / y) : ℚ)) * y := by
    unfold fmodf
    field_simp
    ring
  obtain ⟨h1, h2, h3⟩ := trunc_int_frac (x / y)
  refine ⟨⟨trunc_int (x / y), rfl⟩, ?_, ?_, ?_⟩
  · rw [hf, abs_mul]
    have hpos : 0 < |y| := abs_pos.mpr hy
    calc |x / y - (trunc_int (x / y) : ℚ)| * |y| < 1 * |y| := mul_lt_mul_of_pos_right h1 hpos
      _ = |y| := one_mul _
  · intro hx
    rw [hf]
    rcases lt_or_gt_of_ne hy with hneg | hpos
    · have hq : x / y ≤ 0 := div_nonpos_of_nonneg_of_nonpos hx hneg.le
      nlinarith [h3 hq]
    · have hq : 0 ≤ x / y := div_nonneg hx hpos.le
      nlinarith [h2 hq]
  · intro hx
    rw [hf]
    rcases lt_or_gt_of_ne hy with hneg | hpos
    · have hq : 0 ≤ x / y := div_nonneg_of_nonpos hx hneg.le
      nlinarith [h2 hq]
    · have hq : x / y ≤ 0 := div_nonpos_of_nonpos_of_nonneg hx hpos.le
      nlinarith [h3 hq]

/-- An Error as first factor is the value of the expression. -/
theorem eval_expr_error_first (L : Libc) (cells : List Cell) (n : Nat) (lx lx1 : Lexer)
    (v : Value) (h1 : eval_factor L cells n lx = .ok (v, lx1)) (hv : v.isError = true) :
    eval_expr L cells (n + 3) lx = .ok (v, lx1) := by
  rw [eval_expr, eval_expr1, eval_term, h1]
  simp only [hv, if_true]

/-- An Error as second factor of a term is the value of the expression. -/
theorem eval_expr_error_second (L : Libc) (cells : List Cell) (f1 f2 n : Nat)
    (lx lx1 lx2 : Lexer) (v v2 : Value) (hf1 : f1 ≤ n) (hf2 : f2 ≤ n)
    (h1 : eval_factor L cells f1 lx = .ok (v, lx1)) (hv : v.isError = false)
    (hop : lx1.tok_type = tokMul ∨ lx1.tok_type = tokDiv ∨ lx1.tok_type = tokMod)
    (h2 : eval_factor L cells f2 (get_token lx1) = .ok (v2, lx2)) (hv2 : v2.isError = true) :
    eval_expr L cells (n + 4) lx = .ok (v2, lx2) := by
  obtain ⟨k, rfl⟩ := eval_factor_fuel_pos L cells n _ _ (eval_factor_mono L cells f2 n hf2 _ _ h2)
  rw [eval_expr, eval_expr1, eval_term,
    eval_factor_mono L cells f1 (k + 1 + 1) (by omega) _ _ h1]
  simp only [hv, Bool.false_eq_true, if_false]
  rw [eval_term_loop, if_pos hop, eval_factor_mono L cells f2 (k + 1) hf2 _ _ h2]
  simp only [hv2, if_true]

/-- C11. For operands `a` and `b` (factors) of the formula `a/b` or `a%b` that
are not errors, whose coercion is a number and none of which shares its text
with a cell: the formula evaluates to the Divide-by-zero error when `b`
coerces to 0 and otherwise to the Number `a / b`, respectively `fmodf(a, b)`,
of the coerced operands, where `fmodf(a, b)` is `a` less a whole multiple of
`b`, smaller than `b` in size and of the sign of `a`. An operand that is an
Error is the value of the formula. `5/0`, `5%0`, `5/A1` with A1 empty and
`5/"abc"` give the Divide-by-zero error; `5/2` is 2.5, `7%3` is 1, `-7%3` is
-1, `7%-3` is 1 and `7.5%2` is 1.5. When A1 holds the String `ab` of the
formula `="ab"`, the formulas `A1/A1` and `A1%2` free the text of A1, which
the cell still holds: their evaluation is undefined. -/
theorem C11_division_by_zero :
    (∀ (L : Libc) (cells : List Cell) (f1 f2 n : Nat) (lx lx1 lx2 : Lexer) (v v2 : Value),
      f1 ≤ n → f2 ≤ n →
      eval_factor L cells f1 lx = .ok (v, lx1) → v.isError = false →
      lx1.tok_type = tokDiv ∨ lx1.tok_type = tokMod →
      eval_factor L cells f2 (get_token lx1) = .ok (v2, lx2) → v2.isError = false →
      lx2.tok_type = tokEnd → frees_cached v v2 = false →
      v.finite = true → v2.finite = true →
      ∃ r : Value, eval_expr L cells (n + 4) lx = .ok (r, lx2) ∧
        (to_num v2 = 0 → r = errExprDivZero) ∧
        (to_num v2 ≠ 0 → lx1.tok_type = tokDiv → r = .num (to_num v / to_num v2)) ∧
        (to_num v2 ≠ 0 → lx1.tok_type = tokMod →
          r = .num (fmodf (to_num v) (to_num v2)))) ∧
    (∀ x y : ℚ, y ≠ 0 →
      (∃ t : Int, fmodf x y = x - (t : ℚ) * y) ∧ |fmodf x y| < |y| ∧
      (0 ≤ x → 0 ≤ fmodf x y) ∧ (x ≤ 0 → fmodf x y ≤ 0)) ∧
    (∀ (L : Libc) (cells : List Cell) (n : Nat) (lx lx1 : Lexer) (v : Value),
      eval_factor L cells n lx = .ok (v, lx1) → v.isError = true →
      eval_expr L cells (n + 3) lx = .ok (v, lx1)) ∧
    (∀ (L : Libc) (cells : List Cell) (f1 f2 n : Nat) (lx lx1 lx2 : Lexer) (v v2 : Value),
      f1 ≤ n → f2 ≤ n →
      eval_factor L cells f1 lx = .ok (v, lx1) → v.isError = false →
      lx1.tok_type = tokDiv ∨ lx1.tok_type = tokMod →
      eval_factor L cells f2 (get_token lx1) = .ok (v2, lx2) → v2.isError = true →
      eval_expr L cells (n + 4) lx = .ok (v2, lx2)) ∧
    value_of Libc.sample [] 8 "5/0".toList = .ok errExprDivZero ∧
    value_of Libc.sample [] 8 "5%0".toList = .ok errExprDivZero ∧
    value_of Libc.sample [] 8 "5/A1".toList = .ok errExprDivZero ∧
    value_of Libc.sample [] 8 "5/\"abc\"".toList = .ok errExprDivZero ∧
    value_of Libc.sample [] 8 "5/2".toList = .ok (.num (5 / 2)) ∧
    value_of Libc.sample [] 8 "7%3".toList = .ok (.num 1) ∧
    value_of Libc.sample [] 8 "-7%3".toList = .ok (.num (-1)) ∧
    value_of Libc.sample [] 8 "7%-3".toList = .ok (.num 1) ∧
    value_of Libc.sample [] 8 "7.5%2".toList = .ok (.num (3 / 2)) ∧
    formula_after Libc.sample 12
        (set_cells Libc.sample 12 Sheet.empty [(0, 0, "=\"ab\"".toList)]) "A1/A1".toList
      = .undefined ∧
    formula_after Libc.sample 12
        (set_cells Libc.sample 12 Sheet.empty [(0, 0, "=\"ab\"".toList)]) "A1%2".toList
      = .undefined := by
  refine ⟨?_, fmodf_spec, eval_expr_error_first, ?_, by decide!, by decide!, by decide!,
    by decide!, by decide!, by decide!, by decide!, by decide!, by decide!, by decide!,
    by decide!⟩
  · intro L cells f1 f2 n lx lx1 lx2 v v2 hf1 hf2 h1 hv hop h2 hv2 hend hfree _ _
    have hT := eval_term_binary L cells f1 f2 n lx lx1 lx2 v v2 hf1 hf2 h1 hv
      (by rcases hop with h | h <;> simp [h]) h2 hv2 (by simp [hend]) hfree
    have hE1 := eval_expr1_single L cells (n + 2) lx lx2 _ hT (by simp [hend])
    have hE := eval_expr_single L cells (n + 3) lx lx2 _ hE1 (by simp [hend, is_relop])
    refine ⟨_, hE, ?_, ?_, ?_⟩
    · intro hz
      rcases hop with h | h <;> simp [mul_apply, h, hz]
    · intro hz hd
      simp [mul_apply, hd, hz, make_num]
    · intro hz hd
      simp [mul_apply, hd, hz, make_num]
  · intro L cells f1 f2 n lx lx1 lx2 v v2 hf1 hf2 h1 hv hop h2 hv2
    exact eval_expr_error_second L cells f1 f2 n lx lx1 lx2 v v2 hf1 hf2 h1 hv
      (by rcases hop with h | h <;> simp [h]) h2 hv2

/-- The formula `5/0`. -/
theorem C11_division_by_zero_witness :
    ∃ r : Value, eval_expr Libc.sample [] 6 (lexer_at "5/0".toList)
        = .ok (r, ⟨tokEnd, ['0'], [], NUL, none⟩) ∧
      (to_num (.num 0) = 0 → r = errExprDivZero) ∧
      (to_num (.num 0) ≠ 0 → tokDiv = tokDiv → r = .num (to_num (.num 5) / to_num (.num 0))) ∧
      (to_num (.num 0) ≠ 0 → tokDiv = tokMod →
        r = .num (fmodf (to_num (.num 5)) (to_num (.num 0)))) :=
  C11_division_by_zero.1 Libc.sample [] 2 2 2 (lexer_at "5/0".toList)
    ⟨tokDiv, ['5'], [], '0', none⟩ ⟨tokEnd, ['0'], [], NUL, none⟩ (.num 5) (.num 0)
    (by decide) (by decide) (by decide!) (by decide) (by decide) (by decide!) (by decide)
    (by decide) rfl rfl rfl

/-! ## Relational operators -/

theorem toNat_injective (a b : Char) (h : a.toNat = b.toNat) : a = b := by
  apply Char.ext
  apply UInt32.ext
  exact h

theorem nat_lex_cons (x y : Nat) (xs ys : List Nat) :
    List.Lex (fun a b : Nat => a < b) (x :: xs) (y :: ys)
      ↔ x < y ∨ (x = y ∧ List.Lex (fun a b : Nat => a < b) xs ys) := by
  constructor
  · intro h
    cases h with
    | cons h1 => exact Or.inr ⟨rfl, h1⟩
    | rel h1 => exact Or.inl h1
  · intro h
    rcases h with h | ⟨h1, h2⟩
    · exact List.Lex.rel h
    · subst h1
      exact List.Lex.cons h2

theorem nat_lex_nil (l : List Nat) : ¬ List.Lex (fun a b : Nat => a < b) l [] := by
  intro h; cases h

/-- `strcmp` decides the lexicographic order of the character codes. -/
theorem strcmp_spec : ∀ a b : List Char,
    (strcmp a b < 0 ↔ List.Lex (fun x y : Nat => x < y) (a.map Char.toNat) (b.map Char.toNat)) ∧
    (strcmp a b = 0 ↔ a = b) ∧
    (0 < strcmp a b ↔ List.Lex (fun x y : Nat => x < y) (b.map Char.toNat) (a.map Char.toNat)) := by
  intro a
  induction a with
  | nil =>
    intro b
    cases b with
    | nil =>
      simp only [strcmp, List.map_nil]
      refine ⟨?_, ?_, ?_⟩
      · exact ⟨fun h => by omega, fun h => absurd h (nat_lex_nil _)⟩
      · simp
      · exact ⟨fun h => by omega, fun h => absurd h (nat_lex_nil _)⟩
    | cons y ys =>
      simp only [strcmp, List.map_nil, List.map_cons]
      refine ⟨?_, ?_, ?_⟩
      · exact ⟨fun _ => List.Lex.nil, fun _ => by omega⟩
      · simp
      · exact ⟨fun h => by omega, fun h => absurd h (nat_lex_nil _)⟩
  | cons x xs ih =>
    intro b
    cases b with
    | nil =>
      simp only [strcmp, List.map_nil, List.map_cons]
      refine ⟨?_, ?_, ?_⟩
      · exact ⟨fun h => by omega, fun h => absurd h (nat_lex_nil _)⟩
      · simp
      · exact ⟨fun _ => List.Lex.nil, fun _ => by omega⟩
    | cons y ys =>
      obtain ⟨i1, i2, i3⟩ := ih ys
      rw [List.map_cons, List.map_cons, nat_lex_cons, nat_lex_cons, strcmp]
      by_cases hxy : x.toNat < y.toNat
      · rw [if_pos hxy]
        refine ⟨?_, ?_, ?_⟩
        · exact ⟨fun _ => Or.inl hxy, fun _ => by omega⟩
        · constructor
          · intro h; omega
          · intro h
            simp only [List.cons.injEq] at h
            rw [h.1] at hxy; omega
        · constructor
          · intro h; omega
          · intro h; rcases h with h | h <;> omega
      · by_cases hyx : y.toNat < x.toNat
        · rw [if_neg hxy, if_pos hyx]
          refine ⟨?_, ?_, ?_⟩
          · constructor
            · intro h; omega
            · intro h; rcases h with h | h <;> omega
          · constructor
            · intro h; omega
            · intro h
              simp only [List.cons.injEq] at h
              rw [h.1] at hyx; omega
          · exact ⟨fun _ => Or.inl hyx, fun _ => by omega⟩
        · have heq : x = y := toNat_injective x y (by omega)
          subst heq
          rw [if_neg hxy, if_neg hxy]
          refine ⟨?_, ?_, ?_⟩
          · constructor
            · intro h; exact Or.inr ⟨rfl, i1.mp h⟩
            · intro h; rcases h with h | h
              · omega
              · exact i1.mpr h.2
          · constructor
            · intro h; rw [i2.mp h]
            · intro h
              simp only [List.cons.injEq, true_and] at h
              exact i2.mpr h
          · constructor
            · intro h; exact Or.inr ⟨rfl, i3.mp h⟩
            · intro h; rcases h with h | h
              · omega
              · exact i3.mpr h.2

theorem lex_lt_irrefl_pair (a b : List Char) (h1 : lex_lt a b = true) : lex_lt b a = false := by
  have s := strcmp_spec a b
  simp only [lex_lt, decide_eq_true_eq, decide_eq_false_iff_not] at *
  intro h2
  have := s.1.mpr h1
  have := s.2.2.mpr h2
  omega

/-- The loop body of `eval_expr` computes 1 when the relation of the spec
holds and 0 when it does not, for operands that are not errors and not both
Null. -/
theorem rel_apply_spec (op : TokenType) (v v2 : Value) (hop : is_relop op = true)
    (hv : v.isError = false) (hv2 : v2.isError = false)
    (hnull : ¬ (v = .null ∧ v2 = .null)) :
    rel_apply op v v2 = .num (if rel_holds op v v2 then 1 else 0) := by
  have hcmp : ∀ a b : List Char,
      (decide (strcmp a b = 0) = decide (a = b)) ∧
      (decide (strcmp a b ≠ 0) = decide (a ≠ b)) ∧
      (decide (strcmp a b < 0) = lex_lt a b) ∧
      (decide (strcmp a b ≤ 0) = !lex_lt b a) ∧
      (decide (strcmp a b > 0) = lex_lt b a) ∧
      (decide (strcmp a b ≥ 0) = !lex_lt a b) := by
    intro a b
    have s := strcmp_spec a b
    unfold lex_lt
    refine ⟨?_, ?_, ?_, ?_, ?_, ?_⟩
    · exact decide_eq_decide.mpr s.2.1
    · exact decide_eq_decide.mpr (not_congr s.2.1)
    · exact decide_eq_decide.mpr s.1
    · rw [← decide_not]
      refine decide_eq_decide.mpr ?_
      rw [← s.2.2]; omega
    · exact decide_eq_decide.mpr s.2.2
    · rw [← decide_not]
      refine decide_eq_decide.mpr ?_
      rw [← s.1]; omega
  have hnum : ∀ x y : ℚ,
      (decide ((if x < y then (-1 : Int) else if x > y then 1 else 0) = 0) = decide (x = y)) ∧
      (decide ((if x < y then (-1 : Int) else if x > y then 1 else 0) ≠ 0) = decide (x ≠ y)) ∧
      (decide ((if x < y then (-1 : Int) else if x > y then 1 else 0) < 0) = decide (x < y)) ∧
      (decide ((if x < y then (-1 : Int) else if x > y then 1 else 0) ≤ 0) = decide (x ≤ y)) ∧
      (decide ((if x < y then (-1 : Int) else if x > y then 1 else 0) > 0) = decide (x > y)) ∧
      (decide ((if x < y then (-1 : Int) else if x > y then 1 else 0) ≥ 0) = decide (x ≥ y)) := by
    intro x y
    rcases lt_trichotomy x y with h | h | h
    · have h' : ¬ y < x := not_lt.mpr (le_of_lt h)
      have h2 : x ≠ y := ne_of_lt h
      have h3 : ¬ y ≤ x := not_le.mpr h
      simp [h, h', h2, h3, le_of_lt h]
    · subst h
      simp
    · have h' : ¬ x < y := not_lt.mpr (le_of_lt h)
      have h2 : x ≠ y := ne_of_gt h
      have h3 : ¬ x ≤ y := not_le.mpr h
      simp [h, h', h2, h3, le_of_lt h]
  simp only [is_relop, Bool.or_eq_true, decide_eq_true_eq] at hop
  cases v <;> cases v2 <;>
    first
    | (exfalso; exact hnull ⟨rfl, rfl⟩)
    | (simp [Value.isError] at hv; done)
    | (simp [Value.isError] at hv2; done)
    | skip
  all_goals
    rcases hop with ((((h | h) | h) | h) | h) | h <;> subst h <;>
    simp only [rel_apply, rel_holds, Value.isNull, is_str_value, text_of, to_num, bool_num,
      make_num, Bool.and_false, Bool.false_and, Bool.and_true, Bool.true_and, Bool.false_eq_true,
      if_false, if_true, hcmp, hnum, Bool.and_self]

/-- C17. For operands (sums) `a` and `b` that are not errors and not both Null,
whose coercion is a number and none of which shares its text with a cell, the
formula `a op b` with a relational operator `op` evaluates to the Number 1
when the relation holds and to the Number 0 when it does not, where two
string-like operands are compared as texts in lexicographic order of the
character codes and any other pair as numbers after coercion. `"abc"<"abd"`
is 1, `"2"<"10"` is 0 (texts), `2<10` is 1 (numbers), `"3x"=3` is 1 (a text
and a number: numbers). When A1 holds the String `ab` of the formula `="ab"`,
the formulas `A1=A1` and `A1=1` free the text of A1, which the cell still
holds: their evaluation is undefined. -/
theorem C17_relational_operators :
    (∀ (L : Libc) (cells : List Cell) (f1 f2 n : Nat) (lx lx1 lx2 : Lexer) (v v2 : Value),
      f1 ≤ n → f2 ≤ n →
      eval_expr1 L cells f1 lx = .ok (v, lx1) → v.isError = false →
      is_relop lx1.tok_type = true →
      eval_expr1 L cells f2 (get_token lx1) = .ok (v2, lx2) → v2.isError = false →
      ¬ (v = .null ∧ v2 = .null) → is_relop lx2.tok_type = false →
      frees_cached v v2 = false → v.finite = true → v2.finite = true →
      eval_expr L cells (n + 2) lx
        = .ok (.num (if rel_holds lx1.tok_type v v2 then 1 else 0), lx2)) ∧
    value_of Libc.sample [] 8 "\"abc\"<\"abd\"".toList = .ok (.num 1) ∧
    value_of Libc.sample [] 8 "\"2\"<\"10\"".toList = .ok (.num 0) ∧
    value_of Libc.sample [] 8 "2<10".toList = .ok (.num 1) ∧
    value_of Libc.sample [] 8 "\"3x\"=3".toList = .ok (.num 1) ∧
    formula_after Libc.sample 12
        (set_cells Libc.sample 12 Sheet.empty [(0, 0, "=\"ab\"".toList)]) "A1=A1".toList
      = .undefined ∧
    formula_after Libc.sample 12
        (set_cells Libc.sample 12 Sheet.empty [(0, 0, "=\"ab\"".toList)]) "A1=1".toList
      = .undefined := by
  refine ⟨?_, by decide!, by decide!, by decide!, by decide!, by decide!, by decide!⟩
  intro L cells f1 f2 n lx lx1 lx2 v v2 hf1 hf2 h1 hv hop h2 hv2 hnull hend hfree _ _
  rw [eval_expr_binary L cells f1 f2 n lx lx1 lx2 v v2 hf1 hf2 h1 hv hop h2 hv2 hend hfree,
    rel_apply_spec lx1.tok_type v v2 hop hv hv2 hnull]

/-- The formula `2<10`: the numbers are compared, the result is 1. -/
theorem C17_relational_operators_witness :
    eval_expr Libc.sample [] 6 (lexer_at "2<10".toList)
      = .ok (.num (if rel_holds tokLt (.num 2) (.num 10) then 1 else 0),
          ⟨tokEnd, ['1', '0'], [], NUL, none⟩) :=
  C17_relational_operators.1 Libc.sample [] 4 4 4 (lexer_at "2<10".toList)
    ⟨tokLt, ['2'], ['0'], '1', none⟩ ⟨tokEnd, ['1', '0'], [], NUL, none⟩ (.num 2) (.num 10)
    (by decide) (by decide) (by decide!) (by decide) (by decide) (by decide!) (by decide)
    (by decide) (by decide) rfl rfl rfl

/-- Comparisons of texts and of numbers: `"b">="a"`, `1<>1`, `A1<=0` with A1
empty. -/
theorem relational_examples :
    value_of Libc.sample [] 8 "\"b\">=\"a\"".toList = .ok (.num 1) ∧
    value_of Libc.sample [] 8 "1<>1".toList = .ok (.num 0) ∧
    value_of Libc.sample [] 8 "A1<=0".toList = .ok (.num 1) ∧
    rel_holds tokLt (.str "abc".toList) (.text "abd".toList) = true ∧
    rel_holds tokLt (.str "2".toList) (.str "10".toList) = false ∧
    rel_holds tokLt (.num 2) (.num 10) = true := by
  decide!

/-! ## Two Null operands -/

/-- C18. Two Null operands give the Number 1 under every relational operator,
also under `<>`, `<` and `>`: so do the formulas `A1<>B1`, `A1<B1` and `A1>B1`
on the empty sheet. -/
theorem C18_null_operands_give_one :
    rel_apply tokEq .null .null = .num 1 ∧ rel_apply tokLe .null .null = .num 1 ∧
    rel_apply tokGe .null .null = .num 1 ∧ rel_apply tokNe .null .null = .num 1 ∧
    rel_apply tokLt .null .null = .num 1 ∧ rel_apply tokGt .null .null = .num 1 ∧
    value_of Libc.sample [] 8 "A1<>B1".toList = .ok (.num 1) ∧
    value_of Libc.sample [] 8 "A1<B1".toList = .ok (.num 1) ∧
    value_of Libc.sample [] 8 "A1>B1".toList = .ok (.num 1) ∧
    value_of Libc.sample [] 8 "A1=B1".toList = .ok (.num 1) := by
  decide!

/-! ## Numeric coercion in `-`, `*`, `/`, `%` -/

/-- C19. For operands that are not errors, whose coercion is a number and none
of which shares its text with a cell, `a - b` (terms) evaluates to the Number
`a - b` of the coerced operands, and `a * b`, `a / b`, `a % b` (factors, the
divisor not coercing to 0) to the Number product, quotient and `fmodf`
remainder of the coerced operands; the coercion takes a Number as itself, a
Null as 0 and a string-like value as what `strtof` reads at its start.
`"3abc"*2` is 6, `"abc"*2` is 0, `A1-1` with A1 empty is -1, `"0x10"*2` is 32
(`strtof` reads hexadecimal constants), `"7"%"4"` is 3, `-7%3` is -1 and
`"1"-"2"` is -1: there is no concatenation. When A1 holds the String `ab` of
the formula `="ab"`, the formulas `A1*A1` and `A1-1` free the text of A1,
which the cell still holds: their evaluation is undefined. -/
theorem C19_numeric_coercion :
    (∀ (L : Libc) (cells : List Cell) (f1 f2 n : Nat) (lx lx1 lx2 : Lexer) (v v2 : Value),
      f1 ≤ n → f2 ≤ n → v.isError = false → v2.isError = false →
      frees_cached v v2 = false → v.finite = true → v2.finite = true →
      (eval_term L cells f1 lx = .ok (v, lx1) → lx1.tok_type = tokMinus →
        eval_term L cells f2 (get_token lx1) = .ok (v2, lx2) →
        ¬ (lx2.tok_type = tokPlus ∨ lx2.tok_type = tokMinus) →
        eval_expr1 L cells (n + 2) lx = .ok (.num (to_num v - to_num v2), lx2)) ∧
      (eval_factor L cells f1 lx = .ok (v, lx1) →
        eval_factor L cells f2 (get_token lx1) = .ok (v2, lx2) →
        ¬ (lx2.tok_type = tokMul ∨ lx2.tok_type = tokDiv ∨ lx2.tok_type = tokMod) →
        (lx1.tok_type = tokMul →
          eval_term L cells (n + 2) lx = .ok (.num (to_num v * to_num v2), lx2)) ∧
        (lx1.tok_type = tokDiv → to_num v2 ≠ 0 →
          eval_term L cells (n + 2) lx = .ok (.num (to_num v / to_num v2), lx2)) ∧
        (lx1.tok_type = tokMod → to_num v2 ≠ 0 →
          eval_term L cells (n + 2) lx
            = .ok (.num (fmodf (to_num v) (to_num v2)), lx2)))) ∧
    (∀ x : ℚ, to_num (.num x) = x) ∧ to_num .null = 0 ∧
    (∀ s : List Char, to_num (.str s) = (strtof s).1 ∧ to_num (.text s) = (strtof s).1) ∧
    (∀ x y : ℚ, fmodf x y = x - (trunc_int (x / y) : ℚ) * y) ∧
    value_of Libc.sample [] 8 "\"3abc\"*2".toList = .ok (.num 6) ∧
    value_of Libc.sample [] 8 "\"abc\"*2".toList = .ok (.num 0) ∧
    value_of Libc.sample [] 8 "A1-1".toList = .ok (.num (-1)) ∧
    value_of Libc.sample [] 8 "\"0x10\"*2".toList = .ok (.num 32) ∧
    value_of Libc.sample [] 8 "\"7\"%\"4\"".toList = .ok (.num 3) ∧
    value_of Libc.sample [] 8 "-7%3".toList = .ok (.num (-1)) ∧
    value_of Libc.sample [] 8 "7.5%2".toList = .ok (.num (3 / 2)) ∧
    value_of Libc.sample [] 8 "\"1\"-\"2\"".toList = .ok (.num (-1)) ∧
    value_of Libc.sample [] 8 "\"1\"*\"2\"".toList = .ok (.num 2) ∧
    value_of Libc.sample [] 8 "\"4\"/\"2\"".toList = .ok (.num 2) ∧
    formula_after Libc.sample 12
        (set_cells Libc.sample 12 Sheet.empty [(0, 0, "=\"ab\"".toList)]) "A1*A1".toList
      = .undefined ∧
    formula_after Libc.sample 12
        (set_cells Libc.sample 12 Sheet.empty [(0, 0, "=\"ab\"".toList)]) "A1-1".toList
      = .undefined := by
  refine ⟨?_, fun _ => rfl, rfl, fun _ => ⟨rfl, rfl⟩, fun _ _ => rfl, by decide!, by decide!,
    by decide!, by decide!, by decide!, by decide!, by decide!, by decide!, by decide!,
    by decide!, by decide!, by decide!⟩
  intro L cells f1 f2 n lx lx1 lx2 v v2 hf1 hf2 hv hv2 hfree _ _
  refine ⟨?_, ?_⟩
  · intro h1 hop h2 hend
    exact eval_expr1_binary L cells f1 f2 n lx lx1 lx2 v v2 _ hf1 hf2 h1 hv (Or.inr hop) h2 hv2
      (by simp [add_apply, hop, make_num]) hend hfree
  · intro h1 h2 hend
    refine ⟨?_, ?_, ?_⟩
    · intro hop
      rw [eval_term_binary L cells f1 f2 n lx lx1 lx2 v v2 hf1 hf2 h1 hv (Or.inl hop) h2 hv2 hend
        hfree]
      simp [mul_apply, hop, make_num]
    · intro hop hz
      rw [eval_term_binary L cells f1 f2 n lx lx1 lx2 v v2 hf1 hf2 h1 hv (Or.inr (Or.inl hop)) h2
        hv2 hend hfree]
      simp [mul_apply, hop, hz, make_num]
    · intro hop hz
      rw [eval_term_binary L cells f1 f2 n lx lx1 lx2 v v2 hf1 hf2 h1 hv (Or.inr (Or.inr hop)) h2
        hv2 hend hfree]
      simp [mul_apply, hop, hz, make_num]

/-- The formula `"3abc"*2`. -/
theorem C19_numeric_coercion_witness :
    eval_term Libc.sample [] 4 (lexer_at "\"3abc\"*2".toList)
      = .ok (.num (to_num (.str "3abc".toList) * to_num (.num 2)),
          ⟨tokEnd, ['2'], [], NUL, none⟩) :=
  ((C19_numeric_coercion.1 Libc.sample [] 2 2 2 (lexer_at "\"3abc\"*2".toList)
    ⟨tokMul, "3abc".toList, [], '2', none⟩ ⟨tokEnd, ['2'], [], NUL, none⟩
    (.str "3abc".toList) (.num 2) (by decide) (by decide) (by decide) (by decide) rfl
    (by decide) rfl).2
      (by decide!) (by decide!) (by decide)).1 (by decide)

/-! ## Unary signs -/

theorem eval_signs_run : ∀ (signs : List Bool) (neg : Bool) (lx lx0 : Lexer) (k : Nat),
    after_signs signs lx = some lx0 →
    eval_signs (signs.length + k + 1) neg lx
      = .ok (xor neg (decide (signs.count true % 2 = 1)), lx0) := by
  intro signs
  induction signs with
  | nil =>
    intro neg lx lx0 k h
    simp only [after_signs] at h
    split at h
    · simp at h
    · rename_i hns
      simp only [Option.some.injEq] at h
      subst h
      have h1 : ¬ lx.tok_type = tokMinus := fun e => hns (Or.inl e)
      have h2 : ¬ lx.tok_type = tokPlus := fun e => hns (Or.inr e)
      simp [eval_signs, h1, h2]
  | cons b bs ih =>
    intro neg lx lx0 k h
    have e : (b :: bs).length + k + 1 = (bs.length + k + 1) + 1 := by
      simp only [List.length_cons]; omega
    rw [e, eval_signs]
    rw [after_signs] at h
    cases b with
    | true =>
      by_cases htok : lx.tok_type = tokMinus
      · rw [if_pos (by simpa using htok)] at h
        rw [if_pos htok, ih (!neg) (get_token lx) lx0 k h]
        simp only [List.count_cons_self]
        have := Nat.mod_two_eq_zero_or_one (List.count true bs)
        rcases this with h0 | h0 <;> cases neg <;> simp [h0, Nat.succ_mod_two_eq_zero_iff,
          Nat.succ_mod_two_eq_one_iff]
      · rw [if_neg (by simpa using htok)] at h
        simp at h
    | false =>
      by_cases htok : lx.tok_type = tokPlus
      · rw [if_pos (by simpa using htok)] at h
        have hnm : ¬ lx.tok_type = tokMinus := by rw [htok]; decide
        rw [if_neg hnm, if_pos htok, ih neg (get_token lx) lx0 k h]
        simp
      · rw [if_neg (by simpa using htok)] at h
        simp at h

theorem apply_sign_signed (signs : List Bool) (v : Value) :
    apply_sign (decide (signs.count true % 2 = 1)) v = signed (signs.count true) v := by
  have := Nat.mod_two_eq_zero_or_one (List.count true signs)
  cases v <;> simp only [apply_sign, signed]
  rcases this with h0 | h0 <;> simp [h0]

/-- The sign loop has nothing to do at a token that is no sign. -/
theorem eval_signs_none_here (k : Nat) (neg : Bool) (lx : Lexer)
    (h : ¬ (lx.tok_type = tokMinus ∨ lx.tok_type = tokPlus)) :
    eval_signs (k + 1) neg lx = .ok (neg, lx) := by
  have h1 : ¬ lx.tok_type = tokMinus := fun e => h (Or.inl e)
  have h2 : ¬ lx.tok_type = tokPlus := fun e => h (Or.inr e)
  simp [eval_signs, h1, h2]

/-- A factor behind sign tokens: the value of the factor without the signs,
with the sign applied to it at the end. -/
theorem eval_factor_signed (L : Libc) (cells : List Cell) (n : Nat) (neg : Bool)
    (lx lx0 lx1 : Lexer) (v : Value)
    (hns : ¬ (lx0.tok_type = tokMinus ∨ lx0.tok_type = tokPlus))
    (hs : eval_signs (n + 1) false lx = .ok (neg, lx0))
    (h : eval_factor L cells (n + 1) lx0 = .ok (v, lx1)) :
    eval_factor L cells (n + 1) lx = .ok (apply_sign neg v, lx1) := by
  rw [eval_factor] at h ⊢
  rw [eval_signs_none_here n false lx0 hns] at h
  rw [hs]
  dsimp only at h ⊢
  have hfalse : ∀ w : Value, apply_sign false w = w := apply_sign_false
  split at h
  all_goals try split at h
  all_goals try split at h
  all_goals try split at h
  all_goals try split at h
  all_goals try split at h
  all_goals try split at h
  all_goals try split at h
  all_goals
    first
    | (simp at h; done)
    | (simp only [hfalse, Outcome.ok.injEq, Prod.mk.injEq] at h
       obtain ⟨h1, h2⟩ := h
       subst h1
       subst h2
       simp [*])

theorem after_signs_not_sign : ∀ (signs : List Bool) (lx lx0 : Lexer),
    after_signs signs lx = some lx0 → ¬ (lx0.tok_type = tokMinus ∨ lx0.tok_type = tokPlus) := by
  intro signs
  induction signs with
  | nil =>
    intro lx lx0 h
    rw [after_signs] at h
    split at h
    · simp at h
    · rename_i hns
      simp only [Option.some.injEq] at h
      rw [← h]; exact hns
  | cons b bs ih =>
    intro lx lx0 h
    rw [after_signs] at h
    by_cases htok : lx.tok_type = (if b = true then tokMinus else tokPlus)
    · rw [if_pos htok] at h
      exact ih _ _ h
    · rw [if_neg htok] at h
      simp at h

/-- C20. A factor that evaluates to `v`, behind sign tokens of which `m` are
`-`, evaluates to `-n` when `v` is a Number `n` and `m` is odd, and to `v`
itself otherwise: a Number with `m` even, or a value that is no Number;
`--5` and `-+-5` are 5. -/
theorem C20_unary_signs (L : Libc) (cells : List Cell) (f n : Nat) (signs : List Bool)
    (lx lx0 lx1 : Lexer) (v : Value) (hf : f ≤ n)
    (hs : after_signs signs lx = some lx0)
    (h : eval_factor L cells f lx0 = .ok (v, lx1)) :
    eval_factor L cells (n + signs.length) lx = .ok (signed (signs.count true) v, lx1) ∧
    (∀ x : ℚ, v = .num x → signs.count true % 2 = 0 →
      eval_factor L cells (n + signs.length) lx = .ok (.num x, lx1)) ∧
    (∀ x : ℚ, v = .num x → signs.count true % 2 = 1 →
      eval_factor L cells (n + signs.length) lx = .ok (.num (-x), lx1)) ∧
    (v.isNum = false → eval_factor L cells (n + signs.length) lx = .ok (v, lx1)) ∧
    value_of Libc.sample [] 8 "--5".toList = .ok (.num 5) ∧
    value_of Libc.sample [] 8 "-+-5".toList = .ok (.num 5) := by
  obtain ⟨k, hk⟩ := eval_factor_fuel_pos L cells f _ _ h
  have hN : ∃ N, n + signs.length = N + 1 ∧ f ≤ N + 1 ∧ N + 1 = signs.length + (n - 1) + 1 :=
    ⟨n + signs.length - 1, by omega, by omega, by omega⟩
  obtain ⟨N, hN1, hN2, hN3⟩ := hN
  have hrun := eval_signs_run signs false lx lx0 (n - 1) hs
  rw [← hN3] at hrun
  simp only [Bool.false_xor] at hrun
  have h0 := eval_factor_mono L cells f (N + 1) hN2 _ _ h
  have hmain := eval_factor_signed L cells N _ lx lx0 lx1 v (after_signs_not_sign signs lx lx0 hs)
    hrun h0
  rw [apply_sign_signed] at hmain
  rw [hN1]
  refine ⟨hmain, ?_, ?_, ?_, by decide!, by decide!⟩
  · intro x hx hm
    rw [hmain, hx]; simp [signed, hm]
  · intro x hx hm
    rw [hmain, hx]; simp [signed, hm]
  · intro hv
    rw [hmain]
    cases v <;> simp [signed, Value.isNum] at hv ⊢

/-- The formula `-+-5`: three signs, two of them `-`. -/
theorem C20_unary_signs_witness :
    eval_factor Libc.sample [] (2 + [true, false, true].length) (lexer_at "-+-5".toList)
      = .ok (signed ([true, false, true].count true) (.num 5),
          ⟨tokEnd, ['5'], [], NUL, none⟩) :=
  (C20_unary_signs Libc.sample [] 2 2 [true, false, true] (lexer_at "-+-5".toList)
    ⟨tokNumber, ['5'], [], NUL, none⟩ ⟨tokEnd, ['5'], [], NUL, none⟩ (.num 5) (by decide)
    (by decide!) (by decide!)).1

/-- More signs, and signs before values that are not numbers. -/
theorem sign_examples :
    value_of Libc.sample [] 8 "-5".toList = .ok (.num (-5)) ∧
    value_of Libc.sample [] 8 "+-+5".toList = .ok (.num (-5)) ∧
    value_of Libc.sample [] 8 "-\"abc\"".toList = .ok (.str "abc".toList) ∧
    value_of Libc.sample [] 8 "-A1".toList = .ok .null ∧
    value_of Libc.sample [] 12 "-(1/0)".toList = .ok errExprDivZero ∧
    value_of Libc.sample [] 8 "3--5".toList = .ok (.num 8) := by
  decide!

/-! ## The tokens of a range and of a call of a range function -/

theorem colon_facts : (isalpha ':' || isdigit ':') = false ∧ isdigit ':' = false := by decide

theorem rparen_facts : (isalpha ')' || isdigit ')') = false ∧ isspace ')' = false ∧
    isalpha ')' = false ∧ isdigit ')' = false ∧ (')' : Char) ≠ NUL ∧ (')' : Char) ≠ '=' ∧
    (')' : Char) ≠ '<' ∧ (')' : Char) ≠ '>' ∧ (')' : Char) ≠ '+' ∧ (')' : Char) ≠ '-' ∧
    (')' : Char) ≠ '*' ∧ (')' : Char) ≠ '/' ∧ (')' : Char) ≠ '%' ∧ (')' : Char) ≠ '(' := by decide

theorem lparen_facts : (isalpha '(' || isdigit '(') = false ∧ isspace '(' = false ∧
    isalpha '(' = false ∧ isdigit '(' = false ∧ ('(' : Char) ≠ NUL ∧ ('(' : Char) ≠ '=' ∧
    ('(' : Char) ≠ '<' ∧ ('(' : Char) ≠ '>' ∧ ('(' : Char) ≠ '+' ∧ ('(' : Char) ≠ '-' ∧
    ('(' : Char) ≠ '*' ∧ ('(' : Char) ≠ '/' ∧ ('(' : Char) ≠ '%' := by decide

/-- The token of a range `X:Y` that is followed by a character that is neither
a letter nor a digit. -/
theorem get_token_range (lx : Lexer) (c1 r1 c2 r2 : Nat) (rest : List Char)
    (hc1 : c1 < 26) (hr1 : r1 < 256) (hc2 : c2 < 26) (hr2 : r2 < 256)
    (hch : lx.ch = Char.ofNat (65 + c1))
    (hex : lx.expr = nat_text (r1 + 1) ++ (':' :: (cell_name c2 r2 ++ rest)))
    (hrest : (isalpha (feed rest).1 || isdigit (feed rest).1) = false) :
    get_token lx =
      ⟨tokRange, range_text c1 r1 c2 r2, (feed rest).2, (feed rest).1, lx.current_function⟩ := by
  have hL := letter_facts ⟨c1, hc1⟩
  have hL2 := letter_facts ⟨c2, hc2⟩
  have hN2 := nat_text_facts ⟨r2, hr2⟩
  have hN1 := nat_text_facts ⟨r1, hr1⟩
  simp only at hL hL2 hN2 hN1
  have hcr := is_cellref_cell_name_fin ⟨c1, hc1⟩ ⟨r1, hr1⟩
  have hcr2 := is_cellref_cell_name_fin ⟨c2, hc2⟩ ⟨r2, hr2⟩
  simp only at hcr hcr2
  have hscan1 := cell_name_scan c1 r1 hc1 hr1 (':' :: (cell_name c2 r2 ++ rest))
    (by simp [feed_cons, colon_facts.1])
  have hscan2 := scan_alnum_append (cell_name c2 r2) rest (cell_name c1 r1 ++ [':']) (by
    intro c hcm
    simp only [cell_name, List.mem_cons] at hcm
    rcases hcm with rfl | hcm
    · simp [hL2.1, hL2.2.2.2.1]
    · have := List.all_eq_true.mp hN2.1 c hcm
      simp only [Bool.and_eq_true, beq_iff_eq] at this
      simp [this.1, this.2]) hrest (by
    simp only [cell_name, List.length_cons, List.length_append, List.length_nil, TOKEN_MAX]
    have := hN1.2
    have := hN2.2
    omega)
  have hdrop : ((cell_name c1 r1 ++ [':']) ++ cell_name c2 r2).drop ((cell_name c1 r1).length + 1)
      = cell_name c2 r2 := by
    have : (cell_name c1 r1).length + 1 = (cell_name c1 r1 ++ [':']).length := by simp
    rw [this, List.drop_left]
  have htok : (cell_name c1 r1 ++ [':']) ++ cell_name c2 r2 = range_text c1 r1 c2 r2 := by
    simp [range_text]
  simp only [get_token, hch, hex, skip_space_not_space _ _ hL.2.2.1, hL.1, hL.2.2.2.2.1,
    if_false, if_true, get_token_ident, hscan1, hcr, feed_cons, next_char]
  have hfeed : feed (cell_name c2 r2 ++ rest)
      = (Char.ofNat (65 + c2), nat_text (r2 + 1) ++ rest) := by
    simp [cell_name, feed_cons]
  rw [hfeed] at hscan2
  simp only [cell_name, List.cons_append] at hscan2 hdrop htok hcr2 ⊢
  rw [htok] at hdrop hscan2
  simp only [hscan2, hdrop, hcr2, Bool.not_true, Bool.false_eq_true, if_false]

theorem takeWhile_digits_append (ds rest : List Char) (hds : ∀ c ∈ ds, isdigit c = true)
    (hrest : ∀ d, rest.head? = some d → isdigit d = false) :
    (ds ++ rest).takeWhile isdigit = ds := by
  induction ds with
  | nil =>
    cases rest with
    | nil => rfl
    | cons d t => simp [List.takeWhile, hrest d rfl]
  | cons c t ih =>
    have hc := hds c (List.mem_cons_self _ _)
    have ih2 := ih (fun d hd => hds d (List.mem_cons_of_mem _ hd))
    simp only [List.cons_append, List.takeWhile_cons, hc, if_true, ih2]

/-- `parse_cellref` on the name of a cell followed by a text that does not
start with a digit. -/
theorem parse_cellref_prefix (c r : Nat) (hc : c < 26) (hr : r < 256) (rest : List Char)
    (hrest : ∀ d, rest.head? = some d → isdigit d = false) :
    parse_cellref (cell_name c r ++ rest) = (((c : Int), (r : Int)), rest) := by
  have hL := letter_facts ⟨c, hc⟩
  have hN := nat_text_facts ⟨r, hr⟩
  simp only at hL hN
  have hdig : ∀ x ∈ nat_text (r + 1), isdigit x = true := by
    intro x hx
    have := List.all_eq_true.mp hN.1 x hx
    simp only [Bool.and_eq_true, beq_iff_eq] at this
    exact this.1
  have h0 := parse_cellref_cell_name c r hc hr
  have ht1 := takeWhile_digits_append (nat_text (r + 1)) rest hdig hrest
  have ht0 := takeWhile_digits_append (nat_text (r + 1)) [] hdig (by simp)
  simp only [List.append_nil] at ht0
  have htake : (nat_text (r + 1)).take 6 = nat_text (r + 1) :=
    List.take_of_length_le (by have := hN.2; omega)
  simp only [cell_name, parse_cellref, hL.1, if_true, ht0, htake, Prod.mk.injEq] at h0
  simp only [cell_name, List.cons_append, parse_cellref, hL.1, if_true, ht1, htake, h0.1.1,
    h0.1.2, List.drop_left]

theorem if_lt_cast_min (a b : Nat) :
    (if (b : Int) < (a : Int) then (b : Int) else (a : Int)) = ((min a b : Nat) : Int) := by
  by_cases h : b < a
  · have : (b : Int) < (a : Int) := by exact_mod_cast h
    rw [if_pos this, Nat.min_eq_right (le_of_lt h)]
  · have : ¬ (b : Int) < (a : Int) := by exact_mod_cast h
    rw [if_neg this, Nat.min_eq_left (by omega)]

theorem if_lt_cast_max (a b : Nat) :
    (if (b : Int) < (a : Int) then (a : Int) else (b : Int)) = ((max a b : Nat) : Int) := by
  by_cases h : b < a
  · have : (b : Int) < (a : Int) := by exact_mod_cast h
    rw [if_pos this, Nat.max_eq_left (le_of_lt h)]
  · have : ¬ (b : Int) < (a : Int) := by exact_mod_cast h
    rw [if_neg this, Nat.max_eq_right (by omega)]

/-- `parse_range` on the text of a range: the corners in order. -/
theorem parse_range_text (c1 r1 c2 r2 : Nat) (hc1 : c1 < 26) (hr1 : r1 < 256) (hc2 : c2 < 26)
    (hr2 : r2 < 256) :
    parse_range (range_text c1 r1 c2 r2)
      = (((min c1 c2 : Nat) : Int), ((min r1 r2 : Nat) : Int), ((max c1 c2 : Nat) : Int),
          ((max r1 r2 : Nat) : Int)) := by
  have h1 := parse_cellref_prefix c1 r1 hc1 hr1 (':' :: cell_name c2 r2) (by
    intro d hd
    simp only [List.head?_cons, Option.some.injEq] at hd
    rw [← hd]; exact colon_facts.2)
  have h2 := parse_cellref_cell_name c2 r2 hc2 hr2
  simp only [parse_range, range_text, h1, List.head?_cons, if_true, List.tail_cons, h2,
    if_lt_cast_min, if_lt_cast_max]

/-- The token of a function name that is followed by `(`. -/
theorem get_token_function (lx : Lexer) (c0 : Char) (nm rest : List Char) (f : Function)
    (hch : lx.ch = c0) (hex : lx.expr = nm ++ ('(' :: rest))
    (hl : ∀ c ∈ c0 :: nm, (isalpha c || isdigit c) = true ∧ toupper c = c)
    (h0 : isalpha c0 = true ∧ isspace c0 = false ∧ c0 ≠ NUL)
    (hlen : (c0 :: nm).length ≤ TOKEN_MAX) (hcr : is_cellref (c0 :: nm) = false)
    (hf : find_function (c0 :: nm) = some f) :
    get_token lx = ⟨f.tok_type, c0 :: nm, rest, '(', some f⟩ := by
  have hscan := scan_alnum_append (c0 :: nm) ('(' :: rest) [] hl
    (by simp [feed_cons, lparen_facts.1]) (by simpa using hlen)
  simp only [List.cons_append, feed_cons, List.nil_append] at hscan
  simp only [get_token, hch, hex, skip_space_not_space _ _ h0.2.1, h0.1, h0.2.2, if_false,
    if_true, get_token_ident, hscan, hcr, hf, Bool.false_eq_true]

/-- The token `(`. -/
theorem get_token_lparen (lx : Lexer) (hch : lx.ch = '(') :
    get_token lx = { next_char lx with tok_type := tokLParen } := by
  have h := lparen_facts
  cases hx : lx.expr <;>
    simp [get_token, hch, skip_space_not_space _ _ h.2.1, h.2.2.1, h.2.2.2.1, h.2.2.2.2.1,
      h.2.2.2.2.2.1, h.2.2.2.2.2.2.1, h.2.2.2.2.2.2.2.1, h.2.2.2.2.2.2.2.2.1,
      h.2.2.2.2.2.2.2.2.2.1, h.2.2.2.2.2.2.2.2.2.2.1, h.2.2.2.2.2.2.2.2.2.2.2.1,
      h.2.2.2.2.2.2.2.2.2.2.2.2, next_char, hx]

/-- The token `)`. -/
theorem get_token_rparen (lx : Lexer) (hch : lx.ch = ')') :
    get_token lx = { next_char lx with tok_type := tokRParen } := by
  have h := rparen_facts
  cases hx : lx.expr <;>
    simp [get_token, hch, skip_space_not_space _ _ h.2.1, h.2.2.1, h.2.2.2.1, h.2.2.2.2.1,
      h.2.2.2.2.2.1, h.2.2.2.2.2.2.1, h.2.2.2.2.2.2.2.1, h.2.2.2.2.2.2.2.2.1,
      h.2.2.2.2.2.2.2.2.2.1, h.2.2.2.2.2.2.2.2.2.2.1, h.2.2.2.2.2.2.2.2.2.2.2.1,
      h.2.2.2.2.2.2.2.2.2.2.2.2.1, h.2.2.2.2.2.2.2.2.2.2.2.2.2, next_char, hx]

/-! ## Range functions on a block -/

theorem int_range_eq (lo hi : Int) :
    int_range lo hi = (List.range (hi + 1 - lo).toNat).map (fun i : Nat => lo + (i : Int)) := by
  have h : ∀ l : List Nat,
      (bind l fun a => (pure (a : Int) : List Int)) = List.map (Nat.cast : Nat → Int) l := by
    intro l
    induction l with
    | nil => rfl
    | cons a t ih =>
      show [(a : Int)] ++ (bind t fun a => (pure (a : Int) : List Int)) = _
      rw [ih]
      rfl
  unfold int_range
  rw [h, List.map_map]
  rfl

theorem mem_int_range (lo hi x : Int) : x ∈ int_range lo hi ↔ lo ≤ x ∧ x ≤ hi := by
  simp only [int_range_eq, List.mem_map, List.mem_range]
  constructor
  · rintro ⟨i, hi1, rfl⟩
    omega
  · intro h
    refine ⟨(x - lo).toNat, ?_, ?_⟩ <;> omega

theorem nodup_int_range (lo hi : Int) : (int_range lo hi).Nodup := by
  rw [int_range_eq]
  exact List.Nodup.map (f := fun i : Nat => lo + (i : Int))
    (by intro a b h; simpa using h) (List.nodup_range _)

/-- The block is the rectangle between its corners, each address once. -/
theorem mem_block (c1 r1 c2 r2 : Nat) (a : Addr) :
    a ∈ block c1 r1 c2 r2 ↔
      ((min c1 c2 : Nat) : Int) ≤ a.1 ∧ a.1 ≤ ((max c1 c2 : Nat) : Int) ∧
      ((min r1 r2 : Nat) : Int) ≤ a.2 ∧ a.2 ≤ ((max r1 r2 : Nat) : Int) := by
  obtain ⟨x, y⟩ := a
  simp only [block, List.mem_flatMap, List.mem_map, mem_int_range, Prod.mk.injEq]
  constructor
  · rintro ⟨cc, hcc, rr, hrr, rfl, rfl⟩
    exact ⟨hcc.1, hcc.2, hrr.1, hrr.2⟩
  · rintro ⟨h1, h2, h3, h4⟩
    exact ⟨x, ⟨h1, h2⟩, y, ⟨h3, h4⟩, rfl, rfl⟩

theorem nodup_block (c1 r1 c2 r2 : Nat) : (block c1 r1 c2 r2).Nodup := by
  unfold block
  rw [List.nodup_flatMap]
  refine ⟨?_, ?_⟩
  · intro cc _
    refine List.Nodup.map ?_ (nodup_int_range _ _)
    intro a b h
    simpa using h
  · refine List.Pairwise.imp_of_mem ?_ (nodup_int_range _ _)
    intro x y _ _ hxy
    simp only [Function.onFun, List.disjoint_left, List.mem_map]
    rintro a ⟨r, _, rfl⟩ ⟨r2, _, h⟩
    simp only [Prod.mk.injEq] at h
    exact hxy h.1.symm

theorem block_nonneg (c1 r1 c2 r2 : Nat) (a : Addr) (h : a ∈ block c1 r1 c2 r2) :
    0 ≤ a.1 ∧ 0 ≤ a.2 := by
  have := (mem_block c1 r1 c2 r2 a).mp h
  omega

theorem block_in_grid (c1 r1 c2 r2 : Nat) (hc1 : c1 < 26) (hr1 : r1 < 128) (hc2 : c2 < 26)
    (hr2 : r2 < 128) (a : Addr) (h : a ∈ block c1 r1 c2 r2) :
    (0 ≤ a.1 ∧ a.1 < 26) ∧ 0 ≤ a.2 ∧ a.2 < 128 := by
  have := (mem_block c1 r1 c2 r2 a).mp h
  omega

theorem find_cell_nonneg (cells : List Cell) (c r : Int) (hc : 0 ≤ c ∧ c < 26)
    (hr : 0 ≤ r ∧ r < 128) : find_cell cells c r = .ok (lookup cells (c, r)) := by
  obtain ⟨n, rfl⟩ := Int.eq_ofNat_of_zero_le hc.1
  obtain ⟨m, rfl⟩ := Int.eq_ofNat_of_zero_le hr.1
  exact find_cell_grid cells n m (by omega) (by omega)

/-- A loop whose steps all return is a fold. -/
theorem foldl_ok {σ α : Type} (f : σ → α → Outcome σ) (g : σ → α → σ) (l : List α)
    (h : ∀ s, ∀ a ∈ l, f s a = .ok (g s a)) (s : σ) :
    Outcome.foldl f s l = .ok (l.foldl g s) := by
  induction l generalizing s with
  | nil => rfl
  | cons a t ih =>
    simp only [Outcome.foldl, h s a (List.mem_cons_self _ _), List.foldl_cons]
    exact ih (fun s b hb => h s b (List.mem_cons_of_mem _ hb)) _

theorem range_cell_cached (cells : List Cell) (a : Addr) :
    (range_cell (lookup cells a) a).cached = cached_at cells a := by
  cases h : lookup cells a <;> simp [range_cell, cached_at, h, Cell.blank]

/-- `process_range` over a block with an accumulator of a range function:
the store is not changed and the state is the fold of the accumulator over
the block. -/
theorem process_range_block (cells : List Cell) (c1 r1 c2 r2 : Nat) (hc1 : c1 < 26)
    (hr1 : r1 < 128) (hc2 : c2 < 26) (hr2 : r2 < 128) (g : Accum)
    (ev : AccumState → Outcome Value) (acc0 : AccumState) (step : AccumState → Cell → AccumState)
    (hstep : ∀ cs acc x, call_accum g cs acc x = .ok (cs, step acc x)) :
    process_range cells ((min c1 c2 : Nat) : Int) ((min r1 r2 : Nat) : Int)
        ((max c1 c2 : Nat) : Int) ((max r1 r2 : Nat) : Int) acc0 (some (call_accum g)) (some ev)
      = match ev ((block c1 r1 c2 r2).foldl
            (fun acc a => step acc (range_cell (lookup cells a) a)) acc0) with
        | .ok x => .ok (cells, (block c1 r1 c2 r2).foldl
            (fun acc a => step acc (range_cell (lookup cells a) a)) acc0, x)
        | .outOfFuel => .outOfFuel
        | .undefined => .undefined := by
  have hpair : ∀ (l : List Addr) (acc : AccumState),
      l.foldl (fun (st : List Cell × AccumState) a =>
          (st.1, step st.2 (range_cell (lookup st.1 a) a))) (cells, acc)
        = (cells, l.foldl (fun acc a => step acc (range_cell (lookup cells a) a)) acc) := by
    intro l
    induction l with
    | nil => intro acc; rfl
    | cons a t ih => intro acc; simp only [List.foldl_cons, ih]
  unfold process_range
  rw [foldl_ok _ (fun st a => (st.1, step st.2 (range_cell (lookup st.1 a) a))) _ ?h]
  case h =>
    intro s a ha
    have hn := block_in_grid c1 r1 c2 r2 hc1 hr1 hc2 hr2 a ha
    simp only [find_cell_nonneg s.1 a.1 a.2 hn.1 hn.2, hstep]
  rw [hpair]
  rfl

/-- The range-function case of `eval_factor` along the tokens `NAME ( X:Y ) next`. -/
theorem eval_range_call_tokens (cells : List Cell) (lx0 lx1 lx2 lx3 lx4 : Lexer) (f : Function)
    (h1 : get_token lx0 = lx1) (ht1 : lx1.tok_type = tokLParen) (h2 : get_token lx1 = lx2)
    (h3 : get_token lx2 = lx3) (ht3 : lx3.tok_type = tokRParen) (h4 : get_token lx3 = lx4)
    (hcf : lx4.current_function = some f) (r : List Cell × AccumState × Value)
    (hp : process_range cells (parse_range lx2.token).1 (parse_range lx2.token).2.1
        (parse_range lx2.token).2.2.1 (parse_range lx2.token).2.2.2 (AccumState.mk 0 0 0)
        (f.pfn_accum.map (fun g => call_accum g)) (some (call_range_eval f.pfn_eval)) = .ok r) :
    eval_range_call cells lx0 = .ok (r.2.2, lx4) := by
  have he1 : expect_token lx1 tokLParen = (true, lx2) := by
    rw [expect_token, if_neg (by simp [ht1]), h2]
  have he2 : expect_token lx3 tokRParen = (true, lx4) := by
    rw [expect_token, if_neg (by simp [ht3]), h4]
  unfold eval_range_call
  simp only [h1, he1, h3, he2, Bool.not_true, Bool.false_eq_true, if_false, hcf, hp]

/-- The formula `NAME(X:Y)` of a range function: the finaliser of the function
on the accumulator state after the block. -/
theorem parse_expr_range_call (L : Libc) (cells : List Cell) (k : Nat) (lx0 : Lexer) (c0 : Char)
    (nm : List Char) (f : Function) (g : Accum) (step : AccumState → Cell → AccumState)
    (c1 r1 c2 r2 : Nat) (hc1 : c1 < 26) (hr1 : r1 < 128) (hc2 : c2 < 26) (hr2 : r2 < 128)
    (hl : ∀ c ∈ c0 :: nm, (isalpha c || isdigit c) = true ∧ toupper c = c)
    (h0 : isalpha c0 = true ∧ isspace c0 = false ∧ c0 ≠ NUL)
    (hlen : (c0 :: nm).length ≤ TOKEN_MAX) (hcr : is_cellref (c0 :: nm) = false)
    (hf : find_function (c0 :: nm) = some f) (hty : f.tok_type = tokRangeFunc)
    (hg : f.pfn_accum = some g)
    (hstep : ∀ cs acc x, call_accum g cs acc x = .ok (cs, step acc x))
    (x : Value)
    (hx : call_range_eval f.pfn_eval (accumulated step cells (block c1 r1 c2 r2)) = .ok x) :
    parse_expr L cells (k + 4) lx0 (call_text (c0 :: nm) c1 r1 c2 r2)
      = .ok (x, ⟨tokEnd, range_text c1 r1 c2 r2, [], NUL, some f⟩) := by
  have hL1 := letter_facts ⟨c1, hc1⟩
  simp only at hL1
  have t0 : get_token (next_char { lx0 with expr := call_text (c0 :: nm) c1 r1 c2 r2 })
      = ⟨tokRangeFunc, c0 :: nm, range_text c1 r1 c2 r2 ++ [')'], '(', some f⟩ := by
    rw [get_token_function _ c0 nm (range_text c1 r1 c2 r2 ++ [')']) f
      (by simp [next_char, call_text]) (by simp [next_char, call_text]) hl h0 hlen hcr hf, hty]
  have t1 : get_token ⟨tokRangeFunc, c0 :: nm, range_text c1 r1 c2 r2 ++ [')'], '(', some f⟩
      = ⟨tokLParen, c0 :: nm, nat_text (r1 + 1) ++ (':' :: (cell_name c2 r2 ++ [')'])),
          Char.ofNat (65 + c1), some f⟩ := by
    rw [get_token_lparen _ rfl]
    simp [next_char, range_text, cell_name]
  have t2 : get_token ⟨tokLParen, c0 :: nm,
        nat_text (r1 + 1) ++ (':' :: (cell_name c2 r2 ++ [')'])), Char.ofNat (65 + c1), some f⟩
      = ⟨tokRange, range_text c1 r1 c2 r2, [], ')', some f⟩ := by
    rw [get_token_range _ c1 r1 c2 r2 [')'] hc1 (by omega) hc2 (by omega) rfl rfl
      (by simp [feed_cons, rparen_facts.1])]
    simp [feed_cons]
  have t3 : get_token ⟨tokRange, range_text c1 r1 c2 r2, [], ')', some f⟩
      = ⟨tokRParen, range_text c1 r1 c2 r2, [], NUL, some f⟩ := by
    rw [get_token_rparen _ rfl]
    simp [next_char]
  have t4 : get_token ⟨tokRParen, range_text c1 r1 c2 r2, [], NUL, some f⟩
      = ⟨tokEnd, range_text c1 r1 c2 r2, [], NUL, some f⟩ := by
    rw [get_token_end _ rfl rfl]
  have hcall : eval_range_call cells
      ⟨tokRangeFunc, c0 :: nm, range_text c1 r1 c2 r2 ++ [')'], '(', some f⟩
      = .ok (x, ⟨tokEnd, range_text c1 r1 c2 r2, [], NUL, some f⟩) := by
    unfold accumulated at hx
    have hp := process_range_block cells c1 r1 c2 r2 hc1 hr1 hc2 hr2 g (call_range_eval f.pfn_eval)
      (AccumState.mk 0 0 0) step hstep
    rw [hx] at hp
    have hpr := parse_range_text c1 r1 c2 r2 hc1 (by omega) hc2 (by omega)
    exact eval_range_call_tokens cells _ _ _ _ _ f t1 rfl t2 t3 rfl t4 rfl
      (cells, accumulated step cells (block c1 r1 c2 r2), x) (by
        simp only [hpr, hg, Option.map_some']
        exact hp)
  have hfac : eval_factor L cells (k + 1)
      ⟨tokRangeFunc, c0 :: nm, range_text c1 r1 c2 r2 ++ [')'], '(', some f⟩
      = .ok (x, ⟨tokEnd, range_text c1 r1 c2 r2, [], NUL, some f⟩) := by
    rw [eval_factor, eval_signs_none _ _ _ (by simp) (by simp)]
    simp only [hcall, apply_sign_false]
  have hterm := eval_term_single L cells (k + 1) _ _ _ hfac (by simp)
  have hex1 := eval_expr1_single L cells (k + 2) _ _ _ hterm (by simp)
  have hex := eval_expr_single L cells (k + 3) _ _ _ hex1 (by simp [is_relop])
  rw [parse_expr, t0]
  exact hex

/-- The cell handed to the accumulator carries the cached value of the address. -/
theorem foldl_sum_range (cells : List Cell) (blk : List Addr) (acc : AccumState) :
    blk.foldl (fun acc a => sum_range acc (range_cell (lookup cells a) a)) acc
      = ⟨acc.total + (numbers_in cells blk).sum, acc.best,
          acc.count + ((numbers_in cells blk).length : Int)⟩ := by
  induction blk generalizing acc with
  | nil => simp [numbers_in]
  | cons a t ih =>
    rw [List.foldl_cons, ih]
    have hc := range_cell_cached cells a
    cases hv : cached_at cells a with
    | num n =>
      have hn : numbers_in cells (a :: t) = n :: numbers_in cells t := by
        simp [numbers_in, List.filterMap_cons, hv]
      simp only [sum_range, hc, hv, hn, List.sum_cons, List.length_cons, AccumState.mk.injEq]
      refine ⟨by ring, trivial, by push_cast; ring⟩
    | null =>
      have hn : numbers_in cells (a :: t) = numbers_in cells t := by
        simp [numbers_in, List.filterMap_cons, hv]
      simp only [sum_range, hc, hv, hn]
    | error e =>
      have hn : numbers_in cells (a :: t) = numbers_in cells t := by
        simp [numbers_in, List.filterMap_cons, hv]
      simp only [sum_range, hc, hv, hn]
    | str s =>
      have hn : numbers_in cells (a :: t) = numbers_in cells t := by
        simp [numbers_in, List.filterMap_cons, hv]
      simp only [sum_range, hc, hv, hn]
    | shared s =>
      have hn : numbers_in cells (a :: t) = numbers_in cells t := by
        simp [numbers_in, List.filterMap_cons, hv]
      simp only [sum_range, hc, hv, hn]
    | text s =>
      have hn : numbers_in cells (a :: t) = numbers_in cells t := by
        simp [numbers_in, List.filterMap_cons, hv]
      simp only [sum_range, hc, hv, hn]

theorem foldl_count_range (cells : List Cell) (blk : List Addr) (acc : AccumState) :
    blk.foldl (fun acc a => count_range acc (range_cell (lookup cells a) a)) acc
      = ⟨acc.total, acc.best,
          acc.count + ((blk.countP (fun a => counted (cached_at cells a)) : Nat) : Int)⟩ := by
  induction blk generalizing acc with
  | nil => simp
  | cons a t ih =>
    rw [List.foldl_cons, ih]
    have hc := range_cell_cached cells a
    cases hv : cached_at cells a with
    | null => simp [count_range, hc, hv, counted, List.countP_cons]
    | error e => simp [count_range, hc, hv, counted, List.countP_cons]
    | num n => simp [count_range, hc, hv, counted, List.countP_cons]; ring
    | str s =>
      by_cases hs : s = []
      · simp [count_range, hc, hv, counted, List.countP_cons, hs]
      · simp [count_range, hc, hv, counted, List.countP_cons, hs]; ring
    | shared s =>
      by_cases hs : s = []
      · simp [count_range, hc, hv, counted, List.countP_cons, hs]
      · simp [count_range, hc, hv, counted, List.countP_cons, hs]; ring
    | text s =>
      by_cases hs : s = []
      · simp [count_range, hc, hv, counted, List.countP_cons, hs]
      · simp [count_range, hc, hv, counted, List.countP_cons, hs]; ring

theorem mem_numbers_in (cells : List Cell) (blk : List Addr) (x : ℚ) :
    x ∈ numbers_in cells blk ↔ ∃ a ∈ blk, cached_at cells a = .num x := by
  simp only [numbers_in, List.mem_filterMap]
  constructor
  · rintro ⟨a, ha, h⟩
    refine ⟨a, ha, ?_⟩
    cases hv : cached_at cells a <;> simp [hv] at h
    rw [h]
  · rintro ⟨a, ha, h⟩
    exact ⟨a, ha, by simp [h]⟩

theorem numbers_in_cons_num (cells : List Cell) (a : Addr) (t : List Addr) (n : ℚ)
    (hv : cached_at cells a = .num n) :
    numbers_in cells (a :: t) = n :: numbers_in cells t := by
  simp [numbers_in, List.filterMap_cons, hv]

theorem numbers_in_cons_other (cells : List Cell) (a : Addr) (t : List Addr)
    (hv : ∀ n, cached_at cells a ≠ .num n) :
    numbers_in cells (a :: t) = numbers_in cells t := by
  cases h : cached_at cells a with
  | num n => exact absurd h (hv n)
  | null => simp [numbers_in, List.filterMap_cons, h]
  | error e => simp [numbers_in, List.filterMap_cons, h]
  | str s => simp [numbers_in, List.filterMap_cons, h]
  | shared s => simp [numbers_in, List.filterMap_cons, h]
  | text s => simp [numbers_in, List.filterMap_cons, h]

theorem max_range_other (cells : List Cell) (a : Addr) (acc : AccumState)
    (hv : ∀ n, cached_at cells a ≠ .num n) :
    max_range acc (range_cell (lookup cells a) a) = acc := by
  have hc := range_cell_cached cells a
  cases h : cached_at cells a with
  | num n => exact absurd h (hv n)
  | null => simp [max_range, hc, h]
  | error e => simp [max_range, hc, h]
  | str s => simp [max_range, hc, h]
  | shared s => simp [max_range, hc, h]
  | text s => simp [max_range, hc, h]

theorem min_range_other (cells : List Cell) (a : Addr) (acc : AccumState)
    (hv : ∀ n, cached_at cells a ≠ .num n) :
    min_range acc (range_cell (lookup cells a) a) = acc := by
  have hc := range_cell_cached cells a
  cases h : cached_at cells a with
  | num n => exact absurd h (hv n)
  | null => simp [min_range, hc, h]
  | error e => simp [min_range, hc, h]
  | str s => simp [min_range, hc, h]
  | shared s => simp [min_range, hc, h]
  | text s => simp [min_range, hc, h]

theorem max_range_num (cells : List Cell) (a : Addr) (acc : AccumState) (n : ℚ)
    (hv : cached_at cells a = .num n) :
    max_range acc (range_cell (lookup cells a) a)
      = ⟨acc.total, if acc.count = 0 ∨ n > acc.best then n else acc.best, acc.count + 1⟩ := by
  have hc := range_cell_cached cells a
  simp only [max_range, hc, hv]
  split <;> rfl

theorem min_range_num (cells : List Cell) (a : Addr) (acc : AccumState) (n : ℚ)
    (hv : cached_at cells a = .num n) :
    min_range acc (range_cell (lookup cells a) a)
      = ⟨acc.total, if acc.count = 0 ∨ n < acc.best then n else acc.best, acc.count + 1⟩ := by
  have hc := range_cell_cached cells a
  simp only [min_range, hc, hv]
  split <;> rfl

/-- The accumulator of `MAX` once a Number has been seen. -/
theorem foldl_max_range_pos (cells : List Cell) (blk : List Addr) :
    ∀ acc : AccumState, 0 < acc.count →
      ((blk.foldl (fun acc a => max_range acc (range_cell (lookup cells a) a)) acc).best
          = acc.best ∨
        (blk.foldl (fun acc a => max_range acc (range_cell (lookup cells a) a)) acc).best
          ∈ numbers_in cells blk) ∧
      acc.best ≤ (blk.foldl (fun acc a => max_range acc (range_cell (lookup cells a) a)) acc).best ∧
      ∀ x ∈ numbers_in cells blk,
        x ≤ (blk.foldl (fun acc a => max_range acc (range_cell (lookup cells a) a)) acc).best := by
  induction blk with
  | nil => intro acc _; simp [numbers_in]
  | cons a t ih =>
    intro acc hpos
    rw [List.foldl_cons]
    by_cases hn : ∃ n, cached_at cells a = .num n
    · obtain ⟨n, hv⟩ := hn
      rw [max_range_num cells a acc n hv, numbers_in_cons_num cells a t n hv]
      have hne : ¬ acc.count = 0 := by omega
      by_cases hgt : n > acc.best
      · have h := ih ⟨acc.total, n, acc.count + 1⟩ (by simp only; omega)
        simp only [hne, hgt, or_true, if_true, List.mem_cons] at h ⊢
        refine ⟨?_, le_trans (le_of_lt hgt) h.2.1, ?_⟩
        · rcases h.1 with h1 | h1
          · exact Or.inr (Or.inl h1)
          · exact Or.inr (Or.inr h1)
        · intro x hx
          rcases hx with rfl | hx
          · exact h.2.1
          · exact h.2.2 x hx
      · have h := ih ⟨acc.total, acc.best, acc.count + 1⟩ (by simp only; omega)
        simp only [hne, hgt, or_false, if_false, List.mem_cons] at h ⊢
        refine ⟨?_, h.2.1, ?_⟩
        · rcases h.1 with h1 | h1
          · exact Or.inl h1
          · exact Or.inr (Or.inr h1)
        · intro x hx
          rcases hx with rfl | hx
          · exact le_trans (not_lt.mp hgt) h.2.1
          · exact h.2.2 x hx
    · have hv : ∀ n, cached_at cells a ≠ .num n := fun n h => hn ⟨n, h⟩
      rw [max_range_other cells a acc hv, numbers_in_cons_other cells a t hv]
      exact ih acc hpos

/-- The accumulator of `MAX` from its start state. -/
theorem foldl_max_range_zero (cells : List Cell) (blk : List Addr) :
    ∀ acc : AccumState, acc.count = 0 →
      (numbers_in cells blk = [] →
        blk.foldl (fun acc a => max_range acc (range_cell (lookup cells a) a)) acc = acc) ∧
      (numbers_in cells blk ≠ [] →
        (blk.foldl (fun acc a => max_range acc (range_cell (lookup cells a) a)) acc).best
          ∈ numbers_in cells blk ∧
        ∀ x ∈ numbers_in cells blk,
          x ≤ (blk.foldl (fun acc a => max_range acc (range_cell (lookup cells a) a)) acc).best) := by
  induction blk with
  | nil => intro acc _; simp [numbers_in]
  | cons a t ih =>
    intro acc hz
    rw [List.foldl_cons]
    by_cases hn : ∃ n, cached_at cells a = .num n
    · obtain ⟨n, hv⟩ := hn
      rw [max_range_num cells a acc n hv, numbers_in_cons_num cells a t n hv]
      have h := foldl_max_range_pos cells t ⟨acc.total, n, acc.count + 1⟩ (by simp only; omega)
      simp only [hz, true_or, if_true, List.mem_cons] at h ⊢
      refine ⟨fun hnil => by simp at hnil, fun _ => ⟨?_, ?_⟩⟩
      · rcases h.1 with h1 | h1
        · exact Or.inl h1
        · exact Or.inr h1
      · intro x hx
        rcases hx with rfl | hx
        · exact h.2.1
        · exact h.2.2 x hx
    · have hv : ∀ n, cached_at cells a ≠ .num n := fun n h => hn ⟨n, h⟩
      rw [max_range_other cells a acc hv, numbers_in_cons_other cells a t hv]
      exact ih acc hz

/-- The accumulator of `MIN` once a Number has been seen. -/
theorem foldl_min_range_pos (cells : List Cell) (blk : List Addr) :
    ∀ acc : AccumState, 0 < acc.count →
      ((blk.foldl (fun acc a => min_range acc (range_cell (lookup cells a) a)) acc).best
          = acc.best ∨
        (blk.foldl (fun acc a => min_range acc (range_cell (lookup cells a) a)) acc).best
          ∈ numbers_in cells blk) ∧
      (blk.foldl (fun acc a => min_range acc (range_cell (lookup cells a) a)) acc).best ≤ acc.best ∧
      ∀ x ∈ numbers_in cells blk,
        (blk.foldl (fun acc a => min_range acc (range_cell (lookup cells a) a)) acc).best ≤ x := by
  induction blk with
  | nil => intro acc _; simp [numbers_in]
  | cons a t ih =>
    intro acc hpos
    rw [List.foldl_cons]
    by_cases hn : ∃ n, cached_at cells a = .num n
    · obtain ⟨n, hv⟩ := hn
      rw [min_range_num cells a acc n hv, numbers_in_cons_num cells a t n hv]
      have hne : ¬ acc.count = 0 := by omega
      by_cases hgt : n < acc.best
      · have h := ih ⟨acc.total, n, acc.count + 1⟩ (by simp only; omega)
        simp only [hne, hgt, or_true, if_true, List.mem_cons] at h ⊢
        refine ⟨?_, le_trans h.2.1 (le_of_lt hgt), ?_⟩
        · rcases h.1 with h1 | h1
          · exact Or.inr (Or.inl h1)
          · exact Or.inr (Or.inr h1)
        · intro x hx
          rcases hx with rfl | hx
          · exact h.2.1
          · exact h.2.2 x hx
      · have h := ih ⟨acc.total, acc.best, acc.count + 1⟩ (by simp only; omega)
        simp only [hne, hgt, or_false, if_false, List.mem_cons] at h ⊢
        refine ⟨?_, h.2.1, ?_⟩
        · rcases h.1 with h1 | h1
          · exact Or.inl h1
          · exact Or.inr (Or.inr h1)
        · intro x hx
          rcases hx with rfl | hx
          · exact le_trans h.2.1 (not_lt.mp hgt)
          · exact h.2.2 x hx
    · have hv : ∀ n, cached_at cells a ≠ .num n := fun n h => hn ⟨n, h⟩
      rw [min_range_other cells a acc hv, numbers_in_cons_other cells a t hv]
      exact ih acc hpos

/-- The accumulator of `MIN` from its start state. -/
theorem foldl_min_range_zero (cells : List Cell) (blk : List Addr) :
    ∀ acc : AccumState, acc.count = 0 →
      (numbers_in cells blk = [] →
        blk.foldl (fun acc a => min_range acc (range_cell (lookup cells a) a)) acc = acc) ∧
      (numbers_in cells blk ≠ [] →
        (blk.foldl (fun acc a => min_range acc (range_cell (lookup cells a) a)) acc).best
          ∈ numbers_in cells blk ∧
        ∀ x ∈ numbers_in cells blk,
          (blk.foldl (fun acc a => min_range acc (range_cell (lookup cells a) a)) acc).best ≤ x) := by
  induction blk with
  | nil => intro acc _; simp [numbers_in]
  | cons a t ih =>
    intro acc hz
    rw [List.foldl_cons]
    by_cases hn : ∃ n, cached_at cells a = .num n
    · obtain ⟨n, hv⟩ := hn
      rw [min_range_num cells a acc n hv, numbers_in_cons_num cells a t n hv]
      have h := foldl_min_range_pos cells t ⟨acc.total, n, acc.count + 1⟩ (by simp only; omega)
      simp only [hz, true_or, if_true, List.mem_cons] at h ⊢
      refine ⟨fun hnil => by simp at hnil, fun _ => ⟨?_, ?_⟩⟩
      · rcases h.1 with h1 | h1
        · exact Or.inl h1
        · exact Or.inr h1
      · intro x hx
        rcases hx with rfl | hx
        · exact h.2.1
        · exact h.2.2 x hx
    · have hv : ∀ n, cached_at cells a ≠ .num n := fun n h => hn ⟨n, h⟩
      rw [min_range_other cells a acc hv, numbers_in_cons_other cells a t hv]
      exact ih acc hz

/-- The formula `NAME(X:Y)` for each of the five range functions. -/
theorem range_formulas (L : Libc) (cells : List Cell) (k : Nat) (lx0 : Lexer)
    (c1 r1 c2 r2 : Nat) (hc1 : c1 < 26) (hr1 : r1 < 128) (hc2 : c2 < 26) (hr2 : r2 < 128) :
    result_value (parse_expr L cells (k + 4) lx0 (call_text "SUM".toList c1 r1 c2 r2))
      = .ok (sum_eval (accumulated sum_range cells (block c1 r1 c2 r2))) ∧
    result_value (parse_expr L cells (k + 4) lx0 (call_text "AVG".toList c1 r1 c2 r2))
      = .ok (avg_eval (accumulated sum_range cells (block c1 r1 c2 r2))) ∧
    result_value (parse_expr L cells (k + 4) lx0 (call_text "COUNT".toList c1 r1 c2 r2))
      = .ok (count_eval (accumulated count_range cells (block c1 r1 c2 r2))) ∧
    result_value (parse_expr L cells (k + 4) lx0 (call_text "MAX".toList c1 r1 c2 r2))
      = .ok (best_eval (accumulated max_range cells (block c1 r1 c2 r2))) ∧
    result_value (parse_expr L cells (k + 4) lx0 (call_text "MIN".toList c1 r1 c2 r2))
      = .ok (best_eval (accumulated min_range cells (block c1 r1 c2 r2))) := by
  refine ⟨?_, ?_, ?_, ?_, ?_⟩
  · rw [show "SUM".toList = 'S' :: ['U', 'M'] from rfl,
      parse_expr_range_call L cells k lx0 'S' ['U', 'M']
        ⟨"SUM".toList, some .sum_range, .sum_eval, tokRangeFunc, 1, 1⟩ .sum_range sum_range
        c1 r1 c2 r2 hc1 hr1 hc2 hr2 (by decide) (by decide) (by decide) (by decide)
        (by decide)
        rfl rfl (fun _ _ _ => rfl) _ rfl]
    rfl
  · rw [show "AVG".toList = 'A' :: ['V', 'G'] from rfl,
      parse_expr_range_call L cells k lx0 'A' ['V', 'G']
        ⟨"AVG".toList, some .sum_range, .avg_eval, tokRangeFunc, 1, 1⟩ .sum_range sum_range
        c1 r1 c2 r2 hc1 hr1 hc2 hr2 (by decide) (by decide) (by decide) (by decide)
        (by decide)
        rfl rfl (fun _ _ _ => rfl) _ rfl]
    rfl
  · rw [show "COUNT".toList = 'C' :: ['O', 'U', 'N', 'T'] from rfl,
      parse_expr_range_call L cells k lx0 'C' ['O', 'U', 'N', 'T']
        ⟨"COUNT".toList, some .count_range, .count_eval, tokRangeFunc, 1, 1⟩ .count_range
        count_range
        c1 r1 c2 r2 hc1 hr1 hc2 hr2 (by decide) (by decide) (by decide) (by decide)
        (by decide)
        rfl rfl (fun _ _ _ => rfl) _ rfl]
    rfl
  · rw [show "MAX".toList = 'M' :: ['A', 'X'] from rfl,
      parse_expr_range_call L cells k lx0 'M' ['A', 'X']
        ⟨"MAX".toList, some .max_range, .best_eval, tokRangeFunc, 1, 1⟩ .max_range max_range
        c1 r1 c2 r2 hc1 hr1 hc2 hr2 (by decide) (by decide) (by decide) (by decide)
        (by decide)
        rfl rfl (fun _ _ _ => rfl) _ rfl]
    rfl
  · rw [show "MIN".toList = 'M' :: ['I', 'N'] from rfl,
      parse_expr_range_call L cells k lx0 'M' ['I', 'N']
        ⟨"MIN".toList, some .min_range, .best_eval, tokRangeFunc, 1, 1⟩ .min_range min_range
        c1 r1 c2 r2 hc1 hr1 hc2 hr2 (by decide) (by decide) (by decide) (by decide)
        (by decide)
        rfl rfl (fun _ _ _ => rfl) _ rfl]
    rfl

/-! ## SUM and AVG -/

/-- C12. For every range `X:Y` of the rows 1 to 128 of the grid, on every
store, the formula `SUM(X:Y)` returns the Number that is the sum of the cached
values that are Numbers over the block between the corners (each address of
the rectangle once; an address without a cell and a cell whose cached value
is Null, text or an Error add nothing), and `AVG(X:Y)` returns that sum
divided by the number of those values, or 0 when there is none. With `A1 = 4`,
`A2 = 6` and A3 empty, `SUM(A1:A3)` is 10 and `AVG(A1:A3)` is 5; next to a
Text, an Error and an empty String the Number 4 alone is summed. From row 129
on the claim fails on the 16-bit `int` of the target, where `find_cell`
computes a negative index: `SUM(A129:A130)` and `AVG(A1:A129)` are undefined. -/
theorem C12_sum_and_avg :
    (∀ (L : Libc) (cells : List Cell) (k : Nat) (lx0 : Lexer) (c1 r1 c2 r2 : Nat),
      c1 < 26 → r1 < 128 → c2 < 26 → r2 < 128 →
    result_value (parse_expr L cells (k + 4) lx0 (call_text "SUM".toList c1 r1 c2 r2))
      = .ok (.num (numbers_in cells (block c1 r1 c2 r2)).sum) ∧
    result_value (parse_expr L cells (k + 4) lx0 (call_text "AVG".toList c1 r1 c2 r2))
      = .ok (.num (if numbers_in cells (block c1 r1 c2 r2) = [] then 0
          else (numbers_in cells (block c1 r1 c2 r2)).sum
            / ((numbers_in cells (block c1 r1 c2 r2)).length : ℚ))) ∧
    (∀ x : ℚ, x ∈ numbers_in cells (block c1 r1 c2 r2) ↔
      ∃ a ∈ block c1 r1 c2 r2, cached_at cells a = .num x) ∧
    (∀ a : Addr, a ∈ block c1 r1 c2 r2 ↔
      ((min c1 c2 : Nat) : Int) ≤ a.1 ∧ a.1 ≤ ((max c1 c2 : Nat) : Int) ∧
      ((min r1 r2 : Nat) : Int) ≤ a.2 ∧ a.2 ≤ ((max r1 r2 : Nat) : Int)) ∧
    (block c1 r1 c2 r2).Nodup ∧
    formula_after Libc.sample 12 (set_cells Libc.sample 12 Sheet.empty two_numbers)
      "SUM(A1:A3)".toList = .ok (.num 10) ∧
    formula_after Libc.sample 12 (set_cells Libc.sample 12 Sheet.empty two_numbers)
      "AVG(A1:A3)".toList = .ok (.num 5) ∧
    formula_after Libc.sample 12 (set_cells Libc.sample 12 Sheet.empty mixed_cells)
      "SUM(A1:A5)".toList = .ok (.num 4) ∧
    formula_after Libc.sample 12 (set_cells Libc.sample 12 Sheet.empty mixed_cells)
      "AVG(A1:A5)".toList = .ok (.num 4)) ∧
    value_of Libc.sample [] 8 "SUM(A129:A130)".toList = .undefined ∧
    value_of Libc.sample [] 8 "AVG(A1:A129)".toList = .undefined := by
  refine ⟨fun L cells k lx0 c1 r1 c2 r2 hc1 hr1 hc2 hr2 => ?_, by decide!, by decide!⟩
  have h := range_formulas L cells k lx0 c1 r1 c2 r2 hc1 hr1 hc2 hr2
  have hfold := foldl_sum_range cells (block c1 r1 c2 r2) ⟨0, 0, 0⟩
  refine ⟨?_, ?_, mem_numbers_in cells _, mem_block c1 r1 c2 r2, nodup_block c1 r1 c2 r2,
    by decide!, by decide!, by decide!, by decide!⟩
  · rw [h.1, accumulated, hfold]
    simp [sum_eval, make_num]
  · rw [h.2.1, accumulated, hfold]
    by_cases hn : numbers_in cells (block c1 r1 c2 r2) = []
    · simp [avg_eval, make_num, hn]
    · have hl : (numbers_in cells (block c1 r1 c2 r2)).length ≠ 0 := by
        simpa [List.length_eq_zero] using hn
      simp [avg_eval, make_num, hn, hl]

/-- The formula `SUM(A1:A3)` on a store with the Numbers 4 and 6 in A1 and A2. -/
theorem C12_sum_and_avg_witness :
    result_value (parse_expr Libc.sample
        [⟨[], [], 0, 0, some ['4'], .num 4, Flags.zero⟩, ⟨[], [], 0, 1, some ['6'], .num 6,
          Flags.zero⟩] 4 Lexer.init (call_text "SUM".toList 0 0 0 2))
      = .ok (.num (numbers_in
          [⟨[], [], 0, 0, some ['4'], .num 4, Flags.zero⟩, ⟨[], [], 0, 1, some ['6'], .num 6,
            Flags.zero⟩] (block 0 0 0 2)).sum) :=
  (C12_sum_and_avg.1 Libc.sample
    [⟨[], [], 0, 0, some ['4'], .num 4, Flags.zero⟩, ⟨[], [], 0, 1, some ['6'], .num 6,
      Flags.zero⟩] 0 Lexer.init 0 0 0 2 (by decide) (by decide) (by decide) (by decide)).1

/-! ## COUNT -/

/-- C13. For every range `X:Y` of the rows 1 to 128 of the grid, on every
store, the formula `COUNT(X:Y)` returns the number of addresses of the block
whose cached value is a Number, or a String or Text that is not empty; an
address without a cell, a Null, an Error and an empty String are not counted.
With `A1 = 4`, `A2 = 6` and A3 empty `COUNT(A1:A3)` is 2; a Number, a Text,
an Error, an empty String and an empty cell count 2. From row 129 on the
claim fails on the 16-bit `int` of the target, where `find_cell` computes a
negative index: `COUNT(A129:A130)` and `COUNT(A1:A129)` are undefined. -/
theorem C13_count :
    (∀ (L : Libc) (cells : List Cell) (k : Nat) (lx0 : Lexer) (c1 r1 c2 r2 : Nat),
      c1 < 26 → r1 < 128 → c2 < 26 → r2 < 128 →
    result_value (parse_expr L cells (k + 4) lx0 (call_text "COUNT".toList c1 r1 c2 r2))
      = .ok (.num (((block c1 r1 c2 r2).countP (fun a => counted (cached_at cells a)) : Nat) : ℚ))
    ∧ counted .null = false ∧ (∀ e, counted (.error e) = false) ∧ counted (.str []) = false ∧
    counted (.text []) = false ∧ (∀ n, counted (.num n) = true) ∧
    (∀ s, s ≠ [] → counted (.str s) = true ∧ counted (.text s) = true) ∧
    formula_after Libc.sample 12 (set_cells Libc.sample 12 Sheet.empty two_numbers)
      "COUNT(A1:A3)".toList = .ok (.num 2) ∧
    formula_after Libc.sample 12 (set_cells Libc.sample 12 Sheet.empty mixed_cells)
      "COUNT(A1:A5)".toList = .ok (.num 2)) ∧
    value_of Libc.sample [] 8 "COUNT(A129:A130)".toList = .undefined ∧
    value_of Libc.sample [] 8 "COUNT(A1:A129)".toList = .undefined := by
  refine ⟨fun L cells k lx0 c1 r1 c2 r2 hc1 hr1 hc2 hr2 => ?_, by decide!, by decide!⟩
  have h := range_formulas L cells k lx0 c1 r1 c2 r2 hc1 hr1 hc2 hr2
  have hfold := foldl_count_range cells (block c1 r1 c2 r2) ⟨0, 0, 0⟩
  refine ⟨?_, rfl, fun _ => rfl, rfl, rfl, fun _ => rfl, fun s hs => by simp [counted, hs],
    by decide!, by decide!⟩
  rw [h.2.2.1, accumulated, hfold]
  simp [count_eval, make_num]

/-- The formula `COUNT(A1:A3)` on a store with a Text in A1 and a Number in A2. -/
theorem C13_count_witness :
    result_value (parse_expr Libc.sample
        [⟨[], [], 0, 0, some ['x'], .text ['x'], Flags.zero⟩, ⟨[], [], 0, 1, some ['6'], .num 6,
          Flags.zero⟩] 4 Lexer.init (call_text "COUNT".toList 0 0 0 2))
      = .ok (.num (((block 0 0 0 2).countP (fun a => counted (cached_at
          [⟨[], [], 0, 0, some ['x'], .text ['x'], Flags.zero⟩, ⟨[], [], 0, 1, some ['6'], .num 6,
            Flags.zero⟩] a)) : Nat) : ℚ)) :=
  (C13_count.1 Libc.sample
    [⟨[], [], 0, 0, some ['x'], .text ['x'], Flags.zero⟩, ⟨[], [], 0, 1, some ['6'], .num 6,
      Flags.zero⟩] 0 Lexer.init 0 0 0 2 (by decide) (by decide) (by decide) (by decide)).1

/-! ## MAX and MIN -/

/-- C14. For every range `X:Y` of the rows 1 to 128 of the grid, on every
store, the formula `MAX(X:Y)` returns a Number `m`: when some address of the
block has a Number as cached value, `m` is the cached value of such an
address and no Number cached in the block is greater; when none has, `m` is
0. `MIN(X:Y)` likewise with no Number cached in the block smaller. With
`A1 = 4`, `A2 = 6` the maximum is 6 and the minimum 4, over the negative
Numbers -3 and -1 the maximum is -1, and over a block without a Number both
are 0. From row 129 on the claim fails on the 16-bit `int` of the target,
where `find_cell` computes a negative index: `MAX(A129:A130)` and
`MIN(A1:A129)` are undefined. -/
theorem C14_max_and_min :
    (∀ (L : Libc) (cells : List Cell) (k : Nat) (lx0 : Lexer) (c1 r1 c2 r2 : Nat),
      c1 < 26 → r1 < 128 → c2 < 26 → r2 < 128 →
    (∃ m : ℚ,
      result_value (parse_expr L cells (k + 4) lx0 (call_text "MAX".toList c1 r1 c2 r2))
        = .ok (.num m) ∧
      ((∀ a ∈ block c1 r1 c2 r2, ∀ x, cached_at cells a ≠ .num x) → m = 0) ∧
      ((∃ a ∈ block c1 r1 c2 r2, ∃ x, cached_at cells a = .num x) →
        (∃ a ∈ block c1 r1 c2 r2, cached_at cells a = .num m) ∧
        ∀ a ∈ block c1 r1 c2 r2, ∀ x, cached_at cells a = .num x → x ≤ m)) ∧
    (∃ m : ℚ,
      result_value (parse_expr L cells (k + 4) lx0 (call_text "MIN".toList c1 r1 c2 r2))
        = .ok (.num m) ∧
      ((∀ a ∈ block c1 r1 c2 r2, ∀ x, cached_at cells a ≠ .num x) → m = 0) ∧
      ((∃ a ∈ block c1 r1 c2 r2, ∃ x, cached_at cells a = .num x) →
        (∃ a ∈ block c1 r1 c2 r2, cached_at cells a = .num m) ∧
        ∀ a ∈ block c1 r1 c2 r2, ∀ x, cached_at cells a = .num x → m ≤ x)) ∧
    formula_after Libc.sample 12 (set_cells Libc.sample 12 Sheet.empty two_numbers)
      "MAX(A1:A3)".toList = .ok (.num 6) ∧
    formula_after Libc.sample 12 (set_cells Libc.sample 12 Sheet.empty two_numbers)
      "MIN(A1:A3)".toList = .ok (.num 4) ∧
    formula_after Libc.sample 12 (set_cells Libc.sample 12 Sheet.empty mixed_cells)
      "MAX(B1:B2)".toList = .ok (.num (-1)) ∧
    formula_after Libc.sample 12 (set_cells Libc.sample 12 Sheet.empty mixed_cells)
      "MIN(B1:B2)".toList = .ok (.num (-3)) ∧
    formula_after Libc.sample 12 (set_cells Libc.sample 12 Sheet.empty mixed_cells)
      "MAX(A2:A5)".toList = .ok (.num 0) ∧
    formula_after Libc.sample 12 (set_cells Libc.sample 12 Sheet.empty mixed_cells)
      "MIN(A2:A5)".toList = .ok (.num 0)) ∧
    value_of Libc.sample [] 8 "MAX(A129:A130)".toList = .undefined ∧
    value_of Libc.sample [] 8 "MIN(A1:A129)".toList = .undefined := by
  refine ⟨fun L cells k lx0 c1 r1 c2 r2 hc1 hr1 hc2 hr2 => ?_, by decide!, by decide!⟩
  have h := range_formulas L cells k lx0 c1 r1 c2 r2 hc1 hr1 hc2 hr2
  have hmax := foldl_max_range_zero cells (block c1 r1 c2 r2) ⟨0, 0, 0⟩ rfl
  have hmin := foldl_min_range_zero cells (block c1 r1 c2 r2) ⟨0, 0, 0⟩ rfl
  have hnil : (∀ a ∈ block c1 r1 c2 r2, ∀ x, cached_at cells a ≠ .num x) →
      numbers_in cells (block c1 r1 c2 r2) = [] := by
    intro hno
    rw [List.eq_nil_iff_forall_not_mem]
    intro x hx
    obtain ⟨a, ha, hv⟩ := (mem_numbers_in cells _ x).mp hx
    exact hno a ha x hv
  have hcons : (∃ a ∈ block c1 r1 c2 r2, ∃ x, cached_at cells a = .num x) →
      numbers_in cells (block c1 r1 c2 r2) ≠ [] := by
    rintro ⟨a, ha, x, hv⟩ hn
    have : x ∈ numbers_in cells (block c1 r1 c2 r2) := (mem_numbers_in cells _ x).mpr ⟨a, ha, hv⟩
    rw [hn] at this
    exact absurd this (List.not_mem_nil _)
  refine ⟨⟨(accumulated max_range cells (block c1 r1 c2 r2)).best, h.2.2.2.1, ?_, ?_⟩,
    ⟨(accumulated min_range cells (block c1 r1 c2 r2)).best, h.2.2.2.2, ?_, ?_⟩,
    by decide!, by decide!, by decide!, by decide!, by decide!, by decide!⟩
  · intro hno
    rw [accumulated, hmax.1 (hnil hno)]
  · intro hsome
    have hm := hmax.2 (hcons hsome)
    exact ⟨(mem_numbers_in cells _ _).mp hm.1,
      fun a ha x hv => hm.2 x ((mem_numbers_in cells _ x).mpr ⟨a, ha, hv⟩)⟩
  · intro hno
    rw [accumulated, hmin.1 (hnil hno)]
  · intro hsome
    have hm := hmin.2 (hcons hsome)
    exact ⟨(mem_numbers_in cells _ _).mp hm.1,
      fun a ha x hv => hm.2 x ((mem_numbers_in cells _ x).mpr ⟨a, ha, hv⟩)⟩

/-- The formula `MAX(A3:A1)` on a store with the Numbers 4 and 6 in A1 and A2. -/
theorem C14_max_and_min_witness :
    ∃ m : ℚ,
      result_value (parse_expr Libc.sample
          [⟨[], [], 0, 0, some ['4'], .num 4, Flags.zero⟩, ⟨[], [], 0, 1, some ['6'], .num 6,
            Flags.zero⟩] 4 Lexer.init (call_text "MAX".toList 0 2 0 0))
        = .ok (.num m) :=
  let ⟨m, hm, _⟩ := (C14_max_and_min.1 Libc.sample
    [⟨[], [], 0, 0, some ['4'], .num 4, Flags.zero⟩, ⟨[], [], 0, 1, some ['6'], .num 6,
      Flags.zero⟩] 0 Lexer.init 0 2 0 0 (by decide) (by decide) (by decide) (by decide)).1
  ⟨m, hm⟩

/-! ## Saving and loading -/

/-! ## Save and load -/

/-- C16. Saving and loading does not give the sheet back. After `A1 := "a b"`
and `B2 := "=1 + 2"` the file holds the lines `A1:a b` and `B2:=1 + 2`; loaded
into the empty sheet, the content of A1 is `a` and that of B2 is `=1` with the
cached value 1 instead of 3: the line is read up to the first white space.
After `D1 := 1`, `B1 := "=D1"`, `C1 := "=D1+B1"` (no space anywhere) the cached
value of C1 is 2; the file lists B1 and C1 before D1, and after loading it the
content of C1 is the same but its cached value is the Cyclic-reference error. -/
theorem C16_round_trip_differs :
    saved_after (set_cells Libc.sample 12 Sheet.empty spaced_edits)
      = .ok ("A1:a b".toList ++ [CR, LF] ++ "B2:=1 + 2".toList ++ [CR, LF]) ∧
    content_after (set_cells Libc.sample 12 Sheet.empty spaced_edits) (0, 0)
      = .ok (some "a b".toList) ∧
    content_after (round_trip Libc.sample 12 (set_cells Libc.sample 12 Sheet.empty spaced_edits))
      (0, 0) = .ok (some "a".toList) ∧
    content_after (set_cells Libc.sample 12 Sheet.empty spaced_edits) (1, 1)
      = .ok (some "=1 + 2".toList) ∧
    content_after (round_trip Libc.sample 12 (set_cells Libc.sample 12 Sheet.empty spaced_edits))
      (1, 1) = .ok (some "=1".toList) ∧
    cached_after (set_cells Libc.sample 12 Sheet.empty spaced_edits) (1, 1) = .ok (.num 3) ∧
    cached_after (round_trip Libc.sample 12 (set_cells Libc.sample 12 Sheet.empty spaced_edits))
      (1, 1) = .ok (.num 1) ∧
    saved_after (set_cells Libc.sample 12 Sheet.empty forward_edits)
      = .ok ("B1:=D1".toList ++ [CR, LF] ++ "C1:=D1+B1".toList ++ [CR, LF] ++ "D1:=1".toList
          ++ [CR, LF]) ∧
    content_after (set_cells Libc.sample 12 Sheet.empty forward_edits) (2, 0)
      = .ok (some "=D1+B1".toList) ∧
    content_after (round_trip Libc.sample 12 (set_cells Libc.sample 12 Sheet.empty forward_edits))
      (2, 0) = .ok (some "=D1+B1".toList) ∧
    cached_after (set_cells Libc.sample 12 Sheet.empty forward_edits) (2, 0) = .ok (.num 2) ∧
    cached_after (round_trip Libc.sample 12 (set_cells Libc.sample 12 Sheet.empty forward_edits))
      (2, 0) = .ok errExprCyclicRef := by
  decide!

/-! ## Recomputation keeps the raw contents -/

theorem stills_modify (cells : List Cell) (a : Addr) (f : Cell → Cell)
    (hf : ∀ x, (f x).still = x.still) : stills (modify cells a f) = stills cells := by
  induction cells with
  | nil => rfl
  | cons y cs ih =>
    have ih' : stills (modify cs a f) = stills cs := ih
    show (if y.isAt a then f y else y).still :: stills (modify cs a f) = y.still :: stills cs
    rw [ih']
    by_cases h : y.isAt a = true
    · simp [h, hf]
    · simp [h]

theorem lookup_still_of_stills (cs1 cs2 : List Cell) (h : stills cs1 = stills cs2)
    (a : Addr) : (lookup cs1 a).map Cell.still = (lookup cs2 a).map Cell.still := by
  induction cs1 generalizing cs2 with
  | nil =>
    cases cs2 with
    | nil => rfl
    | cons y ys => simp [stills] at h
  | cons x xs ih =>
    cases cs2 with
    | nil => simp [stills] at h
    | cons y ys =>
      simp only [stills, List.map_cons, List.cons.injEq] at h
      have hxy : x.col = y.col ∧ x.row = y.row := by
        have := h.1
        simp only [Cell.still, Prod.mk.injEq] at this
        exact ⟨this.1, this.2.1⟩
      rw [lookup_cons, lookup_cons, hxy.1, hxy.2]
      by_cases hy : (y.col, y.row) = a
      · simp [hy, h.1]
      · simp only [hy, if_false]
        exact ih ys h.2

theorem stills_mark_dirty (cells : List Cell) (a : Addr) :
    stills (mark_dirty cells a) = stills cells :=
  stills_modify _ _ _ (fun _ => rfl)

theorem stills_mark_visiting (cells : List Cell) (a : Addr) (b : Bool) :
    stills (mark_visiting cells a b) = stills cells :=
  stills_modify _ _ _ (fun _ => rfl)

theorem stills_settle (cells : List Cell) (a : Addr) :
    stills (settle cells a) = stills cells :=
  stills_modify _ _ _ (fun _ => rfl)

theorem stills_propagate_dirty (fuel : Nat) :
    ∀ (cells : List Cell) (a : Addr) (cells1 : List Cell),
      propagate_dirty fuel cells a = .ok cells1 → stills cells1 = stills cells := by
  induction fuel with
  | zero => intro cells a cells1 h; simp [propagate_dirty] at h
  | succ n ih =>
    intro cells a cells1 h
    simp only [propagate_dirty] at h
    split at h
    · simp at h
    · rename_i x hx
      split at h
      · refine foldl_preserves (fun cs => stills cs = stills cells) _ ?_ _ _ _ ?_ h
        · intro s d s1 hs hd
          rw [ih s d s1 hd]; exact hs
        · exact stills_mark_dirty _ _
      · simp only [Outcome.ok.injEq] at h
        rw [h]

theorem stills_set_cached (cells : List Cell) (a : Addr) (v : Value) :
    stills (set_cached cells a v) = stills cells :=
  stills_modify _ _ _ (fun _ => rfl)

theorem stills_eval_cell (L : Libc) (fuel : Nat) :
    ∀ (s : Sheet) (a : Addr) (s1 : Sheet),
      eval_cell L fuel s a = .ok s1 → stills s1.cells = stills s.cells := by
  induction fuel with
  | zero => intro s a s1 h; simp [eval_cell] at h
  | succ n ih =>
    intro s a s1 h
    have hfold : ∀ (l : List Addr) (t t1 : Sheet), stills t.cells = stills s.cells →
        Outcome.foldl (fun st d => eval_cell L n st d) t l = .ok t1 →
        stills t1.cells = stills s.cells := by
      intro l t t1 ht hl
      refine foldl_preserves (fun st => stills st.cells = stills s.cells) _ ?_ l t t1 ht hl
      intro u d u1 hu hd
      rw [ih u d u1 hd]; exact hu
    simp only [eval_cell] at h
    split at h
    · simp only [Outcome.ok.injEq] at h; rw [h]
    · rename_i c hc
      split at h
      · simp only [Outcome.ok.injEq] at h; rw [h]
      · split at h
        · rename_i s6 hown
          split at h
          · simp at h
          · rename_i c7 hc7
            refine hfold _ _ _ ?_ h
            simp only
            rw [stills_settle]
            -- the three cases of the own evaluation
            split at hown
            · split at hown
              · simp only [Outcome.ok.injEq] at hown
                rw [← hown]; exact stills_set_cached _ _ _
              · simp only [Outcome.ok.injEq] at hown
                rw [← hown]; exact stills_set_cached _ _ _
            · split at hown
              · simp only [Outcome.ok.injEq] at hown
                rw [← hown]; exact stills_set_cached _ _ _
              · split at hown
                · rename_i s2 hdeps
                  have hs2 : stills s2.cells = stills s.cells := by
                    refine hfold _ _ _ ?_ hdeps
                    simp only
                    rw [stills_mark_visiting, stills_set_cached]
                  split at hown
                  · rename_i s5 hs4
                    simp only [Outcome.ok.injEq] at hown
                    rw [← hown]
                    simp only
                    rw [stills_mark_visiting]
                    split at hs4
                    · simp at hs4
                    · split at hs4
                      · split at hs4
                        · simp at hs4
                        · split at hs4
                          · simp only [Outcome.ok.injEq] at hs4
                            rw [← hs4]
                            simp only
                            rw [stills_set_cached]; exact hs2
                          · simp at hs4
                          · simp at hs4
                      · simp only [Outcome.ok.injEq] at hs4
                        rw [← hs4]; exact hs2
                  · simp at hown
                  · simp at hown
                · simp at hown
                · simp at hown
        · simp at h
        · simp at h

theorem stills_reevaluate (L : Libc) (fuel : Nat) (s : Sheet) (p : Addr) (s1 : Sheet)
    (h : reevaluate L fuel s p = .ok s1) : stills s1.cells = stills s.cells := by
  unfold reevaluate at h
  split at h
  · rename_i cs hcs
    rw [stills_eval_cell L fuel _ p s1 h]
    exact stills_propagate_dirty fuel _ _ _ hcs
  · simp at h
  · simp at h

theorem content_at_of_stills (cs1 cs2 : List Cell) (h : stills cs1 = stills cs2) (a : Addr) :
    content_at cs1 a = content_at cs2 a := by
  have := lookup_still_of_stills cs1 cs2 h a
  unfold content_at
  cases h1 : lookup cs1 a <;> cases h2 : lookup cs2 a <;> simp [h1, h2, Cell.still] at this ⊢
  exact this.2.2

/-! ## The edges `set_cell` builds -/

theorem stills_add_dep (cells : List Cell) (p a : Addr) :
    stills (add_dep cells p a) = stills cells := by
  unfold add_dep
  rw [stills_modify, stills_modify]
  all_goals (intro x; rfl)

theorem stills_remove_revdep (cells : List Cell) (c d : Addr) :
    stills (remove_revdep cells c d) = stills cells :=
  stills_modify _ _ _ (fun _ => rfl)

theorem stills_remove_deps (cells : List Cell) (c : Addr) :
    stills (remove_deps cells c) = stills cells := by
  unfold remove_deps
  cases h : lookup cells c with
  | none => rfl
  | some x =>
    simp only
    have : ∀ (l : List Addr) (cs : List Cell),
        stills (l.foldl (fun cs d => remove_revdep cs d c) cs) = stills cs := by
      intro l
      induction l with
      | nil => intro cs; rfl
      | cons d t ih => intro cs; rw [List.foldl_cons, ih, stills_remove_revdep]
    rw [stills_modify, this]
    intro y; rfl

theorem content_at_ensure (cells : List Cell) (a b : Addr) :
    content_at (ensure cells a) b = content_at cells b := by
  rcases ensure_eq cells a with ⟨hl, he⟩ | ⟨_, he⟩
  · rw [he]
    unfold content_at
    rw [lookup_cons_blank]
    by_cases hab : a = b
    · subst hab
      simp [hl, Cell.blank]
    · simp [hab]
  · rw [he]

theorem isSome_ensure (cells : List Cell) (a b : Addr) (h : (lookup cells b).isSome = true) :
    (lookup (ensure cells a) b).isSome = true := by
  rcases ensure_eq cells a with ⟨_, he⟩ | ⟨_, he⟩
  · rw [he]; exact isSome_cons_blank cells a b h
  · rw [he]; exact h

/-- One link: the edge is put in front of the outgoing list of `p`, the target
is in the store, no other outgoing list and no raw content changes. -/
theorem link_spec (cells : List Cell) (p a : Addr) (hi : GraphInv cells p) :
    GraphInv (link cells p a) p ∧
    deps_of (link cells p a) p = a :: deps_of cells p ∧
    (lookup (link cells p a) a).isSome = true ∧
    (∀ b, (lookup cells b).isSome = true → (lookup (link cells p a) b).isSome = true) ∧
    (∀ b, content_at (link cells p a) b = content_at cells b) ∧
    (∀ b, b ≠ p → deps_of (link cells p a) b = deps_of cells b) := by
  obtain ⟨h1, h1a, h1deps, _⟩ := GraphInv_ensure cells p a hi
  unfold link
  refine ⟨GraphInv_add_dep _ p a h1a h1, ?_, ?_, ?_, ?_, ?_⟩
  · rw [deps_of_add_dep _ _ _ _ h1.2.2, if_pos rfl, h1deps]
  · rw [isSome_add_dep]; exact h1a
  · intro b hb
    rw [isSome_add_dep]
    exact isSome_ensure cells a b hb
  · intro b
    rw [content_at_of_stills _ _ (stills_add_dep _ p a), content_at_ensure]
  · intro b hb
    rw [deps_of_add_dep _ _ _ _ h1.2.2, if_neg hb, h1deps]

/-- A run of links. -/
theorem links_spec (l : List Addr) (p : Addr) :
    ∀ cells : List Cell, GraphInv cells p →
      GraphInv (l.foldl (fun cs a => link cs p a) cells) p ∧
      deps_of (l.foldl (fun cs a => link cs p a) cells) p = l.reverse ++ deps_of cells p ∧
      (∀ a ∈ l, (lookup (l.foldl (fun cs a => link cs p a) cells) a).isSome = true) ∧
      (∀ b, (lookup cells b).isSome = true →
        (lookup (l.foldl (fun cs a => link cs p a) cells) b).isSome = true) ∧
      (∀ b, content_at (l.foldl (fun cs a => link cs p a) cells) b = content_at cells b) ∧
      (∀ b, b ≠ p → deps_of (l.foldl (fun cs a => link cs p a) cells) b = deps_of cells b) := by
  induction l with
  | nil => intro cells hi; simp [hi]
  | cons a t ih =>
    intro cells hi
    obtain ⟨g1, d1, s1, m1, c1, o1⟩ := link_spec cells p a hi
    obtain ⟨g2, d2, s2, m2, c2, o2⟩ := ih (link cells p a) g1
    rw [List.foldl_cons]
    refine ⟨g2, ?_, ?_, ?_, ?_, ?_⟩
    · rw [d2, d1]; simp
    · intro b hb
      rcases List.mem_cons.mp hb with rfl | hb
      · exact m2 _ s1
      · exact s2 b hb
    · intro b hb
      exact m2 b (m1 b hb)
    · intro b
      rw [c2, c1]
    · intro b hb
      rw [o2 b hb, o1 b hb]

/-- A loop that returned is a fold, when each returning step is a step of the
fold on the states that satisfy an invariant of the loop. -/
theorem foldl_ok_eq {σ α : Type} (P : σ → Prop) (f : σ → α → Outcome σ) (g : σ → α → σ)
    (hf : ∀ s a s1, P s → f s a = .ok s1 → s1 = g s a ∧ P s1) :
    ∀ (l : List α) (s s1 : σ), P s → Outcome.foldl f s l = .ok s1 → s1 = l.foldl g s := by
  intro l
  induction l with
  | nil =>
    intro s s1 _ h
    simp only [Outcome.foldl, Outcome.ok.injEq] at h
    rw [← h]; rfl
  | cons a as ih =>
    intro s s1 hp h
    simp only [Outcome.foldl] at h
    cases hfa : f s a with
    | ok s2 =>
      rw [hfa] at h
      obtain ⟨he, hp2⟩ := hf s a s2 hp hfa
      rw [List.foldl_cons, ← he]
      exact ih s2 s1 hp2 h
    | outOfFuel => rw [hfa] at h; simp at h
    | undefined => rw [hfa] at h; simp at h

/-- `set_range_dep` on the cell `process_range` hands over is a link. -/
theorem set_range_dep_link (cells : List Cell) (p a : Addr) (found : Option Cell)
    (hf : found = lookup cells a) (hn : NoEmpty cells) (r : List Cell × Addr)
    (hr : set_range_dep cells p (range_cell found a) = .ok r) : r = (link cells p a, p) := by
  cases found with
  | none =>
    simp only [set_range_dep, range_cell, Cell.blank, if_true] at hr
    split at hr
    · rename_i cs hcs
      simp only [Outcome.ok.injEq] at hr
      have hcs2 := new_cell_ok _ _ _ _ hcs
      rw [← hr, hcs2]
      simp only [link, ensure, ← hf]
    · simp at hr
    · simp at hr
  | some x =>
    have hx : lookup cells a = some x := hf.symm
    have he := hn a x hx
    have hat := lookup_some_at cells a x hx
    simp only [set_range_dep, range_cell, he, Bool.false_eq_true, if_false,
      Outcome.ok.injEq] at hr
    rw [← hr, hat]
    simp only [link, ensure, hx]

/-- The range case of the dependency loop: a run of links over the block. -/
theorem process_range_link (cells : List Cell) (c1 r1 c2 r2 : Int) (p : Addr)
    (r : List Cell × Addr × Value) (hi : GraphInv cells p)
    (h : process_range cells c1 r1 c2 r2 p (some set_range_dep) none = .ok r) :
    r.1 = ((int_range c1 c2).flatMap (fun cc => (int_range r1 r2).map (fun rr => (cc, rr)))).foldl
      (fun cs a => link cs p a) cells := by
  unfold process_range at h
  split at h
  · rename_i st hst
    simp only [Outcome.ok.injEq] at h
    rw [← h]
    have := foldl_ok_eq (fun (st : List Cell × Addr) => GraphInv st.1 p ∧ st.2 = p) _
      (fun st a => (link st.1 p a, p)) ?_ _ _ _ ⟨hi, rfl⟩ hst
    · rw [this]
      have hpair : ∀ (l : List Addr) (cs : List Cell),
          (l.foldl (fun (st : List Cell × Addr) a => (link st.1 p a, p)) (cs, p)).1
            = l.foldl (fun cs a => link cs p a) cs := by
        intro l
        induction l with
        | nil => intro cs; rfl
        | cons a t ih => intro cs; simp only [List.foldl_cons, ih]
      exact hpair _ _
    · intro t a t1 ht hstep
      split at hstep
      · rename_i found hfound
        have hf := find_cell_ok _ _ _ _ hfound
        simp only at hstep
        rw [ht.2] at hstep
        have he := set_range_dep_link t.1 p a found hf ht.1.2.1 t1 hstep
        rw [he]
        exact ⟨rfl, (link_spec t.1 p a ht.1).1, rfl⟩
      · simp at hstep
      · simp at hstep
  · simp at h
  · simp at h

/-- The dependency loop of `set_cell`, when it returns, has linked the edited
cell to the addresses the tokens name, in the order of the tokens. -/
theorem set_cell_deps_links (fuel : Nat) :
    ∀ (cells : List Cell) (lx : Lexer) (p : Addr) (r : List Cell × Lexer),
      GraphInv cells p → set_cell_deps fuel cells lx p = .ok r →
      r.1 = (formula_refs fuel lx).foldl (fun cs a => link cs p a) cells := by
  induction fuel with
  | zero => intro cells lx p r _ h; simp [set_cell_deps] at h
  | succ n ih =>
    intro cells lx p r hi h
    rw [set_cell_deps] at h
    rw [formula_refs]
    by_cases hend : lx.tok_type = tokEnd ∨ lx.tok_type = tokError
    · rw [if_pos hend] at h ⊢
      simp only [Outcome.ok.injEq] at h
      rw [← h]; rfl
    · rw [if_neg hend] at h ⊢
      rw [List.foldl_append]
      by_cases hcr : lx.tok_type = tokCellRef
      · rw [if_pos hcr] at h
        have htr : token_refs lx = [(parse_cellref lx.token).1] := by
          simp [token_refs, hcr]
        rw [htr, List.foldl_cons, List.foldl_nil]
        simp only at h
        split at h
        · rename_i x hfound
          have hf := find_cell_ok _ _ _ _ hfound
          have hl : link cells p (parse_cellref lx.token).1
              = add_dep cells p (parse_cellref lx.token).1 := by
            simp only [link, ensure, ← hf]
          rw [hl]
          refine ih _ _ _ _ (GraphInv_add_dep _ p _ ?_ hi) h
          rw [← hf]; rfl
        · rename_i hfound
          have hf := find_cell_ok _ _ _ _ hfound
          split at h
          · rename_i cs hcs
            have hcs2 := new_cell_ok _ _ _ _ hcs
            have hl : link cells p (parse_cellref lx.token).1
                = add_dep cs p (parse_cellref lx.token).1 := by
              simp only [link, ensure, ← hf, hcs2]
            rw [hl]
            refine ih _ _ _ _ (GraphInv_add_dep _ p _ ?_ ?_) h
            · rw [hcs2]; exact isSome_cons_blank_self cells _
            · rw [hcs2]; exact GraphInv_cons_blank cells p _ hf.symm hi
          · simp at h
          · simp at h
        · simp at h
        · simp at h
      · rw [if_neg hcr] at h
        by_cases hrg : lx.tok_type = tokRange
        · rw [if_pos hrg] at h
          have htr : token_refs lx
              = (int_range (parse_range lx.token).1 (parse_range lx.token).2.2.1).flatMap
                  (fun cc => (int_range (parse_range lx.token).2.1
                    (parse_range lx.token).2.2.2).map (fun rr => (cc, rr))) := by
            simp [token_refs, hcr, hrg]
          simp only at h
          split at h
          · rename_i r1 hr1
            have hlk := process_range_link _ _ _ _ _ p r1 hi hr1
            rw [htr, ← hlk]
            exact ih _ _ _ _ (GraphInv_process_range _ _ _ _ _ p r1 hi hr1) h
          · simp at h
          · simp at h
        · rw [if_neg hrg] at h
          have htr : token_refs lx = [] := by simp [token_refs, hcr, hrg]
          rw [htr, List.foldl_nil]
          exact ih _ _ _ _ hi h

/-! ## The tokens do not depend on the lexer state before the text -/

theorem next_char_fields (lx : Lexer) :
    (next_char lx).ch = (feed lx.expr).1 ∧ (next_char lx).expr = (feed lx.expr).2 ∧
    (next_char lx).token = lx.token ∧ (next_char lx).tok_type = lx.tok_type := by
  unfold next_char feed
  cases lx.expr <;> simp

theorem next_char_same (lx lx1 : Lexer) (h : same_input lx lx1) (tt : TokenType)
    (htt : tt ≠ tokCellRef ∧ tt ≠ tokRange) :
    same_token { next_char lx with tok_type := tt } { next_char lx1 with tok_type := tt } := by
  obtain ⟨h1, h2⟩ := h
  unfold same_token same_input
  simp only [(next_char_fields lx).1, (next_char_fields lx).2.1, (next_char_fields lx1).1,
    (next_char_fields lx1).2.1, h2, htt.1, htt.2, or_self, false_implies, and_self]

theorem get_token_ident_same (lx lx1 : Lexer) (h : same_input lx lx1) :
    same_token (get_token_ident lx) (get_token_ident lx1) := by
  obtain ⟨h1, h2⟩ := h
  unfold same_token same_input get_token_ident
  rw [h1, h2]
  simp only [next_char_fields]
  split_ifs <;> first | simp | (split <;> simp)

theorem get_token_number_same (lx lx1 : Lexer) (h : same_input lx lx1) :
    same_token (get_token_number lx) (get_token_number lx1) := by
  obtain ⟨h1, h2⟩ := h
  unfold same_token same_input get_token_number
  rw [h1, h2]
  simp only [next_char_fields]
  split_ifs <;> simp

theorem get_token_string_same (lx lx1 : Lexer) (h : same_input lx lx1) :
    same_token (get_token_string lx) (get_token_string lx1) := by
  obtain ⟨h1, h2⟩ := h
  unfold same_token same_input get_token_string
  simp only [next_char_fields, h1, h2]
  split_ifs <;> simp

theorem next_char_expr (lx lx1 : Lexer) (h : lx.expr = lx1.expr) :
    same_input (next_char lx) (next_char lx1) := by
  unfold same_input
  simp only [next_char_fields, h, and_self]

theorem next_char_input (lx lx1 : Lexer) (h : same_input lx lx1) :
    same_input (next_char lx) (next_char lx1) :=
  next_char_expr lx lx1 h.2

theorem get_token_same (lx lx1 : Lexer) (h : same_input lx lx1) :
    same_token (get_token lx) (get_token lx1) := by
  obtain ⟨t, k, e, c, f⟩ := lx
  obtain ⟨t1, k1, e1, c1, f1⟩ := lx1
  obtain ⟨h1, h2⟩ := h
  simp only at h1 h2
  subst h1 h2
  unfold get_token
  dsimp only
  generalize (skip_space c e).1 = c2
  generalize (skip_space c e).2 = e2
  have hin : same_input ⟨tokNone, k, e2, c2, f⟩ ⟨tokNone, k1, e2, c2, f1⟩ := ⟨rfl, rfl⟩
  have hn : (next_char ⟨tokNone, k, e2, c2, f⟩).ch = (next_char ⟨tokNone, k1, e2, c2, f1⟩).ch :=
    (next_char_input _ _ hin).1
  by_cases c1 : c2 = NUL
  · rw [if_pos c1, if_pos c1]
    simp [same_token, same_input]
  rw [if_neg c1, if_neg c1]
  by_cases c3 : isalpha c2 = true
  · rw [if_pos c3, if_pos c3]
    exact get_token_ident_same _ _ hin
  rw [if_neg c3, if_neg c3]
  by_cases c4 : isdigit c2 = true
  · rw [if_pos c4, if_pos c4]
    exact get_token_number_same _ _ hin
  rw [if_neg c4, if_neg c4]
  by_cases c5 : c2 = '='
  · rw [if_pos c5, if_pos c5]
    exact next_char_same _ _ hin tokEq (by decide)
  rw [if_neg c5, if_neg c5]
  by_cases c6 : c2 = '<'
  · rw [if_pos c6, if_pos c6]
    by_cases d1 : (next_char ⟨tokNone, k1, e2, c2, f1⟩).ch = '='
    · rw [if_pos d1, if_pos (hn.trans d1)]
      exact next_char_same _ _ (next_char_input _ _ hin) tokLe (by decide)
    rw [if_neg d1, if_neg (fun hh => d1 (hn.symm.trans hh))]
    by_cases d2 : (next_char ⟨tokNone, k1, e2, c2, f1⟩).ch = '>'
    · rw [if_pos d2, if_pos (hn.trans d2)]
      exact next_char_same _ _ (next_char_input _ _ hin) tokNe (by decide)
    rw [if_neg d2, if_neg (fun hh => d2 (hn.symm.trans hh))]
    exact next_char_same _ _ hin tokLt (by decide)
  rw [if_neg c6, if_neg c6]
  by_cases c7 : c2 = '>'
  · rw [if_pos c7, if_pos c7]
    by_cases d1 : (next_char ⟨tokNone, k1, e2, c2, f1⟩).ch = '='
    · rw [if_pos d1, if_pos (hn.trans d1)]
      exact next_char_same _ _ (next_char_input _ _ hin) tokGe (by decide)
    rw [if_neg d1, if_neg (fun hh => d1 (hn.symm.trans hh))]
    exact next_char_same _ _ hin tokGt (by decide)
  rw [if_neg c7, if_neg c7]
  by_cases o0 : c2 = '+'
  · rw [if_pos o0, if_pos o0]
    exact next_char_same _ _ hin tokPlus (by decide)
  rw [if_neg o0, if_neg o0]
  by_cases o1 : c2 = '-'
  · rw [if_pos o1, if_pos o1]
    exact next_char_same _ _ hin tokMinus (by decide)
  rw [if_neg o1, if_neg o1]
  by_cases o2 : c2 = '*'
  · rw [if_pos o2, if_pos o2]
    exact next_char_same _ _ hin tokMul (by decide)
  rw [if_neg o2, if_neg o2]
  by_cases o3 : c2 = '/'
  · rw [if_pos o3, if_pos o3]
    exact next_char_same _ _ hin tokDiv (by decide)
  rw [if_neg o3, if_neg o3]
  by_cases o4 : c2 = '%'
  · rw [if_pos o4, if_pos o4]
    exact next_char_same _ _ hin tokMod (by decide)
  rw [if_neg o4, if_neg o4]
  by_cases o5 : c2 = '('
  · rw [if_pos o5, if_pos o5]
    exact next_char_same _ _ hin tokLParen (by decide)
  rw [if_neg o5, if_neg o5]
  by_cases o6 : c2 = ')'
  · rw [if_pos o6, if_pos o6]
    exact next_char_same _ _ hin tokRParen (by decide)
  rw [if_neg o6, if_neg o6]
  by_cases o7 : c2 = ','
  · rw [if_pos o7, if_pos o7]
    exact next_char_same _ _ hin tokComma (by decide)
  rw [if_neg o7, if_neg o7]
  by_cases c8 : c2 = SQUOTE ∨ c2 = DQUOTE
  · rw [if_pos c8, if_pos c8]
    exact get_token_string_same _ _ hin
  rw [if_neg c8, if_neg c8]
  simp [same_token, same_input]

theorem token_refs_same (lx lx1 : Lexer) (h : same_token lx lx1) :
    token_refs lx = token_refs lx1 := by
  obtain ⟨_, ht, hk⟩ := h
  unfold token_refs
  rw [← ht]
  by_cases h1 : lx.tok_type = tokCellRef
  · rw [if_pos h1, if_pos h1, hk (Or.inl h1)]
  · rw [if_neg h1, if_neg h1]
    by_cases h2 : lx.tok_type = tokRange
    · rw [if_pos h2, if_pos h2, hk (Or.inr h2)]
    · rw [if_neg h2, if_neg h2]

theorem formula_refs_same (n : Nat) :
    ∀ lx lx1 : Lexer, same_token lx lx1 → formula_refs n lx = formula_refs n lx1 := by
  induction n with
  | zero => intro lx lx1 _; rfl
  | succ n ih =>
    intro lx lx1 h
    rw [formula_refs, formula_refs, token_refs_same lx lx1 h,
      ih _ _ (get_token_same lx lx1 h.1), h.2.1]

/-- The addresses a formula names are those of `refs_of`, whatever the lexer
held before `set_cell` pointed it at the formula. -/
theorem formula_refs_body (n : Nat) (lx : Lexer) (body : List Char) :
    formula_refs n (get_token (next_char { lx with expr := body })) = refs_of n body := by
  unfold refs_of lexer_at
  refine formula_refs_same n _ _ (get_token_same _ _ ?_)
  exact next_char_expr _ _ rfl

/-- When the dependency loop returns with fuel `n`, the tokens end within `n`
steps: a larger bound gives the same addresses. -/
theorem formula_refs_stable (n : Nat) :
    ∀ (cells : List Cell) (lx : Lexer) (p : Addr) (r : List Cell × Lexer),
      set_cell_deps n cells lx p = .ok r → ∀ m, n ≤ m → formula_refs m lx = formula_refs n lx := by
  induction n with
  | zero => intro cells lx p r h; simp [set_cell_deps] at h
  | succ n ih =>
    intro cells lx p r h m hm
    obtain ⟨j, rfl⟩ : ∃ j, m = j + 1 := ⟨m - 1, by omega⟩
    rw [set_cell_deps] at h
    rw [formula_refs, formula_refs]
    by_cases hend : lx.tok_type = tokEnd ∨ lx.tok_type = tokError
    · rw [if_pos hend, if_pos hend]
    · rw [if_neg hend] at h
      rw [if_neg hend, if_neg hend]
      have hj : n ≤ j := by omega
      suffices hs : formula_refs j (get_token lx) = formula_refs n (get_token lx) by rw [hs]
      split at h
      · simp only at h
        split at h
        · exact ih _ _ _ _ h j hj
        · split at h
          · exact ih _ _ _ _ h j hj
          · simp at h
          · simp at h
        · simp at h
        · simp at h
      · split at h
        · simp only at h
          split at h
          · exact ih _ _ _ _ h j hj
          · simp at h
          · simp at h
        · exact ih _ _ _ _ h j hj

/-! ## The edges after `set_cell` on a formula -/

theorem deps_of_remove_deps_ne (cells : List Cell) (c b : Addr) (hb : b ≠ c) :
    deps_of (remove_deps cells c) b = deps_of cells b := by
  unfold remove_deps
  cases hl : lookup cells c with
  | none => rfl
  | some x =>
    simp only
    have h1 := (fold_remove_revdep c x.deps cells).1 b
    unfold deps_of at h1 ⊢
    rw [lookup_modify, if_neg hb]
    · exact h1
    · intro _; exact ⟨rfl, rfl⟩

theorem content_at_modify_ne (cells : List Cell) (a b : Addr) (f : Cell → Cell)
    (hf : ∀ x, (f x).col = x.col ∧ (f x).row = x.row) (hb : b ≠ a) :
    content_at (modify cells a f) b = content_at cells b := by
  unfold content_at
  rw [lookup_modify _ a b f hf, if_neg hb]

theorem content_at_cons_blank (cells : List Cell) (a b : Addr) (hl : lookup cells a = none) :
    content_at (Cell.blank a.1 a.2 :: cells) b = content_at cells b := by
  have h := content_at_ensure cells a b
  simp only [ensure, hl] at h
  exact h

/-- The part of `set_cell` after the cell is in the store, on a text that is
a formula: the outgoing edges of the cell are the addresses the formula names,
last token first; each of them is in the store; no cell leaves the store; the
raw content and the outgoing edges of every other cell are as before. -/
theorem set_cell_body_edges (L : Libc) (fuel : Nat) (s : Sheet) (p : Addr) (text : List Char)
    (s1 : Sheet) (c0 : Char) (t0 : List Char) (hi : GraphInv s.cells p)
    (htrim : trim text = c0 :: t0) (hform : is_formula_text (c0 :: t0) = true)
    (h : set_cell_body L fuel s p (some text) = .ok s1) :
    deps_of s1.cells p = (refs_of fuel ((stored_content (c0 :: t0)).drop 1)).reverse ∧
    (∀ m, fuel ≤ m → refs_of m ((stored_content (c0 :: t0)).drop 1)
      = refs_of fuel ((stored_content (c0 :: t0)).drop 1)) ∧
    (∀ a ∈ refs_of fuel ((stored_content (c0 :: t0)).drop 1),
      (lookup s1.cells a).isSome = true) ∧
    (∀ b, (lookup s.cells b).isSome = true → (lookup s1.cells b).isSome = true) ∧
    (∀ b, b ≠ p → content_at s1.cells b = content_at s.cells b) ∧
    (∀ b, b ≠ p → deps_of s1.cells b = deps_of s.cells b) ∧
    content_at s1.cells p = some (stored_content (c0 :: t0)) := by
  unfold set_cell_body at h
  simp only [Option.map_some', htrim] at h
  rw [if_pos hform] at h
  have h1 : GraphInv (remove_deps (store_text s.cells p (c0 :: t0)) p) p :=
    GraphInv_remove_deps _ p
      (GraphInv_modify s.cells p _ (fun _ => ⟨rfl, rfl⟩) (fun _ => rfl) (fun _ => rfl)
        (fun _ hx => hx) hi)
  split at h
  · rename_i cells2 lx hdeps
    have hlinks := set_cell_deps_links fuel _ _ p _ h1 hdeps
    have hstable := formula_refs_stable fuel _ _ p _ hdeps
    rw [formula_refs_body] at hlinks
    simp only at hlinks
    obtain ⟨_, d2, e2, m2, c2, o2⟩ :=
      links_spec (refs_of fuel ((stored_content (c0 :: t0)).drop 1)) p _ h1
    rw [← hlinks] at d2 e2 m2 c2 o2
    have hsk := skeleton_reevaluate L fuel _ p s1 h
    have hst := stills_reevaluate L fuel _ p s1 h
    simp only at hsk hst
    obtain ⟨x, hx⟩ := Option.isSome_iff_exists.mp hi.2.2
    refine ⟨?_, ?_, ?_, ?_, ?_, ?_, ?_⟩
    · rw [deps_of_skeleton _ _ hsk, d2, deps_of_remove_deps_self, List.append_nil]
    · intro m hm
      have := hstable m hm
      rw [formula_refs_body, formula_refs_body] at this
      exact this
    · intro a ha
      rw [isSome_of_skeleton _ _ hsk.symm]
      exact e2 a ha
    · intro b hb
      rw [isSome_of_skeleton _ _ hsk.symm]
      refine m2 b ?_
      rw [isSome_remove_deps]
      unfold store_text
      rw [lookup_modify]
      · by_cases hbp : b = p
        · rw [if_pos hbp, Option.isSome_map']
          exact hb
        · rw [if_neg hbp]; exact hb
      · intro _; exact ⟨rfl, rfl⟩
    · intro b hb
      rw [content_at_of_stills _ _ hst, c2, content_at_of_stills _ _ (stills_remove_deps _ p)]
      exact content_at_modify_ne _ p b _ (fun _ => ⟨rfl, rfl⟩) hb
    · intro b hb
      rw [deps_of_skeleton _ _ hsk, o2 b hb, deps_of_remove_deps_ne _ p b hb]
      exact deps_of_modify _ p b _ (fun _ => ⟨rfl, rfl⟩) (fun _ => rfl)
    · rw [content_at_of_stills _ _ hst, c2, content_at_of_stills _ _ (stills_remove_deps _ p)]
      unfold content_at store_text
      rw [lookup_modify_self _ p _ x ?_ hx]
      · rfl
      · intro _; exact ⟨rfl, rfl⟩
  · simp at h
  · simp at h

/-- `set_cell` with a formula text that is not the content the cell has: the
outgoing edges of the cell are the addresses the formula names, last token
first; each of them is in the store; the raw content and the outgoing edges
of every other cell are as before. -/
theorem set_cell_edges (L : Libc) (fuel : Nat) (s s1 : Sheet) (c r : Int) (text : List Char)
    (c0 : Char) (t0 : List Char) (hm : Mirrored s.cells) (hn : NoEmpty s.cells)
    (htrim : trim text = c0 :: t0) (hform : is_formula_text (c0 :: t0) = true)
    (hdiff : ∀ x, lookup s.cells (c, r) = some x → x.content ≠ some text)
    (h : set_cell L fuel s c r (some text) = .ok s1) :
    deps_of s1.cells (c, r) = (refs_of fuel ((stored_content (c0 :: t0)).drop 1)).reverse ∧
    (∀ m, fuel ≤ m → refs_of m ((stored_content (c0 :: t0)).drop 1)
      = refs_of fuel ((stored_content (c0 :: t0)).drop 1)) ∧
    (∀ a ∈ refs_of fuel ((stored_content (c0 :: t0)).drop 1),
      (lookup s1.cells a).isSome = true) ∧
    (∀ b, (lookup s.cells b).isSome = true → (lookup s1.cells b).isSome = true) ∧
    (∀ b, b ≠ (c, r) → content_at s1.cells b = content_at s.cells b) ∧
    (∀ b, b ≠ (c, r) → deps_of s1.cells b = deps_of s.cells b) ∧
    content_at s1.cells (c, r) = some (stored_content (c0 :: t0)) := by
  have hne : text ≠ [] := by
    intro he
    rw [he] at htrim
    simp [trim] at htrim
  unfold set_cell at h
  split at h
  · simp at h
  · simp at h
  · rename_i hfound
    have hf := find_cell_ok _ _ _ _ hfound
    rw [if_neg (by simp [hne])] at h
    split at h
    · rename_i cs hcs
      have hcs2 := new_cell_ok _ _ _ _ hcs
      have hi : GraphInv cs (c, r) := by
        rw [hcs2]
        exact ⟨Mirrored_cons_blank s.cells (c, r) hf.symm hm,
          NoEmpty_cons_blank s.cells (c, r) hn, isSome_cons_blank_self s.cells (c, r)⟩
      obtain ⟨g1, g2, g3, g4, g5, g6, g7⟩ :=
        set_cell_body_edges L fuel _ (c, r) text s1 c0 t0 hi htrim hform h
      simp only [hcs2] at g4 g5 g6
      refine ⟨g1, g2, g3, ?_, ?_, ?_, g7⟩
      · intro b hb
        exact g4 b (isSome_cons_blank s.cells (c, r) b hb)
      · intro b hb
        rw [g5 b hb]
        exact content_at_cons_blank s.cells (c, r) b hf.symm
      · intro b hb
        rw [g6 b hb]
        exact deps_of_cons_blank s.cells (c, r) b hf.symm
    · simp at h
    · simp at h
  · rename_i x hfound
    have hf := find_cell_ok _ _ _ _ hfound
    have hx : lookup s.cells (c, r) = some x := hf.symm
    rw [if_neg (fun hh => hdiff x hx hh.2)] at h
    have hi : GraphInv s.cells (c, r) := ⟨hm, hn, by rw [hx]; rfl⟩
    exact set_cell_body_edges L fuel s (c, r) text s1 c0 t0 hi htrim hform h

/-- The addresses a call `NAME(X:Y)` of a range function names: the block. -/
theorem refs_of_range_call (k : Nat) (c0 : Char) (nm : List Char) (f : Function)
    (c1 r1 c2 r2 : Nat) (hc1 : c1 < 26) (hr1 : r1 < 256) (hc2 : c2 < 26) (hr2 : r2 < 256)
    (hl : ∀ c ∈ c0 :: nm, (isalpha c || isdigit c) = true ∧ toupper c = c)
    (h0 : isalpha c0 = true ∧ isspace c0 = false ∧ c0 ≠ NUL)
    (hlen : (c0 :: nm).length ≤ TOKEN_MAX) (hcr : is_cellref (c0 :: nm) = false)
    (hf : find_function (c0 :: nm) = some f) (hty : f.tok_type = tokRangeFunc) :
    refs_of (k + 5) (call_text (c0 :: nm) c1 r1 c2 r2) = block c1 r1 c2 r2 := by
  have t0 : lexer_at (call_text (c0 :: nm) c1 r1 c2 r2)
      = ⟨tokRangeFunc, c0 :: nm, range_text c1 r1 c2 r2 ++ [')'], '(', some f⟩ := by
    unfold lexer_at
    rw [get_token_function _ c0 nm (range_text c1 r1 c2 r2 ++ [')']) f
      (by simp [next_char, call_text]) (by simp [next_char, call_text]) hl h0 hlen hcr hf, hty]
  have t1 : get_token ⟨tokRangeFunc, c0 :: nm, range_text c1 r1 c2 r2 ++ [')'], '(', some f⟩
      = ⟨tokLParen, c0 :: nm, nat_text (r1 + 1) ++ (':' :: (cell_name c2 r2 ++ [')'])),
          Char.ofNat (65 + c1), some f⟩ := by
    rw [get_token_lparen _ rfl]
    simp [next_char, range_text, cell_name]
  have t2 : get_token ⟨tokLParen, c0 :: nm,
        nat_text (r1 + 1) ++ (':' :: (cell_name c2 r2 ++ [')'])), Char.ofNat (65 + c1), some f⟩
      = ⟨tokRange, range_text c1 r1 c2 r2, [], ')', some f⟩ := by
    rw [get_token_range _ c1 r1 c2 r2 [')'] hc1 hr1 hc2 hr2 rfl rfl
      (by simp [feed_cons, rparen_facts.1])]
    simp [feed_cons]
  have t3 : get_token ⟨tokRange, range_text c1 r1 c2 r2, [], ')', some f⟩
      = ⟨tokRParen, range_text c1 r1 c2 r2, [], NUL, some f⟩ := by
    rw [get_token_rparen _ rfl]
    simp [next_char]
  have t4 : get_token ⟨tokRParen, range_text c1 r1 c2 r2, [], NUL, some f⟩
      = ⟨tokEnd, range_text c1 r1 c2 r2, [], NUL, some f⟩ := by
    rw [get_token_end _ rfl rfl]
  have hpr := parse_range_text c1 r1 c2 r2 hc1 hr1 hc2 hr2
  unfold refs_of
  rw [t0]
  simp only [formula_refs, token_refs, t1, t2, t3, t4, hpr, reduceCtorEq, or_self, if_false,
    if_true, or_true, true_or, List.nil_append, List.append_nil, block]

/-- The address a formula that is the name of one cell names. -/
theorem refs_of_cell_name (k col row : Nat) (hc : col < 26) (hr : row < 256) :
    refs_of (k + 2) (cell_name col row) = [((col : Int), (row : Int))] := by
  have t0 : lexer_at (cell_name col row) = ⟨tokCellRef, cell_name col row, [], NUL, none⟩ :=
    get_token_cell_name_last _ col row hc hr (by simp [next_char, cell_name])
      (by simp [next_char, cell_name])
  have t1 : get_token ⟨tokCellRef, cell_name col row, [], NUL, none⟩
      = ⟨tokEnd, cell_name col row, [], NUL, none⟩ := by
    rw [get_token_end _ rfl rfl]
  unfold refs_of
  rw [t0]
  simp only [formula_refs, token_refs, t1, parse_cellref_cell_name col row hc hr, reduceCtorEq,
    or_self, if_false, if_true, true_or, List.append_nil]

/-! ## Dependency edges of a formula -/

/-- C15. From every reachable sheet, when `set_cell(A, text)` with a formula
text that is not the content A has returns: the outgoing edges of A are the
addresses the tokens of the formula name, one per cell-reference token and one
per address of the block of each range token, up to the end of the text or
the first lexical error (last token first; a larger bound on the number of
tokens gives the same addresses); each of these addresses has a cell in the
store, without content when the store had no cell there and it is not A; the
outgoing edges of the other cells are as before. The formula `SUM(X:Y)` names
the block between its corners, the name of a cell that cell. After
`A1 := "=SUM(B1:B3)"` on the empty sheet A1 has the edges B3, B2, B1 and the
value 0, and `B2 := 5` then changes the value of A1 to 5. But after
`B1 := "=B2"`, `A1 := "=SUM(B1:B2)"` the edit `B2 := 5` leaves A1 with the
Cyclic-reference error, although A1 has the edges B2, B1 and `SUM(B1:B2)`
evaluates to 10 against the sheet. -/
theorem C15_edges_cover_the_formula (L : Libc) (fuel : Nat) (s s1 : Sheet) (c r : Int)
    (text : List Char) (c0 : Char) (t0 : List Char) (hreach : Reachable L s)
    (htrim : trim text = c0 :: t0) (hform : is_formula_text (c0 :: t0) = true)
    (hdiff : ∀ x, lookup s.cells (c, r) = some x → x.content ≠ some text)
    (h : set_cell L fuel s c r (some text) = .ok s1) :
    (deps_of s1.cells (c, r) = (refs_of fuel ((stored_content (c0 :: t0)).drop 1)).reverse ∧
      (∀ m, fuel ≤ m → refs_of m ((stored_content (c0 :: t0)).drop 1)
        = refs_of fuel ((stored_content (c0 :: t0)).drop 1)) ∧
      (∀ a ∈ refs_of fuel ((stored_content (c0 :: t0)).drop 1),
        ∃ x, lookup s1.cells a = some x ∧
          (lookup s.cells a = none → a ≠ (c, r) → x.content = none)) ∧
      (∀ b, b ≠ (c, r) → deps_of s1.cells b = deps_of s.cells b)) ∧
    (∀ k c1 r1 c2 r2 : Nat, c1 < 26 → r1 < 256 → c2 < 26 → r2 < 256 →
      refs_of (k + 5) (call_text "SUM".toList c1 r1 c2 r2) = block c1 r1 c2 r2) ∧
    (∀ k col row : Nat, col < 26 → row < 256 →
      refs_of (k + 2) (cell_name col row) = [((col : Int), (row : Int))]) ∧
    deps_after (set_cells Libc.sample 12 Sheet.empty [(0, 0, "=SUM(B1:B3)".toList)]) (0, 0)
      = .ok [(1, 2), (1, 1), (1, 0)] ∧
    content_after (set_cells Libc.sample 12 Sheet.empty [(0, 0, "=SUM(B1:B3)".toList)]) (1, 1)
      = .ok none ∧
    cached_after (set_cells Libc.sample 12 Sheet.empty [(0, 0, "=SUM(B1:B3)".toList)]) (0, 0)
      = .ok (.num 0) ∧
    cached_after (set_cells Libc.sample 12 Sheet.empty range_edits) (0, 0) = .ok (.num 5) ∧
    deps_after (set_cells Libc.sample 12 Sheet.empty range_diamond_edits) (0, 0)
      = .ok [(1, 1), (1, 0)] ∧
    cached_after (set_cells Libc.sample 12 Sheet.empty range_diamond_edits) (1, 0)
      = .ok (.num 5) ∧
    cached_after (set_cells Libc.sample 12 Sheet.empty range_diamond_edits) (1, 1)
      = .ok (.num 5) ∧
    formula_after Libc.sample 12 (set_cells Libc.sample 12 Sheet.empty range_diamond_edits)
      "SUM(B1:B2)".toList = .ok (.num 10) ∧
    cached_after (set_cells Libc.sample 12 Sheet.empty range_diamond_edits) (0, 0)
      = .ok errExprCyclicRef := by
  have hg := Reachable_graph L s hreach
  obtain ⟨g1, g2, g3, _, g5, g6, _⟩ :=
    set_cell_edges L fuel s s1 c r text c0 t0 hg.1 hg.2 htrim hform hdiff h
  refine ⟨⟨g1, g2, ?_, g6⟩, ?_, ?_, by decide!, by decide!, by decide!, by decide!, by decide!,
    by decide!, by decide!, by decide!, by decide!⟩
  · intro a ha
    obtain ⟨x, hx⟩ := Option.isSome_iff_exists.mp (g3 a ha)
    refine ⟨x, hx, ?_⟩
    intro hnone hne
    have hc := g5 a hne
    simp only [content_at, hx, hnone, Option.bind_some, Option.bind_none] at hc
    exact hc
  · intro k c1 r1 c2 r2 hc1 hr1 hc2 hr2
    rw [show "SUM".toList = 'S' :: ['U', 'M'] from rfl]
    exact refs_of_range_call k 'S' ['U', 'M']
      ⟨"SUM".toList, some .sum_range, .sum_eval, tokRangeFunc, 1, 1⟩ c1 r1 c2 r2 hc1 hr1 hc2 hr2
      (by decide) (by decide) (by decide) (by decide) (by decide) rfl
  · intro k col row hc hr
    exact refs_of_cell_name k col row hc hr

/-- The edit `A1 := "=SUM(B1:B3)"` on the empty sheet: the edges of A1. -/
theorem C15_edges_cover_the_formula_witness :
    deps_of ((set_cell Libc.sample 12 Sheet.empty 0 0 (some "=SUM(B1:B3)".toList)).get_or
        Sheet.empty).cells (0, 0)
      = (refs_of 12 ((stored_content "=SUM(B1:B3)".toList).drop 1)).reverse :=
  (C15_edges_cover_the_formula Libc.sample 12 Sheet.empty
    ((set_cell Libc.sample 12 Sheet.empty 0 0 (some "=SUM(B1:B3)".toList)).get_or Sheet.empty)
    0 0 "=SUM(B1:B3)".toList '=' "SUM(B1:B3)".toList Reachable.empty (by decide) (by decide)
    (fun x hx => absurd hx (by simp [Sheet.empty, lookup]))
    (by decide!)).1.1

/-! ## Three operands, parentheses -/

/-- A term of three factors `a op b op2 c`: the operators are applied from
the left. -/
theorem eval_term_ternary (L : Libc) (cells : List Cell) (f1 f2 f3 n : Nat)
    (lx lx1 lx2 lx3 : Lexer) (v v2 v3 : Value) (hf1 : f1 ≤ n) (hf2 : f2 ≤ n) (hf3 : f3 ≤ n)
    (h1 : eval_factor L cells f1 lx = .ok (v, lx1)) (hv : v.isError = false)
    (hop : lx1.tok_type = tokMul ∨ lx1.tok_type = tokDiv ∨ lx1.tok_type = tokMod)
    (h2 : eval_factor L cells f2 (get_token lx1) = .ok (v2, lx2)) (hv2 : v2.isError = false)
    (hop2 : lx2.tok_type = tokMul ∨ lx2.tok_type = tokDiv ∨ lx2.tok_type = tokMod)
    (h3 : eval_factor L cells f3 (get_token lx2) = .ok (v3, lx3)) (hv3 : v3.isError = false)
    (hend : ¬ (lx3.tok_type = tokMul ∨ lx3.tok_type = tokDiv ∨ lx3.tok_type = tokMod))
    (hfree : frees_cached v v2 = false)
    (hfree2 : frees_cached (mul_apply lx1.tok_type v v2) v3 = false) :
    eval_term L cells (n + 3) lx
      = .ok (mul_apply lx2.tok_type (mul_apply lx1.tok_type v v2) v3, lx3) := by
  obtain ⟨k, rfl⟩ := eval_factor_fuel_pos L cells n _ _ (eval_factor_mono L cells f3 n hf3 _ _ h3)
  rw [eval_term, eval_factor_mono L cells f1 (k + 1 + 2) (by omega) _ _ h1]
  simp only [hv, Bool.false_eq_true, if_false]
  rw [eval_term_loop, if_pos hop, eval_factor_mono L cells f2 (k + 1 + 1) (by omega) _ _ h2]
  simp only [hv2, hfree, Bool.false_eq_true, if_false]
  rw [eval_term_loop, if_pos hop2, eval_factor_mono L cells f3 (k + 1) hf3 _ _ h3]
  simp only [hv3, hfree2, Bool.false_eq_true, if_false]
  exact eval_term_loop_end L cells k _ lx3 hend

/-- A sum of three terms `a op b op2 c`: the operators are applied from the
left. -/
theorem eval_expr1_ternary (L : Libc) (cells : List Cell) (f1 f2 f3 n : Nat)
    (lx lx1 lx2 lx3 : Lexer) (v v2 v3 r1 r2 : Value) (hf1 : f1 ≤ n) (hf2 : f2 ≤ n)
    (hf3 : f3 ≤ n)
    (h1 : eval_term L cells f1 lx = .ok (v, lx1)) (hv : v.isError = false)
    (hop : lx1.tok_type = tokPlus ∨ lx1.tok_type = tokMinus)
    (h2 : eval_term L cells f2 (get_token lx1) = .ok (v2, lx2)) (hv2 : v2.isError = false)
    (hres : add_apply lx1.tok_type v v2 = .ok r1)
    (hop2 : lx2.tok_type = tokPlus ∨ lx2.tok_type = tokMinus)
    (h3 : eval_term L cells f3 (get_token lx2) = .ok (v3, lx3)) (hv3 : v3.isError = false)
    (hres2 : add_apply lx2.tok_type r1 v3 = .ok r2)
    (hend : ¬ (lx3.tok_type = tokPlus ∨ lx3.tok_type = tokMinus))
    (hfree : frees_cached v v2 = false) (hfree2 : frees_cached r1 v3 = false) :
    eval_expr1 L cells (n + 3) lx = .ok (r2, lx3) := by
  obtain ⟨k, rfl⟩ := eval_term_fuel_pos L cells n _ _ (eval_term_mono L cells f3 n hf3 _ _ h3)
  rw [eval_expr1, eval_term_mono L cells f1 (k + 1 + 2) (by omega) _ _ h1]
  simp only [hv, Bool.false_eq_true, if_false]
  rw [eval_expr1_loop, if_pos hop, eval_term_mono L cells f2 (k + 1 + 1) (by omega) _ _ h2]
  simp only [hv2, hfree, Bool.false_eq_true, if_false, hres]
  rw [eval_expr1_loop, if_pos hop2, eval_term_mono L cells f3 (k + 1) hf3 _ _ h3]
  simp only [hv3, hfree2, Bool.false_eq_true, if_false, hres2]
  exact eval_expr1_loop_end L cells k _ lx3 hend

/-- A parenthesised expression as a factor: its value, with the lexer after
the closing parenthesis. -/
theorem eval_factor_paren (L : Libc) (cells : List Cell) (f n : Nat) (lx lx1 : Lexer)
    (v : Value) (hf : f ≤ n) (hlp : lx.tok_type = tokLParen)
    (h : eval_expr L cells f (get_token lx) = .ok (v, lx1)) (hv : v.isError = false)
    (hrp : lx1.tok_type = tokRParen) :
    eval_factor L cells (n + 1) lx = .ok (v, get_token lx1) := by
  rw [eval_factor, eval_signs_none _ _ _ (by simp [hlp]) (by simp [hlp])]
  simp only [hlp, eval_expr_mono L cells f n hf _ _ h, hv, Bool.false_eq_true, if_false,
    expect_token, hrp, ne_eq, not_true_eq_false, Bool.not_true, apply_sign_false]

/-! ## Precedence and associativity -/

theorem add_apply_num (op : TokenType) (a b : ℚ) (hop : op = tokPlus ∨ op = tokMinus) :
    add_apply op (.num a) (.num b) = .ok (.num (if op = tokPlus then a + b else a - b)) := by
  rcases hop with rfl | rfl <;> simp [add_apply, is_str_value, to_num, make_num]

/-- C21. For any three operands (factors: literals, references, calls,
parenthesised expressions) that evaluate to the Numbers a, b, c, with the
operator tokens between them as named and the text ending after the third:
`a+b*c` evaluates to a + (b × c), `a*b+c` to (a × b) + c, `a-b-c` to
(a − b) − c, `a/b/c` to the division of the result of `a/b` by c, which is
the Number (a ÷ b) ÷ c when b and c are not 0, and `a+b<c` to 1 when
a + b < c and to 0 otherwise; `(a+b)*c` evaluates to (a + b) × c. For the
literals 2, 3, 4 and others the formulas are evaluated. -/
theorem C21_precedence_and_associativity (L : Libc) (cells : List Cell) (n fa fb fc : Nat)
    (lx l1 l2 l3 : Lexer) (a b c : ℚ) (hfa : fa ≤ n) (hfb : fb ≤ n) (hfc : fc ≤ n)
    (ha : eval_factor L cells fa lx = .ok (.num a, l1))
    (hb : eval_factor L cells fb (get_token l1) = .ok (.num b, l2))
    (hc : eval_factor L cells fc (get_token l2) = .ok (.num c, l3))
    (hend : l3.tok_type = tokEnd) :
    (l1.tok_type = tokPlus → l2.tok_type = tokMul →
      eval_expr L cells (n + 9) lx = .ok (.num (a + b * c), l3)) ∧
    (l1.tok_type = tokMul → l2.tok_type = tokPlus →
      eval_expr L cells (n + 9) lx = .ok (.num (a * b + c), l3)) ∧
    (l1.tok_type = tokMinus → l2.tok_type = tokMinus →
      eval_expr L cells (n + 9) lx = .ok (.num (a - b - c), l3)) ∧
    (l1.tok_type = tokDiv → l2.tok_type = tokDiv →
      eval_expr L cells (n + 9) lx
        = .ok (mul_apply tokDiv (mul_apply tokDiv (.num a) (.num b)) (.num c), l3) ∧
      (b ≠ 0 → c ≠ 0 → eval_expr L cells (n + 9) lx = .ok (.num (a / b / c), l3))) ∧
    (l1.tok_type = tokPlus → l2.tok_type = tokLt →
      eval_expr L cells (n + 9) lx = .ok (.num (if a + b < c then 1 else 0), l3)) ∧
    (∀ (q q1 q2 q3 : Lexer), q.tok_type = tokLParen →
      eval_factor L cells fa (get_token q) = .ok (.num a, q1) → q1.tok_type = tokPlus →
      eval_factor L cells fb (get_token q1) = .ok (.num b, q2) → q2.tok_type = tokRParen →
      (get_token q2).tok_type = tokMul →
      eval_factor L cells fc (get_token (get_token q2)) = .ok (.num c, q3) →
      q3.tok_type = tokEnd →
      eval_expr L cells (n + 9) q = .ok (.num ((a + b) * c), q3)) ∧
    value_of Libc.sample [] 12 "2+3*4".toList = .ok (.num 14) ∧
    value_of Libc.sample [] 12 "2*3+4".toList = .ok (.num 10) ∧
    value_of Libc.sample [] 12 "10-4-3".toList = .ok (.num 3) ∧
    value_of Libc.sample [] 12 "8/4/2".toList = .ok (.num 1) ∧
    value_of Libc.sample [] 12 "1+2<4".toList = .ok (.num 1) ∧
    value_of Libc.sample [] 12 "2<1+2".toList = .ok (.num 1) ∧
    value_of Libc.sample [] 12 "(2+3)*4".toList = .ok (.num 20) ∧
    value_of Libc.sample [] 12 "1.5+2*2".toList = .ok (.num (11 / 2)) := by
  have hnum : ∀ x : ℚ, (Value.num x).isError = false := fun _ => rfl
  have he3 : ¬ (l3.tok_type = tokMul ∨ l3.tok_type = tokDiv ∨ l3.tok_type = tokMod) := by
    simp [hend]
  have he3p : ¬ (l3.tok_type = tokPlus ∨ l3.tok_type = tokMinus) := by simp [hend]
  have he3r : is_relop l3.tok_type = false := by simp [hend, is_relop]
  refine ⟨?_, ?_, ?_, ?_, ?_, ?_, by decide!, by decide!, by decide!, by decide!, by decide!,
    by decide!, by decide!, by decide!⟩
  · intro hp hm
    have t1 := eval_term_single L cells n lx l1 _ (eval_factor_mono L cells fa n hfa _ _ ha)
      (by simp [hp])
    have t2 := eval_term_binary L cells fb fc n _ l2 l3 _ _ hfb hfc hb (hnum b)
      (Or.inl hm) hc (hnum c) he3 rfl
    have hm2 : (mul_apply l2.tok_type (.num b) (.num c)) = .num (b * c) := by
      simp [hm, mul_apply, to_num, make_num]
    rw [hm2] at t2
    have e1 := eval_expr1_binary L cells (n + 1) (n + 2) (n + 2) lx l1 l3 _ _ _ (by omega)
      (by omega) t1 (hnum a) (Or.inl hp) t2 (hnum _) (add_apply_num _ a (b * c) (Or.inl hp))
      he3p rfl
    simp only [hp, if_true] at e1
    exact eval_expr_mono L cells (n + 2 + 2 + 1) (n + 9) (by omega) _ _
      (eval_expr_single L cells _ lx l3 _ e1 he3r)
  · intro hm hp
    have t1 := eval_term_binary L cells fa fb n lx l1 l2 _ _ hfa hfb ha (hnum a)
      (Or.inl hm) hb (hnum b) (by simp [hp]) rfl
    have hm2 : (mul_apply l1.tok_type (.num a) (.num b)) = .num (a * b) := by
      simp [hm, mul_apply, to_num, make_num]
    rw [hm2] at t1
    have t2 := eval_term_single L cells n _ l3 _ (eval_factor_mono L cells fc n hfc _ _ hc) he3
    have e1 := eval_expr1_binary L cells (n + 2) (n + 1) (n + 2) lx l2 l3 _ _ _ (by omega)
      (by omega) t1 (hnum _) (Or.inl hp) t2 (hnum c) (add_apply_num _ (a * b) c (Or.inl hp))
      he3p rfl
    simp only [hp, if_true] at e1
    exact eval_expr_mono L cells (n + 2 + 2 + 1) (n + 9) (by omega) _ _
      (eval_expr_single L cells _ lx l3 _ e1 he3r)
  · intro h1 h2
    have t1 := eval_term_single L cells n lx l1 _ (eval_factor_mono L cells fa n hfa _ _ ha)
      (by simp [h1])
    have t2 := eval_term_single L cells n _ l2 _ (eval_factor_mono L cells fb n hfb _ _ hb)
      (by simp [h2])
    have t3 := eval_term_single L cells n _ l3 _ (eval_factor_mono L cells fc n hfc _ _ hc) he3
    have e1 := eval_expr1_ternary L cells (n + 1) (n + 1) (n + 1) (n + 1) lx l1 l2 l3 _ _ _ _ _
      (le_refl _) (le_refl _) (le_refl _) t1 (hnum a) (Or.inr h1) t2 (hnum b)
      (add_apply_num _ a b (Or.inr h1)) (Or.inr h2) t3 (hnum c)
      (add_apply_num _ _ c (Or.inr h2)) he3p rfl rfl
    simp only [h1, h2, reduceCtorEq, if_false] at e1
    exact eval_expr_mono L cells (n + 1 + 3 + 1) (n + 9) (by omega) _ _
      (eval_expr_single L cells _ lx l3 _ e1 he3r)
  · intro h1 h2
    have t1 := eval_term_ternary L cells fa fb fc n lx l1 l2 l3 _ _ _ hfa hfb hfc ha (hnum a)
      (Or.inr (Or.inl h1)) hb (hnum b) (Or.inr (Or.inl h2)) hc (hnum c) he3 rfl
      (frees_cached_false _ _ (mul_apply_not_shared _ _ _ (Or.inr (Or.inl h1))) rfl)
    rw [h1, h2] at t1
    have key : ∀ r : Value, eval_term L cells (n + 3) lx = .ok (r, l3) →
        r.isError = false → eval_expr L cells (n + 9) lx = .ok (r, l3) := by
      intro r ht hr
      exact eval_expr_mono L cells (n + 3 + 1 + 1) (n + 9) (by omega) _ _
        (eval_expr_single L cells _ lx l3 _ (eval_expr1_single L cells _ lx l3 _ ht he3p) he3r)
    -- the value of the term may be the Divide-by-zero error, which `eval_expr1` returns
    have hgen : eval_expr L cells (n + 9) lx
        = .ok (mul_apply tokDiv (mul_apply tokDiv (.num a) (.num b)) (.num c), l3) := by
      cases hr : (mul_apply tokDiv (mul_apply tokDiv (.num a) (.num b)) (.num c)).isError with
      | false => exact key _ t1 hr
      | true =>
        obtain ⟨k, hk⟩ : ∃ k, n = k + 1 :=
          eval_factor_fuel_pos L cells n _ _ (eval_factor_mono L cells fc n hfc _ _ hc)
        subst hk
        have e1 : eval_expr1 L cells (k + 1 + 3 + 1) lx
            = .ok (mul_apply tokDiv (mul_apply tokDiv (.num a) (.num b)) (.num c), l3) := by
          rw [eval_expr1, t1]
          simp only [hr, if_true]
        have e2 : eval_expr L cells (k + 1 + 3 + 1 + 1) lx
            = .ok (mul_apply tokDiv (mul_apply tokDiv (.num a) (.num b)) (.num c), l3) := by
          rw [eval_expr, e1]
          simp only [hr, if_true]
        exact eval_expr_mono L cells _ (k + 1 + 9) (by omega) _ _ e2
    refine ⟨hgen, ?_⟩
    intro hb0 hc0
    rw [hgen]
    simp [mul_apply, to_num, make_num, hb0, hc0]
  · intro hp hlt
    have t1 := eval_term_single L cells n lx l1 _ (eval_factor_mono L cells fa n hfa _ _ ha)
      (by simp [hp])
    have t2 := eval_term_single L cells n _ l2 _ (eval_factor_mono L cells fb n hfb _ _ hb)
      (by simp [hlt])
    have t3 := eval_term_single L cells n _ l3 _ (eval_factor_mono L cells fc n hfc _ _ hc) he3
    have e1 := eval_expr1_binary L cells (n + 1) (n + 1) (n + 1) lx l1 l2 _ _ _ (le_refl _)
      (le_refl _) t1 (hnum a) (Or.inl hp) t2 (hnum b) (add_apply_num _ a b (Or.inl hp))
      (by simp [hlt]) rfl
    simp only [hp, if_true] at e1
    have e2 := eval_expr1_single L cells _ _ l3 _ t3 he3p
    have e := eval_expr_binary L cells (n + 1 + 2) (n + 1 + 1) (n + 1 + 2) lx l2 l3 _ _
      (le_refl _) (by omega) e1 (hnum _) (by simp [hlt, is_relop]) e2 (hnum c) he3r rfl
    have hrel : rel_apply l2.tok_type (.num (a + b)) (.num c)
        = .num (if a + b < c then 1 else 0) := by
      rw [hlt]
      by_cases hlt2 : a + b < c
      · simp [rel_apply, Value.isNull, to_num, bool_num, make_num, hlt2]
      · have : ¬ ((if c < a + b then (1 : Int) else 0) < 0) := by split <;> simp
        simp [rel_apply, Value.isNull, to_num, bool_num, make_num, hlt2, this]
    rw [hrel] at e
    exact eval_expr_mono L cells _ (n + 9) (by omega) _ _ e
  · intro q q1 q2 q3 hq h1 hq1 h2 hq2 hq2' h3 hq3
    have t1 := eval_term_single L cells n _ q1 _ (eval_factor_mono L cells fa n hfa _ _ h1)
      (by simp [hq1])
    have t2 := eval_term_single L cells n _ q2 _ (eval_factor_mono L cells fb n hfb _ _ h2)
      (by simp [hq2])
    have e1 := eval_expr1_binary L cells (n + 1) (n + 1) (n + 1) _ q1 q2 _ _ _ (le_refl _)
      (le_refl _) t1 (hnum a) (Or.inl hq1) t2 (hnum b) (add_apply_num _ a b (Or.inl hq1))
      (by simp [hq2]) rfl
    simp only [hq1, if_true] at e1
    have e2 := eval_expr_single L cells _ _ q2 _ e1 (by simp [hq2, is_relop])
    have f1 := eval_factor_paren L cells _ (n + 1 + 2 + 1) q q2 _ (le_refl _) hq e2 (hnum _) hq2
    have t := eval_term_binary L cells _ fc (n + 1 + 2 + 1 + 1) q _ q3 _ _ (le_refl _)
      (by omega) f1 (hnum _) (Or.inl hq2') h3 (hnum c) (by simp [hq3]) rfl
    have hm2 : mul_apply (get_token q2).tok_type (.num (a + b)) (.num c) = .num ((a + b) * c) := by
      simp [hq2', mul_apply, to_num, make_num]
    rw [hm2] at t
    exact eval_expr_mono L cells _ (n + 9) (by omega) _ _
      (eval_expr_single L cells _ q q3 _ (eval_expr1_single L cells _ q q3 _ t (by simp [hq3]))
        (by simp [hq3, is_relop]))

/-- The formula `2+3*4`: the product is formed first. -/
theorem C21_precedence_and_associativity_witness :
    eval_expr Libc.sample [] 11 (lexer_at "2+3*4".toList)
      = .ok (.num (2 + 3 * 4), ⟨tokEnd, ['4'], [], NUL, none⟩) :=
  (C21_precedence_and_associativity Libc.sample [] 2 2 2 2 (lexer_at "2+3*4".toList)
    ⟨tokPlus, ['2'], ['*', '4'], '3', none⟩ ⟨tokMul, ['3'], [], '4', none⟩
    ⟨tokEnd, ['4'], [], NUL, none⟩ 2 3 4 (by decide) (by decide) (by decide) (by decide!)
    (by decide!) (by decide!) (by decide)).1 (by decide) (by decide)

/-! ## Unbalanced parentheses -/

/-- C22. A `(` without its `)` at the place where the `)` is required gives
the Expected-`)` error: `(1+2`, `SIN(1`, `SUM(A1:A2`, `2*(3`. But a `)` without
a `(` is not rejected, `1+2)` and `(1+2))` evaluate to the Number 3: the
evaluator stops after the expression and the text that follows is not looked
at. For the same reason `1 (`, a `(` without a `)`, evaluates to the Number 1. -/
theorem C22_unbalanced_parentheses_accepted :
    value_of Libc.sample [] 12 "(1+2".toList = .ok errExprExpectRParen ∧
    value_of Libc.sample [] 12 "SIN(1".toList = .ok errExprExpectRParen ∧
    value_of Libc.sample [] 12 "SUM(A1:A2".toList = .ok errExprExpectRParen ∧
    value_of Libc.sample [] 12 "2*(3".toList = .ok errExprExpectRParen ∧
    value_of Libc.sample [] 12 "1+2)".toList = .ok (.num 3) ∧
    value_of Libc.sample [] 12 "(1+2))".toList = .ok (.num 3) ∧
    value_of Libc.sample [] 12 "1 (".toList = .ok (.num 1) ∧
    after_text 12 "=1+2)".toList = .ok (some "=1+2)".toList, .num 3, [], true) := by
  decide!

/-! ## A range function on something that is not a range -/

/-- C23. `SUM(A1)` is not rejected: the token `A1` is handed to `parse_range`,
which reads the second corner from the empty rest of the token and returns the
columns -65 to 0 and the rows -1 to 0; `process_range` is called with them and
`find_cell(-65, -1)` indexes `hash_table` with a negative number. The same
happens for the other range functions, for a number (`SUM(5)`) and for a
string (`SUM("x")`). An argument that is followed by more than `)`, as in
`SUM(A1+1)`, gives the Expected-`)` error. -/
theorem C23_range_function_without_range :
    parse_range "A1".toList = (-65, -1, 0, 0) ∧
    parse_range "5".toList = (-65, -1, -65, -1) ∧
    parse_range "x".toList = (-65, -1, 23, -1) ∧
    find_cell [] (-65) (-1) = .undefined ∧
    process_range [] (-65) (-1) 0 0 (AccumState.mk 0 0 0) (some (call_accum .sum_range))
      (some (call_range_eval .sum_eval)) = .undefined ∧
    value_of Libc.sample [] 12 "SUM(A1)".toList = .undefined ∧
    value_of Libc.sample [] 12 "AVG(A1)".toList = .undefined ∧
    value_of Libc.sample [] 12 "COUNT(A1)".toList = .undefined ∧
    value_of Libc.sample [] 12 "MAX(A1)".toList = .undefined ∧
    value_of Libc.sample [] 12 "MIN(A1)".toList = .undefined ∧
    value_of Libc.sample [] 12 "SUM(5)".toList = .undefined ∧
    value_of Libc.sample [] 12 ("SUM(".toList ++ quoted ['x'] ++ [')']) = .undefined ∧
    value_of Libc.sample [] 12 "SUM(A1+1)".toList = .ok errExprExpectRParen := by
  decide!

/-! ## The arguments of a scalar call -/

theorem args_read_cons (L : Libc) (cells : List Cell) (f : Nat) (lx : Lexer)
    (a : Value × Lexer) (r : List (Value × Lexer))
    (h : args_read L cells f lx (a :: r) = true) :
    eval_expr L cells f lx = .ok a ∧ a.1.isError = false ∧
    (r = [] → a.2.tok_type ≠ tokComma) ∧
    (r ≠ [] → a.2.tok_type = tokComma ∧ args_read L cells f (get_token a.2) r = true) := by
  cases r with
  | nil =>
    simp only [args_read, Bool.and_eq_true, decide_eq_true_eq, Bool.not_eq_true'] at h
    exact ⟨h.1.1, h.1.2, fun _ => h.2, fun hn => absurd rfl hn⟩
  | cons b t =>
    simp only [args_read, Bool.and_eq_true, decide_eq_true_eq, Bool.not_eq_true'] at h
    exact ⟨h.1.1.1, h.1.1.2, fun hn => by simp at hn, fun _ => ⟨h.1.2, h.2⟩⟩

/-- The argument loop on at most `MAX_FUNC_ARGS` arguments: all are stored. -/
theorem eval_args_all (L : Libc) (cells : List Cell) (f n : Nat) (hf : f ≤ n) :
    ∀ (l : List (Value × Lexer)) (lx : Lexer) (args0 : List Value),
      args_read L cells f lx l = true → args0.length + l.length ≤ MAX_FUNC_ARGS →
      eval_args L cells (n + l.length) args0 lx
        = .ok (none, args0 ++ l.map Prod.fst, last_lexer lx l) := by
  intro l
  induction l with
  | nil => intro lx args0 h; simp [args_read] at h
  | cons a r ih =>
    intro lx args0 h hlen
    obtain ⟨h1, h2, h3, h4⟩ := args_read_cons L cells f lx a r h
    have hlt : args0.length < MAX_FUNC_ARGS := by
      simp only [List.length_cons] at hlen
      omega
    simp only [List.length_cons]
    rw [show n + (r.length + 1) = (n + r.length) + 1 from rfl, eval_args, if_pos hlt,
      eval_expr_mono L cells f (n + r.length) (by omega) lx a h1]
    simp only [h2, Bool.false_eq_true, if_false]
    cases r with
    | nil =>
      rw [if_pos (h3 rfl)]
      simp [last_lexer]
    | cons b t =>
      obtain ⟨h5, h6⟩ := h4 (by simp)
      rw [if_neg (by simp [h5])]
      have := ih (get_token a.2) (args0 ++ [a.1]) h6 (by
        simp only [List.length_append, List.length_cons, List.length_nil] at hlen ⊢
        omega)
      rw [this]
      obtain ⟨z, hz⟩ : ∃ z, (b :: t).getLast? = some z :=
        ⟨_, List.getLast?_eq_getLast _ (by simp)⟩
      simp [last_lexer, List.getLast?_cons_cons, hz]

/-- The argument loop on more than `MAX_FUNC_ARGS` arguments in all:
`MAX_FUNC_ARGS` of them are stored, the others are not read. -/
theorem eval_args_full (L : Libc) (cells : List Cell) (f n : Nat) (hf : f ≤ n) :
    ∀ (l : List (Value × Lexer)) (lx : Lexer) (args0 : List Value),
      args_read L cells f lx l = true → args0.length ≤ MAX_FUNC_ARGS →
      MAX_FUNC_ARGS < args0.length + l.length →
      ∃ (args : List Value) (lx1 : Lexer),
        eval_args L cells (n + l.length) args0 lx = .ok (none, args, lx1) ∧
        args.length = MAX_FUNC_ARGS := by
  intro l
  induction l with
  | nil => intro lx args0 h; simp [args_read] at h
  | cons a r ih =>
    intro lx args0 h hle hlen
    obtain ⟨h1, h2, h3, h4⟩ := args_read_cons L cells f lx a r h
    simp only [List.length_cons] at hlen ⊢
    rw [show n + (r.length + 1) = (n + r.length) + 1 from rfl, eval_args]
    by_cases hlt : args0.length < MAX_FUNC_ARGS
    · rw [if_pos hlt, eval_expr_mono L cells f (n + r.length) (by omega) lx a h1]
      simp only [h2, Bool.false_eq_true, if_false]
      cases r with
      | nil =>
        simp only [List.length_nil] at hlen
        omega
      | cons b t =>
        obtain ⟨h5, h6⟩ := h4 (by simp)
        rw [if_neg (by simp [h5])]
        exact ih (get_token a.2) (args0 ++ [a.1]) h6
          (by simp only [List.length_append, List.length_cons, List.length_nil]; omega)
          (by simp only [List.length_append, List.length_cons, List.length_nil] at hlen ⊢; omega)
    · rw [if_neg hlt]
      exact ⟨args0, lx, rfl, by omega⟩

/-- The scalar-function case of `eval_factor` at a call without sign, given
what the argument loop returns: a wrong number of arguments gives the
Invalid-argument error whatever the arguments were; otherwise an argument
error is returned; otherwise the evaluator of the function is called and `)`
is expected. -/
theorem eval_factor_call (L : Libc) (cells : List Cell) (m : Nat) (lx lx2 : Lexer)
    (fn : Function) (err : Option Value) (args : List Value) (hcall : at_call lx fn = true)
    (hargs : eval_args L cells m [] (get_token (get_token lx)) = .ok (err, args, lx2)) :
    (args.length < fn.min_args ∨ args.length > fn.max_args →
      eval_factor L cells (m + 1) lx = .ok (errInvalidArg, lx2)) ∧
    (¬ (args.length < fn.min_args ∨ args.length > fn.max_args) → ∀ v, err = some v →
      eval_factor L cells (m + 1) lx = .ok (apply_sign false v, lx2)) ∧
    (¬ (args.length < fn.min_args ∨ args.length > fn.max_args) → err = none →
      ∀ v, call_scalar L fn.pfn_eval args = .ok v → lx2.tok_type = tokRParen →
      eval_factor L cells (m + 1) lx = .ok (v, get_token lx2)) ∧
    (¬ (args.length < fn.min_args ∨ args.length > fn.max_args) → err = none →
      ∀ v, call_scalar L fn.pfn_eval args = .ok v → lx2.tok_type ≠ tokRParen →
      eval_factor L cells (m + 1) lx = .ok (errExprExpectRParen, lx2)) := by
  simp only [at_call, Bool.and_eq_true, decide_eq_true_eq] at hcall
  obtain ⟨⟨h1, h2⟩, h3⟩ := hcall
  have he : expect_token (get_token lx) tokLParen = (true, get_token (get_token lx)) := by
    rw [expect_token, if_neg (by simp [h2])]
  have hs : apply_sign false errExprExpectRParen = errExprExpectRParen := rfl
  have hi : apply_sign false errInvalidArg = errInvalidArg := rfl
  rw [eval_factor, eval_signs_none _ _ _ (by simp [h1]) (by simp [h1])]
  simp only [h1, he, Bool.not_true, Bool.false_eq_true, if_false, hargs, h3, hs, hi]
  refine ⟨?_, ?_, ?_, ?_⟩
  · intro hbad
    rw [if_pos hbad]
  · intro hok v hv
    rw [if_neg hok, hv]
  · intro hok hnone v hv hrp
    rw [if_neg hok, hnone]
    simp only [hv, expect_token, hrp, ne_eq, not_true_eq_false, if_false, Bool.not_true,
      Bool.false_eq_true, apply_sign_false]
  · intro hok hnone v hv hrp
    rw [if_neg hok, hnone]
    simp only [hv, expect_token, ne_eq, hrp, not_false_eq_true, if_true, Bool.not_false]

/-- The bounds of the function table: every scalar function takes one
argument, except `IF`, which takes three. -/
theorem scalar_arities :
    ∀ g ∈ functions, g.tok_type = tokScalarFunc →
      (g.min_args = 1 ∧ g.max_args = 1) ∨
      (g.name = "IF".toList ∧ g.min_args = 3 ∧ g.max_args = 3) := by
  decide

/-! ## Arity -/

/-- C24. At a call of a scalar function of the table whose k arguments all
evaluate to values that are not errors, with k below `min_args` or above
`max_args`, the call evaluates to the Invalid-argument error; of more than
`MAX_FUNC_ARGS` arguments only the first five are read. The bounds are 1..1
for every scalar function but `IF`, which has 3..3. `SIN(1,2)`, `IF(1,2)`,
`ABS(1,2,3,4,5,6,7)` give the error; so does `HEX2DEC(1,2)`, whose evaluator,
had it run on the Number 1, would not have returned a value. -/
theorem C24_arity_is_enforced (L : Libc) (cells : List Cell) (f n : Nat) (lx : Lexer)
    (fn : Function) (l : List (Value × Lexer)) (hf : f ≤ n) (hfn : fn ∈ functions)
    (hcall : at_call lx fn = true)
    (hargs : args_read L cells f (get_token (get_token lx)) l = true)
    (hk : l.length < fn.min_args ∨ fn.max_args < l.length) :
    (∃ lx1, eval_factor L cells (n + l.length + 1) lx = .ok (errInvalidArg, lx1)) ∧
    (∀ g ∈ functions, g.tok_type = tokScalarFunc →
      (g.min_args = 1 ∧ g.max_args = 1) ∨
      (g.name = "IF".toList ∧ g.min_args = 3 ∧ g.max_args = 3)) ∧
    value_of Libc.sample [] 12 "SIN(1,2)".toList = .ok errInvalidArg ∧
    value_of Libc.sample [] 12 "IF(1,2)".toList = .ok errInvalidArg ∧
    value_of Libc.sample [] 12 "IF(1,2,3,4)".toList = .ok errInvalidArg ∧
    value_of Libc.sample [] 14 "ABS(1,2,3,4,5,6,7)".toList = .ok errInvalidArg ∧
    value_of Libc.sample [] 12 "HEX2DEC(1,2)".toList = .ok errInvalidArg ∧
    value_of Libc.sample [] 12 "HEX2DEC(1)".toList = .undefined := by
  refine ⟨?_, scalar_arities, by decide!, by decide!, by decide!, by decide!, by decide!,
    by decide!⟩
  have hmax : fn.max_args < MAX_FUNC_ARGS ∧ fn.min_args < MAX_FUNC_ARGS := by
    have : ∀ g ∈ functions, g.max_args < MAX_FUNC_ARGS ∧ g.min_args < MAX_FUNC_ARGS := by decide
    exact this fn hfn
  by_cases hle : l.length ≤ MAX_FUNC_ARGS
  · have ha := eval_args_all L cells f n hf l _ [] hargs (by simpa using hle)
    have hc := (eval_factor_call L cells _ lx _ fn _ _ hcall ha).1 (by
      simp only [List.nil_append, List.length_map]
      exact hk)
    exact ⟨_, hc⟩
  · obtain ⟨args, lx1, ha, hlen⟩ := eval_args_full L cells f n hf l _ [] hargs (by simp)
      (by simp only [List.length_nil, zero_add]; omega)
    have hc := (eval_factor_call L cells _ lx _ fn _ _ hcall ha).1 (by
      right
      rw [hlen]
      exact hmax.1)
    exact ⟨_, hc⟩

/-- The call `SIN(1,2)`: two arguments for a function of one. -/
theorem C24_arity_is_enforced_witness :
    ∃ lx1, eval_factor Libc.sample [] (4 + 2 + 1) (lexer_at "SIN(1,2)".toList)
      = .ok (errInvalidArg, lx1) :=
  (C24_arity_is_enforced Libc.sample [] 4 4 (lexer_at "SIN(1,2)".toList) fn_SIN
    [(.num 1, ⟨tokComma, ['1'], [')'], '2', some fn_SIN⟩),
      (.num 2, ⟨tokRParen, ['2'], [], NUL, some fn_SIN⟩)]
    (by decide) (by decide) (by decide!) (by decide!) (by decide)).1

/-! ## IF -/

/-- C25. At a call `IF(x, a, b)` whose three arguments evaluate to values
that are not errors: when x is a Number other than 0 the call evaluates to a,
when x is the Number 0 to b (the value as it is, of whatever type), and when
x is not a Number (a String, a Text or Null) to the Expected-numeric-value
error. -/
theorem C25_if_selects_a_branch (L : Libc) (cells : List Cell) (f n : Nat)
    (lx l1 l2 l3 : Lexer) (x a b : Value) (hf : f ≤ n) (hcall : at_call lx fn_IF = true)
    (hargs : args_read L cells f (get_token (get_token lx)) [(x, l1), (a, l2), (b, l3)] = true)
    (hrp : l3.tok_type = tokRParen) :
    (∀ c : ℚ, x = .num c → c ≠ 0 → eval_factor L cells (n + 4) lx = .ok (a, get_token l3)) ∧
    (x = .num 0 → eval_factor L cells (n + 4) lx = .ok (b, get_token l3)) ∧
    (x.isNum = false →
      eval_factor L cells (n + 4) lx = .ok (errExprExpectNumeric, get_token l3)) ∧
    find_function "IF".toList = some fn_IF ∧
    value_of Libc.sample [] 12 "IF(1,2,3)".toList = .ok (.num 2) ∧
    value_of Libc.sample [] 12 "IF(0,2,3)".toList = .ok (.num 3) ∧
    value_of Libc.sample [] 12 ("IF(2>1,".toList ++ quoted ['x'] ++ ",3)".toList)
      = .ok (.str ['x']) ∧
    value_of Libc.sample [] 12 "IF(0,2,A1)".toList = .ok .null ∧
    value_of Libc.sample [] 12 ("IF(".toList ++ quoted ['a'] ++ ",2,3)".toList)
      = .ok errExprExpectNumeric ∧
    value_of Libc.sample [] 12 "IF(A1,2,3)".toList = .ok errExprExpectNumeric := by
  have ha := eval_args_all L cells f n hf [(x, l1), (a, l2), (b, l3)] _ [] hargs (by simp [MAX_FUNC_ARGS])
  simp only [List.length_cons, List.length_nil, List.nil_append, List.map_cons, List.map_nil,
    last_lexer, List.getLast?_cons_cons, List.getLast?_singleton] at ha
  have hc := (eval_factor_call L cells _ lx _ fn_IF _ _ hcall ha).2.2.1
    (by simp [fn_IF]) rfl (if_eval [x, a, b]) rfl hrp
  refine ⟨?_, ?_, ?_, by decide, by decide!, by decide!, by decide!, by decide!, by decide!,
    by decide!⟩
  · intro c hx hc0
    rw [hc, hx]
    simp [if_eval, hc0]
  · intro hx
    rw [hc, hx]
    simp [if_eval]
  · intro hx
    rw [hc]
    cases x <;> simp [if_eval, Value.isNum] at hx ⊢

/-- The call `IF(1,2,3)`: the first argument is not 0, the second is returned. -/
theorem C25_if_selects_a_branch_witness :
    eval_factor Libc.sample [] (4 + 4) (lexer_at "IF(1,2,3)".toList)
      = .ok (.num 2, get_token ⟨tokRParen, ['3'], [], NUL, some fn_IF⟩) :=
  (C25_if_selects_a_branch Libc.sample [] 4 4 (lexer_at "IF(1,2,3)".toList)
    ⟨tokComma, ['1'], [',', '3', ')'], '2', some fn_IF⟩
    ⟨tokComma, ['2'], [')'], '3', some fn_IF⟩
    ⟨tokRParen, ['3'], [], NUL, some fn_IF⟩ (.num 1) (.num 2) (.num 3)
    (by decide) (by decide!) (by decide!) (by decide)).1 1 rfl (by norm_num)

/-! ## Base conversions -/

theorem strtol_digits_bits (bs : List Bool) :
    ∀ (n : Nat) (seen : Bool),
      strtol_digits 2 n seen (bits_text bs) = (bits_val n bs, seen || !bs.isEmpty, []) := by
  induction bs with
  | nil => intro n seen; simp [bits_text, strtol_digits, bits_val]
  | cons b t ih =>
    intro n seen
    have hd : digit_of 2 (if b then '1' else '0') = some (if b then 1 else 0) := by
      cases b <;> decide
    have ih2 := ih (n * 2 + (if b then 1 else 0)) true
    simp only [bits_text] at ih2
    simp only [bits_text, List.map_cons, strtol_digits, hd, ih2, bits_val, List.foldl_cons,
      List.isEmpty_cons, Bool.not_false, Bool.or_true, Bool.true_or]

theorem clamp_long_small (n : Nat) (h : n < 2 ^ 31) : clamp_long (n : Int) = (n : Int) := by
  unfold clamp_long LONG_BITS
  have h1 : (n : Int) < 2 ^ 31 := by exact_mod_cast h
  have h2 : (0 : Int) ≤ (n : Int) := Int.natCast_nonneg n
  norm_num
  omega

theorem strtol_bits (bs : List Bool) :
    strtol (bits_text bs) 2 = (clamp_long (bits_val 0 bs : Int), []) := by
  have hsp : (bits_text bs).dropWhile isspace = bits_text bs := by
    cases bs with
    | nil => rfl
    | cons b t => cases b <;> simp [bits_text, List.dropWhile, show isspace '0' = false by decide,
        show isspace '1' = false by decide]
  have hh : (bits_text bs).head? ≠ some '-' ∧ (bits_text bs).head? ≠ some '+' := by
    cases bs with
    | nil => simp [bits_text]
    | cons b t => cases b <;> simp [bits_text]
  cases bs with
  | nil =>
    have h0 : clamp_long 0 = 0 := clamp_long_small 0 (by norm_num)
    simp [strtol, bits_text, strtol_digits, bits_val, h0]
  | cons b t =>
    have hd := strtol_digits_bits (b :: t) 0 false
    simp only [strtol, hsp, hh.1, hh.2, or_self, if_false, decide_False,
      show ¬ ((2 : Nat) = 16) by decide, false_and, hd, List.isEmpty_cons, Bool.not_false,
      Bool.or_true, if_true, Bool.false_eq_true]

theorem bits_val_lt (bs : List Bool) : ∀ n : Nat, bits_val n bs < (n + 1) * 2 ^ bs.length := by
  induction bs with
  | nil => intro n; simp [bits_val]
  | cons b t ih =>
    intro n
    have h := ih (n * 2 + (if b then 1 else 0))
    simp only [bits_val, List.foldl_cons, List.length_cons] at h ⊢
    have h2 : (n * 2 + (if b then 1 else 0) + 1) * 2 ^ t.length ≤ (n + 1) * 2 ^ (t.length + 1) := by
      rw [pow_succ]
      have : n * 2 + (if b then 1 else 0) + 1 ≤ (n + 1) * 2 := by cases b <;> simp <;> omega
      calc (n * 2 + (if b then 1 else 0) + 1) * 2 ^ t.length
          ≤ ((n + 1) * 2) * 2 ^ t.length := Nat.mul_le_mul_right _ this
        _ = (n + 1) * (2 ^ t.length * 2) := by ring
    omega

/-- `BIN2DEC` on binary digits: the number they denote, brought into the range
of `long` by `strtol` and cut to an `int`. -/
theorem bin2dec_text_bits (bs : List Bool) :
    bin2dec_text (bits_text bs)
      = .num ((wrap_int INT_BITS (clamp_long (bits_val 0 bs : Int)) : Int) : ℚ) := by
  simp [bin2dec_text, strtol_bits, make_num]

theorem bin2dec_text_short (bs : List Bool) (h : bs.length ≤ 15) :
    bin2dec_text (bits_text bs) = .num (bits_val 0 bs : ℚ) := by
  have h1 := bits_val_lt bs 0
  have h2 : 2 ^ bs.length ≤ 2 ^ 15 := Nat.pow_le_pow_right (by norm_num) h
  have h3 : bits_val 0 bs < 2 ^ 15 := by omega
  rw [bin2dec_text_bits, clamp_long_small _ (by omega),
    wrap_int_small INT_BITS _ (by decide) (by simpa [INT_BITS] using h3)]
  simp

/-- C26. `BIN2DEC` of a string of at most 15 binary digits is the Number the
digits denote in base 2, and `BIN2DEC(DEC2BIN(5))` is 5; of a longer string it
is that number brought into the range of `long` and cut to the 16 bits of an
`int` (16 digits `1` give -1). But `HEX2DEC` rejects every string:
`HEX2DEC("FF")` is the Invalid-argument error, not 255, because the test of
the argument is inverted (`if (is_str_value(arg)) return errInvalidArg`), and
so is `HEX2DEC(DEC2HEX(255))`; on an argument that is not string-like, as in
`HEX2DEC(255)`, `strtol` is handed a pointer read from a payload that holds
no text. -/
theorem C26_hex2dec_rejects_strings :
    (∀ bs : List Bool, bs.length ≤ 15 →
      bin2dec_eval (.str (bits_text bs)) = .num (bits_val 0 bs)) ∧
    (∀ bs : List Bool, bs.length ≤ 15 →
      bin2dec_eval (.text (bits_text bs)) = .num (bits_val 0 bs)) ∧
    (∀ bs : List Bool, bin2dec_eval (.str (bits_text bs))
      = .num ((wrap_int INT_BITS (clamp_long (bits_val 0 bs : Int)) : Int) : ℚ)) ∧
    (∀ bs : List Bool, bin2dec_eval (.text (bits_text bs))
      = .num ((wrap_int INT_BITS (clamp_long (bits_val 0 bs : Int)) : Int) : ℚ)) ∧
    value_of Libc.sample [] 12 ("BIN2DEC(".toList ++ quoted "1111111111111111".toList ++ [')'])
      = .ok (.num (-1)) ∧
    value_of Libc.sample [] 12 ("BIN2DEC(".toList ++ quoted "101".toList ++ [')'])
      = .ok (.num 5) ∧
    value_of Libc.sample [] 16 "BIN2DEC(DEC2BIN(5))".toList = .ok (.num 5) ∧
    value_of Libc.sample [] 12 "DEC2HEX(255)".toList = .ok (.str "ff".toList) ∧
    hex2dec_eval (.str "FF".toList) = .ok errInvalidArg ∧
    value_of Libc.sample [] 12 ("HEX2DEC(".toList ++ quoted "FF".toList ++ [')'])
      = .ok errInvalidArg ∧
    value_of Libc.sample [] 16 "HEX2DEC(DEC2HEX(255))".toList = .ok errInvalidArg ∧
    hex2dec_eval (.num 255) = .undefined ∧
    value_of Libc.sample [] 12 "HEX2DEC(255)".toList = .undefined := by
  refine ⟨fun bs h => bin2dec_text_short bs h, fun bs h => bin2dec_text_short bs h,
    bin2dec_text_bits, bin2dec_text_bits, by decide!, by decide!, by decide!, by decide!,
    by decide!, by decide!, by decide!, by decide!, by decide!⟩

/-- The binary digits `101`. -/
theorem C26_hex2dec_rejects_strings_witness :
    bin2dec_eval (.str (bits_text [true, false, true])) = .num (bits_val 0 [true, false, true]) :=
  C26_hex2dec_rejects_strings.1 [true, false, true] (by decide)

/-! ## ROUND -/

/-- C27. For a Number x that is not negative and with `x + 0.5` below 32768,
`ROUND(x)` is an integer within 1/2 of x. For a negative x it need not be:
`(int)(x + 0.5)` truncates toward zero, so `ROUND(-2.7)` is -2, at distance
7/10 from -2.7, where the nearest integer is -3; `ROUND(0-1)` is 0. From
32767.5 on the cast leaves the range of the 16-bit `int`. -/
theorem C27_round_truncates_toward_zero :
    (∀ x : ℚ, 0 ≤ x → x + 1 / 2 < 32768 →
      ∃ n : Int, round_eval (.num x) = .ok (.num (n : ℚ)) ∧ |(n : ℚ) - x| ≤ 1 / 2) ∧
    value_of Libc.sample [] 12 "ROUND(2.7)".toList = .ok (.num 3) ∧
    round_eval (.num (-27 / 10)) = .ok (.num (-2)) ∧
    value_of Libc.sample [] 12 "ROUND(-2.7)".toList = .ok (.num (-2)) ∧
    ¬ (|((-2 : Int) : ℚ) - (-27 / 10)| ≤ 1 / 2) ∧
    value_of Libc.sample [] 12 "ROUND(0-1)".toList = .ok (.num 0) ∧
    round_eval (.num (65535 / 2)) = .undefined ∧
    value_of Libc.sample [] 12 "ROUND(32767.5)".toList = .undefined := by
  refine ⟨?_, by decide!, by decide!, by decide!, ?_, by decide!, by decide!, by decide!⟩
  · intro x hx hb
    refine ⟨⌊x + 1 / 2⌋, ?_, ?_⟩
    · have ht := trunc_int_nonneg (x + 1 / 2) (by linarith)
      have h1 : (0 : Int) ≤ ⌊x + 1 / 2⌋ := Int.floor_nonneg.mpr (by linarith)
      have h2 : ⌊x + 1 / 2⌋ < 32768 := Int.floor_lt.mpr (by exact_mod_cast hb)
      have hc : -(2 ^ (INT_BITS - 1)) ≤ ⌊x + 1 / 2⌋ ∧ ⌊x + 1 / 2⌋ < 2 ^ (INT_BITS - 1) := by
        simp only [INT_BITS]
        norm_num
        omega
      simp only [round_eval, int_of_float, ht, if_pos hc, make_num]
    · have h1 := Int.floor_le (x + 1 / 2)
      have h2 := Int.lt_floor_add_one (x + 1 / 2)
      rw [abs_le]
      constructor <;> linarith
  · norm_num [abs_le]

/-- The Number 27/10: `ROUND` gives an integer within 1/2 of it. -/
theorem C27_round_truncates_toward_zero_witness :
    ∃ n : Int, round_eval (.num (27 / 10)) = .ok (.num (n : ℚ)) ∧ |(n : ℚ) - 27 / 10| ≤ 1 / 2 :=
  C27_round_truncates_toward_zero.1 (27 / 10) (by norm_num) (by norm_num)

/-! ## Bare numbers -/

/-- C28. The texts `5`, `-5` and `1.5` are stored as `=5`, `=-5`, `=1.5`,
flagged as formulas, get no edge and the cached Numbers 5, -5, 3/2. But
`strtof` accepts more than the lexer reads as one number: `.5` (the number
1/2 for `strtof`) is stored as `=.5` and its cached value is the
Invalid-expression error, because no token starts with `.`; `1e5` (the number
100000 for `strtof`) is stored as `=1e5`, its cached value is the Number 1 and
the cell gets an edge to E5, because the lexer reads the number `1` and then
the cell reference `E5`. -/
theorem C28_bare_number_not_read_by_lexer :
    after_text 12 "5".toList = .ok (some "=5".toList, .num 5, [], true) ∧
    after_text 12 "-5".toList = .ok (some "=-5".toList, .num (-5), [], true) ∧
    after_text 12 "1.5".toList = .ok (some "=1.5".toList, .num (3 / 2), [], true) ∧
    strtof ".5".toList = ((1 / 2 : ℚ), ([] : List Char)) ∧
    after_text 12 ".5".toList = .ok (some "=.5".toList, errExprInvalid, [], true) ∧
    strtof "1e5".toList = ((100000 : ℚ), ([] : List Char)) ∧
    after_text 12 "1e5".toList = .ok (some "=1e5".toList, .num 1, [(4, 4)], true) := by
  refine ⟨by decide!, by decide!, by decide!, by decide!, by decide!, by decide!, by decide!⟩

/-! ## Cells that are not formulas -/

theorem rewired_refl (x : Cell) : Cell.rewired x x := rfl

/-- Examples for C29 on the empty sheet, as content, cached value, outgoing
edges and formula flag of A1: a word, a quoted text, a quote alone, a quoted
formula text, a text that starts like a number. -/
theorem text_cell_examples :
    after_text 12 "abc".toList = .ok (some "abc".toList, .text "abc".toList, [], false) ∧
    after_text 12 "  a b  ".toList = .ok (some "a b".toList, .text "a b".toList, [], false) ∧
    after_text 12 [SQUOTE, 'a'] = .ok (some [SQUOTE, 'a'], .text ['a'], [], false) ∧
    after_text 12 [SQUOTE] = .ok (some [SQUOTE], .text [], [], false) ∧
    after_text 12 [SQUOTE, '=', '1'] = .ok (some [SQUOTE, '=', '1'], .text ['=', '1'], [], false) ∧
    after_text 12 [SQUOTE, SQUOTE, 'x']
      = .ok (some [SQUOTE, SQUOTE, 'x'], .text [SQUOTE, 'x'], [], false) ∧
    after_text 12 "5a".toList = .ok (some "5a".toList, .text "5a".toList, [], false) := by
  refine ⟨by decide!, by decide!, by decide!, by decide!, by decide!, by decide!, by decide!⟩

/-! ## Lexing of cell references -/

theorem ascii_facts : ∀ n : Fin 128,
    (isalpha (Char.ofNat n.val) = true →
      isalpha (toupper (Char.ofNat n.val)) = true ∧ isspace (Char.ofNat n.val) = false ∧
      Char.ofNat n.val ≠ NUL) ∧
    (isdigit (Char.ofNat n.val) = true →
      toupper (Char.ofNat n.val) = Char.ofNat n.val ∧ isalpha (Char.ofNat n.val) = false) := by
  decide!

theorem alpha_ascii (c : Char) (h : isalpha c = true) : c.toNat < 128 := by
  unfold isalpha at h
  simp only [Bool.or_eq_true, Bool.and_eq_true, decide_eq_true_eq] at h
  omega

theorem digit_ascii (c : Char) (h : isdigit c = true) : c.toNat < 128 := by
  unfold isdigit at h
  simp only [Bool.and_eq_true, decide_eq_true_eq] at h
  omega

theorem alpha_facts (c : Char) (h : isalpha c = true) :
    isalpha (toupper c) = true ∧ isspace c = false ∧ c ≠ NUL := by
  have := (ascii_facts ⟨c.toNat, alpha_ascii c h⟩).1
  simp only [Char.ofNat_toNat] at this
  exact this h

theorem digit_facts_upper (c : Char) (h : isdigit c = true) :
    toupper c = c ∧ isalpha c = false := by
  have := (ascii_facts ⟨c.toNat, digit_ascii c h⟩).2
  simp only [Char.ofNat_toNat] at this
  exact this h

theorem map_toupper_digits (ds : List Char) (h : ∀ d ∈ ds, isdigit d = true) :
    ds.map toupper = ds := by
  induction ds with
  | nil => rfl
  | cons d t ih =>
    rw [List.map_cons, (digit_facts_upper d (h d (List.mem_cons_self _ _))).1,
      ih (fun e he => h e (List.mem_cons_of_mem _ he))]

/-- The identifier loop of `get_token` on a run of letters and digits that fits
the token buffer: the token is the run in upper case. -/
theorem scan_alnum_upper (l rest tok : List Char)
    (hl : ∀ c ∈ l, (isalpha c || isdigit c) = true)
    (hrest : (isalpha (feed rest).1 || isdigit (feed rest).1) = false)
    (hlen : tok.length + l.length ≤ TOKEN_MAX) :
    scan_alnum tok (feed (l ++ rest)).1 (feed (l ++ rest)).2
      = (tok ++ l.map toupper, (feed rest).1, (feed rest).2) := by
  induction l generalizing tok with
  | nil =>
    rw [scan_alnum_step]
    simp [hrest]
  | cons c l ih =>
    have hc := hl c (List.mem_cons_self _ _)
    have hput : put tok (toupper c) = tok ++ [toupper c] := by
      simp only [put, TOKEN_MAX] at *
      simp only [List.length_cons] at hlen
      rw [if_pos (by omega)]
    rw [scan_alnum_step]
    simp only [List.cons_append, feed_cons, hc, if_true, hput]
    rw [ih (tok ++ [toupper c]) (fun d hd => hl d (List.mem_cons_of_mem _ hd))]
    · simp
    · simp only [List.length_append, List.length_cons, List.length_nil] at *
      omega

theorem cellref_num_digits (ds : List Char) (h : ∀ d ∈ ds, isdigit d = true) :
    ∀ n, cellref_num n ds = (digits_val n ds, []) := by
  induction ds with
  | nil => intro n; rfl
  | cons d t ih =>
    intro n
    rw [cellref_num, if_pos (h d (List.mem_cons_self _ _))]
    exact ih (fun e he => h e (List.mem_cons_of_mem _ he)) _

/-- `is_cellref` on a letter followed by digits: whether the digits read as a
number from 1 to 256. -/
theorem is_cellref_digits (c : Char) (ds : List Char) (hc : isalpha c = true) (hne : ds ≠ [])
    (h : ∀ d ∈ ds, isdigit d = true) :
    is_cellref (c :: ds) = decide (1 ≤ digits_val 0 ds ∧ digits_val 0 ds ≤ 256) := by
  cases ds with
  | nil => exact absurd rfl hne
  | cons d t =>
    simp only [is_cellref, hc, h d (List.mem_cons_self _ _), Bool.not_true, Bool.false_eq_true,
      if_false, cellref_num_digits (d :: t) h 0, MAX_ROWS, List.isEmpty_nil]
    by_cases h1 : digits_val 0 (d :: t) < 1
    · simp [h1]
    · by_cases h2 : digits_val 0 (d :: t) > 256
      · simp [h1, h2]
      · simp [h1, h2]; omega

theorem function_names_second : functions.all (fun f =>
    match f.name with
    | _ :: b :: _ => !isdigit b
    | _ => true) = true := by
  decide!

/-- No function is named by a letter followed by digits. -/
theorem find_function_digits (c d : Char) (t : List Char) (hd : isdigit d = true) :
    find_function (c :: d :: t) = none := by
  unfold find_function
  rw [List.find?_eq_none]
  intro f hf hname
  have h1 := List.all_eq_true.mp function_names_second f hf
  simp only [decide_eq_true_eq] at hname
  rw [hname] at h1
  simp [hd] at h1


/-- `get_token` at an identifier made of a letter and digits, not followed by
a colon: the cell-reference token when the digits read as a number from 1 to
256, the error token otherwise. -/
theorem get_token_letter_digits (lx : Lexer) (c : Char) (ds rest : List Char)
    (hc : isalpha c = true) (hne : ds ≠ []) (hds : ∀ d ∈ ds, isdigit d = true)
    (hlen : (c :: ds).length ≤ TOKEN_MAX) (hch : lx.ch = c) (hex : lx.expr = ds ++ rest)
    (hrest : (isalpha (feed rest).1 || isdigit (feed rest).1) = false)
    (hcolon : (feed rest).1 ≠ ':') :
    get_token lx =
      ⟨if 1 ≤ digits_val 0 ds ∧ digits_val 0 ds ≤ 256 then tokCellRef else tokError,
        toupper c :: ds, (feed rest).2, (feed rest).1, lx.current_function⟩ := by
  obtain ⟨hup, hsp, hnul⟩ := alpha_facts c hc
  have hscan : scan_alnum [] c (ds ++ rest) = (toupper c :: ds, (feed rest).1, (feed rest).2) := by
    have h := scan_alnum_upper (c :: ds) rest [] (by
      intro e he
      rcases List.mem_cons.mp he with rfl | he
      · simp [hc]
      · simp [hds e he]) hrest (by simpa using hlen)
    simpa [feed_cons, map_toupper_digits ds hds] using h
  have hcr := is_cellref_digits (toupper c) ds hup hne hds
  by_cases hrow : 1 ≤ digits_val 0 ds ∧ digits_val 0 ds ≤ 256
  · rw [if_pos hrow]
    rw [decide_eq_true hrow] at hcr
    simp only [get_token, hch, hex, skip_space_not_space _ _ hsp, hnul, hc, if_false, if_true,
      get_token_ident, hscan, hcr, hcolon]
  · rw [if_neg hrow]
    rw [decide_eq_false hrow] at hcr
    have hfn : find_function (toupper c :: ds) = none := by
      cases ds with
      | nil => exact absurd rfl hne
      | cons d t => exact find_function_digits _ d t (hds d (List.mem_cons_self _ _))
    simp only [get_token, hch, hex, skip_space_not_space _ _ hsp, hnul, hc, if_false, if_true,
      get_token_ident, hscan, hcr, hfn, Bool.false_eq_true]

/-- `get_token` at an identifier that is neither a cell reference nor the name
of a function: the error token. -/
theorem get_token_other_identifier (lx : Lexer) (c : Char) (t rest : List Char)
    (hc : isalpha c = true) (ht : ∀ e ∈ t, (isalpha e || isdigit e) = true)
    (hlen : (c :: t).length ≤ TOKEN_MAX) (hch : lx.ch = c) (hex : lx.expr = t ++ rest)
    (hrest : (isalpha (feed rest).1 || isdigit (feed rest).1) = false)
    (hcr : is_cellref ((c :: t).map toupper) = false)
    (hfn : find_function ((c :: t).map toupper) = none) :
    get_token lx =
      ⟨tokError, (c :: t).map toupper, (feed rest).2, (feed rest).1, lx.current_function⟩ := by
  obtain ⟨hup, hsp, hnul⟩ := alpha_facts c hc
  have hscan : scan_alnum [] c (t ++ rest)
      = ((c :: t).map toupper, (feed rest).1, (feed rest).2) := by
    have h := scan_alnum_upper (c :: t) rest [] (by
      intro e he
      rcases List.mem_cons.mp he with rfl | he
      · simp [hc]
      · exact ht e he) hrest (by simpa using hlen)
    simpa [feed_cons] using h
  simp only [get_token, hch, hex, skip_space_not_space _ _ hsp, hnul, hc, if_false, if_true,
    get_token_ident, hscan, hcr, hfn, Bool.false_eq_true]

theorem digit_value_le (c : Char) (h : isdigit c = true) : c.toNat - 48 ≤ 9 := by
  unfold isdigit at h
  simp only [Bool.and_eq_true, decide_eq_true_eq] at h
  omega

/-- The loop of `is_cellref` computes the same number with an `int` of `w` bits
as long as the digits cannot reach `2 ^ (w - 1)`. -/
theorem cellref_num_int_small (w : Nat) (hw : 1 ≤ w) :
    ∀ (ds : List Char) (n : Nat), (n + 1) * 10 ^ ds.length ≤ 2 ^ (w - 1) →
      cellref_num_int w (n : Int) ds = (((cellref_num n ds).1 : Int), (cellref_num n ds).2) := by
  intro ds
  induction ds with
  | nil => intro n _; rfl
  | cons c t ih =>
    intro n hn
    rw [cellref_num_int, cellref_num]
    by_cases hc : isdigit c = true
    · rw [if_pos hc, if_pos hc]
      have hd := digit_value_le c hc
      have hbound : (n * 10 + (c.toNat - 48) + 1) * 10 ^ t.length ≤ 2 ^ (w - 1) := by
        have h1 : n * 10 + (c.toNat - 48) + 1 ≤ (n + 1) * 10 := by omega
        calc (n * 10 + (c.toNat - 48) + 1) * 10 ^ t.length
            ≤ ((n + 1) * 10) * 10 ^ t.length := Nat.mul_le_mul_right _ h1
          _ = (n + 1) * 10 ^ (t.length + 1) := by rw [pow_succ]; ring
          _ ≤ 2 ^ (w - 1) := hn
      have hlt : n * 10 + (c.toNat - 48) < 2 ^ (w - 1) := by
        have h1 : 1 ≤ 10 ^ t.length := Nat.one_le_pow _ _ (by norm_num)
        calc n * 10 + (c.toNat - 48) < (n * 10 + (c.toNat - 48) + 1) * 1 := by omega
          _ ≤ (n * 10 + (c.toNat - 48) + 1) * 10 ^ t.length := Nat.mul_le_mul_left _ h1
          _ ≤ 2 ^ (w - 1) := hbound
      have hcast : (n : Int) * 10 + ((c.toNat - 48 : Nat) : Int)
          = ((n * 10 + (c.toNat - 48) : Nat) : Int) := by push_cast; rfl
      rw [hcast, wrap_int_small w _ hw hlt]
      exact ih _ hbound
    · rw [if_neg hc, if_neg hc]

/-- An `int` of at least 16 bits does not change `is_cellref` on a text of at
most five characters. -/
theorem is_cellref_int_short (w : Nat) (s : List Char) (hw : 16 ≤ w) (hs : s.length ≤ 5) :
    is_cellref_int w s = is_cellref s := by
  cases s with
  | nil => rfl
  | cons c s1 =>
    cases s1 with
    | nil => rfl
    | cons d t =>
      have hb : (0 + 1) * 10 ^ (d :: t).length ≤ 2 ^ (w - 1) := by
        have h1 : (d :: t).length ≤ 4 := by simpa using hs
        have h2 : 10 ^ (d :: t).length ≤ 10 ^ 4 := Nat.pow_le_pow_right (by norm_num) h1
        have h3 : 2 ^ 15 ≤ 2 ^ (w - 1) := Nat.pow_le_pow_right (by norm_num) (by omega)
        omega
      have hnum := cellref_num_int_small w (by omega) (d :: t) 0 hb
      simp only [Nat.cast_zero] at hnum
      simp only [is_cellref_int, is_cellref, hnum, MAX_ROWS]
      by_cases h1 : isalpha c = true
      · by_cases h2 : isdigit d = true
        · simp only [h1, h2, Bool.not_true, Bool.false_eq_true, if_false]
          by_cases h3 : (cellref_num 0 (d :: t)).1 < 1
          · have h4 : (((cellref_num 0 (d :: t)).1 : Nat) : Int) < 1 := by exact_mod_cast h3
            simp [h3, h4]
          · by_cases h5 : (cellref_num 0 (d :: t)).1 > 256
            · have h6 : (((cellref_num 0 (d :: t)).1 : Nat) : Int) > ((256 : Nat) : Int) := by
                exact_mod_cast h5
              simp [h5, h6]
            · have h4 : ¬ (((cellref_num 0 (d :: t)).1 : Nat) : Int) < 1 := by
                intro hh; apply h3; exact_mod_cast hh
              have h6 : ¬ (((cellref_num 0 (d :: t)).1 : Nat) : Int) > ((256 : Nat) : Int) := by
                intro hh; apply h5; exact_mod_cast hh
              simp [h3, h5, h4, h6]
        · simp [h1, h2]
      · simp [h1]


/-- C30. With `int` a mathematical integer: at an identifier made of a letter
and one or more digits, at most 31 characters, not followed by a colon,
`get_token` returns the cell-reference token exactly when the digits read as a
number from 1 to 256 and the error token otherwise; at an identifier that is
neither a cell reference nor a function name it returns the error token, as
for `AB1`, `A1B`, `FOO`. With `int` of 16 bits, as on the target, or of any
width up to 64 bits, the row number wraps: `A65537` is lexed as a cell
reference with 16 bits and `A4294967297` with 32 bits, and for every width from
16 to 64 bits the letter `A` followed by the digits of `2 ^ w + 1` is accepted
by `is_cellref`, although the number is above 256. Up to five characters the
width makes no difference. -/
theorem C30_row_number_wraps :
    (∀ (lx : Lexer) (c : Char) (ds rest : List Char), isalpha c = true → ds ≠ [] →
      (∀ d ∈ ds, isdigit d = true) → (c :: ds).length ≤ TOKEN_MAX → lx.ch = c →
      lx.expr = ds ++ rest → (isalpha (feed rest).1 || isdigit (feed rest).1) = false →
      (feed rest).1 ≠ ':' →
      get_token lx =
        ⟨if 1 ≤ digits_val 0 ds ∧ digits_val 0 ds ≤ 256 then tokCellRef else tokError,
          toupper c :: ds, (feed rest).2, (feed rest).1, lx.current_function⟩) ∧
    (∀ (lx : Lexer) (c : Char) (t rest : List Char), isalpha c = true →
      (∀ e ∈ t, (isalpha e || isdigit e) = true) → (c :: t).length ≤ TOKEN_MAX → lx.ch = c →
      lx.expr = t ++ rest → (isalpha (feed rest).1 || isdigit (feed rest).1) = false →
      is_cellref ((c :: t).map toupper) = false →
      find_function ((c :: t).map toupper) = none →
      get_token lx =
        ⟨tokError, (c :: t).map toupper, (feed rest).2, (feed rest).1,
          lx.current_function⟩) ∧
    ((lexer_at "AB1".toList).tok_type = tokError ∧ (lexer_at "A1B".toList).tok_type = tokError ∧
      (lexer_at "FOO".toList).tok_type = tokError ∧ (lexer_at "A0".toList).tok_type = tokError ∧
      (lexer_at "A257".toList).tok_type = tokError ∧
      (lexer_at "a256".toList).tok_type = tokCellRef ∧
      (lexer_at "A001".toList).tok_type = tokCellRef ∧
      (lexer_at "A65537".toList).tok_type = tokError ∧
      (lexer_at "A4294967297".toList).tok_type = tokError) ∧
    (∀ (w : Nat) (s : List Char), 16 ≤ w → s.length ≤ 5 → is_cellref_int w s = is_cellref s) ∧
    ((get_token_int 16 (next_char { Lexer.init with expr := "A65537".toList })).tok_type
        = tokCellRef ∧
      (get_token_int 32 (next_char { Lexer.init with expr := "A4294967297".toList })).tok_type
        = tokCellRef ∧
      (get_token_int 16 (next_char { Lexer.init with expr := "A257".toList })).tok_type
        = tokError) ∧
    (∀ i : Fin 49, is_cellref_int (16 + i.val) ('A' :: nat_text (2 ^ (16 + i.val) + 1)) = true ∧
      is_cellref ('A' :: nat_text (2 ^ (16 + i.val) + 1)) = false ∧
      ('A' :: nat_text (2 ^ (16 + i.val) + 1)).length ≤ TOKEN_MAX) := by
  refine ⟨?_, ?_, ?_, ?_, ?_, ?_⟩
  · intro lx c ds rest hc hne hds hlen hch hex hrest hcolon
    exact get_token_letter_digits lx c ds rest hc hne hds hlen hch hex hrest hcolon
  · intro lx c t rest hc ht hlen hch hex hrest hcr hfn
    exact get_token_other_identifier lx c t rest hc ht hlen hch hex hrest hcr hfn
  · decide!
  · intro w s hw hs
    exact is_cellref_int_short w s hw hs
  · decide!
  · decide!

/-- The identifier `b12` before `+1`: the cell-reference token `B12`. -/
theorem C30_row_number_wraps_witness :
    get_token ⟨tokNone, [], "12+1".toList, 'b', none⟩
      = ⟨tokCellRef, "B12".toList, ['1'], '+', none⟩ :=
  C30_row_number_wraps.1 ⟨tokNone, [], "12+1".toList, 'b', none⟩ 'b' "12".toList "+1".toList
    (by decide) (by decide) (by decide) (by decide) rfl rfl (by decide) (by decide)

/-! ## Cell references and the grid -/

theorem upper_facts : ∀ n : Fin 128, isalpha (Char.ofNat n.val) = true →
    toupper (toupper (Char.ofNat n.val)) = toupper (Char.ofNat n.val) ∧
    65 ≤ (toupper (Char.ofNat n.val)).toNat ∧ (toupper (Char.ofNat n.val)).toNat ≤ 90 := by
  decide!

theorem toupper_alpha (c : Char) (h : isalpha c = true) :
    toupper (toupper c) = toupper c ∧ 65 ≤ (toupper c).toNat ∧ (toupper c).toNat ≤ 90 := by
  have := upper_facts ⟨c.toNat, alpha_ascii c h⟩
  simp only [Char.ofNat_toNat] at this
  exact this h

theorem digit_not_space (d : Char) (h : isdigit d = true) :
    isspace d = false ∧ d ≠ '-' ∧ d ≠ '+' := by
  unfold isdigit at h
  simp only [Bool.and_eq_true, decide_eq_true_eq] at h
  refine ⟨?_, ?_, ?_⟩
  · unfold isspace
    simp only [Bool.or_eq_false_iff, decide_eq_false_iff_not, Bool.and_eq_false_iff]
    omega
  · intro he; rw [he] at h; revert h; decide
  · intro he; rw [he] at h; revert h; decide

theorem takeWhile_all (ds : List Char) (h : ∀ d ∈ ds, isdigit d = true) :
    ds.takeWhile isdigit = ds := by
  have := takeWhile_digits_append ds [] h (by simp)
  simpa using this

/-- `atoi` on a run of digits. -/
theorem atoi_digits (ds : List Char) (h : ∀ d ∈ ds, isdigit d = true) :
    atoi ds = (digits_val 0 ds : Int) := by
  cases ds with
  | nil => rfl
  | cons d t =>
    obtain ⟨h1, h2, h3⟩ := digit_not_space d (h d (List.mem_cons_self _ _))
    have hdw : (d :: t).dropWhile isspace = d :: t := by
      rw [List.dropWhile_cons_of_neg (by simp [h1])]
    simp only [atoi, hdw, List.head?_cons, Option.some.injEq, h2, h3, or_self, if_false,
      decide_False, takeWhile_all (d :: t) h, Bool.false_eq_true]

theorem digits_val_cons (n : Nat) (c : Char) (t : List Char) :
    digits_val n (c :: t) = digits_val (n * 10 + (c.toNat - 48)) t := rfl

theorem digits_val_append (a b : List Char) :
    ∀ n, digits_val n (a ++ b) = digits_val (digits_val n a) b := by
  induction a with
  | nil => intro n; rfl
  | cons c t ih =>
    intro n
    rw [List.cons_append, digits_val_cons, digits_val_cons]
    exact ih _

theorem digits_val_ge (l : List Char) : ∀ n, n * 10 ^ l.length ≤ digits_val n l := by
  induction l with
  | nil =>
    intro n
    show n * 10 ^ 0 ≤ n
    simp
  | cons c t ih =>
    intro n
    have h1 := ih (n * 10 + (c.toNat - 48))
    have h2 : n * 10 ^ (c :: t).length = (n * 10) * 10 ^ t.length := by
      rw [List.length_cons, pow_succ]; ring
    have h3 : (n * 10) * 10 ^ t.length ≤ (n * 10 + (c.toNat - 48)) * 10 ^ t.length :=
      Nat.mul_le_mul_right _ (Nat.le_add_right _ _)
    rw [h2, digits_val_cons]
    exact le_trans h3 h1

/-- `parse_cellref` on a letter followed by digits and nothing else: the column
of the letter, and as row the number that the first six digits read, less one. -/
theorem parse_cellref_digits (c : Char) (ds : List Char) (hc : isalpha c = true)
    (h : ∀ d ∈ ds, isdigit d = true) :
    parse_cellref (toupper c :: ds)
      = ((((toupper c).toNat : Int) - 65, (digits_val 0 (ds.take 6) : Int) - 1), ds.drop 6) := by
  obtain ⟨hup, _, _⟩ := alpha_facts c hc
  obtain ⟨hid, _, _⟩ := toupper_alpha c hc
  have h6 : ∀ d ∈ ds.take 6, isdigit d = true := fun d hd => h d (List.mem_of_mem_take hd)
  have hlen : (ds.take 6).length = min 6 ds.length := List.length_take 6 ds
  have hdrop : ds.drop (ds.take 6).length = ds.drop 6 := by
    rw [hlen]
    by_cases hl : 6 ≤ ds.length
    · rw [Nat.min_eq_left hl]
    · rw [Nat.min_eq_right (by omega), List.drop_of_length_le (le_refl _),
        List.drop_of_length_le (by omega)]
  simp only [parse_cellref, hup, if_true, takeWhile_all ds h, hid, atoi_digits _ h6, hdrop]

/-- C31. A token that the lexer classifies as a cell reference has a letter
and digits that read as a number from 1 to 256, but `parse_cellref` copies the
letter and at most six digits into `ref[8]`. With at most six digits it
returns the column of the letter, from 0 to 25, and the row number less one,
from 0 to 255, and the table index is from 0 to 30. With more than six digits
the row it returns is never the row number less one: for `A0000001` it is -1,
the index `(0 + -1 * 257) % 31` is -9 and the evaluation of the formula
`A0000001`, as well as `set_cell` with `=A0000001`, reads `hash_table` outside
its bounds; `A0000010` is read as `A1`. With an `int` of 16 bits `row * 257`
wraps from row 128 on, so that the index of the cell in column 0, row 128 is
-28; with at least 18 bits, and with 16 bits up to row 127, the index is the
one of the unbounded computation. -/
theorem C31_long_reference_leaves_grid :
    (∀ (c : Char) (ds : List Char), isalpha c = true → ds ≠ [] →
      (∀ d ∈ ds, isdigit d = true) → ds.length ≤ 6 → 1 ≤ digits_val 0 ds →
      digits_val 0 ds ≤ 256 →
      parse_cellref (toupper c :: ds)
        = ((((toupper c).toNat : Int) - 65, (digits_val 0 ds : Int) - 1), []) ∧
      0 ≤ ((toupper c).toNat : Int) - 65 ∧ ((toupper c).toNat : Int) - 65 ≤ 25 ∧
      0 ≤ (digits_val 0 ds : Int) - 1 ∧ (digits_val 0 ds : Int) - 1 ≤ 255 ∧
      0 ≤ bucket (((toupper c).toNat : Int) - 65) ((digits_val 0 ds : Int) - 1) ∧
      bucket (((toupper c).toNat : Int) - 65) ((digits_val 0 ds : Int) - 1) < 31) ∧
    (∀ (c : Char) (ds : List Char), isalpha c = true → (∀ d ∈ ds, isdigit d = true) →
      6 < ds.length → 1 ≤ digits_val 0 ds →
      (parse_cellref (toupper c :: ds)).1.2 ≠ (digits_val 0 ds : Int) - 1) ∧
    ((lexer_at "A0000001".toList).tok_type = tokCellRef ∧
      (lexer_at "A0000001".toList).token = "A0000001".toList ∧
      parse_cellref "A0000001".toList = ((0, -1), ['1']) ∧
      bucket 0 (-1) = -9 ∧
      find_cell [] 0 (-1) = .undefined ∧
      value_of Libc.sample [] 12 "A0000001".toList = .undefined ∧
      set_cell Libc.sample 12 Sheet.empty 1 0 (some "=A0000001".toList) = .undefined ∧
      parse_cellref "A0000010".toList = ((0, 0), ['0']) ∧
      cached_after (set_cells Libc.sample 12 Sheet.empty
        [(0, 0, "7".toList), (1, 0, "=A0000010".toList)]) (1, 0) = .ok (.num 7) ∧
      deps_after (set_cells Libc.sample 12 Sheet.empty
        [(0, 0, "7".toList), (1, 0, "=A0000010".toList)]) (1, 0) = .ok [(0, 0)]) ∧
    (∀ w col row : Nat, 18 ≤ w → col < 26 → row < 256 →
      bucket_int w (col : Int) (row : Int) = bucket (col : Int) (row : Int)) ∧
    (∀ col row : Nat, col < 26 → row < 128 →
      bucket_int 16 (col : Int) (row : Int) = bucket (col : Int) (row : Int)) ∧
    bucket_int 16 0 128 = -28 ∧ bucket_int 16 0 255 = -1 := by
  refine ⟨?_, ?_, ?_, ?_, ?_, by decide!, by decide!⟩
  · intro c ds hc hne hds hlen h1 h256
    obtain ⟨_, hlo, hhi⟩ := toupper_alpha c hc
    have hp := parse_cellref_digits c ds hc hds
    rw [List.take_of_length_le hlen, List.drop_of_length_le hlen] at hp
    have hcol : (((toupper c).toNat : Int) - 65) = (((toupper c).toNat - 65 : Nat) : Int) := by
      omega
    have hrow : ((digits_val 0 ds : Int) - 1) = ((digits_val 0 ds - 1 : Nat) : Int) := by
      omega
    refine ⟨hp, by omega, by omega, by omega, by omega, ?_, ?_⟩
    · rw [hcol, hrow]
      exact not_lt.mp (bucket_nonneg _ _)
    · unfold bucket CELL_TBL_SIZE
      exact Int.tmod_lt_of_pos _ (by norm_num)
  · intro c ds hc hds hlen h1
    rw [parse_cellref_digits c ds hc hds]
    simp only
    intro he
    have hsplit : digits_val 0 ds = digits_val (digits_val 0 (ds.take 6)) (ds.drop 6) := by
      conv_lhs => rw [← List.take_append_drop 6 ds]
      exact digits_val_append _ _ 0
    have hge := digits_val_ge (ds.drop 6) (digits_val 0 (ds.take 6))
    have hlen2 : 1 ≤ (ds.drop 6).length := by rw [List.length_drop]; omega
    have hpow : 10 ≤ 10 ^ (ds.drop 6).length :=
      le_trans (by norm_num) (Nat.pow_le_pow_right (by norm_num) hlen2)
    have heq : digits_val 0 (ds.take 6) = digits_val 0 ds := by omega
    rw [← hsplit, ← heq] at hge
    have : digits_val 0 (ds.take 6) * 10 ≤ digits_val 0 (ds.take 6) * 10 ^ (ds.drop 6).length :=
      Nat.mul_le_mul_left _ hpow
    omega
  · refine ⟨by decide!, by decide!, by decide!, by decide!, by decide!, by decide!, by decide!,
      by decide!, by decide!, by decide!⟩
  · intro w col row hw hc hr
    refine bucket_int_small w col row (by omega) ?_
    have h3 : 2 ^ 17 ≤ 2 ^ (w - 1) := Nat.pow_le_pow_right (by norm_num) (by omega)
    omega
  · intro col row hc hr
    exact bucket_int_small 16 col row (by norm_num) (by norm_num; omega)

/-! ## Function names -/

theorem put_take (tok : List Char) (c : Char) (h : tok.length ≤ TOKEN_MAX) :
    put tok c = (tok ++ [c]).take TOKEN_MAX := by
  unfold put
  by_cases hl : tok.length < TOKEN_MAX
  · rw [if_pos hl, List.take_of_length_le (by simp; omega)]
  · rw [if_neg hl, List.take_append_of_le_length (by omega), List.take_of_length_le (by omega)]

/-- The identifier loop of `get_token` on a run of letters and digits of any
length: the token is the run in upper case, cut to the 31 characters that the
buffer holds. -/
theorem scan_alnum_take (l rest : List Char)
    (hl : ∀ c ∈ l, (isalpha c || isdigit c) = true)
    (hrest : (isalpha (feed rest).1 || isdigit (feed rest).1) = false) :
    ∀ tok : List Char, tok.length ≤ TOKEN_MAX →
      scan_alnum tok (feed (l ++ rest)).1 (feed (l ++ rest)).2
        = ((tok ++ l.map toupper).take TOKEN_MAX, (feed rest).1, (feed rest).2) := by
  induction l with
  | nil =>
    intro tok htok
    rw [scan_alnum_step]
    simp [hrest, List.take_of_length_le htok]
  | cons c l ih =>
    intro tok htok
    have hc := hl c (List.mem_cons_self _ _)
    rw [scan_alnum_step]
    simp only [List.cons_append, feed_cons, hc, if_true]
    rw [ih (fun d hd => hl d (List.mem_cons_of_mem _ hd)) (put tok (toupper c)) (by
      rw [put_take tok _ htok]; exact List.length_take_le _ _)]
    rw [put_take tok _ htok, List.map_cons]
    congr 1
    by_cases hlt : tok.length < TOKEN_MAX
    · rw [List.take_of_length_le (l := tok ++ [toupper c]) (by simp; omega)]
      simp
    · have h31 : tok.length = TOKEN_MAX := by omega
      have e1 : (tok ++ [toupper c]).take TOKEN_MAX = tok := by
        rw [List.take_append_of_le_length (by omega)]
        exact List.take_of_length_le (by omega)
      rw [e1, List.take_append_of_le_length (by omega),
        List.take_append_of_le_length (by omega)]

theorem toupper_back (c : Char) :
    (isalpha (toupper c) = true → isalpha c = true) ∧
    ((isalpha (toupper c) || isdigit (toupper c)) = true →
      (isalpha c || isdigit c) = true) := by
  unfold toupper
  by_cases h : (decide (97 ≤ c.toNat) && decide (c.toNat ≤ 122)) = true
  · have ha : isalpha c = true := by
      unfold isalpha
      rw [h]; simp
    simp [ha]
  · rw [if_neg h]
    exact ⟨fun x => x, fun x => x⟩

theorem function_table_facts : functions.all (fun f =>
    decide (find_function f.name = some f) && !is_cellref f.name &&
    decide (f.name.length ≤ 7) &&
    f.name.all (fun x => isalpha x || isdigit x) &&
    (match f.name with
      | c :: _ => isalpha c
      | [] => false) &&
    decide (f.name ∈ range_names → f.tok_type = tokRangeFunc) &&
    decide (f.name ∉ range_names → f.tok_type = tokScalarFunc)) = true := by
  decide!

theorem function_facts (f : Function) (hf : f ∈ functions) :
    find_function f.name = some f ∧ is_cellref f.name = false ∧ f.name.length ≤ 7 ∧
    (∀ x ∈ f.name, (isalpha x || isdigit x) = true) ∧
    (∀ c, f.name.head? = some c → isalpha c = true) ∧
    (f.name ∈ range_names → f.tok_type = tokRangeFunc) ∧
    (f.name ∉ range_names → f.tok_type = tokScalarFunc) := by
  have h := List.all_eq_true.mp function_table_facts f hf
  simp only [Bool.and_eq_true, decide_eq_true_eq, Bool.not_eq_true', List.all_eq_true] at h
  obtain ⟨⟨⟨⟨⟨⟨h1, h2⟩, h3⟩, h4⟩, h5⟩, h6⟩, h7⟩ := h
  refine ⟨h1, h2, h3, h4, ?_, h6, h7⟩
  intro c hc
  cases hn : f.name with
  | nil => rw [hn] at hc; simp at hc
  | cons a t =>
    rw [hn] at hc h5
    simp only [List.head?_cons, Option.some.injEq] at hc
    rw [← hc]; exact h5

theorem find_function_some (tok : List Char) (f : Function) (h : find_function tok = some f) :
    f ∈ functions ∧ f.name = tok := by
  unfold find_function at h
  refine ⟨List.mem_of_find?_eq_some h, ?_⟩
  have := List.find?_some h
  simpa using this

/-- `get_token` at an identifier, a letter followed by letters and digits,
of any length: the identifier branch on the token cut to the buffer. -/
theorem get_token_identifier (lx : Lexer) (c : Char) (t rest : List Char)
    (hc : isalpha c = true) (ht : ∀ e ∈ t, (isalpha e || isdigit e) = true)
    (hch : lx.ch = c) (hex : lx.expr = t ++ rest)
    (hrest : (isalpha (feed rest).1 || isdigit (feed rest).1) = false) :
    get_token lx = get_token_ident { lx with tok_type := tokNone } ∧
    scan_alnum [] lx.ch lx.expr
      = (((c :: t).map toupper).take TOKEN_MAX, (feed rest).1, (feed rest).2) := by
  obtain ⟨hup, hsp, hnul⟩ := alpha_facts c hc
  have hscan : scan_alnum [] c (t ++ rest)
      = (((c :: t).map toupper).take TOKEN_MAX, (feed rest).1, (feed rest).2) := by
    have h := scan_alnum_take (c :: t) rest (by
      intro e he
      rcases List.mem_cons.mp he with rfl | he
      · simp [hc]
      · exact ht e he) hrest [] (by simp [TOKEN_MAX])
    simpa [feed_cons] using h
  refine ⟨?_, by rw [hch, hex]; exact hscan⟩
  simp only [get_token, hch, skip_space_not_space _ _ hsp, hnul, hc, if_false, if_true]

/-- C32. At an identifier (a letter followed by letters and digits, of any
length, then a character that is neither) whose upper-case form is the name of
a function of the table, `get_token` returns the token kind of that function,
the name as token and the table entry as `current_function`; the kind is
range-function for SUM, AVG, COUNT, MAX, MIN and scalar-function for every
other name. Conversely, when `get_token` at an identifier returns one of the two
function kinds, the upper-case form of the whole identifier is the name of the
entry selected, so no shorter and no longer identifier is taken for it. -/
theorem C32_function_names (lx : Lexer) (c : Char) (t rest : List Char)
    (hc : isalpha c = true) (ht : ∀ e ∈ t, (isalpha e || isdigit e) = true)
    (hch : lx.ch = c) (hex : lx.expr = t ++ rest)
    (hrest : (isalpha (feed rest).1 || isdigit (feed rest).1) = false) :
    (∀ f ∈ functions, (c :: t).map toupper = f.name →
      get_token lx = ⟨f.tok_type, f.name, (feed rest).2, (feed rest).1, some f⟩ ∧
      (f.name ∈ range_names → f.tok_type = tokRangeFunc) ∧
      (f.name ∉ range_names → f.tok_type = tokScalarFunc)) ∧
    ((get_token lx).tok_type = tokRangeFunc ∨ (get_token lx).tok_type = tokScalarFunc →
      ∃ f ∈ functions, (c :: t).map toupper = f.name ∧
        (get_token lx).current_function = some f ∧ (get_token lx).tok_type = f.tok_type ∧
        (get_token lx).token = f.name) := by
  obtain ⟨hgt, hscan⟩ := get_token_identifier lx c t rest hc ht hch hex hrest
  have hscan1 : scan_alnum [] { lx with tok_type := tokNone }.ch { lx with tok_type := tokNone }.expr
      = (((c :: t).map toupper).take TOKEN_MAX, (feed rest).1, (feed rest).2) := hscan
  refine ⟨?_, ?_⟩
  · intro f hf hname
    obtain ⟨h1, h2, h3, _, _, h6, h7⟩ := function_facts f hf
    refine ⟨?_, h6, h7⟩
    have htake : ((c :: t).map toupper).take TOKEN_MAX = f.name := by
      rw [hname]
      exact List.take_of_length_le (by simp only [TOKEN_MAX]; omega)
    rw [hgt]
    simp only [get_token_ident, hscan1, htake, h2, h1, Bool.false_eq_true, if_false]
  · intro hkind
    rw [hgt] at hkind ⊢
    by_cases hcr : is_cellref (((c :: t).map toupper).take TOKEN_MAX) = true
    · exfalso
      by_cases hcol : (feed rest).1 = ':'
      · simp only [get_token_ident, hscan1, hcr, hcol, if_true] at hkind
        split at hkind <;> simp at hkind
      · simp only [get_token_ident, hscan1, hcr, hcol, if_true, if_false] at hkind
        simp at hkind
    · have hcr2 : is_cellref (((c :: t).map toupper).take TOKEN_MAX) = false := by
        simpa using hcr
      cases hfn : find_function (((c :: t).map toupper).take TOKEN_MAX) with
      | none =>
        simp only [get_token_ident, hscan1, hcr2, hfn, Bool.false_eq_true, if_false] at hkind
        simp at hkind
      | some f =>
        obtain ⟨hmem, hname⟩ := find_function_some _ f hfn
        obtain ⟨_, _, h3, _, _, _, _⟩ := function_facts f hmem
        simp only [get_token_ident, hscan1, hcr2, hfn, Bool.false_eq_true, if_false]
        refine ⟨f, hmem, ?_, rfl, rfl, hname.symm⟩
        have hlen : ((c :: t).map toupper).length < TOKEN_MAX := by
          by_contra hge
          have h31 : (((c :: t).map toupper).take TOKEN_MAX).length = TOKEN_MAX := by
            rw [List.length_take]; omega
          rw [← hname] at h31
          rw [h31] at h3
          simp [TOKEN_MAX] at h3
        rw [hname]
        exact (List.take_of_length_le (le_of_lt hlen)).symm

/-- The identifier `log10` before `(`: the scalar function `LOG10`. -/
theorem C32_function_names_witness :
    get_token ⟨tokNone, [], "og10(1)".toList, 'l', none⟩
      = ⟨tokScalarFunc, "LOG10".toList, "1)".toList, '(',
          some ⟨"LOG10".toList, none, .log10_eval, tokScalarFunc, 1, 1⟩⟩ :=
  ((C32_function_names ⟨tokNone, [], "og10(1)".toList, 'l', none⟩ 'l' "og10".toList
    "(1)".toList (by decide) (by decide) rfl rfl (by decide)).1
    ⟨"LOG10".toList, none, .log10_eval, tokScalarFunc, 1, 1⟩ (by decide!) (by decide)).1

/-- Spellings of function names, and identifiers that are no names. -/
theorem function_name_examples :
    (lexer_at "sum".toList).tok_type = tokRangeFunc ∧
    (lexer_at "Sum".toList).tok_type = tokRangeFunc ∧
    ((lexer_at "Sum".toList).current_function.map (fun f => f.name)) = some "SUM".toList ∧
    (lexer_at "log10".toList).tok_type = tokScalarFunc ∧
    ((lexer_at "log10".toList).current_function.map (fun f => f.name)) = some "LOG10".toList ∧
    ((lexer_at "LOG".toList).current_function.map (fun f => f.name)) = some "LOG".toList ∧
    (lexer_at "SU".toList).tok_type = tokError ∧
    (lexer_at "SUMS".toList).tok_type = tokError ∧
    (lexer_at "LOG1".toList).tok_type = tokError ∧
    (lexer_at "IFF".toList).tok_type = tokError := by
  decide!

/-! ## Order of the corners of a range -/

/-- `parse_cellref` on a letter, digits and a text that does not start with a
digit: `sp` is left at the seventh digit when there are more than six. -/
theorem parse_cellref_digits_rest (c : Char) (ds rest : List Char) (hc : isalpha c = true)
    (h : ∀ d ∈ ds, isdigit d = true) (hrest : ∀ d, rest.head? = some d → isdigit d = false) :
    parse_cellref (toupper c :: (ds ++ rest))
      = ((((toupper c).toNat : Int) - 65, (digits_val 0 (ds.take 6) : Int) - 1),
          ds.drop 6 ++ rest) := by
  obtain ⟨hup, _, _⟩ := alpha_facts c hc
  obtain ⟨hid, _, _⟩ := toupper_alpha c hc
  have h6 : ∀ d ∈ ds.take 6, isdigit d = true := fun d hd => h d (List.mem_of_mem_take hd)
  have hlen : (ds.take 6).length = min 6 ds.length := List.length_take 6 ds
  have hdrop : (ds ++ rest).drop (ds.take 6).length = ds.drop 6 ++ rest := by
    rw [hlen]
    by_cases hl : 6 ≤ ds.length
    · rw [Nat.min_eq_left hl, List.drop_append_of_le_length hl]
    · rw [Nat.min_eq_right (by omega), List.drop_left, List.drop_of_length_le (by omega),
        List.nil_append]
  simp only [parse_cellref, hup, if_true, takeWhile_digits_append ds rest h hrest, hid,
    atoi_digits _ h6, hdrop]

/-- `parse_range` on `X:Y` for two references of at most six digits each: the
smaller column, the smaller row, the larger column, the larger row. -/
theorem parse_range_refs (c1 c2 : Char) (ds1 ds2 : List Char) (hc1 : isalpha c1 = true)
    (hc2 : isalpha c2 = true) (h1 : ∀ d ∈ ds1, isdigit d = true)
    (h2 : ∀ d ∈ ds2, isdigit d = true) (hl1 : ds1.length ≤ 6) (hl2 : ds2.length ≤ 6) :
    parse_range (toupper c1 :: (ds1 ++ ':' :: toupper c2 :: ds2))
      = (min (((toupper c1).toNat : Int) - 65) (((toupper c2).toNat : Int) - 65),
         min ((digits_val 0 ds1 : Int) - 1) ((digits_val 0 ds2 : Int) - 1),
         max (((toupper c1).toNat : Int) - 65) (((toupper c2).toNat : Int) - 65),
         max ((digits_val 0 ds1 : Int) - 1) ((digits_val 0 ds2 : Int) - 1)) := by
  have e1 := parse_cellref_digits_rest c1 ds1 (':' :: toupper c2 :: ds2) hc1 h1 (by
    intro d hd
    simp only [List.head?_cons, Option.some.injEq] at hd
    rw [← hd]; exact colon_facts.2)
  have e2 := parse_cellref_digits c2 ds2 hc2 h2
  rw [List.take_of_length_le hl1, List.drop_of_length_le hl1, List.nil_append] at e1
  rw [List.take_of_length_le hl2, List.drop_of_length_le hl2] at e2
  simp only [parse_range, e1, List.head?_cons, if_true, List.tail_cons, e2]
  refine Prod.ext ?_ (Prod.ext ?_ (Prod.ext ?_ ?_))
  · simp only
    split <;> omega
  · simp only
    split <;> omega
  · simp only
    split <;> omega
  · simp only
    split <;> omega

theorem block_comm (c1 r1 c2 r2 : Nat) : block c1 r1 c2 r2 = block c2 r2 c1 r1 := by
  unfold block
  rw [Nat.min_comm c1 c2, Nat.max_comm c1 c2, Nat.min_comm r1 r2, Nat.max_comm r1 r2]

/-- The range-function case of `eval_factor` along the tokens `NAME ( X:Y ) next`,
whatever `process_range` gives. -/
theorem eval_range_call_tokens_any (cells : List Cell) (lx0 lx1 lx2 lx3 lx4 : Lexer)
    (f : Function)
    (h1 : get_token lx0 = lx1) (ht1 : lx1.tok_type = tokLParen) (h2 : get_token lx1 = lx2)
    (h3 : get_token lx2 = lx3) (ht3 : lx3.tok_type = tokRParen) (h4 : get_token lx3 = lx4)
    (hcf : lx4.current_function = some f) :
    eval_range_call cells lx0
      = match process_range cells (parse_range lx2.token).1 (parse_range lx2.token).2.1
          (parse_range lx2.token).2.2.1 (parse_range lx2.token).2.2.2 (AccumState.mk 0 0 0)
          (f.pfn_accum.map (fun g => call_accum g)) (some (call_range_eval f.pfn_eval)) with
        | .ok r => .ok (r.2.2, lx4)
        | .outOfFuel => .outOfFuel
        | .undefined => .undefined := by
  have he1 : expect_token lx1 tokLParen = (true, lx2) := by
    rw [expect_token, if_neg (by simp [ht1]), h2]
  have he2 : expect_token lx3 tokRParen = (true, lx4) := by
    rw [expect_token, if_neg (by simp [ht3]), h4]
  unfold eval_range_call
  simp only [h1, he1, h3, he2, Bool.not_true, Bool.false_eq_true, if_false, hcf]

/-- The formula `NAME(X:Y)` of a range function, whatever `process_range`
gives: its value is the value `process_range` gives on the block between the
corners. -/
theorem parse_expr_range_call_any (L : Libc) (cells : List Cell) (k : Nat) (lx0 : Lexer)
    (c0 : Char) (nm : List Char) (f : Function)
    (c1 r1 c2 r2 : Nat) (hc1 : c1 < 26) (hr1 : r1 < 256) (hc2 : c2 < 26) (hr2 : r2 < 256)
    (hl : ∀ c ∈ c0 :: nm, (isalpha c || isdigit c) = true ∧ toupper c = c)
    (h0 : isalpha c0 = true ∧ isspace c0 = false ∧ c0 ≠ NUL)
    (hlen : (c0 :: nm).length ≤ TOKEN_MAX) (hcr : is_cellref (c0 :: nm) = false)
    (hf : find_function (c0 :: nm) = some f) (hty : f.tok_type = tokRangeFunc) :
    result_value (parse_expr L cells (k + 4) lx0 (call_text (c0 :: nm) c1 r1 c2 r2))
      = match process_range cells ((min c1 c2 : Nat) : Int) ((min r1 r2 : Nat) : Int)
          ((max c1 c2 : Nat) : Int) ((max r1 r2 : Nat) : Int) (AccumState.mk 0 0 0)
          (f.pfn_accum.map (fun g => call_accum g)) (some (call_range_eval f.pfn_eval)) with
        | .ok r => .ok r.2.2
        | .outOfFuel => .outOfFuel
        | .undefined => .undefined := by
  have hL1 := letter_facts ⟨c1, hc1⟩
  simp only at hL1
  have t0 : get_token (next_char { lx0 with expr := call_text (c0 :: nm) c1 r1 c2 r2 })
      = ⟨tokRangeFunc, c0 :: nm, range_text c1 r1 c2 r2 ++ [')'], '(', some f⟩ := by
    rw [get_token_function _ c0 nm (range_text c1 r1 c2 r2 ++ [')']) f
      (by simp [next_char, call_text]) (by simp [next_char, call_text]) hl h0 hlen hcr hf, hty]
  have t1 : get_token ⟨tokRangeFunc, c0 :: nm, range_text c1 r1 c2 r2 ++ [')'], '(', some f⟩
      = ⟨tokLParen, c0 :: nm, nat_text (r1 + 1) ++ (':' :: (cell_name c2 r2 ++ [')'])),
          Char.ofNat (65 + c1), some f⟩ := by
    rw [get_token_lparen _ rfl]
    simp [next_char, range_text, cell_name]
  have t2 : get_token ⟨tokLParen, c0 :: nm,
        nat_text (r1 + 1) ++ (':' :: (cell_name c2 r2 ++ [')'])), Char.ofNat (65 + c1), some f⟩
      = ⟨tokRange, range_text c1 r1 c2 r2, [], ')', some f⟩ := by
    rw [get_token_range _ c1 r1 c2 r2 [')'] hc1 hr1 hc2 hr2 rfl rfl
      (by simp [feed_cons, rparen_facts.1])]
    simp [feed_cons]
  have t3 : get_token ⟨tokRange, range_text c1 r1 c2 r2, [], ')', some f⟩
      = ⟨tokRParen, range_text c1 r1 c2 r2, [], NUL, some f⟩ := by
    rw [get_token_rparen _ rfl]
    simp [next_char]
  have t4 : get_token ⟨tokRParen, range_text c1 r1 c2 r2, [], NUL, some f⟩
      = ⟨tokEnd, range_text c1 r1 c2 r2, [], NUL, some f⟩ := by
    rw [get_token_end _ rfl rfl]
  have hpr := parse_range_text c1 r1 c2 r2 hc1 hr1 hc2 hr2
  have hcall := eval_range_call_tokens_any cells _ _ _ _ _ f t1 rfl t2 t3 rfl t4 rfl
  simp only [hpr] at hcall
  rw [parse_expr, t0]
  cases hp : process_range cells ((min c1 c2 : Nat) : Int) ((min r1 r2 : Nat) : Int)
      ((max c1 c2 : Nat) : Int) ((max r1 r2 : Nat) : Int) (AccumState.mk 0 0 0)
      (f.pfn_accum.map (fun g => call_accum g)) (some (call_range_eval f.pfn_eval)) with
  | ok r =>
    rw [hp] at hcall
    have hfac : eval_factor L cells (k + 1)
        ⟨tokRangeFunc, c0 :: nm, range_text c1 r1 c2 r2 ++ [')'], '(', some f⟩
        = .ok (r.2.2, ⟨tokEnd, range_text c1 r1 c2 r2, [], NUL, some f⟩) := by
      rw [eval_factor, eval_signs_none _ _ _ (by simp) (by simp)]
      simp only [hcall, apply_sign_false]
    have hterm := eval_term_single L cells (k + 1) _ _ _ hfac (by simp)
    have hex1 := eval_expr1_single L cells (k + 2) _ _ _ hterm (by simp)
    have hex := eval_expr_single L cells (k + 3) _ _ _ hex1 (by simp [is_relop])
    rw [hex]
    rfl
  | outOfFuel =>
    rw [hp] at hcall
    rw [eval_expr, eval_expr1, eval_term, eval_factor, eval_signs_none _ _ _ (by simp) (by simp)]
    simp only [hcall]
    rfl
  | undefined =>
    rw [hp] at hcall
    rw [eval_expr, eval_expr1, eval_term, eval_factor, eval_signs_none _ _ _ (by simp) (by simp)]
    simp only [hcall]
    rfl

/-- The value of `NAME(X:Y)` is that of `NAME(Y:X)` for each of the five range
functions, whether or not the evaluation returns. -/
theorem range_formulas_comm (L : Libc) (cells : List Cell) (k : Nat) (lx0 : Lexer)
    (c1 r1 c2 r2 : Nat) (hc1 : c1 < 26) (hr1 : r1 < 256) (hc2 : c2 < 26) (hr2 : r2 < 256) :
    ∀ name ∈ range_names,
      result_value (parse_expr L cells (k + 4) lx0 (call_text name c1 r1 c2 r2))
        = result_value (parse_expr L cells (k + 4) lx0 (call_text name c2 r2 c1 r1)) := by
  intro name hname
  simp only [range_names, List.mem_cons, List.mem_singleton, List.not_mem_nil,
    or_false] at hname
  rcases hname with rfl | rfl | rfl | rfl | rfl
  · rw [show "SUM".toList = 'S' :: ['U', 'M'] from rfl,
      parse_expr_range_call_any L cells k lx0 'S' ['U', 'M']
        ⟨"SUM".toList, some .sum_range, .sum_eval, tokRangeFunc, 1, 1⟩
        c1 r1 c2 r2 hc1 hr1 hc2 hr2 (by decide) (by decide) (by decide) (by decide) (by decide)
        rfl,
      parse_expr_range_call_any L cells k lx0 'S' ['U', 'M']
        ⟨"SUM".toList, some .sum_range, .sum_eval, tokRangeFunc, 1, 1⟩
        c2 r2 c1 r1 hc2 hr2 hc1 hr1 (by decide) (by decide) (by decide) (by decide) (by decide)
        rfl,
      Nat.min_comm c1 c2, Nat.max_comm c1 c2, Nat.min_comm r1 r2, Nat.max_comm r1 r2]
  · rw [show "AVG".toList = 'A' :: ['V', 'G'] from rfl,
      parse_expr_range_call_any L cells k lx0 'A' ['V', 'G']
        ⟨"AVG".toList, some .sum_range, .avg_eval, tokRangeFunc, 1, 1⟩
        c1 r1 c2 r2 hc1 hr1 hc2 hr2 (by decide) (by decide) (by decide) (by decide) (by decide)
        rfl,
      parse_expr_range_call_any L cells k lx0 'A' ['V', 'G']
        ⟨"AVG".toList, some .sum_range, .avg_eval, tokRangeFunc, 1, 1⟩
        c2 r2 c1 r1 hc2 hr2 hc1 hr1 (by decide) (by decide) (by decide) (by decide) (by decide)
        rfl,
      Nat.min_comm c1 c2, Nat.max_comm c1 c2, Nat.min_comm r1 r2, Nat.max_comm r1 r2]
  · rw [show "COUNT".toList = 'C' :: ['O', 'U', 'N', 'T'] from rfl,
      parse_expr_range_call_any L cells k lx0 'C' ['O', 'U', 'N', 'T']
        ⟨"COUNT".toList, some .count_range, .count_eval, tokRangeFunc, 1, 1⟩
        c1 r1 c2 r2 hc1 hr1 hc2 hr2 (by decide) (by decide) (by decide) (by decide) (by decide)
        rfl,
      parse_expr_range_call_any L cells k lx0 'C' ['O', 'U', 'N', 'T']
        ⟨"COUNT".toList, some .count_range, .count_eval, tokRangeFunc, 1, 1⟩
        c2 r2 c1 r1 hc2 hr2 hc1 hr1 (by decide) (by decide) (by decide) (by decide) (by decide)
        rfl,
      Nat.min_comm c1 c2, Nat.max_comm c1 c2, Nat.min_comm r1 r2, Nat.max_comm r1 r2]
  · rw [show "MAX".toList = 'M' :: ['A', 'X'] from rfl,
      parse_expr_range_call_any L cells k lx0 'M' ['A', 'X']
        ⟨"MAX".toList, some .max_range, .best_eval, tokRangeFunc, 1, 1⟩
        c1 r1 c2 r2 hc1 hr1 hc2 hr2 (by decide) (by decide) (by decide) (by decide) (by decide)
        rfl,
      parse_expr_range_call_any L cells k lx0 'M' ['A', 'X']
        ⟨"MAX".toList, some .max_range, .best_eval, tokRangeFunc, 1, 1⟩
        c2 r2 c1 r1 hc2 hr2 hc1 hr1 (by decide) (by decide) (by decide) (by decide) (by decide)
        rfl,
      Nat.min_comm c1 c2, Nat.max_comm c1 c2, Nat.min_comm r1 r2, Nat.max_comm r1 r2]
  · rw [show "MIN".toList = 'M' :: ['I', 'N'] from rfl,
      parse_expr_range_call_any L cells k lx0 'M' ['I', 'N']
        ⟨"MIN".toList, some .min_range, .best_eval, tokRangeFunc, 1, 1⟩
        c1 r1 c2 r2 hc1 hr1 hc2 hr2 (by decide) (by decide) (by decide) (by decide) (by decide)
        rfl,
      parse_expr_range_call_any L cells k lx0 'M' ['I', 'N']
        ⟨"MIN".toList, some .min_range, .best_eval, tokRangeFunc, 1, 1⟩
        c2 r2 c1 r1 hc2 hr2 hc1 hr1 (by decide) (by decide) (by decide) (by decide) (by decide)
        rfl,
      Nat.min_comm c1 c2, Nat.max_comm c1 c2, Nat.min_comm r1 r2, Nat.max_comm r1 r2]

/-- C33. For two references X and Y of at most six digits each, `parse_range`
on `X:Y` returns the smaller of the two columns, the smaller of the two rows,
the larger column and the larger row, hence the same block for `X:Y` and
`Y:X`; for the names of two cells of the grid the five range functions give
the same value for `F(X:Y)` and `F(Y:X)`, and they return when both cells are
in the rows 1 to 128 (from row 129 on the 16-bit index of `find_cell` is
negative: `SUM(A1:A129)` and `SUM(A129:A1)` are undefined). But a reference of more than six
digits, which the lexer accepts when its number is from 1 to 256, is read by
`parse_cellref` up to the sixth digit only, the colon is then not found, and
the second corner is read from the seventh digit: for `A0000001:B2` the
result is (-65, -1, 0, -1) and for `B2:A0000001` it is (0, -1, 1, 1). -/
theorem C33_range_corners :
    (∀ (c1 c2 : Char) (ds1 ds2 : List Char), isalpha c1 = true → isalpha c2 = true →
      (∀ d ∈ ds1, isdigit d = true) → (∀ d ∈ ds2, isdigit d = true) →
      ds1.length ≤ 6 → ds2.length ≤ 6 →
      parse_range (toupper c1 :: (ds1 ++ ':' :: toupper c2 :: ds2))
        = (min (((toupper c1).toNat : Int) - 65) (((toupper c2).toNat : Int) - 65),
           min ((digits_val 0 ds1 : Int) - 1) ((digits_val 0 ds2 : Int) - 1),
           max (((toupper c1).toNat : Int) - 65) (((toupper c2).toNat : Int) - 65),
           max ((digits_val 0 ds1 : Int) - 1) ((digits_val 0 ds2 : Int) - 1)) ∧
      parse_range (toupper c1 :: (ds1 ++ ':' :: toupper c2 :: ds2))
        = parse_range (toupper c2 :: (ds2 ++ ':' :: toupper c1 :: ds1))) ∧
    (∀ (L : Libc) (cells : List Cell) (k : Nat) (lx0 : Lexer) (c1 r1 c2 r2 : Nat), c1 < 26 →
      r1 < 256 → c2 < 26 → r2 < 256 →
      parse_range (range_text c1 r1 c2 r2) = parse_range (range_text c2 r2 c1 r1) ∧
      ∀ name ∈ range_names,
        result_value (parse_expr L cells (k + 4) lx0 (call_text name c1 r1 c2 r2))
          = result_value (parse_expr L cells (k + 4) lx0 (call_text name c2 r2 c1 r1)) ∧
        (r1 < 128 → r2 < 128 →
          ∃ v, result_value (parse_expr L cells (k + 4) lx0 (call_text name c1 r1 c2 r2))
            = .ok v)) ∧
    ((lexer_at "A0000001:B2".toList).tok_type = tokRange ∧
      (lexer_at "A0000001:B2".toList).token = "A0000001:B2".toList ∧
      parse_range "A0000001:B2".toList = (-65, -1, 0, -1) ∧
      parse_range "B2:A0000001".toList = (0, -1, 1, 1) ∧
      value_of Libc.sample [] 12 "SUM(A0000001:B2)".toList = .undefined ∧
      value_of Libc.sample [] 12 "SUM(B2:A0000001)".toList = .undefined ∧
      parse_range "A0000010:B2".toList = (-65, -1, 0, 0) ∧
      parse_range "B2:A0000010".toList = (0, 0, 1, 1) ∧
      value_of Libc.sample [] 12 "SUM(A1:A129)".toList = .undefined ∧
      value_of Libc.sample [] 12 "SUM(A129:A1)".toList = .undefined) := by
  refine ⟨?_, ?_, ?_⟩
  · intro c1 c2 ds1 ds2 hc1 hc2 h1 h2 hl1 hl2
    refine ⟨parse_range_refs c1 c2 ds1 ds2 hc1 hc2 h1 h2 hl1 hl2, ?_⟩
    rw [parse_range_refs c1 c2 ds1 ds2 hc1 hc2 h1 h2 hl1 hl2,
      parse_range_refs c2 c1 ds2 ds1 hc2 hc1 h2 h1 hl2 hl1,
      min_comm (((toupper c1).toNat : Int) - 65), max_comm (((toupper c1).toNat : Int) - 65),
      min_comm ((digits_val 0 ds1 : Int) - 1), max_comm ((digits_val 0 ds1 : Int) - 1)]
  · intro L cells k lx0 c1 r1 c2 r2 hc1 hr1 hc2 hr2
    refine ⟨?_, ?_⟩
    · rw [parse_range_text c1 r1 c2 r2 hc1 hr1 hc2 hr2,
        parse_range_text c2 r2 c1 r1 hc2 hr2 hc1 hr1,
        Nat.min_comm c1 c2, Nat.max_comm c1 c2, Nat.min_comm r1 r2, Nat.max_comm r1 r2]
    · intro name hname
      refine ⟨range_formulas_comm L cells k lx0 c1 r1 c2 r2 hc1 hr1 hc2 hr2 name hname, ?_⟩
      intro h1 h2
      obtain ⟨a1, a2, a3, a4, a5⟩ := range_formulas L cells k lx0 c1 r1 c2 r2 hc1 h1 hc2 h2
      simp only [range_names, List.mem_cons, List.mem_singleton, List.not_mem_nil,
        or_false] at hname
      rcases hname with rfl | rfl | rfl | rfl | rfl
      · exact ⟨_, a1⟩
      · exact ⟨_, a2⟩
      · exact ⟨_, a3⟩
      · exact ⟨_, a4⟩
      · exact ⟨_, a5⟩
  · refine ⟨by decide!, by decide!, by decide!, by decide!, by decide!, by decide!,
      by decide!, by decide!, by decide!, by decide!⟩

/-- The ranges `b2:A1` and `a1:B2`: the corners (0, 0) and (1, 1). -/
theorem C33_range_corners_witness :
    parse_range "B2:A1".toList = (min 1 0, min 1 0, max 1 0, max 1 0) ∧
    parse_range "B2:A1".toList = parse_range "A1:B2".toList :=
  C33_range_corners.1 'b' 'a' ['2'] ['1'] (by decide) (by decide) (by decide) (by decide)
    (by decide) (by decide)

/-! ## The cells that `propagate_dirty` marks -/

theorem foldl_avoids {σ α : Type} (X : Outcome σ) (hX : ∀ s, X ≠ .ok s) (P : σ → Prop)
    (f : σ → α → Outcome σ) :
    ∀ (l : List α), (∀ s a, a ∈ l → P s → f s a ≠ X ∧ ∀ s1, f s a = .ok s1 → P s1) →
      ∀ s, P s → Outcome.foldl f s l ≠ X ∧ ∀ s1, Outcome.foldl f s l = .ok s1 → P s1 := by
  intro l
  induction l with
  | nil =>
    intro _ s hp
    refine ⟨fun h => hX s h.symm, ?_⟩
    intro s1 h
    simp only [Outcome.foldl, Outcome.ok.injEq] at h
    rw [← h]; exact hp
  | cons a t ih =>
    intro hstep s hp
    obtain ⟨h1, h2⟩ := hstep s a (List.mem_cons_self _ _) hp
    simp only [Outcome.foldl]
    cases hfa : f s a with
    | ok s1 =>
      simp only
      exact ih (fun u b hb hu => hstep u b (List.mem_cons_of_mem _ hb) hu) s1 (h2 s1 hfa)
    | outOfFuel =>
      simp only
      refine ⟨fun h => h1 (hfa.trans h), fun s1 h => by simp at h⟩
    | undefined =>
      simp only
      refine ⟨fun h => h1 (hfa.trans h), fun s1 h => by simp at h⟩

theorem ReadBy_of_skeleton (cs1 cs2 : List Cell) (h : skeleton cs1 = skeleton cs2) (a b : Addr) :
    ReadBy cs1 a b ↔ ReadBy cs2 a b := by
  have : (fun x y => y ∈ revdeps_of cs1 x) = (fun x y => y ∈ revdeps_of cs2 x) := by
    funext x y
    rw [revdeps_of_skeleton cs1 cs2 h x]
  unfold ReadBy
  rw [this]

theorem RevClosed_of_skeleton (cs1 cs2 : List Cell) (h : skeleton cs1 = skeleton cs2)
    (hc : RevClosed cs1) : RevClosed cs2 := by
  intro a d hd
  rw [isSome_of_skeleton cs1 cs2 h d]
  rw [← revdeps_of_skeleton cs1 cs2 h a] at hd
  exact hc a d hd

/-- With mirrored edges every incoming edge comes from a cell of the store. -/
theorem RevClosed_of_Mirrored (cells : List Cell) (hm : Mirrored cells) : RevClosed cells := by
  intro a d hd
  have h1 := hm d a
  have h2 : 0 < (revdeps_of cells a).count d := List.count_pos_iff.mpr hd
  rw [← h1] at h2
  have h3 : a ∈ deps_of cells d := List.count_pos_iff.mp h2
  unfold deps_of at h3
  cases hl : lookup cells d with
  | none => rw [hl] at h3; simp at h3
  | some x => rfl

theorem dirty_at_mono (cells cs : List Cell)
    (h : ∀ b x, lookup cells b = some x → ∃ y, lookup cs b = some y ∧ Cell.dirtied x y)
    (b : Addr) (hb : dirty_at cells b = true) : dirty_at cs b = true := by
  unfold dirty_at at hb ⊢
  cases hl : lookup cells b with
  | none => rw [hl] at hb; simp at hb
  | some x =>
    rw [hl] at hb
    obtain ⟨y, hy, hd⟩ := h b x hl
    rw [hy]
    exact hd.2 hb

theorem propagate_dirty_mono (fuel : Nat) (cells : List Cell) (c : Addr) (cs : List Cell)
    (h : propagate_dirty fuel cells c = .ok cs) (b : Addr) (hb : dirty_at cells b = true) :
    dirty_at cs b = true :=
  dirty_at_mono cells cs (propagate_dirty_dirtied fuel cells c cs h).1 b hb

theorem dirty_at_mark_dirty (cells : List Cell) (c b : Addr) :
    dirty_at (mark_dirty cells c) b
      = if b = c then (lookup cells c).isSome else dirty_at cells b := by
  unfold dirty_at mark_dirty
  rw [lookup_modify]
  · by_cases hbc : b = c
    · rw [if_pos hbc, if_pos hbc, hbc]
      cases lookup cells c <;> rfl
    · rw [if_neg hbc, if_neg hbc]
  · intro _; exact ⟨rfl, rfl⟩

/-- A cell that `propagate_dirty(c)` leaves dirty was dirty before or is
reached from `c` by incoming edges. -/
theorem propagate_dirty_reach (fuel : Nat) :
    ∀ (cells : List Cell) (c : Addr) (cs : List Cell), propagate_dirty fuel cells c = .ok cs →
      ∀ b, dirty_at cs b = true → dirty_at cells b = true ∨ ReadBy cells c b := by
  induction fuel with
  | zero => intro cells c cs h; simp [propagate_dirty] at h
  | succ n ih =>
    intro cells c cs h
    simp only [propagate_dirty] at h
    split at h
    · simp at h
    · rename_i x hx
      split at h
      · have hfold := foldl_preserves_mem
          (fun t => skeleton t = skeleton cells ∧
            ∀ b, dirty_at t b = true → dirty_at cells b = true ∨ ReadBy cells c b)
          (fun t d => propagate_dirty n t d) x.revdeps ?_ _ cs ?_ h
        · exact hfold.2
        · intro t d t1 hd ht hstep
          refine ⟨by rw [skeleton_propagate_dirty n t d t1 hstep, ht.1], ?_⟩
          intro b hb
          rcases ih t d t1 hstep b hb with h1 | h1
          · exact ht.2 b h1
          · right
            rw [ReadBy_of_skeleton t cells ht.1] at h1
            refine Relation.ReflTransGen.head ?_ h1
            show d ∈ revdeps_of cells c
            unfold revdeps_of
            rw [hx]; exact hd
        · refine ⟨skeleton_mark_dirty cells c, ?_⟩
          intro b hb
          rw [dirty_at_mark_dirty] at hb
          by_cases hbc : b = c
          · right; rw [hbc]; exact Relation.ReflTransGen.refl
          · rw [if_neg hbc] at hb; exact Or.inl hb
      · simp only [Outcome.ok.injEq] at h
        rw [← h]
        intro b hb
        exact Or.inl hb

/-- A cell that `propagate_dirty(c)` made dirty has all the cells that read it
dirty when the call returns. -/
theorem propagate_dirty_closed (fuel : Nat) :
    ∀ (cells : List Cell) (c : Addr) (cs : List Cell), propagate_dirty fuel cells c = .ok cs →
      ∀ x, dirty_at cells x = false → dirty_at cs x = true →
        ∀ r ∈ revdeps_of cells x, dirty_at cs r = true := by
  induction fuel with
  | zero => intro cells c cs h; simp [propagate_dirty] at h
  | succ n ih =>
    intro cells c cs h
    simp only [propagate_dirty] at h
    split at h
    · simp at h
    · rename_i y hy
      split at h
      · have hfold : ∀ (l : List Addr) (t t1 : List Cell),
            skeleton t = skeleton cells →
            (∀ x, dirty_at (mark_dirty cells c) x = false → dirty_at t x = true →
              ∀ r ∈ revdeps_of cells x, dirty_at t r = true) →
            Outcome.foldl (fun cs d => propagate_dirty n cs d) t l = .ok t1 →
            skeleton t1 = skeleton cells ∧
            (∀ x, dirty_at (mark_dirty cells c) x = false → dirty_at t1 x = true →
              ∀ r ∈ revdeps_of cells x, dirty_at t1 r = true) ∧
            (∀ b, dirty_at t b = true → dirty_at t1 b = true) ∧
            ∀ d ∈ l, dirty_at t1 d = true := by
          intro l
          induction l with
          | nil =>
            intro t t1 hsk hp hrun
            simp only [Outcome.foldl, Outcome.ok.injEq] at hrun
            rw [← hrun]
            exact ⟨hsk, hp, fun _ hb => hb, fun d hd => absurd hd (List.not_mem_nil d)⟩
          | cons d l ihl =>
            intro t t1 hsk hp hrun
            simp only [Outcome.foldl] at hrun
            split at hrun
            · rename_i t2 hstep
              have hsk2 : skeleton t2 = skeleton cells := by
                rw [skeleton_propagate_dirty n t d t2 hstep, hsk]
              have hmono := propagate_dirty_mono n t d t2 hstep
              have hd2 : dirty_at t2 d = true := by
                obtain ⟨z, hz, hzd⟩ := (propagate_dirty_dirtied n t d t2 hstep).2
                unfold dirty_at
                rw [hz]; exact hzd
              have hp2 : ∀ x, dirty_at (mark_dirty cells c) x = false → dirty_at t2 x = true →
                  ∀ r ∈ revdeps_of cells x, dirty_at t2 r = true := by
                intro x hx0 hx2 r hr
                by_cases hxt : dirty_at t x = true
                · exact hmono r (hp x hx0 hxt r hr)
                · refine ih t d t2 hstep x (by simpa using hxt) hx2 r ?_
                  rw [revdeps_of_skeleton t cells hsk x]
                  exact hr
              obtain ⟨g1, g2, g3, g4⟩ := ihl t2 t1 hsk2 hp2 hrun
              refine ⟨g1, g2, fun b hb => g3 b (hmono b hb), ?_⟩
              intro e he
              rcases List.mem_cons.mp he with rfl | he
              · exact g3 _ hd2
              · exact g4 e he
            · simp at hrun
            · simp at hrun
        obtain ⟨_, g2, _, g4⟩ := hfold y.revdeps _ cs (skeleton_mark_dirty cells c) (by
          intro x hx0 hx1
          exact absurd hx1 (by rw [hx0]; simp)) h
        intro x hx hxs r hr
        by_cases hxc : x = c
        · apply g4
          rw [hxc] at hr
          unfold revdeps_of at hr
          rw [hy] at hr
          exact hr
        · refine g2 x ?_ hxs r hr
          rw [dirty_at_mark_dirty, if_neg hxc]
          exact hx
      · simp only [Outcome.ok.injEq] at h
        rw [← h]
        intro x hx hxs
        rw [hx] at hxs
        simp at hxs

theorem clean_count_cons (y : Cell) (ys : List Cell) :
    clean_count (y :: ys) = (if y.flags.dirty = true then 0 else 1) + clean_count ys := by
  unfold clean_count
  rw [List.filter_cons]
  by_cases h : y.flags.dirty = true
  · simp [h]
  · simp [h]; omega

theorem mark_dirty_cons (y : Cell) (ys : List Cell) (c : Addr) :
    mark_dirty (y :: ys) c
      = (if y.isAt c = true then { y with flags := { y.flags with dirty := true } } else y)
          :: mark_dirty ys c := rfl

theorem clean_count_mark_dirty_le (cells : List Cell) (c : Addr) :
    clean_count (mark_dirty cells c) ≤ clean_count cells := by
  induction cells with
  | nil => exact le_refl _
  | cons y ys ih =>
    rw [mark_dirty_cons, clean_count_cons, clean_count_cons]
    by_cases hy : y.isAt c = true
    · rw [if_pos hy]
      simp only [if_true]
      split <;> omega
    · rw [if_neg hy]
      omega

theorem clean_count_mark_dirty_lt (cells : List Cell) (c : Addr) (x : Cell)
    (hx : lookup cells c = some x) (hd : x.flags.dirty = false) :
    clean_count (mark_dirty cells c) < clean_count cells := by
  induction cells with
  | nil => simp [lookup_nil] at hx
  | cons y ys ih =>
    rw [lookup_cons] at hx
    have hle := clean_count_mark_dirty_le ys c
    rw [mark_dirty_cons, clean_count_cons, clean_count_cons]
    by_cases hy : y.isAt c = true
    · rw [if_pos ((isAt_iff y c).mp hy)] at hx
      simp only [Option.some.injEq] at hx
      subst hx
      rw [if_pos hy]
      simp only [if_true, hd, Bool.false_eq_true, if_false]
      omega
    · rw [if_neg (fun h => hy ((isAt_iff y c).mpr h))] at hx
      have := ih hx
      rw [if_neg hy]
      omega

/-- `propagate_dirty` does not run out of a fuel above the number of cells that
are not dirty, and leaves no more of them. -/
theorem propagate_dirty_ends (fuel : Nat) :
    ∀ (cells : List Cell) (c : Addr), clean_count cells + 1 ≤ fuel →
      propagate_dirty fuel cells c ≠ .outOfFuel ∧
      ∀ cs, propagate_dirty fuel cells c = .ok cs → clean_count cs ≤ clean_count cells := by
  induction fuel with
  | zero => intro cells c h; omega
  | succ n ih =>
    intro cells c hf
    simp only [propagate_dirty]
    cases hl : lookup cells c with
    | none => exact ⟨by simp, fun cs h => by simp at h⟩
    | some x =>
      simp only
      by_cases hd : x.flags.dirty = true
      · simp only [hd, Bool.not_true, Bool.false_eq_true, if_false]
        exact ⟨by simp, fun cs h => by simp only [Outcome.ok.injEq] at h; rw [← h]⟩
      · have hd2 : x.flags.dirty = false := by simpa using hd
        simp only [hd2, Bool.not_false, if_true]
        have hlt := clean_count_mark_dirty_lt cells c x hl hd2
        obtain ⟨g1, g2⟩ := foldl_avoids Outcome.outOfFuel (fun s h => by simp at h)
          (fun t => clean_count t ≤ clean_count (mark_dirty cells c))
          (fun cs d => propagate_dirty n cs d) x.revdeps (by
            intro t d _ ht
            obtain ⟨a1, a2⟩ := ih t d (by omega)
            exact ⟨a1, fun t1 h1 => le_trans (a2 t1 h1) ht⟩) (mark_dirty cells c)
          (le_refl _)
        exact ⟨g1, fun cs h => le_trans (g2 cs h) (le_of_lt hlt)⟩

/-- On a store whose incoming edges come from cells of the store,
`propagate_dirty` on a cell of the store reads no missing cell. -/
theorem propagate_dirty_defined (fuel : Nat) :
    ∀ (cells : List Cell) (c : Addr), RevClosed cells → (lookup cells c).isSome = true →
      propagate_dirty fuel cells c ≠ .undefined := by
  induction fuel with
  | zero => intro cells c _ _; simp [propagate_dirty]
  | succ n ih =>
    intro cells c hc hs
    simp only [propagate_dirty]
    cases hl : lookup cells c with
    | none => rw [hl] at hs; simp at hs
    | some x =>
      simp only
      by_cases hd : x.flags.dirty = true
      · simp only [hd, Bool.not_true, Bool.false_eq_true, if_false]
        simp
      · have hd2 : x.flags.dirty = false := by simpa using hd
        simp only [hd2, Bool.not_false, if_true]
        refine (foldl_avoids Outcome.undefined (fun s h => by simp at h)
          (fun t => skeleton t = skeleton cells)
          (fun cs d => propagate_dirty n cs d) x.revdeps ?_ (mark_dirty cells c)
          (skeleton_mark_dirty cells c)).1
        intro t d hdm ht
        refine ⟨?_, fun t1 h1 => (skeleton_propagate_dirty n t d t1 h1).trans ht⟩
        refine ih t d (RevClosed_of_skeleton cells t ht.symm hc) ?_
        rw [isSome_of_skeleton cells t ht.symm d]
        refine hc c d ?_
        unfold revdeps_of
        rw [hl]; exact hdm

theorem clean_count_le_length (cells : List Cell) : clean_count cells ≤ cells.length :=
  List.length_filter_le _ _

theorem dirty_at_of_all (cells : List Cell) (h : ∀ x ∈ cells, x.flags.dirty = false)
    (a : Addr) : dirty_at cells a = false := by
  unfold dirty_at
  cases hl : lookup cells a with
  | none => rfl
  | some x => exact h x (lookup_mem cells a x hl)

/-- C36. Called on a cell `c` of a store in which no cell is dirty, a
returning `propagate_dirty` leaves dirty exactly the cells reached from `c` by
following incoming edges zero or more times; every cell is as before but for
its dirty flag, and no cell is added. Called on a cell that is dirty it
returns the store unchanged. On a store with mirrored edges the call on a
cell of the store returns, for every fuel above the number of cells. -/
theorem C36_propagate_dirty_marks (cells : List Cell) (c : Addr)
    (hclean : ∀ a, dirty_at cells a = false) :
    (∀ (fuel : Nat) (cs : List Cell), propagate_dirty fuel cells c = .ok cs →
      (∀ b, dirty_at cs b = true ↔ ReadBy cells c b) ∧
      (∀ b x, lookup cells b = some x →
        ∃ y, lookup cs b = some y ∧
          y = { x with flags := { x.flags with dirty := y.flags.dirty } }) ∧
      (∀ b, lookup cells b = none → lookup cs b = none)) ∧
    (∀ (cells2 : List Cell) (x : Cell) (fuel : Nat), lookup cells2 c = some x →
      x.flags.dirty = true → propagate_dirty (fuel + 1) cells2 c = .ok cells2) ∧
    (Mirrored cells → (lookup cells c).isSome = true →
      ∀ fuel, cells.length + 1 ≤ fuel → ∃ cs, propagate_dirty fuel cells c = .ok cs) := by
  refine ⟨?_, ?_, ?_⟩
  · intro fuel cs h
    obtain ⟨hall, y, hy, hyd⟩ := propagate_dirty_dirtied fuel cells c cs h
    refine ⟨?_, ?_, ?_⟩
    · intro b
      constructor
      · intro hb
        rcases propagate_dirty_reach fuel cells c cs h b hb with h1 | h1
        · rw [hclean b] at h1; simp at h1
        · exact h1
      · intro hr
        unfold ReadBy at hr
        induction hr with
        | refl =>
          unfold dirty_at
          rw [hy]; exact hyd
        | @tail b1 c1 _ hbc ih =>
          exact propagate_dirty_closed fuel cells c cs h b1 (hclean b1) ih c1 hbc
    · intro b x hx
      obtain ⟨z, hz, hzd⟩ := hall b x hx
      exact ⟨z, hz, hzd.1⟩
    · intro b hb
      have := isSome_of_skeleton cs cells (skeleton_propagate_dirty fuel cells c cs h) b
      rw [hb] at this
      cases hl : lookup cs b with
      | none => rfl
      | some z => rw [hl] at this; simp at this
  · intro cells2 x fuel hx hd
    simp only [propagate_dirty, hx, hd, Bool.not_true, Bool.false_eq_true, if_false]
  · intro hm hs fuel hf
    have h1 := (propagate_dirty_ends fuel cells c
      (by have := clean_count_le_length cells; omega)).1
    have h2 := propagate_dirty_defined fuel cells c (RevClosed_of_Mirrored cells hm) hs
    cases hp : propagate_dirty fuel cells c with
    | ok cs => exact ⟨cs, rfl⟩
    | outOfFuel => exact absurd hp h1
    | undefined => exact absurd hp h2

/-- The store of two cells in which B1 reads A1: after `propagate_dirty` on A1
the cells A1 and B1 are dirty; B1 is reached from A1 by incoming edges and C1
is not. -/
theorem C36_propagate_dirty_marks_witness :
    ReadBy
      [⟨[(0, 0)], [], 1, 0, some "=A1".toList, .null, ⟨false, true, false, false⟩⟩,
        ⟨[], [(1, 0)], 0, 0, none, .null, Flags.zero⟩] (0, 0) (1, 0) ∧
    ¬ ReadBy
      [⟨[(0, 0)], [], 1, 0, some "=A1".toList, .null, ⟨false, true, false, false⟩⟩,
        ⟨[], [(1, 0)], 0, 0, none, .null, Flags.zero⟩] (0, 0) (2, 0) :=
  have key := ((C36_propagate_dirty_marks
    [⟨[(0, 0)], [], 1, 0, some "=A1".toList, .null, ⟨false, true, false, false⟩⟩,
      ⟨[], [(1, 0)], 0, 0, none, .null, Flags.zero⟩] (0, 0)
    (dirty_at_of_all _ (by decide))).1 3
    [⟨[(0, 0)], [], 1, 0, some "=A1".toList, .null, ⟨true, true, false, false⟩⟩,
      ⟨[], [(1, 0)], 0, 0, none, .null, ⟨true, false, false, false⟩⟩] (by decide!)).1
  ⟨(key (1, 0)).mp (by decide!), fun h => absurd ((key (2, 0)).mpr h) (by decide!)⟩

/-! ## Termination: the lexer -/

theorem rem2_le (c : Char) (e : List Char) : rem2 c e ≤ e.length + 1 := by
  unfold rem2
  split <;> omega

theorem rem2_of_ne (c : Char) (e : List Char) (h : c ≠ NUL) : rem2 c e = e.length + 1 := by
  unfold rem2
  rw [if_neg h]

theorem rem2_feed_lt (c : Char) (e : List Char) (h : c ≠ NUL) :
    rem2 (feed e).1 (feed e).2 < rem2 c e := by
  cases e with
  | nil => simp [feed, rem2, h]
  | cons d r =>
    have := rem2_le d r
    simp only [feed, rem2, h, if_false, List.length_cons] at *
    omega

theorem next_char_lt (lx : Lexer) (h : lx.ch ≠ NUL) :
    rem2 (next_char lx).ch (next_char lx).expr < rem2 lx.ch lx.expr := by
  rw [(next_char_fields lx).1, (next_char_fields lx).2.1]
  exact rem2_feed_lt _ _ h

theorem isspace_NUL : isspace NUL = false := by decide

theorem skip_space_rem : ∀ (e : List Char) (c : Char),
    rem2 (skip_space c e).1 (skip_space c e).2 ≤ rem2 c e := by
  intro e
  induction e with
  | nil =>
    intro c
    unfold skip_space
    by_cases h : isspace c = true
    · simp [h, rem2]
    · simp [h]
  | cons d r ih =>
    intro c
    rw [skip_space]
    by_cases h : isspace c = true
    · have hc : c ≠ NUL := by
        intro he; rw [he, isspace_NUL] at h; simp at h
      simp only [h, if_true]
      have h1 := ih d
      have h2 := rem2_le d r
      rw [rem2_of_ne c _ hc, List.length_cons]
      omega
    · simp only [h, if_false]
      exact le_refl _

theorem alnum_ne_NUL (c : Char) (h : (isalpha c || isdigit c) = true) : c ≠ NUL := by
  intro he
  rw [he, isalnum_NUL] at h
  simp at h

theorem scan_alnum_rem : ∀ (e : List Char) (tok : List Char) (c : Char),
    rem2 (scan_alnum tok c e).2.1 (scan_alnum tok c e).2.2 ≤ rem2 c e ∧
    ((isalpha c || isdigit c) = true →
      rem2 (scan_alnum tok c e).2.1 (scan_alnum tok c e).2.2 < rem2 c e) := by
  intro e
  induction e with
  | nil =>
    intro tok c
    rw [scan_alnum_step]
    by_cases h : (isalpha c || isdigit c) = true
    · have hc := alnum_ne_NUL c h
      simp only [h, if_true, feed_nil]
      rw [scan_alnum_step]
      simp [isalnum_NUL, rem2, hc]
    · simp [h]
  | cons d r ih =>
    intro tok c
    rw [scan_alnum_step]
    by_cases h : (isalpha c || isdigit c) = true
    · have hc := alnum_ne_NUL c h
      simp only [h, if_true, feed_cons]
      have h1 := (ih (put tok (toupper c)) d).1
      have h2 := rem2_le d r
      rw [rem2_of_ne c _ hc, List.length_cons]
      omega
    · simp [h]

theorem scan_digits_step (tok : List Char) (c : Char) (e : List Char) :
    scan_digits tok c e =
      if isdigit c then scan_digits (put tok c) (feed e).1 (feed e).2
      else (tok, c, e) := by
  cases e with
  | nil =>
    rw [scan_digits]
    by_cases h : isdigit c = true
    · simp only [h, if_true, feed_nil]
      rw [scan_digits]
      simp [isdigit_NUL]
    · simp only [h, if_false]
      simp
  | cons d r =>
    rw [scan_digits]
    simp [feed_cons]

theorem scan_digits_rem : ∀ (e : List Char) (tok : List Char) (c : Char),
    rem2 (scan_digits tok c e).2.1 (scan_digits tok c e).2.2 ≤ rem2 c e ∧
    (isdigit c = true →
      rem2 (scan_digits tok c e).2.1 (scan_digits tok c e).2.2 < rem2 c e) := by
  intro e
  induction e with
  | nil =>
    intro tok c
    rw [scan_digits_step]
    by_cases h : isdigit c = true
    · have hc : c ≠ NUL := alnum_ne_NUL c (by simp [h])
      simp only [h, if_true, feed_nil]
      rw [scan_digits_step]
      simp [isdigit_NUL, rem2, hc]
    · simp [h]
  | cons d r ih =>
    intro tok c
    rw [scan_digits_step]
    by_cases h : isdigit c = true
    · have hc : c ≠ NUL := alnum_ne_NUL c (by simp [h])
      simp only [h, if_true, feed_cons]
      have h1 := (ih (put tok c) d).1
      have h2 := rem2_le d r
      rw [rem2_of_ne c _ hc, List.length_cons]
      omega
    · simp [h]

theorem scan_string_rem (q : Char) : ∀ (e : List Char) (tok : List Char) (c : Char),
    rem2 (scan_string q tok c e).2.1 (scan_string q tok c e).2.2 ≤ rem2 c e := by
  intro e
  induction e with
  | nil =>
    intro tok c
    rw [scan_string]
    by_cases h : c ≠ NUL ∧ c ≠ q
    · rw [if_pos h]
      simp [rem2]
    · rw [if_neg h]
  | cons d r ih =>
    intro tok c
    rw [scan_string]
    by_cases h : c ≠ NUL ∧ c ≠ q
    · rw [if_pos h]
      have h1 := ih (put tok c) d
      have h2 := rem2_le d r
      rw [rem2_of_ne c _ h.1, List.length_cons]
      omega
    · rw [if_neg h]

theorem get_token_ident_lt (lx : Lexer) (h : isalpha lx.ch = true) :
    rem2 (get_token_ident lx).ch (get_token_ident lx).expr < rem2 lx.ch lx.expr := by
  have h1 := (scan_alnum_rem lx.expr [] lx.ch).2 (by simp [h])
  unfold get_token_ident
  dsimp only
  generalize scan_alnum [] lx.ch lx.expr = r at h1 ⊢
  by_cases hcr : is_cellref r.1 = true
  · rw [if_pos hcr]
    by_cases hcol : r.2.1 = ':'
    · rw [if_pos hcol]
      have hne : r.2.1 ≠ NUL := by
        rw [hcol]; decide
      have h2 := next_char_lt ⟨tokNone, r.1, r.2.2, r.2.1, lx.current_function⟩ hne
      have h3 := (scan_alnum_rem
        (next_char ⟨tokNone, r.1, r.2.2, r.2.1, lx.current_function⟩).expr (r.1 ++ [':'])
        (next_char ⟨tokNone, r.1, r.2.2, r.2.1, lx.current_function⟩).ch).1
      split
      · exact lt_of_le_of_lt h3 (lt_trans h2 h1)
      · exact lt_of_le_of_lt h3 (lt_trans h2 h1)
    · rw [if_neg hcol]
      exact h1
  · rw [if_neg hcr]
    split
    · exact h1
    · exact h1

theorem get_token_number_lt (lx : Lexer) (h : isdigit lx.ch = true) :
    rem2 (get_token_number lx).ch (get_token_number lx).expr < rem2 lx.ch lx.expr := by
  have h1 := (scan_digits_rem lx.expr [] lx.ch).2 h
  unfold get_token_number
  dsimp only
  generalize scan_digits [] lx.ch lx.expr = r at h1 ⊢
  by_cases hdot : r.2.1 = '.'
  · rw [if_pos hdot]
    have hne : r.2.1 ≠ NUL := by
      rw [hdot]; decide
    have h2 := next_char_lt
      ⟨lx.tok_type, lx.token, r.2.2, r.2.1, lx.current_function⟩ hne
    have h3 := (scan_digits_rem
      (next_char ⟨lx.tok_type, lx.token, r.2.2, r.2.1, lx.current_function⟩).expr
      (put r.1 '.')
      (next_char ⟨lx.tok_type, lx.token, r.2.2, r.2.1, lx.current_function⟩).ch).1
    exact lt_of_le_of_lt h3 (lt_trans h2 h1)
  · rw [if_neg hdot]
    exact h1

theorem get_token_string_le (lx : Lexer) (h : lx.ch ≠ NUL) :
    rem2 (get_token_string lx).ch (get_token_string lx).expr < rem2 lx.ch lx.expr := by
  have h1 := next_char_lt lx h
  have h2 := scan_string_rem lx.ch (next_char lx).expr [] (next_char lx).ch
  unfold get_token_string
  dsimp only
  generalize scan_string lx.ch [] (next_char lx).ch (next_char lx).expr = r at h2 ⊢
  by_cases hq : r.2.1 = lx.ch
  · rw [if_pos hq]
    have hne : r.2.1 ≠ NUL := by
      rw [hq]; exact h
    have h3 := next_char_lt ⟨lx.tok_type, r.1, r.2.2, r.2.1, lx.current_function⟩ hne
    exact lt_trans h3 (lt_of_le_of_lt h2 h1)
  · rw [if_neg hq]
    exact lt_of_le_of_lt h2 h1

/-- One character token: the lexer advances. -/
theorem one_char_lt (lx : Lexer) (tt : TokenType) (h : lx.ch ≠ NUL) :
    rem2 ({ next_char lx with tok_type := tt } : Lexer).ch
      ({ next_char lx with tok_type := tt } : Lexer).expr < rem2 lx.ch lx.expr :=
  next_char_lt lx h

theorem two_char_lt (lx : Lexer) (tt : TokenType) (h : lx.ch ≠ NUL)
    (h2 : (next_char lx).ch ≠ NUL) :
    rem2 ({ next_char (next_char lx) with tok_type := tt } : Lexer).ch
      ({ next_char (next_char lx) with tok_type := tt } : Lexer).expr < rem2 lx.ch lx.expr := by
  have a := next_char_lt lx h
  have b := next_char_lt (next_char lx) h2
  simp only
  omega

/-- `get_token` never moves back in the text, and moves forward whenever it
returns a token other than the end and the error token. -/
theorem get_token_rem (lx0 : Lexer) :
    rem2 (get_token lx0).ch (get_token lx0).expr ≤ rem2 lx0.ch lx0.expr ∧
    ((get_token lx0).tok_type ≠ tokEnd → (get_token lx0).tok_type ≠ tokError →
      rem2 (get_token lx0).ch (get_token lx0).expr < rem2 lx0.ch lx0.expr) := by
  obtain ⟨t, k, e, c, f⟩ := lx0
  have hsk := skip_space_rem e c
  unfold get_token
  dsimp only
  generalize (skip_space c e).1 = c2 at hsk ⊢
  generalize (skip_space c e).2 = e2 at hsk ⊢
  have key : ∀ lx2 : Lexer, rem2 lx2.ch lx2.expr < rem2 c2 e2 →
      rem2 lx2.ch lx2.expr ≤ rem2 c e ∧
      (lx2.tok_type ≠ tokEnd → lx2.tok_type ≠ tokError → rem2 lx2.ch lx2.expr < rem2 c e) :=
    fun lx2 h => ⟨by omega, fun _ _ => by omega⟩
  by_cases c1 : c2 = NUL
  · rw [if_pos c1]
    exact ⟨hsk, fun h _ => absurd rfl h⟩
  rw [if_neg c1]
  by_cases c3 : isalpha c2 = true
  · rw [if_pos c3]
    exact key _ (get_token_ident_lt ⟨tokNone, k, e2, c2, f⟩ c3)
  rw [if_neg c3]
  by_cases c4 : isdigit c2 = true
  · rw [if_pos c4]
    exact key _ (get_token_number_lt ⟨tokNone, k, e2, c2, f⟩ c4)
  rw [if_neg c4]
  by_cases c5 : c2 = '='
  · rw [if_pos c5]
    exact key _ (one_char_lt ⟨tokNone, k, e2, c2, f⟩ tokEq c1)
  rw [if_neg c5]
  by_cases c6 : c2 = '<'
  · rw [if_pos c6]
    by_cases d1 : (next_char ⟨tokNone, k, e2, c2, f⟩).ch = '='
    · rw [if_pos d1]
      exact key _ (two_char_lt ⟨tokNone, k, e2, c2, f⟩ tokLe c1 (by rw [d1]; decide))
    rw [if_neg d1]
    by_cases d2 : (next_char ⟨tokNone, k, e2, c2, f⟩).ch = '>'
    · rw [if_pos d2]
      exact key _ (two_char_lt ⟨tokNone, k, e2, c2, f⟩ tokNe c1 (by rw [d2]; decide))
    rw [if_neg d2]
    exact key _ (one_char_lt ⟨tokNone, k, e2, c2, f⟩ tokLt c1)
  rw [if_neg c6]
  by_cases c7 : c2 = '>'
  · rw [if_pos c7]
    by_cases d1 : (next_char ⟨tokNone, k, e2, c2, f⟩).ch = '='
    · rw [if_pos d1]
      exact key _ (two_char_lt ⟨tokNone, k, e2, c2, f⟩ tokGe c1 (by rw [d1]; decide))
    rw [if_neg d1]
    exact key _ (one_char_lt ⟨tokNone, k, e2, c2, f⟩ tokGt c1)
  rw [if_neg c7]
  by_cases o0 : c2 = '+'
  · rw [if_pos o0]
    exact key _ (one_char_lt ⟨tokNone, k, e2, c2, f⟩ tokPlus c1)
  rw [if_neg o0]
  by_cases o1 : c2 = '-'
  · rw [if_pos o1]
    exact key _ (one_char_lt ⟨tokNone, k, e2, c2, f⟩ tokMinus c1)
  rw [if_neg o1]
  by_cases o2 : c2 = '*'
  · rw [if_pos o2]
    exact key _ (one_char_lt ⟨tokNone, k, e2, c2, f⟩ tokMul c1)
  rw [if_neg o2]
  by_cases o3 : c2 = '/'
  · rw [if_pos o3]
    exact key _ (one_char_lt ⟨tokNone, k, e2, c2, f⟩ tokDiv c1)
  rw [if_neg o3]
  by_cases o4 : c2 = '%'
  · rw [if_pos o4]
    exact key _ (one_char_lt ⟨tokNone, k, e2, c2, f⟩ tokMod c1)
  rw [if_neg o4]
  by_cases o5 : c2 = '('
  · rw [if_pos o5]
    exact key _ (one_char_lt ⟨tokNone, k, e2, c2, f⟩ tokLParen c1)
  rw [if_neg o5]
  by_cases o6 : c2 = ')'
  · rw [if_pos o6]
    exact key _ (one_char_lt ⟨tokNone, k, e2, c2, f⟩ tokRParen c1)
  rw [if_neg o6]
  by_cases o7 : c2 = ','
  · rw [if_pos o7]
    exact key _ (one_char_lt ⟨tokNone, k, e2, c2, f⟩ tokComma c1)
  rw [if_neg o7]
  by_cases c8 : c2 = SQUOTE ∨ c2 = DQUOTE
  · rw [if_pos c8]
    exact key _ (get_token_string_le ⟨tokNone, k, e2, c2, f⟩ c1)
  rw [if_neg c8]
  exact ⟨hsk, fun _ h => absurd rfl h⟩

/-- The measure of the evaluator does not grow with `get_token`, and shrinks
when the current token is neither the end nor the error token. -/
theorem get_token_left (lx : Lexer) :
    lex_left (get_token lx) ≤ lex_left lx ∧
    (lx.tok_type ≠ tokEnd → lx.tok_type ≠ tokError → lex_left (get_token lx) < lex_left lx) := by
  obtain ⟨h1, h2⟩ := get_token_rem lx
  unfold lex_left
  by_cases hn : (get_token lx).tok_type = tokEnd ∨ (get_token lx).tok_type = tokError
  · rw [if_pos hn]
    refine ⟨by split <;> omega, ?_⟩
    intro a b
    rw [if_neg (by simp [a, b])]
    omega
  · rw [if_neg hn]
    have h3 := h2 (fun h => hn (Or.inl h)) (fun h => hn (Or.inr h))
    refine ⟨by split <;> omega, ?_⟩
    intro a b
    rw [if_neg (by simp [a, b])]
    omega

/-! ## Termination: the evaluator -/

theorem ends_mono {α : Type} (o : Outcome α) (P Q : α → Prop) (h : o.ends P)
    (hpq : ∀ a, P a → Q a) : o.ends Q := by
  cases o with
  | ok a => exact hpq a h
  | outOfFuel => exact h
  | undefined => trivial

theorem ends_ne {α : Type} (o : Outcome α) (P : α → Prop) (h : o.ends P) :
    o ≠ .outOfFuel := by
  intro he
  rw [he] at h
  exact h

theorem ends_of_ne {α : Type} (o : Outcome α) (P : α → Prop) (h : o ≠ .outOfFuel)
    (hp : ∀ a, o = .ok a → P a) : o.ends P := by
  cases o with
  | ok a => exact hp a rfl
  | outOfFuel => exact absurd rfl h
  | undefined => trivial

theorem expect_token_left (lx : Lexer) (t : TokenType) :
    lex_left (expect_token lx t).2 ≤ lex_left lx := by
  unfold expect_token
  split
  · exact le_refl _
  · exact (get_token_left lx).1

theorem expect_token_lt (lx : Lexer) (t : TokenType) (h : (expect_token lx t).1 = true)
    (h1 : t ≠ tokEnd) (h2 : t ≠ tokError) :
    lex_left (expect_token lx t).2 < lex_left lx := by
  unfold expect_token at h ⊢
  by_cases hne : lx.tok_type ≠ t
  · rw [if_pos hne] at h; simp at h
  · rw [if_neg hne]
    have he : lx.tok_type = t := by simpa using hne
    exact (get_token_left lx).2 (by rw [he]; exact h1) (by rw [he]; exact h2)

theorem eval_signs_ends : ∀ (n : Nat) (b : Bool) (lx : Lexer), lex_left lx + 1 ≤ n →
    (eval_signs n b lx).ends (fun r => lex_left r.2 ≤ lex_left lx) := by
  intro n
  induction n with
  | zero => intro b lx h; omega
  | succ n ih =>
    intro b lx h
    rw [eval_signs]
    by_cases h1 : lx.tok_type = tokMinus
    · rw [if_pos h1]
      have hlt := (get_token_left lx).2 (by rw [h1]; decide) (by rw [h1]; decide)
      exact ends_mono _ _ _ (ih _ _ (by omega)) (fun r hr => by omega)
    · rw [if_neg h1]
      by_cases h2 : lx.tok_type = tokPlus
      · rw [if_pos h2]
        have hlt := (get_token_left lx).2 (by rw [h2]; decide) (by rw [h2]; decide)
        exact ends_mono _ _ _ (ih _ _ (by omega)) (fun r hr => by omega)
      · rw [if_neg h2]
        exact le_refl _

theorem plus_text_ne (v : Value) : plus_text v ≠ .outOfFuel := by
  unfold plus_text
  cases v with
  | null => simp
  | error e => simp
  | num n => simp only; split <;> simp
  | str t => simp only; split <;> simp
  | shared t => simp only; split <;> simp
  | text t => simp only; split <;> simp

theorem add_apply_ne (op : TokenType) (v v2 : Value) : add_apply op v v2 ≠ .outOfFuel := by
  unfold add_apply
  split
  · have h1 := plus_text_ne v
    have h2 := plus_text_ne v2
    cases hp1 : plus_text v with
    | ok t1 =>
      simp only
      cases hp2 : plus_text v2 with
      | ok t2 => simp
      | outOfFuel => exact absurd hp2 h2
      | undefined => simp
    | outOfFuel => exact absurd hp1 h1
    | undefined => simp
  · split <;> simp

theorem int_of_float_ne (x : ℚ) : int_of_float x ≠ .outOfFuel := by
  unfold int_of_float
  split <;> simp

theorem round_eval_ne (arg : Value) : round_eval arg ≠ .outOfFuel := by
  unfold round_eval
  cases arg with
  | num x =>
    have := int_of_float_ne (x + 1 / 2)
    cases h : int_of_float (x + 1 / 2) <;> simp_all
  | _ => simp

theorem dec2bin_eval_ne (L : Libc) (arg : Value) : dec2bin_eval L arg ≠ .outOfFuel := by
  unfold dec2bin_eval
  cases arg with
  | num x =>
    have := int_of_float_ne x
    cases h : int_of_float x <;> simp_all
  | _ => simp

theorem dec2hex_eval_ne (L : Libc) (arg : Value) : dec2hex_eval L arg ≠ .outOfFuel := by
  unfold dec2hex_eval
  cases arg with
  | num x =>
    have := int_of_float_ne x
    cases h : int_of_float x <;> simp_all
  | _ => simp

theorem call_scalar_ne (L : Libc) (f : EvalFn) (args : List Value) :
    call_scalar L f args ≠ .outOfFuel := by
  unfold call_scalar
  cases f <;> simp [hex2dec_eval, round_eval_ne, dec2bin_eval_ne, dec2hex_eval_ne]
  split <;> simp

theorem find_cell_ne (cells : List Cell) (c r : Int) : find_cell cells c r ≠ .outOfFuel := by
  unfold find_cell
  split <;> simp

theorem new_cell_ne (cells : List Cell) (c r : Int) : new_cell cells c r ≠ .outOfFuel := by
  unfold new_cell
  split <;> simp

theorem foldl_ne_outOfFuel {σ α : Type} (f : σ → α → Outcome σ)
    (h : ∀ s a, f s a ≠ .outOfFuel) (l : List α) (s : σ) :
    Outcome.foldl f s l ≠ .outOfFuel :=
  (foldl_avoids Outcome.outOfFuel (fun s h => by simp at h) (fun _ => True) f l
    (fun s a _ _ => ⟨h s a, fun _ _ => trivial⟩) s trivial).1

/-- `process_range` does not need fuel when its callbacks do not. -/
theorem process_range_ne {σ : Type} (cells : List Cell) (c1 r1 c2 r2 : Int) (state : σ)
    (pfnAccum : Option (List Cell → σ → Cell → Outcome (List Cell × σ)))
    (pfnEval : Option (σ → Outcome Value))
    (ha : ∀ f, pfnAccum = some f → ∀ cs st x, f cs st x ≠ .outOfFuel)
    (he : ∀ ev, pfnEval = some ev → ∀ st, ev st ≠ .outOfFuel) :
    process_range cells c1 r1 c2 r2 state pfnAccum pfnEval ≠ .outOfFuel := by
  unfold process_range
  split
  · rename_i st hst
    split
    · rename_i ev
      split
      · simp
      · rename_i hev
        exact absurd hev (he ev rfl st.2)
      · simp
    · simp
  · rename_i hst
    exfalso
    refine foldl_ne_outOfFuel _ ?_ _ _ hst
    intro st a
    dsimp only
    split
    · split
      · rename_i f
        exact ha f rfl _ _ _
      · simp
    · rename_i hfc
      exact absurd hfc (find_cell_ne _ _ _)
    · simp
  · simp

theorem call_accum_ne (g : Accum) (cs : List Cell) (acc : AccumState) (x : Cell) :
    call_accum g cs acc x ≠ .outOfFuel := by
  unfold call_accum
  cases g <;> simp

theorem call_range_eval_ne (f : EvalFn) (acc : AccumState) :
    call_range_eval f acc ≠ .outOfFuel := by
  unfold call_range_eval
  cases f <;> simp

theorem eval_range_call_ends (cells : List Cell) (lx : Lexer) :
    (eval_range_call cells lx).ends (fun r => lex_left r.2 ≤ lex_left lx) := by
  have g1 := (get_token_left lx).1
  have g2 := expect_token_left (get_token lx) tokLParen
  have g3 := (get_token_left (expect_token (get_token lx) tokLParen).2).1
  have g4 := expect_token_left (get_token (expect_token (get_token lx) tokLParen).2) tokRParen
  unfold eval_range_call
  dsimp only
  split
  · dsimp only [Outcome.ends]
    omega
  · split
    · dsimp only [Outcome.ends]
      omega
    · split
      · trivial
      · rename_i f hf
        have hpr := process_range_ne cells
          (parse_range (expect_token (get_token lx) tokLParen).2.token).1
          (parse_range (expect_token (get_token lx) tokLParen).2.token).2.1
          (parse_range (expect_token (get_token lx) tokLParen).2.token).2.2.1
          (parse_range (expect_token (get_token lx) tokLParen).2.token).2.2.2
          (AccumState.mk 0 0 0) (f.pfn_accum.map (fun g => call_accum g))
          (some (call_range_eval f.pfn_eval)) (by
            intro g hg cs st x
            cases hpa : f.pfn_accum with
            | none => rw [hpa] at hg; simp at hg
            | some g0 =>
              rw [hpa] at hg
              simp only [Option.map_some', Option.some.injEq] at hg
              rw [← hg]
              exact call_accum_ne g0 cs st x) (by
            intro ev hev st
            simp only [Option.some.injEq] at hev
            rw [← hev]
            exact call_range_eval_ne _ _)
        split
        · dsimp only [Outcome.ends]
          omega
        · rename_i hh
          exact absurd hh hpr
        · trivial

theorem is_relop_ne (t : TokenType) (h : is_relop t = true) : t ≠ tokEnd ∧ t ≠ tokError := by
  revert h
  cases t <;> decide

/-- The evaluator does not run out of a fuel above six times the measure of the
lexer, and leaves a lexer of no larger measure. -/
theorem eval_ends (L : Libc) (cells : List Cell) : ∀ n : Nat,
    (∀ lx, 6 * lex_left lx + 5 ≤ n →
      (eval_expr L cells n lx).ends (fun r => lex_left r.2 ≤ lex_left lx)) ∧
    (∀ v lx, 6 * lex_left lx + 4 ≤ n →
      (eval_expr_loop L cells n v lx).ends (fun r => lex_left r.2 ≤ lex_left lx)) ∧
    (∀ lx, 6 * lex_left lx + 4 ≤ n →
      (eval_expr1 L cells n lx).ends (fun r => lex_left r.2 ≤ lex_left lx)) ∧
    (∀ v lx, 6 * lex_left lx + 3 ≤ n →
      (eval_expr1_loop L cells n v lx).ends (fun r => lex_left r.2 ≤ lex_left lx)) ∧
    (∀ lx, 6 * lex_left lx + 3 ≤ n →
      (eval_term L cells n lx).ends (fun r => lex_left r.2 ≤ lex_left lx)) ∧
    (∀ v lx, 6 * lex_left lx + 2 ≤ n →
      (eval_term_loop L cells n v lx).ends (fun r => lex_left r.2 ≤ lex_left lx)) ∧
    (∀ args lx, 6 * lex_left lx + 6 ≤ n →
      (eval_args L cells n args lx).ends (fun r => lex_left r.2.2 ≤ lex_left lx)) ∧
    (∀ lx, 6 * lex_left lx + 2 ≤ n →
      (eval_factor L cells n lx).ends (fun r => lex_left r.2 ≤ lex_left lx)) := by
  intro n
  induction n with
  | zero =>
    refine ⟨?_, ?_, ?_, ?_, ?_, ?_, ?_, ?_⟩ <;> intros <;> omega
  | succ n ih =>
    obtain ⟨iE, iEl, iE1, iE1l, iT, iTl, iA, iF⟩ := ih
    refine ⟨?_, ?_, ?_, ?_, ?_, ?_, ?_, ?_⟩
    · intro lx hf
      rw [eval_expr]
      have h1 := iE1 lx (by omega)
      cases hr : eval_expr1 L cells n lx with
      | outOfFuel => rw [hr] at h1; exact False.elim h1
      | undefined => simp [Outcome.ends]
      | ok r =>
        obtain ⟨v, lx1⟩ := r
        rw [hr] at h1
        have h2 : lex_left lx1 ≤ lex_left lx := h1
        simp only
        split
        · exact h2
        · exact ends_mono _ _ _ (iEl _ lx1 (by omega)) (fun r hr => le_trans hr h2)
    · intro v lx hf
      rw [eval_expr_loop]
      split
      · rename_i hop
        obtain ⟨n1, n2⟩ := is_relop_ne _ hop
        have hlt := (get_token_left lx).2 n1 n2
        have h1 := iE1 (get_token lx) (by omega)
        cases hr : eval_expr1 L cells n (get_token lx) with
        | outOfFuel => rw [hr] at h1; exact False.elim h1
        | undefined => simp [Outcome.ends]
        | ok r =>
          obtain ⟨v2, lx2⟩ := r
          rw [hr] at h1
          have h2 : lex_left lx2 ≤ lex_left (get_token lx) := h1
          simp only
          split
          · dsimp only [Outcome.ends]; omega
          · split
            · simp [Outcome.ends]
            · exact ends_mono _ _ _ (iEl _ lx2 (by omega)) (fun r hr => by
                have h3 : lex_left r.2 ≤ lex_left lx2 := hr
                omega)
      · exact le_refl _
    · intro lx hf
      rw [eval_expr1]
      have h1 := iT lx (by omega)
      cases hr : eval_term L cells n lx with
      | outOfFuel => rw [hr] at h1; exact False.elim h1
      | undefined => simp [Outcome.ends]
      | ok r =>
        obtain ⟨v, lx1⟩ := r
        rw [hr] at h1
        have h2 : lex_left lx1 ≤ lex_left lx := h1
        simp only
        split
        · exact h2
        · exact ends_mono _ _ _ (iE1l _ lx1 (by omega)) (fun r hr => le_trans hr h2)
    · intro v lx hf
      rw [eval_expr1_loop]
      split
      · rename_i hop
        have hlt := (get_token_left lx).2 (by rcases hop with h | h <;> rw [h] <;> decide)
          (by rcases hop with h | h <;> rw [h] <;> decide)
        have h1 := iT (get_token lx) (by omega)
        cases hr : eval_term L cells n (get_token lx) with
        | outOfFuel => rw [hr] at h1; exact False.elim h1
        | undefined => simp [Outcome.ends]
        | ok r =>
          obtain ⟨v2, lx2⟩ := r
          rw [hr] at h1
          have h2 : lex_left lx2 ≤ lex_left (get_token lx) := h1
          simp only
          split
          · dsimp only [Outcome.ends]; omega
          · split
            · simp [Outcome.ends]
            · split
              · exact ends_mono _ _ _ (iE1l _ lx2 (by omega)) (fun r hr => by
                  have h3 : lex_left r.2 ≤ lex_left lx2 := hr
                  omega)
              · rename_i hh; exact absurd hh (add_apply_ne _ _ _)
              · simp [Outcome.ends]
      · exact le_refl _
    · intro lx hf
      rw [eval_term]
      have h1 := iF lx (by omega)
      cases hr : eval_factor L cells n lx with
      | outOfFuel => rw [hr] at h1; exact False.elim h1
      | undefined => simp [Outcome.ends]
      | ok r =>
        obtain ⟨v, lx1⟩ := r
        rw [hr] at h1
        have h2 : lex_left lx1 ≤ lex_left lx := h1
        simp only
        split
        · exact h2
        · exact ends_mono _ _ _ (iTl _ lx1 (by omega)) (fun r hr => le_trans hr h2)
    · intro v lx hf
      rw [eval_term_loop]
      split
      · rename_i hop
        have hlt := (get_token_left lx).2
          (by rcases hop with h | h | h <;> rw [h] <;> decide)
          (by rcases hop with h | h | h <;> rw [h] <;> decide)
        have h1 := iF (get_token lx) (by omega)
        cases hr : eval_factor L cells n (get_token lx) with
        | outOfFuel => rw [hr] at h1; exact False.elim h1
        | undefined => simp [Outcome.ends]
        | ok r =>
          obtain ⟨v2, lx2⟩ := r
          rw [hr] at h1
          have h2 : lex_left lx2 ≤ lex_left (get_token lx) := h1
          simp only
          split
          · dsimp only [Outcome.ends]; omega
          · split
            · simp [Outcome.ends]
            · exact ends_mono _ _ _ (iTl _ lx2 (by omega)) (fun r hr => by
                have h3 : lex_left r.2 ≤ lex_left lx2 := hr
                omega)
      · exact le_refl _
    · intro args lx hf
      rw [eval_args]
      split
      · have h1 := iE lx (by omega)
        cases hr : eval_expr L cells n lx with
        | outOfFuel => rw [hr] at h1; exact False.elim h1
        | undefined => simp [Outcome.ends]
        | ok r =>
          obtain ⟨arg, lx1⟩ := r
          rw [hr] at h1
          have h2 : lex_left lx1 ≤ lex_left lx := h1
          simp only
          split
          · exact h2
          · split
            · exact h2
            · rename_i hc
              have hc2 : lx1.tok_type = tokComma := by simpa using hc
              have hlt := (get_token_left lx1).2 (by rw [hc2]; decide) (by rw [hc2]; decide)
              exact ends_mono _ _ _ (iA _ (get_token lx1) (by omega)) (fun r hr => by
                have h3 : lex_left r.2.2 ≤ lex_left (get_token lx1) := hr
                omega)
      · exact le_refl _
    · intro lx0 hf
      rw [eval_factor]
      have hs := eval_signs_ends (n + 1) false lx0 (by omega)
      cases hr : eval_signs (n + 1) false lx0 with
      | outOfFuel => rw [hr] at hs; exact False.elim hs
      | undefined => simp [Outcome.ends]
      | ok r =>
        obtain ⟨negative, lx⟩ := r
        rw [hr] at hs
        have h0 : lex_left lx ≤ lex_left lx0 := hs
        have hg := (get_token_left lx).1
        simp only
        split
        · exact h0
        · rename_i heq
          have hlt := (get_token_left lx).2 (by rw [heq]; decide) (by rw [heq]; decide)
          have h1 := iE (get_token lx) (by omega)
          cases hr1 : eval_expr L cells n (get_token lx) with
          | outOfFuel => rw [hr1] at h1; exact False.elim h1
          | undefined => simp [Outcome.ends]
          | ok r1 =>
            obtain ⟨v, lx1⟩ := r1
            rw [hr1] at h1
            have h2 : lex_left lx1 ≤ lex_left (get_token lx) := h1
            have h3 := expect_token_left lx1 tokRParen
            simp only
            split
            · dsimp only [Outcome.ends]; omega
            · split
              · dsimp only [Outcome.ends]; omega
              · dsimp only [Outcome.ends]; omega
        · dsimp only [Outcome.ends]; omega
        · split
          · dsimp only [Outcome.ends]; omega
          · dsimp only [Outcome.ends]; omega
          · rename_i hh; exact absurd hh (find_cell_ne _ _ _)
          · simp [Outcome.ends]
        · have h1 := eval_range_call_ends cells lx
          cases hr1 : eval_range_call cells lx with
          | outOfFuel => rw [hr1] at h1; exact False.elim h1
          | undefined => simp [Outcome.ends]
          | ok r1 =>
            obtain ⟨v, lx1⟩ := r1
            rw [hr1] at h1
            have h2 : lex_left lx1 ≤ lex_left lx := h1
            dsimp only [Outcome.ends]; omega
        · rename_i heq
          have hlt := (get_token_left lx).2 (by rw [heq]; decide) (by rw [heq]; decide)
          have he := expect_token_left (get_token lx) tokLParen
          split
          · dsimp only [Outcome.ends]; omega
          · have h1 := iA [] (expect_token (get_token lx) tokLParen).2 (by omega)
            cases hr1 : eval_args L cells n [] (expect_token (get_token lx) tokLParen).2 with
            | outOfFuel => rw [hr1] at h1; exact False.elim h1
            | undefined => simp [Outcome.ends]
            | ok r1 =>
              obtain ⟨err, args, lx2⟩ := r1
              rw [hr1] at h1
              have h2 : lex_left lx2 ≤ lex_left (expect_token (get_token lx) tokLParen).2 := h1
              have h3 := expect_token_left lx2 tokRParen
              simp only
              split
              · simp [Outcome.ends]
              · split
                · dsimp only [Outcome.ends]; omega
                · split
                  · dsimp only [Outcome.ends]; omega
                  · split
                    · split
                      · dsimp only [Outcome.ends]; omega
                      · dsimp only [Outcome.ends]; omega
                    · rename_i hh; exact absurd hh (call_scalar_ne _ _ _)
                    · simp [Outcome.ends]
        · dsimp only [Outcome.ends]; omega
        · exact h0

/-! ## Termination: recomputation -/

/-- The function `eval_cell` with a unit of fuel, in terms of `eval_own`. -/
theorem eval_cell_succ (L : Libc) (n : Nat) (s : Sheet) (a : Addr) :
    eval_cell L (n + 1) s a =
      match lookup s.cells a with
      | none => .ok s
      | some c =>
        if !c.flags.dirty then .ok s
        else
          match eval_own L n s a c with
          | .ok s6 =>
            match lookup (settle s6.cells a) a with
            | none => .undefined
            | some c7 =>
              Outcome.foldl (fun st d => eval_cell L n st d)
                (Sheet.mk (settle s6.cells a) s6.lex) c7.revdeps
          | .outOfFuel => .outOfFuel
          | .undefined => .undefined := by
  rw [eval_cell]
  rfl

theorem foldl_ends {σ α : Type} (P : σ → Prop) (f : σ → α → Outcome σ)
    (hstep : ∀ s a, P s → (f s a).ends P) :
    ∀ (l : List α) (s : σ), P s → (Outcome.foldl f s l).ends P := by
  intro l
  induction l with
  | nil => intro s hp; exact hp
  | cons a t ih =>
    intro s hp
    have h1 := hstep s a hp
    simp only [Outcome.foldl]
    cases hfa : f s a with
    | ok s1 => rw [hfa] at h1; exact ih s1 h1
    | outOfFuel => rw [hfa] at h1; exact False.elim h1
    | undefined => simp [Outcome.ends]

theorem modify_cons (y : Cell) (ys : List Cell) (a : Addr) (f : Cell → Cell) :
    modify (y :: ys) a f = (if y.isAt a = true then f y else y) :: modify ys a f := rfl

theorem todo_count_cons (y : Cell) (ys : List Cell) :
    todo_count (y :: ys) = y.weight + todo_count ys := by
  simp [todo_count]

theorem todo_off_cons (a : Addr) (y : Cell) (ys : List Cell) :
    todo_off a (y :: ys) = (if y.isAt a = true then 0 else y.weight) + todo_off a ys := by
  simp [todo_off]

theorem todo_count_modify_le (cells : List Cell) (a : Addr) (f : Cell → Cell)
    (h : ∀ x, (f x).weight ≤ x.weight) : todo_count (modify cells a f) ≤ todo_count cells := by
  induction cells with
  | nil => exact le_refl _
  | cons y ys ih =>
    rw [modify_cons, todo_count_cons, todo_count_cons]
    by_cases hy : y.isAt a = true
    · rw [if_pos hy]
      have := h y
      omega
    · rw [if_neg hy]
      omega

theorem todo_count_modify_lt (cells : List Cell) (a : Addr) (f : Cell → Cell) (x : Cell)
    (hx : lookup cells a = some x) (h : ∀ y, (f y).weight ≤ y.weight)
    (hlt : (f x).weight < x.weight) : todo_count (modify cells a f) < todo_count cells := by
  induction cells with
  | nil => simp [lookup_nil] at hx
  | cons y ys ih =>
    rw [lookup_cons] at hx
    have hle := todo_count_modify_le ys a f h
    rw [modify_cons, todo_count_cons, todo_count_cons]
    by_cases hy : y.isAt a = true
    · rw [if_pos ((isAt_iff y a).mp hy)] at hx
      simp only [Option.some.injEq] at hx
      subst hx
      rw [if_pos hy]
      omega
    · rw [if_neg (fun h => hy ((isAt_iff y a).mpr h))] at hx
      have := ih hx
      rw [if_neg hy]
      omega

theorem todo_count_modify_eq (cells : List Cell) (a : Addr) (f : Cell → Cell)
    (h : ∀ x, (f x).weight = x.weight) : todo_count (modify cells a f) = todo_count cells := by
  induction cells with
  | nil => rfl
  | cons y ys ih =>
    rw [modify_cons, todo_count_cons, todo_count_cons, ih]
    by_cases hy : y.isAt a = true
    · rw [if_pos hy, h y]
    · rw [if_neg hy]

theorem todo_off_modify (cells : List Cell) (a : Addr) (f : Cell → Cell)
    (hf : ∀ x, (f x).col = x.col ∧ (f x).row = x.row) :
    todo_off a (modify cells a f) = todo_off a cells := by
  induction cells with
  | nil => rfl
  | cons y ys ih =>
    rw [modify_cons, todo_off_cons, todo_off_cons, ih]
    by_cases hy : y.isAt a = true
    · have h2 : (f y).isAt a = true := by
        unfold Cell.isAt at hy ⊢
        rw [(hf y).1, (hf y).2]
        exact hy
      rw [if_pos hy, if_pos h2, if_pos hy]
    · rw [if_neg hy]

theorem todo_count_settle (cells : List Cell) (a : Addr) :
    todo_count (settle cells a) = todo_off a cells := by
  unfold settle
  induction cells with
  | nil => rfl
  | cons y ys ih =>
    rw [modify_cons, todo_count_cons, todo_off_cons, ih]
    by_cases hy : y.isAt a = true
    · rw [if_pos hy, if_pos hy]
      simp [Cell.weight]
    · rw [if_neg hy, if_neg hy]

theorem todo_off_le (cells : List Cell) (a : Addr) : todo_off a cells ≤ todo_count cells := by
  induction cells with
  | nil => exact le_refl _
  | cons y ys ih =>
    rw [todo_off_cons, todo_count_cons]
    split <;> omega

theorem todo_off_add (cells : List Cell) (a : Addr) (x : Cell) (hx : lookup cells a = some x) :
    todo_off a cells + x.weight ≤ todo_count cells := by
  induction cells with
  | nil => simp [lookup_nil] at hx
  | cons y ys ih =>
    rw [lookup_cons] at hx
    have hle := todo_off_le ys a
    rw [todo_off_cons, todo_count_cons]
    by_cases hy : y.isAt a = true
    · rw [if_pos ((isAt_iff y a).mp hy)] at hx
      simp only [Option.some.injEq] at hx
      subst hx
      rw [if_pos hy]
      omega
    · rw [if_neg (fun h => hy ((isAt_iff y a).mpr h))] at hx
      have := ih hx
      rw [if_neg hy]
      omega

theorem text_bound_of_stills (cs1 cs2 : List Cell) (h : stills cs1 = stills cs2) :
    text_bound cs1 = text_bound cs2 := by
  unfold text_bound
  rw [h]

theorem text_bound_ge (cells : List Cell) (x : Cell) (hx : x ∈ cells) (t : List Char)
    (ht : x.content = some t) : t.length ≤ text_bound cells := by
  induction cells with
  | nil => simp at hx
  | cons y ys ih =>
    have hc : text_bound (y :: ys) = (match y.content with
        | some c => c.length
        | none => 0) + text_bound ys := by
      simp [text_bound, stills, Cell.still]
    rw [hc]
    rcases List.mem_cons.mp hx with rfl | hx
    · rw [ht]
      simp only
      omega
    · have := ih hx
      omega

/-- The measure of the lexer that `parse_expr` starts the evaluator with. -/
theorem lex_left_start (lx : Lexer) (e : List Char) :
    lex_left (get_token (next_char (Lexer.mk lx.tok_type lx.token e lx.ch lx.current_function)))
      ≤ e.length + 1 := by
  have h1 := (get_token_left
    (next_char (Lexer.mk lx.tok_type lx.token e lx.ch lx.current_function))).1
  have h2 : lex_left (next_char (Lexer.mk lx.tok_type lx.token e lx.ch lx.current_function))
      ≤ e.length + 1 := by
    unfold lex_left
    rw [(next_char_fields _).1, (next_char_fields _).2.1]
    have h3 : rem2 (feed e).1 (feed e).2 ≤ e.length := by
      cases e with
      | nil => simp [feed, rem2]
      | cons d r =>
        have := rem2_le d r
        simpa [feed] using this
    have h4 : rem2 (feed (Lexer.mk lx.tok_type lx.token e lx.ch lx.current_function).expr).1
        (feed (Lexer.mk lx.tok_type lx.token e lx.ch lx.current_function).expr).2
          ≤ e.length := h3
    split <;> omega
  omega

/-- `parse_expr` does not run out of a fuel above six times the length of the text. -/
theorem parse_expr_ends (L : Libc) (cells : List Cell) (n : Nat) (lx : Lexer) (e : List Char)
    (h : 6 * e.length + 11 ≤ n) : parse_expr L cells n lx e ≠ .outOfFuel := by
  unfold parse_expr
  have h1 := lex_left_start lx e
  exact ends_ne _ _ ((eval_ends L cells n).1 _ (by
    have h2 : lex_left (get_token (next_char { lx with expr := e })) ≤ e.length + 1 := h1
    omega))

theorem set_range_dep_ne (cells : List Cell) (root : Addr) (cell : Cell) :
    set_range_dep cells root cell ≠ .outOfFuel := by
  unfold set_range_dep
  split
  · split
    · simp
    · rename_i hh; exact absurd hh (new_cell_ne _ _ _)
    · simp
  · simp

/-- The loop of `set_cell` over the tokens does not run out of a fuel above the
measure of the lexer. -/
theorem set_cell_deps_ends : ∀ (n : Nat) (cells : List Cell) (lx : Lexer) (p : Addr),
    lex_left lx + 1 ≤ n → set_cell_deps n cells lx p ≠ .outOfFuel := by
  intro n
  induction n with
  | zero => intro cells lx p h; omega
  | succ n ih =>
    intro cells lx p h
    rw [set_cell_deps]
    by_cases h1 : lx.tok_type = tokEnd ∨ lx.tok_type = tokError
    · rw [if_pos h1]; simp
    · rw [if_neg h1]
      have hlt := (get_token_left lx).2 (fun e => h1 (Or.inl e)) (fun e => h1 (Or.inr e))
      split
      · dsimp only
        split
        · exact ih _ _ _ (by omega)
        · split
          · exact ih _ _ _ (by omega)
          · rename_i hh; exact absurd hh (new_cell_ne _ _ _)
          · simp
        · rename_i hh; exact absurd hh (find_cell_ne _ _ _)
        · simp
      · split
        · dsimp only
          split
          · exact ih _ _ _ (by omega)
          · rename_i hh
            exact absurd hh (process_range_ne _ _ _ _ _ _ _ _
              (fun f hf cs st x => by
                simp only [Option.some.injEq] at hf
                rw [← hf]
                exact set_range_dep_ne _ _ _)
              (fun ev hev => by simp at hev))
          · simp
        · exact ih _ _ _ (by omega)

/-- A run of `eval_cell` over a list of cells ends, and keeps a bound of the
measure, when single calls do. -/
theorem eval_cells_ends (L : Libc) (B n : Nat)
    (ih : ∀ (s : Sheet) (a : Addr), text_bound s.cells ≤ B →
      todo_count s.cells + 6 * B + 12 ≤ n →
      (eval_cell L n s a).ends (fun s1 => todo_count s1.cells ≤ todo_count s.cells))
    (M : Nat) (hM : M + 6 * B + 12 ≤ n) (l : List Addr) (t : Sheet)
    (ht : todo_count t.cells ≤ M ∧ text_bound t.cells ≤ B) :
    (Outcome.foldl (fun st d => eval_cell L n st d) t l).ends
      (fun t1 => todo_count t1.cells ≤ M ∧ text_bound t1.cells ≤ B) := by
  refine foldl_ends (fun t1 => todo_count t1.cells ≤ M ∧ text_bound t1.cells ≤ B) _ ?_ l t ht
  intro u d hu
  have h1 := ih u d hu.2 (by omega)
  show (eval_cell L n u d).ends _
  cases hr : eval_cell L n u d with
  | outOfFuel => rw [hr] at h1; exact False.elim h1
  | undefined => trivial
  | ok u1 =>
    rw [hr] at h1
    have h2 : todo_count u1.cells ≤ todo_count u.cells := h1
    have h3 := text_bound_of_stills _ _ (stills_eval_cell L n u d u1 hr)
    exact ⟨by omega, by omega⟩

/-- The computation of the cached value of a dirty cell ends. -/
theorem eval_own_ends (L : Libc) (B n : Nat)
    (ih : ∀ (s : Sheet) (a : Addr), text_bound s.cells ≤ B →
      todo_count s.cells + 6 * B + 12 ≤ n →
      (eval_cell L n s a).ends (fun s1 => todo_count s1.cells ≤ todo_count s.cells))
    (s : Sheet) (a : Addr) (c : Cell) (hc : lookup s.cells a = some c)
    (hd : c.flags.dirty = true) (hB : text_bound s.cells ≤ B)
    (hf : todo_count s.cells + 6 * B + 12 ≤ n + 1) :
    (eval_own L n s a c).ends (fun s6 =>
      todo_off a s6.cells + 1 ≤ todo_count s.cells ∧ text_bound s6.cells ≤ B) := by
  have hw : 1 ≤ c.weight := by
    unfold Cell.weight
    rw [hd]
    simp only [if_true]
    split <;> omega
  have hoff := todo_off_add s.cells a c hc
  have hcase : ∀ v, todo_off a (set_cached s.cells a v) + 1 ≤ todo_count s.cells ∧
      text_bound (set_cached s.cells a v) ≤ B := by
    intro v
    have e1 : todo_off a (set_cached s.cells a v) = todo_off a s.cells :=
      todo_off_modify _ _ _ (fun _ => ⟨rfl, rfl⟩)
    have e2 := text_bound_of_stills _ _ (stills_set_cached s.cells a v)
    rw [e1, e2]
    exact ⟨by omega, hB⟩
  unfold eval_own
  split
  · split
    · exact hcase _
    · exact hcase _
  · split
    · exact hcase _
    · rename_i hform hvis
      have hl0 := lookup_set_cached_self s.cells a .null c hc
      have e1 : todo_count (set_cached s.cells a .null) = todo_count s.cells :=
        todo_count_modify_eq _ _ _ (fun _ => rfl)
      have e2 : todo_count (mark_visiting (set_cached s.cells a .null) a true)
          < todo_count (set_cached s.cells a .null) := by
        refine todo_count_modify_lt (set_cached s.cells a .null) a _ _ hl0 ?_ ?_
        · intro y
          simp only [Cell.weight]
          split
          · simp only [if_true]; split <;> omega
          · omega
        · simp only [Cell.weight, hd, if_true]
          simp [hvis]
      have hb1 : text_bound (mark_visiting (set_cached s.cells a .null) a true) ≤ B := by
        rw [text_bound_of_stills _ _
          ((stills_mark_visiting _ _ _).trans (stills_set_cached _ _ _))]
        exact hB
      have hdeps := eval_cells_ends L B n ih (todo_count s.cells - 1) (by omega) c.deps
        (Sheet.mk (mark_visiting (set_cached s.cells a .null) a true) s.lex) ⟨by
          show todo_count (mark_visiting (set_cached s.cells a .null) a true) ≤ _
          omega, hb1⟩
      dsimp only
      split
      · rename_i s2 hs2
        rw [hs2] at hdeps
        have h2 : todo_count s2.cells ≤ todo_count s.cells - 1 ∧ text_bound s2.cells ≤ B := hdeps
        have hfin : ∀ s5 : Sheet, todo_off a s5.cells = todo_off a s2.cells →
            stills s5.cells = stills s2.cells →
            todo_off a (mark_visiting s5.cells a false) + 1 ≤ todo_count s.cells ∧
              text_bound (mark_visiting s5.cells a false) ≤ B := by
          intro s5 g1 g2
          have e3 : todo_off a (mark_visiting s5.cells a false) = todo_off a s5.cells :=
            todo_off_modify _ _ _ (fun _ => ⟨rfl, rfl⟩)
          have e4 := text_bound_of_stills _ _ ((stills_mark_visiting s5.cells a false).trans g2)
          have e5 := todo_off_le s2.cells a
          rw [e3, e4, g1]
          exact ⟨by omega, h2.2⟩
        split
        · rename_i s5 hs4
          split at hs4
          · simp at hs4
          · split at hs4
            · split at hs4
              · simp at hs4
              · split at hs4
                · simp only [Outcome.ok.injEq] at hs4
                  rw [← hs4]
                  exact hfin _ (todo_off_modify _ _ _ (fun _ => ⟨rfl, rfl⟩))
                    (stills_set_cached _ _ _)
                · simp at hs4
                · simp at hs4
            · simp only [Outcome.ok.injEq] at hs4
              rw [← hs4]
              exact hfin _ rfl rfl
        · rename_i hs4
          split at hs4
          · simp at hs4
          · rename_i c2 hc2
            split at hs4
            · split at hs4
              · simp at hs4
              · rename_i t ht
                split at hs4
                · simp at hs4
                · rename_i hp
                  have hlen := text_bound_ge s2.cells c2 (lookup_mem _ _ _ hc2) t ht
                  have hdrop : (t.drop 1).length ≤ t.length := by
                    rw [List.length_drop]; omega
                  exact absurd hp (parse_expr_ends L _ n _ _ (by omega))
                · simp at hs4
            · simp at hs4
        · trivial
      · rename_i hs2
        rw [hs2] at hdeps
        exact False.elim hdeps
      · trivial

/-- The function `eval_cell` does not run out of a fuel above the measure of the
store and six times the lengths of its contents, and does not raise the
measure. -/
theorem eval_cell_ends (L : Libc) (B : Nat) : ∀ (n : Nat) (s : Sheet) (a : Addr),
    text_bound s.cells ≤ B → todo_count s.cells + 6 * B + 12 ≤ n →
    (eval_cell L n s a).ends (fun s1 => todo_count s1.cells ≤ todo_count s.cells) := by
  intro n
  induction n with
  | zero => intro s a _ h; omega
  | succ n ih =>
    intro s a hB hf
    rw [eval_cell_succ]
    cases hc : lookup s.cells a with
    | none => exact le_refl _
    | some c =>
      simp only
      by_cases hd : c.flags.dirty = true
      swap
      · rw [if_pos (by simpa using hd)]
        exact le_refl _
      · rw [if_neg (by simp [hd])]
        have hown := eval_own_ends L B n ih s a c hc hd hB hf
        cases hr : eval_own L n s a c with
        | outOfFuel => rw [hr] at hown; exact False.elim hown
        | undefined => trivial
        | ok s6 =>
          rw [hr] at hown
          have h6 : todo_off a s6.cells + 1 ≤ todo_count s.cells ∧ text_bound s6.cells ≤ B :=
            hown
          simp only
          split
          · trivial
          · rename_i c7 hc7
            have hrev := eval_cells_ends L B n ih (todo_count s.cells - 1) (by omega) c7.revdeps
              (Sheet.mk (settle s6.cells a) s6.lex) ⟨by
                show todo_count (settle s6.cells a) ≤ _
                rw [todo_count_settle]
                omega, by
                show text_bound (settle s6.cells a) ≤ B
                rw [text_bound_of_stills _ _ (stills_settle _ _)]
                exact h6.2⟩
            exact ends_mono _ _ _ hrev (fun t1 h1 => by
              have h2 : todo_count t1.cells ≤ todo_count s.cells - 1 := h1.1
              omega)

/-- More fuel does not change an outcome of the loop of `set_cell` over the
tokens that did not run out of fuel. -/
theorem set_cell_deps_stable : ∀ (n : Nat) (cells : List Cell) (lx : Lexer) (p : Addr),
    set_cell_deps n cells lx p ≠ .outOfFuel →
    ∀ k, set_cell_deps (n + k) cells lx p = set_cell_deps n cells lx p := by
  intro n
  induction n with
  | zero => intro cells lx p h; simp [set_cell_deps] at h
  | succ n ih =>
    intro cells lx p h k
    have e : n + 1 + k = (n + k) + 1 := by omega
    rw [e]
    simp only [set_cell_deps] at h ⊢
    by_cases h1 : lx.tok_type = tokEnd ∨ lx.tok_type = tokError
    · simp only [if_pos h1]
    · simp only [if_neg h1] at h ⊢
      by_cases h2 : lx.tok_type = tokCellRef
      · simp only [if_pos h2] at h ⊢
        split at h
        · exact ih _ _ _ h k
        · split at h
          · exact ih _ _ _ h k
          · exact absurd rfl h
          · rfl
        · exact absurd rfl h
        · rfl
      · simp only [if_neg h2] at h ⊢
        by_cases h3 : lx.tok_type = tokRange
        · simp only [if_pos h3] at h ⊢
          split at h
          · exact ih _ _ _ h k
          · exact absurd rfl h
          · rfl
        · simp only [if_neg h3] at h ⊢
          exact ih _ _ _ h k

theorem todo_count_le (cells : List Cell) : todo_count cells ≤ 2 * cells.length := by
  induction cells with
  | nil => exact le_refl _
  | cons y ys ih =>
    rw [todo_count_cons, List.length_cons]
    have : y.weight ≤ 2 := by
      unfold Cell.weight
      split
      · split <;> omega
      · omega
    omega

theorem length_of_stills (cs1 cs2 : List Cell) (h : stills cs1 = stills cs2) :
    cs1.length = cs2.length := by
  have := congrArg List.length h
  simpa [stills] using this

/-- The label `reevaluate:` does not run out of a fuel above twice the number of
cells and six times the lengths of their contents. -/
theorem reevaluate_ends (L : Libc) (n : Nat) (s : Sheet) (p : Addr)
    (h : 2 * s.cells.length + 6 * text_bound s.cells + 12 ≤ n) :
    reevaluate L n s p ≠ .outOfFuel := by
  unfold reevaluate
  have hcl := clean_count_le_length s.cells
  split
  · rename_i cs hcs
    have hst := stills_propagate_dirty n _ _ _ hcs
    have h1 := length_of_stills _ _ hst
    have h2 := text_bound_of_stills _ _ hst
    have h3 := todo_count_le cs
    exact ends_ne _ _ (eval_cell_ends L (text_bound s.cells) n (Sheet.mk cs s.lex) p
      (by show text_bound cs ≤ _; omega) (by show todo_count cs + _ + _ ≤ _; omega))
  · rename_i hcs
    exact absurd hcs (propagate_dirty_ends n s.cells p (by omega)).1
  · simp

/-- Every call of the part of `set_cell` after the change test ends: with
enough fuel the model does not run out of it. -/
theorem set_cell_body_ends (L : Libc) (s : Sheet) (p : Addr) (text : Option (List Char)) :
    ∃ N, ∀ k, set_cell_body L (N + k) s p text ≠ .outOfFuel := by
  have hre : ∀ t : Sheet, ∃ N, ∀ k, reevaluate L (N + k) t p ≠ .outOfFuel := fun t =>
    ⟨2 * t.cells.length + 6 * text_bound t.cells + 12, fun k =>
      reevaluate_ends L _ t p (by omega)⟩
  unfold set_cell_body
  cases ht : text.map trim with
  | none => exact hre _
  | some txt =>
    cases txt with
    | nil => exact hre _
    | cons c t =>
      simp only
      by_cases hform : is_formula_text (c :: t) = true
      · simp only [if_pos hform]
        generalize hlx : get_token (next_char
          { s.lex with expr := (stored_content (c :: t)).drop 1 }) = lx0
        generalize remove_deps (store_text s.cells p (c :: t)) p = cells1
        have hne := set_cell_deps_ends (lex_left lx0 + 1) cells1 lx0 p (le_refl _)
        have hst := set_cell_deps_stable (lex_left lx0 + 1) cells1 lx0 p hne
        cases ho : set_cell_deps (lex_left lx0 + 1) cells1 lx0 p with
        | outOfFuel => exact absurd ho hne
        | undefined =>
          refine ⟨lex_left lx0 + 1, fun k => ?_⟩
          rw [hst k, ho]
          simp
        | ok r =>
          obtain ⟨cells2, lx⟩ := r
          obtain ⟨N, hN⟩ := hre (Sheet.mk cells2 lx)
          refine ⟨lex_left lx0 + 1 + N, fun k => ?_⟩
          have e1 : lex_left lx0 + 1 + N + k = lex_left lx0 + 1 + (N + k) := by omega
          have e2 : lex_left lx0 + 1 + (N + k) = N + (lex_left lx0 + 1 + k) := by omega
          rw [e1, hst (N + k), ho]
          simp only
          rw [e2]
          exact hN _
      · simp only [if_neg hform]
        exact hre _

/-- Every call of `set_cell` ends. -/
theorem set_cell_ends (L : Libc) (s : Sheet) (c r : Int) (text : Option (List Char)) :
    ∃ N, ∀ k, set_cell L (N + k) s c r text ≠ .outOfFuel := by
  unfold set_cell
  cases hfc : find_cell s.cells c r with
  | outOfFuel => exact absurd hfc (find_cell_ne _ _ _)
  | undefined => exact ⟨0, fun k => by simp⟩
  | ok found =>
    cases found with
    | none =>
      simp only
      by_cases ht : text = none ∨ text = some []
      · simp only [if_pos ht]
        exact ⟨0, fun k => by simp⟩
      · simp only [if_neg ht]
        cases hnc : new_cell s.cells c r with
        | outOfFuel => exact absurd hnc (new_cell_ne _ _ _)
        | undefined => exact ⟨0, fun k => by simp⟩
        | ok cs => exact set_cell_body_ends L _ _ _
    | some x =>
      simp only
      by_cases hx : x.content.isSome ∧ x.content = text
      · simp only [if_pos hx]
        exact ⟨0, fun k => by simp⟩
      · simp only [if_neg hx]
        exact set_cell_body_ends L _ _ _

/-- C34. Every call of `set_cell` ends, on every store (whatever its graph:
cycles of any length, any number of readers of a cell), for every address and
every text: from some fuel on the model never runs out of fuel, so it returns
or reaches a point where the C program has undefined behaviour. The two
recursions are bounded by measures of the store: `propagate_dirty` does not
run out of a fuel above the number of cells that are not dirty, and leaves no
more of them; `eval_cell` does not run out of a fuel above the sum of the
weights of the cells (2 for a dirty cell, 1 for a dirty cell being visited)
plus six times the lengths of the contents plus 12, and does not raise that
sum. The depth of the machine stack is not part of the model. -/
theorem C34_set_cell_terminates (L : Libc) (s : Sheet) (c r : Int)
    (text : Option (List Char)) :
    (∃ N, ∀ k, set_cell L (N + k) s c r text ≠ .outOfFuel) ∧
    (∀ (a : Addr) (k : Nat),
      propagate_dirty (clean_count s.cells + 1 + k) s.cells a ≠ .outOfFuel ∧
      ∀ cs, propagate_dirty (clean_count s.cells + 1 + k) s.cells a = .ok cs →
        clean_count cs ≤ clean_count s.cells) ∧
    (∀ (a : Addr) (k : Nat),
      eval_cell L (todo_count s.cells + 6 * text_bound s.cells + 12 + k) s a ≠ .outOfFuel ∧
      ∀ s1, eval_cell L (todo_count s.cells + 6 * text_bound s.cells + 12 + k) s a = .ok s1 →
        todo_count s1.cells ≤ todo_count s.cells) := by
  refine ⟨set_cell_ends L s c r text, ?_, ?_⟩
  · intro a k
    exact propagate_dirty_ends _ s.cells a (by omega)
  · intro a k
    have h := eval_cell_ends L (text_bound s.cells) _ s a (le_refl _)
      (show todo_count s.cells + 6 * text_bound s.cells + 12
        ≤ todo_count s.cells + 6 * text_bound s.cells + 12 + k by omega)
    refine ⟨ends_ne _ _ h, ?_⟩
    intro s1 h1
    rw [h1] at h
    exact h

/-- The cycle of three cells: each edit returns, the edit that closes the cycle
leaves the Cyclic-reference error in the three cells, and a further edit of A1
ends. -/
theorem C34_set_cell_terminates_witness :
    (∃ N, ∀ k, set_cell Libc.sample (N + k)
      (Outcome.get_or (set_cells Libc.sample 12 Sheet.empty cycle_edits) Sheet.empty)
      0 0 (some "=B1".toList) ≠ .outOfFuel) ∧
    cached_after (set_cells Libc.sample 12 Sheet.empty cycle_edits) (0, 0)
      = .ok errExprCyclicRef ∧
    cached_after (set_cells Libc.sample 12 Sheet.empty cycle_edits) (1, 0)
      = .ok errExprCyclicRef ∧
    cached_after (set_cells Libc.sample 12 Sheet.empty cycle_edits) (2, 0)
      = .ok errExprCyclicRef :=
  ⟨(C34_set_cell_terminates Libc.sample
      (Outcome.get_or (set_cells Libc.sample 12 Sheet.empty cycle_edits) Sheet.empty)
      0 0 (some "=B1".toList)).1, by decide!⟩

/-! ## An edit settles the flags -/

theorem dirty_at_modify_keep (cells : List Cell) (a b : Addr) (f : Cell → Cell)
    (hf : ∀ x, (f x).col = x.col ∧ (f x).row = x.row)
    (hd : ∀ x, (f x).flags.dirty = x.flags.dirty) :
    dirty_at (modify cells a f) b = dirty_at cells b := by
  unfold dirty_at
  rw [lookup_modify cells a b f hf]
  by_cases hb : b = a
  · rw [if_pos hb]
    cases lookup cells b with
    | none => rfl
    | some x => exact hd x
  · rw [if_neg hb]

theorem dirty_at_modify_ne (cells : List Cell) (a b : Addr) (f : Cell → Cell)
    (hf : ∀ x, (f x).col = x.col ∧ (f x).row = x.row) (hb : b ≠ a) :
    dirty_at (modify cells a f) b = dirty_at cells b := by
  unfold dirty_at
  rw [lookup_modify cells a b f hf, if_neg hb]

theorem visiting_at_modify_keep (cells : List Cell) (a b : Addr) (f : Cell → Cell)
    (hf : ∀ x, (f x).col = x.col ∧ (f x).row = x.row)
    (hd : ∀ x, (f x).flags.visiting = x.flags.visiting) :
    visiting_at (modify cells a f) b = visiting_at cells b := by
  unfold visiting_at
  rw [lookup_modify cells a b f hf]
  by_cases hb : b = a
  · rw [if_pos hb]
    cases lookup cells b with
    | none => rfl
    | some x => exact hd x
  · rw [if_neg hb]

theorem visiting_at_modify_ne (cells : List Cell) (a b : Addr) (f : Cell → Cell)
    (hf : ∀ x, (f x).col = x.col ∧ (f x).row = x.row) (hb : b ≠ a) :
    visiting_at (modify cells a f) b = visiting_at cells b := by
  unfold visiting_at
  rw [lookup_modify cells a b f hf, if_neg hb]

theorem dirty_at_settle_self (cells : List Cell) (a : Addr) :
    dirty_at (settle cells a) a = false := by
  unfold dirty_at settle
  rw [lookup_modify]
  · rw [if_pos rfl]
    cases lookup cells a with
    | none => rfl
    | some x => rfl
  · intro _; exact ⟨rfl, rfl⟩

theorem visiting_at_settle_self (cells : List Cell) (a : Addr) :
    visiting_at (settle cells a) a = false := by
  unfold visiting_at settle
  rw [lookup_modify]
  · rw [if_pos rfl]
    cases lookup cells a with
    | none => rfl
    | some x => rfl
  · intro _; exact ⟨rfl, rfl⟩

theorem visiting_at_unmark_self (cells : List Cell) (a : Addr) :
    visiting_at (mark_visiting cells a false) a = false := by
  unfold visiting_at mark_visiting
  rw [lookup_modify]
  · rw [if_pos rfl]
    cases lookup cells a with
    | none => rfl
    | some x => rfl
  · intro _; exact ⟨rfl, rfl⟩

theorem dirty_at_settle_le (cells : List Cell) (a b : Addr) (h : dirty_at cells b = false) :
    dirty_at (settle cells a) b = false := by
  by_cases hb : b = a
  · rw [hb]; exact dirty_at_settle_self cells a
  · rw [← h]
    exact dirty_at_modify_ne cells a b _ (fun _ => ⟨rfl, rfl⟩) hb

theorem dirty_at_set_cached (cells : List Cell) (a b : Addr) (v : Value) :
    dirty_at (set_cached cells a v) b = dirty_at cells b :=
  dirty_at_modify_keep cells a b _ (fun _ => ⟨rfl, rfl⟩) (fun _ => rfl)

theorem dirty_at_mark_visiting (cells : List Cell) (a b : Addr) (v : Bool) :
    dirty_at (mark_visiting cells a v) b = dirty_at cells b :=
  dirty_at_modify_keep cells a b _ (fun _ => ⟨rfl, rfl⟩) (fun _ => rfl)

theorem visiting_at_set_cached (cells : List Cell) (a b : Addr) (v : Value) :
    visiting_at (set_cached cells a v) b = visiting_at cells b :=
  visiting_at_modify_keep cells a b _ (fun _ => ⟨rfl, rfl⟩) (fun _ => rfl)

theorem Settles_refl (c0 : List Cell) : Settles c0 c0 :=
  ⟨rfl, fun _ h => h, fun _ h => h, fun x h1 h2 => by rw [h1] at h2; simp at h2⟩

theorem Settles_trans (c0 c1 c2 : List Cell) (h1 : Settles c0 c1) (h2 : Settles c1 c2) :
    Settles c0 c2 := by
  obtain ⟨a1, a2, a3, a4⟩ := h1
  obtain ⟨b1, b2, b3, b4⟩ := h2
  refine ⟨b1.trans a1, fun b h => b2 b (a2 b h), fun b h => a3 b (b3 b h), ?_⟩
  intro x hx0 hx2 r hr
  cases hx1 : dirty_at c1 x with
  | false => exact b2 r (a4 x hx0 hx1 r hr)
  | true =>
    refine b4 x hx1 hx2 r ?_
    rw [revdeps_of_skeleton c1 c0 a1 x]
    exact hr

/-- A run of `eval_cell` over a list of cells, when single calls settle. -/
theorem eval_cells_settles (L : Libc) (n : Nat)
    (ih : ∀ (s : Sheet) (a : Addr) (s1 : Sheet), eval_cell L n s a = .ok s1 →
      Settles s.cells s1.cells ∧ dirty_at s1.cells a = false) :
    ∀ (l : List Addr) (t t1 : Sheet),
      Outcome.foldl (fun st d => eval_cell L n st d) t l = .ok t1 →
      Settles t.cells t1.cells ∧ ∀ d ∈ l, dirty_at t1.cells d = false := by
  intro l
  induction l with
  | nil =>
    intro t t1 h
    simp only [Outcome.foldl, Outcome.ok.injEq] at h
    rw [← h]
    exact ⟨Settles_refl _, fun d hd => absurd hd (List.not_mem_nil d)⟩
  | cons d l ihl =>
    intro t t1 h
    simp only [Outcome.foldl] at h
    split at h
    · rename_i t2 hstep
      obtain ⟨g1, g2⟩ := ih t d t2 hstep
      obtain ⟨g3, g4⟩ := ihl t2 t1 h
      refine ⟨Settles_trans _ _ _ g1 g3, ?_⟩
      intro e he
      rcases List.mem_cons.mp he with rfl | he
      · exact g3.2.1 _ g2
      · exact g4 e he
    · simp at h
    · simp at h

theorem visiting_at_mark_visiting_ne (cells : List Cell) (a b : Addr) (v : Bool) (hb : b ≠ a) :
    visiting_at (mark_visiting cells a v) b = visiting_at cells b :=
  visiting_at_modify_ne cells a b _ (fun _ => ⟨rfl, rfl⟩) hb

theorem visiting_at_settle_ne (cells : List Cell) (a b : Addr) (hb : b ≠ a) :
    visiting_at (settle cells a) b = visiting_at cells b :=
  visiting_at_modify_ne cells a b _ (fun _ => ⟨rfl, rfl⟩) hb

theorem dirty_at_settle_ne (cells : List Cell) (a b : Addr) (hb : b ≠ a) :
    dirty_at (settle cells a) b = dirty_at cells b :=
  dirty_at_modify_ne cells a b _ (fun _ => ⟨rfl, rfl⟩) hb

/-- The computation of the cached value of a dirty cell at `a`, when it
returns: what it does to the flags. -/
theorem eval_own_settles (L : Libc) (n : Nat)
    (ih : ∀ (s : Sheet) (a : Addr) (s1 : Sheet), eval_cell L n s a = .ok s1 →
      Settles s.cells s1.cells ∧ dirty_at s1.cells a = false)
    (s : Sheet) (a : Addr) (c : Cell) (s6 : Sheet) (h : eval_own L n s a c = .ok s6) :
    skeleton s6.cells = skeleton s.cells ∧
    (∀ b, dirty_at s.cells b = false → dirty_at s6.cells b = false) ∧
    (∀ b, b ≠ a → visiting_at s6.cells b = true → visiting_at s.cells b = true) ∧
    (∀ x, dirty_at s.cells x = true → dirty_at s6.cells x = false →
      ∀ r ∈ revdeps_of s.cells x, dirty_at s6.cells r = false) := by
  have hcase : ∀ v, skeleton (set_cached s.cells a v) = skeleton s.cells ∧
      (∀ b, dirty_at s.cells b = false → dirty_at (set_cached s.cells a v) b = false) ∧
      (∀ b, b ≠ a → visiting_at (set_cached s.cells a v) b = true →
        visiting_at s.cells b = true) ∧
      (∀ x, dirty_at s.cells x = true → dirty_at (set_cached s.cells a v) x = false →
        ∀ r ∈ revdeps_of s.cells x, dirty_at (set_cached s.cells a v) r = false) := by
    intro v
    refine ⟨skeleton_set_cached _ _ _, ?_, ?_, ?_⟩
    · intro b hb
      rw [dirty_at_set_cached]; exact hb
    · intro b _ hb
      rw [visiting_at_set_cached] at hb; exact hb
    · intro x h1 h2
      rw [dirty_at_set_cached, h1] at h2
      simp at h2
  unfold eval_own at h
  split at h
  · split at h
    · simp only [Outcome.ok.injEq] at h
      rw [← h]; exact hcase _
    · simp only [Outcome.ok.injEq] at h
      rw [← h]; exact hcase _
  · split at h
    · simp only [Outcome.ok.injEq] at h
      rw [← h]; exact hcase _
    · dsimp only at h
      split at h
      · rename_i s2 hs2
        have hfold := (eval_cells_settles L n ih _ _ _ hs2).1
        have k1 : skeleton s2.cells
            = skeleton (mark_visiting (set_cached s.cells a .null) a true) := hfold.1
        have k2 : ∀ b, dirty_at (mark_visiting (set_cached s.cells a .null) a true) b = false →
            dirty_at s2.cells b = false := hfold.2.1
        have k3 : ∀ b, visiting_at s2.cells b = true →
            visiting_at (mark_visiting (set_cached s.cells a .null) a true) b = true :=
          hfold.2.2.1
        have k4 : ∀ x, dirty_at (mark_visiting (set_cached s.cells a .null) a true) x = true →
            dirty_at s2.cells x = false →
            ∀ r ∈ revdeps_of (mark_visiting (set_cached s.cells a .null) a true) x,
              dirty_at s2.cells r = false := hfold.2.2.2
        have hsk1 : skeleton (mark_visiting (set_cached s.cells a .null) a true)
            = skeleton s.cells :=
          (skeleton_mark_visiting _ _ _).trans (skeleton_set_cached _ _ _)
        have hd1 : ∀ b, dirty_at (mark_visiting (set_cached s.cells a .null) a true) b
            = dirty_at s.cells b := fun b => by
          rw [dirty_at_mark_visiting, dirty_at_set_cached]
        have hv1 : ∀ b, b ≠ a →
            visiting_at (mark_visiting (set_cached s.cells a .null) a true) b
              = visiting_at s.cells b := fun b hb => by
          rw [visiting_at_mark_visiting_ne _ _ _ _ hb, visiting_at_set_cached]
        have hfin : ∀ s5 : Sheet, skeleton s5.cells = skeleton s2.cells →
            (∀ b, dirty_at s5.cells b = dirty_at s2.cells b) →
            (∀ b, visiting_at s5.cells b = visiting_at s2.cells b) →
            skeleton (mark_visiting s5.cells a false) = skeleton s.cells ∧
            (∀ b, dirty_at s.cells b = false →
              dirty_at (mark_visiting s5.cells a false) b = false) ∧
            (∀ b, b ≠ a → visiting_at (mark_visiting s5.cells a false) b = true →
              visiting_at s.cells b = true) ∧
            (∀ x, dirty_at s.cells x = true →
              dirty_at (mark_visiting s5.cells a false) x = false →
              ∀ r ∈ revdeps_of s.cells x,
                dirty_at (mark_visiting s5.cells a false) r = false) := by
          intro s5 e1 e2 e3
          refine ⟨?_, ?_, ?_, ?_⟩
          · rw [skeleton_mark_visiting, e1, k1, hsk1]
          · intro b hb
            rw [dirty_at_mark_visiting, e2]
            exact k2 b (by rw [hd1]; exact hb)
          · intro b hb hv
            rw [visiting_at_mark_visiting_ne _ _ _ _ hb, e3] at hv
            have := k3 b hv
            rw [hv1 b hb] at this
            exact this
          · intro x h1 h2 r hr
            rw [dirty_at_mark_visiting, e2] at h2
            rw [dirty_at_mark_visiting, e2]
            refine k4 x (by rw [hd1]; exact h1) h2 r ?_
            rw [revdeps_of_skeleton _ _ hsk1 x]
            exact hr
        split at h
        · rename_i s5 hs4
          simp only [Outcome.ok.injEq] at h
          rw [← h]
          split at hs4
          · simp at hs4
          · split at hs4
            · split at hs4
              · simp at hs4
              · split at hs4
                · simp only [Outcome.ok.injEq] at hs4
                  rw [← hs4]
                  exact hfin _ (skeleton_set_cached _ _ _) (fun b => dirty_at_set_cached _ _ _ _)
                    (fun b => visiting_at_set_cached _ _ _ _)
                · simp at hs4
                · simp at hs4
            · simp only [Outcome.ok.injEq] at hs4
              rw [← hs4]
              exact hfin _ rfl (fun _ => rfl) (fun _ => rfl)
        · simp at h
        · simp at h
      · simp at h
      · simp at h

/-- A returning `eval_cell(a)` leaves the cell at `a` not dirty, sets no dirty
flag and, at return, no visiting flag, and every cell it made not dirty is
read by no dirty cell. -/
theorem eval_cell_settles (L : Libc) : ∀ (n : Nat) (s : Sheet) (a : Addr) (s1 : Sheet),
    eval_cell L n s a = .ok s1 → Settles s.cells s1.cells ∧ dirty_at s1.cells a = false := by
  intro n
  induction n with
  | zero => intro s a s1 h; simp [eval_cell] at h
  | succ n ih =>
    intro s a s1 h
    rw [eval_cell_succ] at h
    cases hc : lookup s.cells a with
    | none =>
      rw [hc] at h
      simp only [Outcome.ok.injEq] at h
      rw [← h]
      refine ⟨Settles_refl _, ?_⟩
      unfold dirty_at
      rw [hc]
    | some c =>
      rw [hc] at h
      simp only at h
      by_cases hd : c.flags.dirty = true
      swap
      · rw [if_pos (by simpa using hd)] at h
        simp only [Outcome.ok.injEq] at h
        rw [← h]
        refine ⟨Settles_refl _, ?_⟩
        unfold dirty_at
        rw [hc]
        simpa using hd
      · rw [if_neg (by simp [hd])] at h
        cases hown : eval_own L n s a c with
        | outOfFuel => rw [hown] at h; simp at h
        | undefined => rw [hown] at h; simp at h
        | ok s6 =>
          rw [hown] at h
          simp only at h
          obtain ⟨o1, o2, o3, o4⟩ := eval_own_settles L n ih s a c s6 hown
          split at h
          · simp at h
          · rename_i c7 hc7
            obtain ⟨hf, hrev⟩ := eval_cells_settles L n ih _ _ _ h
            have f1 : skeleton s1.cells = skeleton (settle s6.cells a) := hf.1
            have f2 : ∀ b, dirty_at (settle s6.cells a) b = false → dirty_at s1.cells b = false :=
              hf.2.1
            have f3 : ∀ b, visiting_at s1.cells b = true →
                visiting_at (settle s6.cells a) b = true := hf.2.2.1
            have f4 : ∀ x, dirty_at (settle s6.cells a) x = true → dirty_at s1.cells x = false →
                ∀ r ∈ revdeps_of (settle s6.cells a) x, dirty_at s1.cells r = false := hf.2.2.2
            have hsk7 : skeleton (settle s6.cells a) = skeleton s.cells :=
              (skeleton_settle _ _).trans o1
            refine ⟨⟨f1.trans hsk7, ?_, ?_, ?_⟩, f2 a (dirty_at_settle_self _ _)⟩
            · intro b hb
              exact f2 b (dirty_at_settle_le _ _ _ (o2 b hb))
            · intro b hb
              have h7 := f3 b hb
              by_cases hba : b = a
              · rw [hba, visiting_at_settle_self] at h7
                simp at h7
              · rw [visiting_at_settle_ne _ _ _ hba] at h7
                exact o3 b hba h7
            · intro x hx0 hx1 r hr
              by_cases hxa : x = a
              · apply hrev
                have e1 : revdeps_of (settle s6.cells a) a = c7.revdeps := by
                  unfold revdeps_of
                  rw [hc7]
                rw [← e1, revdeps_of_skeleton _ _ hsk7 a, ← hxa]
                exact hr
              · cases hx6 : dirty_at s6.cells x with
                | false =>
                  exact f2 r (dirty_at_settle_le _ _ _ (o4 x hx0 hx6 r hr))
                | true =>
                  refine f4 x ?_ hx1 r ?_
                  · rw [dirty_at_settle_ne _ _ _ hxa]
                    exact hx6
                  · rw [revdeps_of_skeleton _ _ hsk7 x]
                    exact hr

theorem Settled_iff (cells : List Cell) :
    Settled cells ↔
      ∀ a x, lookup cells a = some x → x.flags.dirty = false ∧ x.flags.visiting = false := by
  unfold Settled dirty_at visiting_at
  constructor
  · intro h a x hx
    have := h a
    rw [hx] at this
    exact this
  · intro h a
    cases hl : lookup cells a with
    | none => exact ⟨rfl, rfl⟩
    | some x => exact h a x hl

theorem Settled_of_all (cells : List Cell)
    (h : ∀ x ∈ cells, x.flags.dirty = false ∧ x.flags.visiting = false) : Settled cells :=
  (Settled_iff cells).mpr (fun a x hx => h x (lookup_mem cells a x hx))

/-- A write that sets neither flag keeps the store settled. -/
theorem Settled_modify (cells : List Cell) (a : Addr) (f : Cell → Cell)
    (hf : ∀ x, (f x).col = x.col ∧ (f x).row = x.row)
    (hk : ∀ x, x.flags.dirty = false ∧ x.flags.visiting = false →
      (f x).flags.dirty = false ∧ (f x).flags.visiting = false)
    (hs : Settled cells) : Settled (modify cells a f) := by
  rw [Settled_iff] at hs ⊢
  intro b y hy
  rw [lookup_modify cells a b f hf] at hy
  by_cases hb : b = a
  · rw [if_pos hb] at hy
    cases hl : lookup cells b with
    | none => rw [hl] at hy; simp at hy
    | some x =>
      rw [hl] at hy
      simp only [Option.map_some', Option.some.injEq] at hy
      rw [← hy]
      exact hk x (hs b x hl)
  · rw [if_neg hb] at hy
    exact hs b y hy

theorem Settled_cons_blank (cells : List Cell) (c r : Int) (hs : Settled cells) :
    Settled (Cell.blank c r :: cells) := by
  rw [Settled_iff] at hs ⊢
  intro b y hy
  have h1 := lookup_cons_blank cells (c, r) b
  rw [h1] at hy
  by_cases hb : (c, r) = b
  · rw [if_pos hb] at hy
    simp only [Option.some.injEq] at hy
    rw [← hy]
    exact ⟨rfl, rfl⟩
  · rw [if_neg hb] at hy
    exact hs b y hy

theorem FlagSafe_Settled : FlagSafe Settled :=
  ⟨fun cells a f hf hk hs => Settled_modify cells a f hf hk hs,
    fun cells c r hs => Settled_cons_blank cells c r hs⟩

theorem FlagSafe_AllClear : FlagSafe AllClear := by
  refine ⟨?_, ?_⟩
  · intro cells a f _ hk hs y hy
    unfold modify at hy
    obtain ⟨x, hx, hxy⟩ := List.mem_map.mp hy
    rw [← hxy]
    split
    · exact hk x (hs x hx)
    · exact hs x hx
  · intro cells c r hs y hy
    rcases List.mem_cons.mp hy with rfl | hy
    · exact ⟨rfl, rfl⟩
    · exact hs y hy

theorem kept_add_dep (Q : List Cell → Prop) (hq : FlagSafe Q) (cells : List Cell) (p a : Addr)
    (hs : Q cells) : Q (add_dep cells p a) := by
  unfold add_dep
  exact hq.1 _ _ _ (fun _ => ⟨rfl, rfl⟩) (fun _ h => h)
    (hq.1 _ _ _ (fun _ => ⟨rfl, rfl⟩) (fun _ h => h) hs)

theorem kept_remove_deps (Q : List Cell → Prop) (hq : FlagSafe Q) (cells : List Cell) (c : Addr)
    (hs : Q cells) : Q (remove_deps cells c) := by
  have hfold : ∀ (ds : List Addr) (cs : List Cell), Q cs →
      Q (ds.foldl (fun cs d => remove_revdep cs d c) cs) := by
    intro ds
    induction ds with
    | nil => intro cs h; exact h
    | cons d t ih =>
      intro cs h
      simp only [List.foldl_cons]
      apply ih
      unfold remove_revdep
      exact hq.1 _ _ _ (fun _ => ⟨rfl, rfl⟩) (fun _ h => h) h
  unfold remove_deps
  cases lookup cells c with
  | none => exact hs
  | some x =>
    exact hq.1 _ _ _ (fun _ => ⟨rfl, rfl⟩) (fun _ h => h) (hfold x.deps cells hs)

theorem kept_clear_cell (Q : List Cell → Prop) (hq : FlagSafe Q) (cells : List Cell) (p : Addr)
    (hs : Q cells) : Q (clear_cell cells p) := by
  unfold clear_cell
  exact kept_remove_deps Q hq _ _
    (hq.1 _ _ _ (fun _ => ⟨rfl, rfl⟩) (fun _ _ => ⟨rfl, rfl⟩) hs)

theorem kept_store_text (Q : List Cell → Prop) (hq : FlagSafe Q) (cells : List Cell) (p : Addr)
    (txt : List Char) (hs : Q cells) : Q (store_text cells p txt) := by
  unfold store_text
  exact hq.1 _ _ _ (fun _ => ⟨rfl, rfl⟩) (fun _ h => h) hs

theorem kept_set_range_dep (Q : List Cell → Prop) (hq : FlagSafe Q) (cells : List Cell)
    (root : Addr) (cell : Cell) (r : List Cell × Addr) (hs : Q cells)
    (h : set_range_dep cells root cell = .ok r) : Q r.1 := by
  unfold set_range_dep at h
  split at h
  · split at h
    · rename_i cs hcs
      simp only [Outcome.ok.injEq] at h
      rw [← h, new_cell_ok _ _ _ _ hcs]
      exact kept_add_dep Q hq _ _ _ (hq.2 _ _ _ hs)
    · simp at h
    · simp at h
  · simp only [Outcome.ok.injEq] at h
    rw [← h]
    exact kept_add_dep Q hq _ _ _ hs

theorem kept_process_range (Q : List Cell → Prop) (hq : FlagSafe Q) (cells : List Cell)
    (c1 r1 c2 r2 : Int) (p : Addr) (r : List Cell × Addr × Value) (hs : Q cells)
    (h : process_range cells c1 r1 c2 r2 p (some set_range_dep) none = .ok r) :
    Q r.1 := by
  unfold process_range at h
  split at h
  · rename_i st hst
    simp only [Outcome.ok.injEq] at h
    rw [← h]
    refine foldl_preserves (fun (st : List Cell × Addr) => Q st.1) _ ?_ _ _ _ hs hst
    intro t a t1 ht hstep
    split at hstep
    · exact kept_set_range_dep Q hq _ _ _ _ ht hstep
    · simp at hstep
    · simp at hstep
  · simp at h
  · simp at h

/-- The loop of `set_cell` over the tokens keeps what writes that set neither
flag and new blank cells keep. -/
theorem kept_set_cell_deps (Q : List Cell → Prop) (hq : FlagSafe Q) :
    ∀ (n : Nat) (cells : List Cell) (lx : Lexer) (p : Addr)
    (r : List Cell × Lexer), Q cells → set_cell_deps n cells lx p = .ok r → Q r.1 := by
  intro n
  induction n with
  | zero => intro cells lx p r _ h; simp [set_cell_deps] at h
  | succ n ih =>
    intro cells lx p r hs h
    rw [set_cell_deps] at h
    split at h
    · simp only [Outcome.ok.injEq] at h
      rw [← h]; exact hs
    · split at h
      · dsimp only at h
        split at h
        · exact ih _ _ _ _ (kept_add_dep Q hq _ _ _ hs) h
        · split at h
          · rename_i cs hcs
            rw [new_cell_ok _ _ _ _ hcs] at h
            exact ih _ _ _ _ (kept_add_dep Q hq _ _ _ (hq.2 _ _ _ hs)) h
          · simp at h
          · simp at h
        · simp at h
        · simp at h
      · split at h
        · dsimp only at h
          split at h
          · rename_i r1 hr1
            exact ih _ _ _ _ (kept_process_range Q hq _ _ _ _ _ _ _ hs hr1) h
          · simp at h
          · simp at h
        · exact ih _ _ _ _ hs h

/-- After `propagate_dirty(c)` on a store without a dirty cell, every cell
that reads `c`, directly or not, is dirty. -/
theorem propagate_dirty_all (fuel : Nat) (cells : List Cell) (c : Addr) (cs : List Cell)
    (h : propagate_dirty fuel cells c = .ok cs) (hclean : ∀ a, dirty_at cells a = false) :
    ∀ b, ReadBy cells c b → dirty_at cs b = true := by
  intro b hr
  unfold ReadBy at hr
  induction hr with
  | refl =>
    obtain ⟨_, y, hy, hyd⟩ := propagate_dirty_dirtied fuel cells c cs h
    unfold dirty_at
    rw [hy]; exact hyd
  | @tail b1 c1 _ hbc ih =>
    exact propagate_dirty_closed fuel cells c cs h b1 (hclean b1) ih c1 hbc

theorem propagate_dirty_visiting (fuel : Nat) (cells : List Cell) (c : Addr) (cs : List Cell)
    (h : propagate_dirty fuel cells c = .ok cs) (b : Addr) :
    visiting_at cs b = visiting_at cells b := by
  unfold visiting_at
  cases hl : lookup cells b with
  | none =>
    have := isSome_of_skeleton cs cells (skeleton_propagate_dirty fuel cells c cs h) b
    rw [hl] at this
    cases hl2 : lookup cs b with
    | none => rfl
    | some z => rw [hl2] at this; simp at this
  | some x =>
    obtain ⟨y, hy, hyd⟩ := (propagate_dirty_dirtied fuel cells c cs h).1 b x hl
    rw [hy]
    simp only
    rw [hyd.1]

/-- Recomputation from `p` on a settled store leaves a settled store. -/
theorem reevaluate_settled (L : Libc) (n : Nat) (s s1 : Sheet) (p : Addr)
    (hs : Settled s.cells) (h : reevaluate L n s p = .ok s1) : Settled s1.cells := by
  unfold reevaluate at h
  split at h
  · rename_i cs hcs
    obtain ⟨hf, e5⟩ := eval_cell_settles L n _ p s1 h
    have e2 : ∀ b, dirty_at cs b = false → dirty_at s1.cells b = false := hf.2.1
    have e3 : ∀ b, visiting_at s1.cells b = true → visiting_at cs b = true := hf.2.2.1
    have e4 : ∀ x, dirty_at cs x = true → dirty_at s1.cells x = false →
        ∀ r ∈ revdeps_of cs x, dirty_at s1.cells r = false := hf.2.2.2
    have hsk := skeleton_propagate_dirty n _ _ _ hcs
    have hall := propagate_dirty_all n _ _ _ hcs (fun a => (hs a).1)
    have hreach := propagate_dirty_reach n _ _ _ hcs
    have hpath : ∀ b, ReadBy s.cells p b → dirty_at s1.cells b = false := by
      intro b hb
      unfold ReadBy at hb
      induction hb with
      | refl => exact e5
      | @tail b1 c1 hb1 hbc ihb =>
        refine e4 b1 (hall b1 hb1) ihb c1 ?_
        rw [revdeps_of_skeleton _ _ hsk b1]
        exact hbc
    intro b
    constructor
    · cases hd : dirty_at cs b with
      | false => exact e2 b hd
      | true =>
        rcases hreach b hd with h1 | h1
        · rw [(hs b).1] at h1; simp at h1
        · exact hpath b h1
    · cases hv : visiting_at s1.cells b with
      | false => rfl
      | true =>
        have h2 := e3 b hv
        rw [propagate_dirty_visiting n _ _ _ hcs b, (hs b).2] at h2
        simp at h2
  · simp at h
  · simp at h

theorem lookup_of_mem (cells : List Cell) (x : Cell) (hx : x ∈ cells) :
    ∃ y, lookup cells (x.col, x.row) = some y := by
  induction cells with
  | nil => simp at hx
  | cons y ys ih =>
    rw [lookup_cons]
    by_cases h : (y.col, y.row) = (x.col, x.row)
    · rw [if_pos h]; exact ⟨y, rfl⟩
    · rw [if_neg h]
      rcases List.mem_cons.mp hx with rfl | hx
      · exact absurd rfl h
      · exact ih hx

/-- A write whose effect on the two flags depends on the two flags only keeps
the store uniform. -/
theorem Uniform_modify (cells : List Cell) (a : Addr) (f : Cell → Cell)
    (hf : ∀ x, (f x).col = x.col ∧ (f x).row = x.row)
    (hu : ∀ x y, x.flags.dirty = y.flags.dirty → x.flags.visiting = y.flags.visiting →
      (f x).flags.dirty = (f y).flags.dirty ∧ (f x).flags.visiting = (f y).flags.visiting)
    (hs : Uniform cells) : Uniform (modify cells a f) := by
  intro x1 hx1
  unfold modify at hx1
  obtain ⟨x, hx, hxy⟩ := List.mem_map.mp hx1
  obtain ⟨y, hy⟩ := lookup_of_mem cells x hx
  obtain ⟨u1, u2⟩ := hs x hx
  unfold dirty_at at u1
  unfold visiting_at at u2
  rw [hy] at u1 u2
  have haddr : (x1.col, x1.row) = (x.col, x.row) := by
    rw [← hxy]
    split
    · rw [(hf x).1, (hf x).2]
    · rfl
  unfold dirty_at visiting_at
  rw [haddr, lookup_modify cells a _ f hf, hy]
  by_cases hb : (x.col, x.row) = a
  · have hat := (isAt_iff x a).mpr hb
    rw [if_pos hat] at hxy
    rw [if_pos hb, ← hxy]
    exact hu y x u1 u2
  · have hat : ¬ x.isAt a = true := fun h => hb ((isAt_iff x a).mp h)
    rw [if_neg hat] at hxy
    rw [if_neg hb, ← hxy]
    exact ⟨u1, u2⟩

theorem Uniform_mark_dirty (cells : List Cell) (a : Addr) (hs : Uniform cells) :
    Uniform (mark_dirty cells a) :=
  Uniform_modify _ _ _ (fun _ => ⟨rfl, rfl⟩) (fun _ _ _ h2 => ⟨rfl, h2⟩) hs

theorem Uniform_set_cached (cells : List Cell) (a : Addr) (v : Value) (hs : Uniform cells) :
    Uniform (set_cached cells a v) :=
  Uniform_modify _ _ _ (fun _ => ⟨rfl, rfl⟩) (fun _ _ h1 h2 => ⟨h1, h2⟩) hs

theorem Uniform_mark_visiting (cells : List Cell) (a : Addr) (b : Bool) (hs : Uniform cells) :
    Uniform (mark_visiting cells a b) :=
  Uniform_modify _ _ _ (fun _ => ⟨rfl, rfl⟩) (fun _ _ h1 _ => ⟨h1, rfl⟩) hs

theorem Uniform_settle (cells : List Cell) (a : Addr) (hs : Uniform cells) :
    Uniform (settle cells a) :=
  Uniform_modify _ _ _ (fun _ => ⟨rfl, rfl⟩) (fun _ _ _ _ => ⟨rfl, rfl⟩) hs

theorem propagate_dirty_uniform (fuel : Nat) :
    ∀ (cells : List Cell) (a : Addr) (cells1 : List Cell),
      propagate_dirty fuel cells a = .ok cells1 → Uniform cells → Uniform cells1 := by
  induction fuel with
  | zero => intro cells a cells1 h; simp [propagate_dirty] at h
  | succ n ih =>
    intro cells a cells1 h hu
    simp only [propagate_dirty] at h
    split at h
    · simp at h
    · split at h
      · refine foldl_preserves Uniform _ ?_ _ _ _ ?_ h
        · intro s d s1 hs hd
          exact ih s d s1 hd hs
        · exact Uniform_mark_dirty _ _ hu
      · simp only [Outcome.ok.injEq] at h
        rw [← h]; exact hu

/-- A returning `eval_cell` keeps what its three kinds of write keep. -/
theorem eval_cell_keeps (L : Libc) (Q : List Cell → Prop)
    (h1 : ∀ cs a v, Q cs → Q (set_cached cs a v))
    (h2 : ∀ cs a b, Q cs → Q (mark_visiting cs a b))
    (h3 : ∀ cs a, Q cs → Q (settle cs a)) :
    ∀ (n : Nat) (s : Sheet) (a : Addr) (s1 : Sheet),
      eval_cell L n s a = .ok s1 → Q s.cells → Q s1.cells := by
  intro n
  induction n with
  | zero => intro s a s1 h; simp [eval_cell] at h
  | succ n ih =>
    intro s a s1 h hq
    have hfold : ∀ (l : List Addr) (t t1 : Sheet), Q t.cells →
        Outcome.foldl (fun st d => eval_cell L n st d) t l = .ok t1 → Q t1.cells :=
      fun l t t1 ht hl =>
        foldl_preserves (fun st => Q st.cells) _ (fun u d u1 hu hd => ih u d u1 hd hu) l t t1
          ht hl
    rw [eval_cell_succ] at h
    split at h
    · simp only [Outcome.ok.injEq] at h
      rw [← h]; exact hq
    · split at h
      · simp only [Outcome.ok.injEq] at h
        rw [← h]; exact hq
      · split at h
        · rename_i s6 hown
          split at h
          · simp at h
          · refine hfold _ _ _ ?_ h
            show Q (settle s6.cells a)
            apply h3
            unfold eval_own at hown
            split at hown
            · split at hown
              · simp only [Outcome.ok.injEq] at hown
                rw [← hown]; exact h1 _ _ _ hq
              · simp only [Outcome.ok.injEq] at hown
                rw [← hown]; exact h1 _ _ _ hq
            · split at hown
              · simp only [Outcome.ok.injEq] at hown
                rw [← hown]; exact h1 _ _ _ hq
              · dsimp only at hown
                split at hown
                · rename_i s2 hs2
                  have q2 : Q s2.cells := hfold _ _ _ (h2 _ _ _ (h1 _ _ _ hq)) hs2
                  split at hown
                  · rename_i s5 hs4
                    simp only [Outcome.ok.injEq] at hown
                    rw [← hown]
                    show Q (mark_visiting s5.cells a false)
                    apply h2
                    split at hs4
                    · simp at hs4
                    · split at hs4
                      · split at hs4
                        · simp at hs4
                        · split at hs4
                          · simp only [Outcome.ok.injEq] at hs4
                            rw [← hs4]
                            exact h1 _ _ _ q2
                          · simp at hs4
                          · simp at hs4
                      · simp only [Outcome.ok.injEq] at hs4
                        rw [← hs4]; exact q2
                  · simp at hown
                  · simp at hown
                · simp at hown
                · simp at hown
        · simp at h
        · simp at h

theorem reevaluate_uniform (L : Libc) (n : Nat) (s s1 : Sheet) (p : Addr)
    (hs : Uniform s.cells) (h : reevaluate L n s p = .ok s1) : Uniform s1.cells := by
  unfold reevaluate at h
  split at h
  · rename_i cs hcs
    exact eval_cell_keeps L Uniform Uniform_set_cached Uniform_mark_visiting Uniform_settle
      n _ p s1 h (propagate_dirty_uniform n _ _ _ hcs hs)
  · simp at h
  · simp at h

/-- No cell of the list carries a flag exactly when no cell found at an
address does and the cells of the list agree with the cells found. -/
theorem AllClear_iff (cells : List Cell) : AllClear cells ↔ Settled cells ∧ Uniform cells := by
  constructor
  · intro h
    have hs := Settled_of_all cells h
    refine ⟨hs, fun x hx => ?_⟩
    rw [(hs _).1, (hs _).2, (h x hx).1, (h x hx).2]
    exact ⟨rfl, rfl⟩
  · intro h x hx
    obtain ⟨u1, u2⟩ := h.2 x hx
    rw [← u1, ← u2]
    exact h.1 _

theorem reevaluate_all_clear (L : Libc) (n : Nat) (s s1 : Sheet) (p : Addr)
    (hs : AllClear s.cells) (h : reevaluate L n s p = .ok s1) : AllClear s1.cells := by
  rw [AllClear_iff] at hs ⊢
  exact ⟨reevaluate_settled L n s s1 p hs.1 h, reevaluate_uniform L n s s1 p hs.2 h⟩

/-- The part of `set_cell` after the change test keeps what the writes before
recomputation and recomputation keep. -/
theorem set_cell_body_kept (L : Libc) (Q : List Cell → Prop) (hq : FlagSafe Q)
    (hre : ∀ (n : Nat) (s s1 : Sheet) (p : Addr), Q s.cells →
      reevaluate L n s p = .ok s1 → Q s1.cells)
    (n : Nat) (s s1 : Sheet) (p : Addr) (text : Option (List Char)) (hs : Q s.cells)
    (h : set_cell_body L n s p text = .ok s1) : Q s1.cells := by
  unfold set_cell_body at h
  dsimp only at h
  split at h
  · exact hre n _ s1 p (kept_clear_cell Q hq _ _ hs) h
  · exact hre n _ s1 p (kept_clear_cell Q hq _ _ hs) h
  · rename_i c t _
    have h1 : Q (remove_deps (store_text s.cells p (c :: t)) p) :=
      kept_remove_deps Q hq _ _ (kept_store_text Q hq _ _ _ hs)
    split at h
    · split at h
      · rename_i cells2 lx hdeps
        exact hre n _ s1 p (kept_set_cell_deps Q hq _ _ _ _ _ h1 hdeps) h
      · simp at h
      · simp at h
    · exact hre n _ s1 p h1 h

theorem set_cell_kept (L : Libc) (Q : List Cell → Prop) (hq : FlagSafe Q)
    (hre : ∀ (n : Nat) (s s1 : Sheet) (p : Addr), Q s.cells →
      reevaluate L n s p = .ok s1 → Q s1.cells)
    (n : Nat) (s s1 : Sheet) (c r : Int) (text : Option (List Char)) (hs : Q s.cells)
    (h : set_cell L n s c r text = .ok s1) : Q s1.cells := by
  unfold set_cell at h
  split at h
  · simp at h
  · simp at h
  · split at h
    · simp only [Outcome.ok.injEq] at h
      rw [← h]; exact hs
    · split at h
      · rename_i cs hcs
        rw [new_cell_ok _ _ _ _ hcs] at h
        exact set_cell_body_kept L Q hq hre n _ s1 _ text (hq.2 _ _ _ hs) h
      · simp at h
      · simp at h
  · split at h
    · simp only [Outcome.ok.injEq] at h
      rw [← h]; exact hs
    · exact set_cell_body_kept L Q hq hre n s s1 _ text hs h

/-- In every state the program can be in, no cell carries a flag. -/
theorem Reachable_all_clear (L : Libc) (s : Sheet) (h : Reachable L s) : AllClear s.cells := by
  induction h with
  | empty => exact fun x hx => absurd hx (List.not_mem_nil x)
  | step s s1 fuel c r text _ hstep ih =>
    exact set_cell_kept L AllClear FlagSafe_AllClear (reevaluate_all_clear L) fuel s s1 c r text
      ih hstep

/-- C35. A returning `set_cell` call on a store in which no cell is dirty or
being visited leaves a store in which no cell is dirty or being visited,
whatever the dependency graph: this holds of the cells in the list of the
store, and of the cells found at the addresses; every state the program can
be in is such a store. (After `propagate_dirty` the dirty cells are those
that read the edited cell, directly or not; `eval_cell` leaves the edited cell
not dirty, and a cell it made not dirty is read by no dirty cell.) -/
theorem C35_edit_settles_flags (L : Libc) (fuel : Nat) (s s1 : Sheet) (c r : Int)
    (text : Option (List Char)) (h : set_cell L fuel s c r text = .ok s1) :
    (AllClear s.cells → AllClear s1.cells) ∧
    (Settled s.cells → Settled s1.cells) ∧
    (Reachable L s → AllClear s1.cells) := by
  refine ⟨?_, ?_, ?_⟩
  · intro hs
    exact set_cell_kept L AllClear FlagSafe_AllClear (reevaluate_all_clear L) fuel s s1 c r text
      hs h
  · intro hs
    exact set_cell_kept L Settled FlagSafe_Settled (reevaluate_settled L) fuel s s1 c r text
      hs h
  · intro hr
    exact set_cell_kept L AllClear FlagSafe_AllClear (reevaluate_all_clear L) fuel s s1 c r text
      (Reachable_all_clear L s hr) h

/-- The edit that closes the cycle of three cells: no cell carries a flag
before it, the call returns, no cell carries a flag after it, and the three
cells hold the Cyclic-reference error. -/
theorem C35_edit_settles_flags_witness :
    AllClear cycle_open.cells ∧
    AllClear (Outcome.get_or (set_cell Libc.sample 12 cycle_open 2 0 (some "=B1+1".toList))
      Sheet.empty).cells ∧
    cached_after (set_cell Libc.sample 12 cycle_open 2 0 (some "=B1+1".toList)) (2, 0)
      = .ok errExprCyclicRef :=
  ⟨show ∀ x ∈ cycle_open.cells, x.flags.dirty = false ∧ x.flags.visiting = false by decide!,
    (C35_edit_settles_flags Libc.sample 12 cycle_open
      (Outcome.get_or (set_cell Libc.sample 12 cycle_open 2 0 (some "=B1+1".toList))
        Sheet.empty) 2 0 (some "=B1+1".toList) (by decide!)).1
      (show ∀ x ∈ cycle_open.cells, x.flags.dirty = false ∧ x.flags.visiting = false
        by decide!),
    by decide!⟩

/-! ## A cell that reads itself, on every sheet -/

/-- C4. For every cell address A of the rows 1 to 128: `set_cell(A, "=A")` on
the empty sheet returns, and leaves A with the Cyclic-reference error as
cached value, neither dirty nor being visited. On every sheet whatever the
call ends: from some fuel on the model never runs out of fuel, so the call
returns or reaches a point where the C program has undefined behaviour; and
when it returns, A holds the Cyclic-reference error and is neither dirty nor
being visited (A not being visited before the call, and not holding the
content `=A` already). The call returns on every reachable sheet in which no
other cell reads A. It does not return on every reachable sheet: with A1
holding 5 and B1 the formula `DEC2BIN(40000-COUNT(A1:A1)*10000)`, the edit
`A1 := "=A1"` makes B1 convert 40000 to a 16-bit `int`. From row 129 on the
claim fails on the 16-bit `int` of the target, where `find_cell` computes a
negative index: `set_cell(A129, "=A129")` is undefined. -/
theorem C4_self_reference :
    (∀ (L : Libc) (k ca ra : Nat), ca < 26 → ra < 128 →
      (∃ (s1 : Sheet) (x : Cell),
        set_cell L (k + 3) Sheet.empty ca ra (some ('=' :: cell_name ca ra)) = .ok s1 ∧
        lookup s1.cells ((ca : Int), (ra : Int)) = some x ∧
        x.cached = errExprCyclicRef ∧ x.flags.dirty = false ∧ x.flags.visiting = false) ∧
      (∀ s : Sheet, ∃ N, ∀ j,
        set_cell L (N + j) s ca ra (some ('=' :: cell_name ca ra)) ≠ .outOfFuel) ∧
      (∀ (s s1 : Sheet) (j : Nat),
        (∀ x, lookup s.cells ((ca : Int), (ra : Int)) = some x →
          x.flags.visiting = false ∧ x.content ≠ some ('=' :: cell_name ca ra)) →
        set_cell L (j + 2) s ca ra (some ('=' :: cell_name ca ra)) = .ok s1 →
        ∃ y, lookup s1.cells ((ca : Int), (ra : Int)) = some y ∧
          y.cached = errExprCyclicRef ∧ y.flags.dirty = false ∧ y.flags.visiting = false) ∧
      (∀ s : Sheet, Reachable L s → OnlySelf s.cells ((ca : Int), (ra : Int)) →
        (∀ x, lookup s.cells ((ca : Int), (ra : Int)) = some x →
          x.flags.visiting = false ∧ x.content ≠ some ('=' :: cell_name ca ra)) →
        ∃ s1, set_cell L (k + 3) s ca ra (some ('=' :: cell_name ca ra)) = .ok s1)) ∧
    cached_after (set_cells Libc.sample 16 Sheet.empty
      [(0, 0, "5".toList), (1, 0, "=DEC2BIN(40000-COUNT(A1:A1)*10000)".toList)]) (0, 0)
      = .ok (.num 5) ∧
    cached_after (set_cells Libc.sample 16 Sheet.empty
      [(0, 0, "5".toList), (1, 0, "=DEC2BIN(40000-COUNT(A1:A1)*10000)".toList),
        (0, 0, "=A1".toList)]) (0, 0) = .undefined ∧
    cached_after (set_cells Libc.sample 8 Sheet.empty [(0, 128, "=A129".toList)]) (0, 128)
      = .undefined := by
  refine ⟨fun L k ca ra hca hra => ?_, by decide!, by decide!, by decide!⟩
  have h := self_reference_on_sheets L k ca ra hca hra
  exact ⟨h.1, fun s => set_cell_ends L s ca ra _, h.2.2, h.2.1⟩

/-- Cell C7 set to `=C7` on the empty sheet. -/
theorem C4_self_reference_witness :
    ∃ (s1 : Sheet) (x : Cell),
      set_cell Libc.sample 3 Sheet.empty 2 6 (some ('=' :: cell_name 2 6)) = .ok s1 ∧
      lookup s1.cells (2, 6) = some x ∧
      x.cached = errExprCyclicRef ∧ x.flags.dirty = false ∧ x.flags.visiting = false :=
  (C4_self_reference.1 Libc.sample 0 2 6 (by decide) (by decide)).1

end ZXNSheet
